import Mathlib

/-!
# Relay cell engine (src/or/relay.c): a shallow embedding

Byte buffers are lists of naturals below 256.  Machine integers are `Nat`
or `Int`; where the C code narrows a value the embedding reduces it with an
explicit remainder.  Pointers into the hop list and the stream lists are
positions in those lists.  A function whose C body can abort on an assertion
returns `none` in that case.
-/

set_option autoImplicit false

namespace Relay

/-! ## Constants (or.h) -/

/-- Number of bytes in a cell payload. -/
def CELL_PAYLOAD_SIZE : Nat := 509
/-- Number of bytes in a relay cell's header. -/
def RELAY_HEADER_SIZE : Nat := 11
/-- Largest number of body bytes in a relay cell. -/
def RELAY_PAYLOAD_SIZE : Nat := 498

/-! ## Byte buffers -/

/-- Overwrite the bytes of `buf` starting at offset `off` with `bytes`
(the effect of `memcpy(buf+off, bytes, len)`). -/
def buf_write (buf : List Nat) (off : Nat) (bytes : List Nat) : List Nat :=
  buf.take off ++ bytes ++ buf.drop (off + bytes.length)

/-- Host to network order on a 16 bit value: the result is the pair of
bytes as they are laid out in memory, most significant first. -/
def htons (v : Nat) : List Nat := [v / 256 % 256, v % 256]

/-- Network to host order, from the two bytes as laid out in memory. -/
def ntohs (bs : List Nat) : Nat := bs.getD 0 0 * 256 + bs.getD 1 0

/-- Store two bytes at `buf+off`. -/
def set_uint16 (buf : List Nat) (off : Nat) (bs : List Nat) : List Nat :=
  buf_write buf off bs

/-- Load the two bytes at `buf+off`. -/
def get_uint16 (buf : List Nat) (off : Nat) : List Nat :=
  [buf.getD off 0, buf.getD (off + 1) 0]

/-! ## Relay header codec -/

/-- Host-order relay header (`relay_header_t`). -/
structure relay_header_t where
  /-- Field `uint8_t command`. -/
  command : Nat
  /-- Field `uint16_t recognized`. -/
  recognized : Nat
  /-- Field `uint16_t stream_id`. -/
  stream_id : Nat
  /-- Field `char integrity[4]`. -/
  integrity : List Nat
  /-- Field `uint16_t length`. -/
  length : Nat
deriving DecidableEq, Repr

/-- The values a C `relay_header_t` can hold: every field within its width. -/
def relay_header_t.valid (h : relay_header_t) : Prop :=
  h.command < 256 ∧ h.recognized < 65536 ∧ h.stream_id < 65536 ∧
  h.integrity.length = 4 ∧ (∀ b ∈ h.integrity, b < 256) ∧ h.length < 65536

instance (h : relay_header_t) : Decidable h.valid := by
  unfold relay_header_t.valid; infer_instance

/-- Pack the host-order structure `src` into network order at the start of
the buffer `dest` (`relay_header_pack`). -/
def relay_header_pack (dest : List Nat) (src : relay_header_t) : List Nat :=
  let d0 := buf_write dest 0 [src.command % 256]
  let d1 := set_uint16 d0 1 (htons src.recognized)
  let d2 := set_uint16 d1 3 (htons src.stream_id)
  let d3 := buf_write d2 5 (src.integrity.take 4)
  set_uint16 d3 9 (htons src.length)

/-- Unpack the network-order buffer `src` into a host-order header
(`relay_header_unpack`). -/
def relay_header_unpack (src : List Nat) : relay_header_t :=
  { command := src.getD 0 0
    recognized := ntohs (get_uint16 src 1)
    stream_id := ntohs (get_uint16 src 3)
    integrity := [src.getD 5 0, src.getD 6 0, src.getD 7 0, src.getD 8 0]
    length := ntohs (get_uint16 src 9) }

/-! ## Cells, hops, streams, circuits -/

/-- Cell command `CELL_CREATED`. -/
def CELL_CREATED : Nat := 2
/-- Cell command `CELL_RELAY`. -/
def CELL_RELAY : Nat := 3
/-- Cell command `CELL_RELAY_EARLY`. -/
def CELL_RELAY_EARLY : Nat := 9

/-- Relay command numbers (or.h, tor-spec section 6.1). -/
def RELAY_COMMAND_BEGIN : Nat := 1
/-- Relay command `DATA`. -/
def RELAY_COMMAND_DATA : Nat := 2
/-- Relay command `END`. -/
def RELAY_COMMAND_END : Nat := 3
/-- Relay command `CONNECTED`. -/
def RELAY_COMMAND_CONNECTED : Nat := 4
/-- Relay command `SENDME`. -/
def RELAY_COMMAND_SENDME : Nat := 5
/-- Relay command `EXTEND`. -/
def RELAY_COMMAND_EXTEND : Nat := 6
/-- Relay command `EXTENDED`. -/
def RELAY_COMMAND_EXTENDED : Nat := 7
/-- Relay command `TRUNCATE`. -/
def RELAY_COMMAND_TRUNCATE : Nat := 8
/-- Relay command `TRUNCATED`. -/
def RELAY_COMMAND_TRUNCATED : Nat := 9
/-- Relay command `DROP`. -/
def RELAY_COMMAND_DROP : Nat := 10
/-- Relay command `RESOLVE`. -/
def RELAY_COMMAND_RESOLVE : Nat := 11
/-- Relay command `RESOLVED`. -/
def RELAY_COMMAND_RESOLVED : Nat := 12
/-- Relay command `BEGIN_DIR`. -/
def RELAY_COMMAND_BEGIN_DIR : Nat := 13
/-- Relay command `ESTABLISH_INTRO`. -/
def RELAY_COMMAND_ESTABLISH_INTRO : Nat := 32
/-- Relay command `ESTABLISH_RENDEZVOUS`. -/
def RELAY_COMMAND_ESTABLISH_RENDEZVOUS : Nat := 33
/-- Relay command `INTRODUCE1`. -/
def RELAY_COMMAND_INTRODUCE1 : Nat := 34
/-- Relay command `INTRODUCE2`. -/
def RELAY_COMMAND_INTRODUCE2 : Nat := 35
/-- Relay command `RENDEZVOUS1`. -/
def RELAY_COMMAND_RENDEZVOUS1 : Nat := 36
/-- Relay command `RENDEZVOUS2`. -/
def RELAY_COMMAND_RENDEZVOUS2 : Nat := 37
/-- Relay command `INTRO_ESTABLISHED`. -/
def RELAY_COMMAND_INTRO_ESTABLISHED : Nat := 38
/-- Relay command `RENDEZVOUS_ESTABLISHED`. -/
def RELAY_COMMAND_RENDEZVOUS_ESTABLISHED : Nat := 39
/-- Relay command `INTRODUCE_ACK`. -/
def RELAY_COMMAND_INTRODUCE_ACK : Nat := 40

/-- Stream end reasons (or.h, tor-spec section 6.3). -/
def END_STREAM_REASON_MISC : Int := 1
/-- Stream end reason `RESOLVEFAILED`. -/
def END_STREAM_REASON_RESOLVEFAILED : Int := 2
/-- Stream end reason `CONNECTREFUSED`. -/
def END_STREAM_REASON_CONNECTREFUSED : Int := 3
/-- Stream end reason `EXITPOLICY`. -/
def END_STREAM_REASON_EXITPOLICY : Int := 4
/-- Stream end reason `DONE`. -/
def END_STREAM_REASON_DONE : Int := 6
/-- Stream end reason `TIMEOUT`. -/
def END_STREAM_REASON_TIMEOUT : Int := 7
/-- Stream end reason `HIBERNATING`. -/
def END_STREAM_REASON_HIBERNATING : Int := 9
/-- Stream end reason `INTERNAL`. -/
def END_STREAM_REASON_INTERNAL : Int := 10
/-- Stream end reason `RESOURCELIMIT`. -/
def END_STREAM_REASON_RESOURCELIMIT : Int := 11
/-- Stream end reason `TORPROTOCOL`. -/
def END_STREAM_REASON_TORPROTOCOL : Int := 13
/-- Local stream end reason `CANT_ATTACH`. -/
def END_STREAM_REASON_CANT_ATTACH : Int := 257
/-- Flag or-ed into a reason that came from the remote side. -/
def END_STREAM_REASON_FLAG_REMOTE : Int := 512
/-- Flag or-ed into a reason when the SOCKS reply was already sent. -/
def END_STREAM_REASON_FLAG_ALREADY_SOCKS_REPLIED : Int := 1024

/-- Circuit end reason `TORPROTOCOL` (protocol violation). -/
def END_CIRC_REASON_TORPROTOCOL : Int := 1
/-- Circuit end reason `INTERNAL`. -/
def END_CIRC_REASON_INTERNAL : Int := 2
/-- Circuit end reason `REQUESTED`. -/
def END_CIRC_REASON_REQUESTED : Int := 3

/-- Hop state `CPATH_STATE_OPEN`. -/
def CPATH_STATE_OPEN : Nat := 2

/-- Connection type of an exit stream. -/
def CONN_TYPE_EXIT : Nat := 5
/-- Connection type of a client (application proxy) stream. -/
def CONN_TYPE_AP : Nat := 7
/-- Connection type of a directory connection. -/
def CONN_TYPE_DIR : Nat := 9
/-- State of an open exit stream. -/
def EXIT_CONN_STATE_OPEN : Nat := 3
/-- State of a client stream waiting for CONNECTED. -/
def AP_CONN_STATE_CONNECT_WAIT : Nat := 9
/-- State of a client stream waiting for RESOLVED. -/
def AP_CONN_STATE_RESOLVE_WAIT : Nat := 10
/-- State of an open client stream. -/
def AP_CONN_STATE_OPEN : Nat := 11

/-- Circuit purpose of a plain relayed circuit. -/
def CIRCUIT_PURPOSE_OR : Nat := 1
/-- Circuit purpose of a relayed circuit spliced at a rendezvous point. -/
def CIRCUIT_PURPOSE_REND_ESTABLISHED : Nat := 4
/-- Circuit purpose of a joined hidden-service-side rendezvous circuit. -/
def CIRCUIT_PURPOSE_S_REND_JOINED : Nat := 16
/-- Answer type of an IPv4 RESOLVED cell. -/
def RESOLVED_TYPE_IPV4 : Nat := 4
/-- Answer type of a transient-error RESOLVED cell. -/
def RESOLVED_TYPE_ERROR_TRANSIENT : Nat := 240
/-- SOCKS command `RESOLVE`. -/
def SOCKS_COMMAND_RESOLVE : Nat := 240
/-- SOCKS command `RESOLVE_PTR`. -/
def SOCKS_COMMAND_RESOLVE_PTR : Nat := 241

/-- Circuit-level window at start. -/
def CIRCWINDOW_START : Int := 1000
/-- Circuit-level window increment per SENDME. -/
def CIRCWINDOW_INCREMENT : Int := 100
/-- Stream-level window at start. -/
def STREAMWINDOW_START : Int := 500
/-- Stream-level window increment per SENDME. -/
def STREAMWINDOW_INCREMENT : Int := 50
/-- How many times a stream is retried after a resolve failure. -/
def MAX_RESOLVE_FAILURES : Int := 3

/-- Direction of a cell on a circuit (`cell_direction_t`). -/
inductive cell_direction_t where
  /-- Toward the origin. -/
  | CELL_DIRECTION_IN
  /-- Away from the origin. -/
  | CELL_DIRECTION_OUT
deriving DecidableEq, Repr

open cell_direction_t

/-- A cell as handled by the relay engine (`cell_t`). -/
structure cell_t where
  /-- Circuit id on the link the cell travels on. -/
  circ_id : Nat
  /-- Cell command. -/
  command : Nat
  /-- The `CELL_PAYLOAD_SIZE` payload bytes. -/
  payload : List Nat
deriving DecidableEq, Repr

/-- One hop of an origin circuit (`crypt_path_t`); `next` and `prev` are
given by the position in the circuit's hop list, which is circular. -/
structure crypt_path_t (κ δ : Type) where
  /-- Cipher for cells travelling away from the origin. -/
  f_crypto : κ
  /-- Cipher for cells travelling toward the origin. -/
  b_crypto : κ
  /-- Running digest of cells sent to this hop. -/
  f_digest : δ
  /-- Running digest of cells received from this hop. -/
  b_digest : δ
  /-- Hop state. -/
  state : Nat
  /-- Cells we may still package for this hop. -/
  package_window : Int
  /-- Cells we are still willing to deliver from this hop. -/
  deliver_window : Int

/-- The SOCKS request attached to a client stream (`socks_request_t`). -/
structure socks_request_t where
  /-- Requested address, as characters. -/
  address : List Nat
  /-- SOCKS command. -/
  command : Nat
  /-- Whether the SOCKS reply has been sent. -/
  has_finished : Bool
deriving DecidableEq, Repr

/-- An edge stream (`edge_connection_t` with the `connection_t` fields the
relay engine reads or writes). -/
structure edge_connection_t where
  /-- Field `_base.type`. -/
  type : Nat
  /-- Field `_base.state`. -/
  state : Nat
  /-- Whether `_base.marked_for_close` is set. -/
  marked_for_close : Bool
  /-- Field `_base.hold_open_until_flushed`. -/
  hold_open_until_flushed : Bool
  /-- Whether the read event is armed. -/
  reading : Bool
  /-- Bytes received from the application, not yet packaged. -/
  inbuf : List Nat
  /-- Bytes to be written to the application. -/
  outbuf : List Nat
  /-- Stream id on the circuit. -/
  stream_id : Nat
  /-- Whether `on_circuit` is set. -/
  on_circuit : Bool
  /-- Hop of the origin circuit this stream talks to, when set. -/
  cpath_layer : Option Nat
  /-- Cells this stream may still package. -/
  package_window : Int
  /-- Cells this stream is still willing to deliver. -/
  deliver_window : Int
  /-- Field `edge_has_sent_end`. -/
  edge_has_sent_end : Bool
  /-- Field `end_reason`, an unsigned 16-bit field: an `int` stored into it
  is reduced modulo 65536. -/
  end_reason : Int
  /-- Whether the stream belongs to a rendezvous circuit
  (`connection_edge_is_rendezvous_stream`). -/
  is_rendezvous_stream : Bool
  /-- The SOCKS request, for client streams. -/
  socks_request : Option socks_request_t
  /-- Field `chosen_exit_name`. -/
  chosen_exit_name : Option (List Nat)
  /-- Field `chosen_exit_optional`. -/
  chosen_exit_optional : Bool
  /-- Field `chosen_exit_retries`. -/
  chosen_exit_retries : Nat
deriving DecidableEq, Repr

/-- Which stream list of a circuit a stream is on. -/
inductive stream_list where
  /-- Streams of an origin circuit. -/
  | p_streams
  /-- Exit streams of a relayed circuit. -/
  | n_streams
  /-- Streams of a relayed circuit that are still resolving. -/
  | resolving_streams
deriving DecidableEq, Repr

/-- A pointer to a stream: its list and its position there. -/
structure conn_ref where
  /-- The list. -/
  list : stream_list
  /-- The position. -/
  idx : Nat
deriving DecidableEq, Repr

/-- Calls the relay engine makes into its collaborators, recorded in the
order made. The cell queue layer (`append_cell_to_circuit_queue`) is entered
with the cell as it stands after the crypto step. -/
inductive action where
  /-- Call `append_cell_to_circuit_queue(circ, orconn, cell, direction)`. -/
  | append_cell_to_circuit_queue (orconn : Option Nat) (cell : cell_t)
      (direction : cell_direction_t)
  /-- Call `circuit_mark_for_close(circ, reason)`. -/
  | circuit_mark_for_close (reason : Int)
  /-- Call `connection_stop_reading`. -/
  | connection_stop_reading (conn : conn_ref)
  /-- Call `connection_start_reading`. -/
  | connection_start_reading (conn : conn_ref)
  /-- Call `connection_mark_for_close`. -/
  | connection_mark_for_close (conn : conn_ref)
  /-- Call `connection_mark_unattached_ap(conn, reason)`. -/
  | connection_mark_unattached_ap (conn : conn_ref) (reason : Int)
  /-- Call `connection_edge_end(conn, reason)`. -/
  | connection_edge_end (conn : conn_ref) (reason : Int)
  /-- Call `connection_ap_detach_retriable(conn, circ, reason)`. -/
  | connection_ap_detach_retriable (conn : conn_ref) (reason : Int)
  /-- Call `client_dns_incr_failures(address)`. -/
  | client_dns_incr_failures (address : List Nat)
  /-- Call `client_dns_clear_failures(address)`. -/
  | client_dns_clear_failures (address : List Nat)
  /-- Call `client_dns_set_addressmap(address, val, exitname, ttl)`. -/
  | client_dns_set_addressmap (address : List Nat) (val : Nat)
      (exitname : Option (List Nat)) (ttl : Int)
  /-- Call `policies_set_router_exitpolicy_to_reject_all(exitrouter)`. -/
  | policies_set_router_exitpolicy_to_reject_all
  /-- Call `connection_ap_handshake_socks_reply(conn, NULL, 0, 0)`. -/
  | connection_ap_handshake_socks_reply (conn : conn_ref)
  /-- Call `connection_ap_handshake_socks_resolved`. -/
  | connection_ap_handshake_socks_resolved (conn : conn_ref)
      (answer_type answer_len : Nat) (answer : List Nat) (ttl : Int)
  /-- Call `connection_exit_begin_conn(cell, circ)`. -/
  | connection_exit_begin_conn (cell : cell_t)
  /-- Call `connection_exit_begin_resolve(cell, circ)`. -/
  | connection_exit_begin_resolve (cell : cell_t)
  /-- Call `circuit_extend(cell, circ)`. -/
  | circuit_extend (cell : cell_t)
  /-- Call `circuit_finish_handshake(circ, CELL_CREATED, body)`. -/
  | circuit_finish_handshake (body : List Nat)
  /-- Call `circuit_send_next_onion_skin(circ)`. -/
  | circuit_send_next_onion_skin
  /-- Call `connection_or_send_destroy(circ_id, conn, reason)`. -/
  | connection_or_send_destroy (circ_id : Nat) (conn : Nat) (reason : Nat)
  /-- Call `circuit_truncated(circ, layer)`. -/
  | circuit_truncated (layer : Nat)
  /-- Call `rend_process_relay_cell(circ, layer_hint, command, length, body)`. -/
  | rend_process_relay_cell (layer_hint : Option Nat) (command length : Nat)
      (body : List Nat)
  /-- The warning that an EXTEND is sent with no RELAY_EARLY cell left; it
  lists the commands sent as RELAY_EARLY before. -/
  | warn_relay_early_exhausted (commands : List Nat)
deriving DecidableEq, Repr

/-- A circuit with the fields of `circuit_t`, `origin_circuit_t` and
`or_circuit_t`; `is_origin` tells which of the two variants it is, and the
fields of the other variant are not read. -/
structure circuit_t (κ δ : Type) where
  /-- Whether the circuit is an origin circuit (`CIRCUIT_IS_ORIGIN`). -/
  is_origin : Bool
  /-- Whether `marked_for_close` is set. -/
  marked_for_close : Bool
  /-- Circuit purpose. -/
  purpose : Nat
  /-- The next connection, when there is one. -/
  n_conn : Option Nat
  /-- Circuit id on the next connection. -/
  n_circ_id : Nat
  /-- Cells we may still package on this circuit. -/
  package_window : Int
  /-- Cells we are still willing to deliver on this circuit. -/
  deliver_window : Int
  /-- When the circuit was first used. -/
  timestamp_dirty : Int
  /-- Hops, first hop first (origin). -/
  cpath : List (crypt_path_t κ δ)
  /-- Streams attached to the circuit (origin). -/
  p_streams : List edge_connection_t
  /-- RELAY_EARLY cells that may still be sent (origin). -/
  remaining_relay_early_cells : Int
  /-- Commands sent as RELAY_EARLY so far (origin); the length is the
  capacity of the array. -/
  relay_early_commands : List Nat
  /-- Number of RELAY_EARLY cells sent (origin). -/
  relay_early_cells_sent : Nat
  /-- Circuit id on the previous connection (relayed). -/
  p_circ_id : Nat
  /-- The previous connection, when there is one (relayed). -/
  p_conn : Option Nat
  /-- Cipher toward the origin (relayed). -/
  p_crypto : κ
  /-- Cipher away from the origin (relayed). -/
  n_crypto : κ
  /-- Digest of cells sent toward the origin (relayed). -/
  p_digest : δ
  /-- Digest of cells received from the origin (relayed). -/
  n_digest : δ
  /-- Exit streams (relayed). -/
  n_streams : List edge_connection_t
  /-- Streams still resolving (relayed). -/
  resolving_streams : List edge_connection_t
  /-- Calls made into collaborators so far, oldest first. -/
  trace : List action

/-- The crypto collaborator (crypto.c): a cipher call returns its status,
the advanced cipher and the transformed bytes; a digest is fed bytes and
read out. -/
structure crypto_ops (κ δ : Type) where
  /-- Call `crypto_cipher_crypt_inplace(cipher, buf, len)`. -/
  crypto_cipher_crypt_inplace : κ → List Nat → Int × κ × List Nat
  /-- Call `crypto_digest_add_bytes(digest, data, len)`. -/
  crypto_digest_add_bytes : δ → List Nat → δ
  /-- Call `crypto_digest_get_digest(digest, out, out_len)`. -/
  crypto_digest_get_digest : δ → Nat → List Nat

/-- Answers of the collaborators outside the relay engine whose results the
engine branches on. -/
structure collaborators where
  /-- Result of `connection_outbuf_too_full`. -/
  connection_outbuf_too_full : edge_connection_t → Bool
  /-- Whether `router_get_by_digest` finds the exit's descriptor. -/
  router_get_by_digest : Bool
  /-- Option `ClientDNSRejectInternalAddresses`. -/
  ClientDNSRejectInternalAddresses : Bool
  /-- Option `MaxCircuitDirtiness`. -/
  MaxCircuitDirtiness : Int
  /-- Result of `is_internal_IP(addr, 0)`. -/
  is_internal_IP : Nat → Bool
  /-- Whether `tor_inet_aton` parses the address. -/
  tor_inet_aton : List Nat → Bool
  /-- Result of `addressmap_rewrite`: the rewritten address, if any. -/
  addressmap_rewrite : List Nat → Option (List Nat)
  /-- Result of `tor_inet_ntoa` on a host-order address. -/
  tor_inet_ntoa : Nat → List Nat
  /-- Value returned by `client_dns_incr_failures(address)`. -/
  client_dns_incr_failures : List Nat → Int
  /-- Value returned by `connection_ap_detach_retriable`, and whether the
  stream is marked for close when it returns. -/
  connection_ap_detach_retriable : edge_connection_t → Int → Int × Bool
  /-- Value returned by `connection_exit_begin_conn`. -/
  connection_exit_begin_conn : cell_t → Int
  /-- Value returned by `circuit_extend`. -/
  circuit_extend : cell_t → Int
  /-- Value returned by `circuit_finish_handshake`. -/
  circuit_finish_handshake : List Nat → Int
  /-- Value returned by `circuit_send_next_onion_skin`. -/
  circuit_send_next_onion_skin : Int

/-! ## Stream and hop access -/

section engine

variable {κ δ : Type}

/-- The stream a pointer refers to. -/
def circuit_t.get_conn (c : circuit_t κ δ) (r : conn_ref) :
    Option edge_connection_t :=
  match r.list with
  | .p_streams => c.p_streams[r.idx]?
  | .n_streams => c.n_streams[r.idx]?
  | .resolving_streams => c.resolving_streams[r.idx]?

/-- Store a stream through a pointer. -/
def circuit_t.set_conn (c : circuit_t κ δ) (r : conn_ref)
    (e : edge_connection_t) : circuit_t κ δ :=
  match r.list with
  | .p_streams => { c with p_streams := c.p_streams.set r.idx e }
  | .n_streams => { c with n_streams := c.n_streams.set r.idx e }
  | .resolving_streams =>
    { c with resolving_streams := c.resolving_streams.set r.idx e }

/-- Record a call into a collaborator. -/
def circuit_t.emit (c : circuit_t κ δ) (a : action) : circuit_t κ δ :=
  { c with trace := c.trace ++ [a] }

/-- Head of the hop list (`cpath`), or `none` for an empty list. -/
def cpath_head (cpath : List (crypt_path_t κ δ)) : Option Nat :=
  if cpath.isEmpty then none else some 0

/-- The hop after `i` in the circular list (`thishop->next`). -/
def cpath_next (cpath : List (crypt_path_t κ δ)) (i : Nat) : Nat :=
  if i + 1 = cpath.length then 0 else i + 1

/-- The hop before `i` in the circular list (`thishop->prev`). -/
def cpath_prev (cpath : List (crypt_path_t κ δ)) (i : Nat) : Nat :=
  if i = 0 then cpath.length - 1 else i - 1

/-- Modelled from the spec: `stop_reading(stream)` of the transport
collaborator disarms the stream's reader. -/
def connection_stop_reading (c : circuit_t κ δ) (r : conn_ref) :
    Option (circuit_t κ δ) :=
  match c.get_conn r with
  | none => none
  | some e =>
    some ((c.set_conn r { e with reading := false }).emit
      (.connection_stop_reading r))

/-- Modelled from the spec: `start_reading(stream)` of the transport
collaborator arms the stream's reader. -/
def connection_start_reading (c : circuit_t κ δ) (r : conn_ref) :
    Option (circuit_t κ δ) :=
  match c.get_conn r with
  | none => none
  | some e =>
    some ((c.set_conn r { e with reading := true }).emit
      (.connection_start_reading r))

/-- Modelled from the spec: `mark_for_close(stream)` marks the stream;
marking is idempotent. -/
def connection_mark_for_close (c : circuit_t κ δ) (r : conn_ref) :
    Option (circuit_t κ δ) :=
  match c.get_conn r with
  | none => none
  | some e =>
    some ((c.set_conn r { e with marked_for_close := true }).emit
      (.connection_mark_for_close r))

/-- Modelled from the spec: `connection_mark_unattached_ap(stream, reason)`
marks a client stream for close with the given reason. -/
def connection_mark_unattached_ap (c : circuit_t κ δ) (r : conn_ref)
    (reason : Int) : Option (circuit_t κ δ) :=
  match c.get_conn r with
  | none => none
  | some e =>
    some ((c.set_conn r { e with marked_for_close := true }).emit
      (.connection_mark_unattached_ap r reason))

/-- Modelled from the spec: `circuit_mark_for_close(circ, reason)` marks the
circuit; marking is idempotent. -/
def circuit_mark_for_close (c : circuit_t κ δ) (reason : Int) :
    circuit_t κ δ :=
  ({ c with marked_for_close := true }).emit (.circuit_mark_for_close reason)

/-- Modelled from the spec: whether a stream is in its open state
(`connection_state_is_open`). -/
def connection_state_is_open (e : edge_connection_t) : Bool :=
  (e.type == CONN_TYPE_AP && e.state == AP_CONN_STATE_OPEN) ||
  (e.type == CONN_TYPE_EXIT && e.state == EXIT_CONN_STATE_OPEN)

/-! ## Crypto pipeline -/

variable (ops : crypto_ops κ δ)

/-- Update `digest` from the payload of `cell` and assign the integrity part
of the cell (`relay_set_digest`). -/
def relay_set_digest (digest : δ) (cell : cell_t) : δ × cell_t :=
  let digest1 :=
    ops.crypto_digest_add_bytes digest (cell.payload.take CELL_PAYLOAD_SIZE)
  let integrity := ops.crypto_digest_get_digest digest1 4
  let rh := relay_header_unpack cell.payload
  let rh := { rh with integrity := integrity }
  (digest1, { cell with payload := relay_header_pack cell.payload rh })

/-- Does the digest indicate that this cell is for us
(`relay_digest_matches`)?  Returns the answer, the digest and the cell. -/
def relay_digest_matches (digest : δ) (cell : cell_t) : Bool × δ × cell_t :=
  let backup_digest := digest
  let rh := relay_header_unpack cell.payload
  let received_integrity := rh.integrity
  let rh := { rh with integrity := [0, 0, 0, 0] }
  let payload1 := relay_header_pack cell.payload rh
  let digest1 :=
    ops.crypto_digest_add_bytes digest (payload1.take CELL_PAYLOAD_SIZE)
  let calculated_integrity := ops.crypto_digest_get_digest digest1 4
  if received_integrity ≠ calculated_integrity then
    let rh := { rh with integrity := received_integrity }
    (false, backup_digest,
      { cell with payload := relay_header_pack payload1 rh })
  else
    (true, digest1, { cell with payload := payload1 })

/-- Apply `cipher` to `CELL_PAYLOAD_SIZE` bytes of `inp` in place
(`relay_crypt_one_payload`): the status (-1 when the cipher fails), the
cipher and the buffer. -/
def relay_crypt_one_payload (cipher : κ) (inp : List Nat)
    (_encrypt_mode : Nat) : Int × κ × List Nat :=
  let res := ops.crypto_cipher_crypt_inplace cipher (inp.take CELL_PAYLOAD_SIZE)
  let out := res.2.2 ++ inp.drop CELL_PAYLOAD_SIZE
  if res.1 ≠ 0 then (-1, res.2.1, out) else (0, res.2.1, out)

/-- The layered-encryption loop of `circuit_package_relay_cell`: starting at
`thishop`, apply that hop's forward cipher and move to the previous hop,
until the hop reached is the predecessor of the head. -/
def circuit_package_relay_cell_loop :
    Nat → List (crypt_path_t κ δ) → Nat → List Nat →
      Option (Int × List (crypt_path_t κ δ) × List Nat)
  | 0, _, _, _ => none
  | fuel + 1, cpath, thishop, payload =>
    match cpath[thishop]? with
    | none => none
    | some hop =>
      let res := relay_crypt_one_payload ops hop.f_crypto payload 1
      let cpath1 := cpath.set thishop { hop with f_crypto := res.2.1 }
      if res.1 < 0 then some (-1, cpath1, res.2.2)
      else
        let thishop1 := cpath_prev cpath thishop
        if thishop1 ≠ cpath_prev cpath 0 then
          circuit_package_relay_cell_loop fuel cpath1 thishop1 res.2.2
        else some (0, cpath1, res.2.2)

/-- Package a relay cell from an edge: encrypt it to the right layer and
hand it to the cell queue of the circuit (`circuit_package_relay_cell`).
Returns the status, the circuit and the cell as left in the caller's
buffer. The outbound branch drops the cell when there is no next connection
(relay.c:335-338); the inbound branch has no such test and hands `p_conn` on
as it is, so with no previous connection `append_cell_to_circuit_queue`
fails its `tor_assert(conn)` (relay.c:1636) or reads through the null
pointer (relay.c:1873): the result is `none`. -/
def circuit_package_relay_cell (cell : cell_t) (circ : circuit_t κ δ)
    (cell_direction : cell_direction_t) (layer_hint : Option Nat) :
    Option (Int × circuit_t κ δ × cell_t) :=
  match cell_direction with
  | CELL_DIRECTION_OUT =>
    let conn := circ.n_conn
    if !circ.is_origin || conn.isNone then some (0, circ, cell)
    else
      match layer_hint with
      | none => none
      | some lh =>
        match circ.cpath[lh]? with
        | none => none
        | some hop =>
          let sd := relay_set_digest ops hop.f_digest cell
          let cpath0 := circ.cpath.set lh { hop with f_digest := sd.1 }
          match circuit_package_relay_cell_loop ops cpath0.length cpath0 lh
              sd.2.payload with
          | none => none
          | some (r, cpath1, payload1) =>
            let circ1 := { circ with cpath := cpath1 }
            let cell1 := { sd.2 with payload := payload1 }
            if r < 0 then some (-1, circ1, cell1)
            else
              some (0, circ1.emit
                (.append_cell_to_circuit_queue conn cell1 cell_direction), cell1)
  | CELL_DIRECTION_IN =>
    if circ.is_origin then some (0, circ, cell)
    else
      let conn := circ.p_conn
      let sd := relay_set_digest ops circ.p_digest cell
      let res := relay_crypt_one_payload ops circ.p_crypto sd.2.payload 1
      let circ1 := { circ with p_digest := sd.1, p_crypto := res.2.1 }
      let cell1 := { sd.2 with payload := res.2.2 }
      if res.1 < 0 then some (-1, circ1, cell1)
      else
        match conn with
        | none => none
        | some _ =>
          some (0, circ1.emit
            (.append_cell_to_circuit_queue conn cell1 cell_direction), cell1)

/-- If the cell's stream id matches the stream id of a stream attached to
the circuit, return that stream, else `none` (`relay_lookup_conn`). -/
def relay_lookup_conn (circ : circuit_t κ δ) (cell : cell_t)
    (cell_direction : cell_direction_t) (layer_hint : Option Nat) :
    Option conn_ref :=
  let rh := relay_header_unpack cell.payload
  if rh.stream_id = 0 then none
  else if circ.is_origin then
    (circ.p_streams.findIdx? (fun tmpconn =>
      rh.stream_id == tmpconn.stream_id && !tmpconn.marked_for_close &&
        tmpconn.cpath_layer == layer_hint)).map
      (fun i => ⟨.p_streams, i⟩)
  else
    match circ.n_streams.findIdx? (fun tmpconn =>
      rh.stream_id == tmpconn.stream_id && !tmpconn.marked_for_close &&
        (cell_direction == CELL_DIRECTION_OUT ||
          tmpconn.is_rendezvous_stream)) with
    | some i => some ⟨.n_streams, i⟩
    | none =>
      (circ.resolving_streams.findIdx? (fun tmpconn =>
        rh.stream_id == tmpconn.stream_id && !tmpconn.marked_for_close)).map
        (fun i => ⟨.resolving_streams, i⟩)

/-! ## Send path -/

/-- The choice between RELAY and RELAY_EARLY in
`relay_send_command_from_edge`, for a cell travelling away from the origin:
the cell with its command set, and the circuit with its RELAY_EARLY
bookkeeping updated (or the warning that none is left for an EXTEND). -/
def relay_early_choice (cell : cell_t) (circ : circuit_t κ δ)
    (relay_command : Nat) (cpath_layer : Option Nat) :
    Option (cell_t × circuit_t κ δ) :=
  if !circ.is_origin then none
  else if circ.remaining_relay_early_cells > 0 &&
      (relay_command == RELAY_COMMAND_EXTEND ||
        cpath_layer != cpath_head circ.cpath) then
    if circ.relay_early_cells_sent < circ.relay_early_commands.length then
      some ({ cell with command := CELL_RELAY_EARLY },
        { circ with
          remaining_relay_early_cells := circ.remaining_relay_early_cells - 1
          relay_early_commands :=
            circ.relay_early_commands.set circ.relay_early_cells_sent
              (relay_command % 256)
          relay_early_cells_sent := circ.relay_early_cells_sent + 1 })
    else none
  else if relay_command == RELAY_COMMAND_EXTEND then
    some (cell, circ.emit (.warn_relay_early_exhausted
      (circ.relay_early_commands.take circ.relay_early_cells_sent)))
  else some (cell, circ)

/-- The cell `relay_send_command_from_edge` builds before it chooses the
cell command: a zeroed cell with command RELAY, the packed relay header and
the payload bytes after it. -/
def relay_send_cell (circ_id stream_id relay_command : Nat)
    (payload : List Nat) : cell_t :=
  let rh : relay_header_t :=
    { command := relay_command % 256, recognized := 0,
      stream_id := stream_id % 65536, integrity := [0, 0, 0, 0],
      length := payload.length % 65536 }
  let p0 := relay_header_pack (List.replicate CELL_PAYLOAD_SIZE 0) rh
  { circ_id := circ_id, command := CELL_RELAY,
    payload := if payload.length ≠ 0 then buf_write p0 RELAY_HEADER_SIZE payload else p0 }

/-- Make a relay cell out of `relay_command` and `payload` and send it onto
the circuit (`relay_send_command_from_edge`); the payload length is the
length of `payload`. -/
def relay_send_command_from_edge (stream_id : Nat) (circ : circuit_t κ δ)
    (relay_command : Nat) (payload : List Nat) (cpath_layer : Option Nat) :
    Option (Int × circuit_t κ δ) :=
  if payload.length > RELAY_PAYLOAD_SIZE then none
  else
    let dir : Option (Nat × cell_direction_t) :=
      if cpath_layer.isSome then some (circ.n_circ_id, CELL_DIRECTION_OUT)
      else if !circ.is_origin then some (circ.p_circ_id, CELL_DIRECTION_IN)
      else none
    match dir with
    | none => some (-1, circ)
    | some (circ_id, cell_direction) =>
      let cell := relay_send_cell circ_id stream_id relay_command payload
      let step : Option (cell_t × circuit_t κ δ) :=
        match cell_direction with
        | CELL_DIRECTION_OUT => relay_early_choice cell circ relay_command cpath_layer
        | CELL_DIRECTION_IN => some (cell, circ)
      match step with
      | none => none
      | some (cell, circ) =>
        match circuit_package_relay_cell ops cell circ cell_direction
            cpath_layer with
        | none => none
        | some (r, circ1, _) =>
          if r < 0 then
            some (-1, circuit_mark_for_close circ1 END_CIRC_REASON_INTERNAL)
          else some (0, circ1)

/-- Make a relay cell out of `relay_command` and `payload` and send it onto
the circuit of the stream `fromconn` (`connection_edge_send_command`). -/
def connection_edge_send_command (circ : circuit_t κ δ) (fromconn : conn_ref)
    (relay_command : Nat) (payload : List Nat) :
    Option (Int × circuit_t κ δ) :=
  match circ.get_conn fromconn with
  | none => none
  | some e =>
    if e.marked_for_close then some (0, circ)
    else if !e.on_circuit then
      if e.type = CONN_TYPE_AP then
        (connection_mark_unattached_ap circ fromconn
          END_STREAM_REASON_INTERNAL).map (fun c => (-1, c))
      else
        (connection_mark_for_close
          (circ.set_conn fromconn
            { e with edge_has_sent_end := true,
                     end_reason := END_STREAM_REASON_INTERNAL })
          fromconn).map (fun c => (-1, c))
    else
      relay_send_command_from_edge ops e.stream_id circ relay_command payload
        e.cpath_layer

/-! ## Flow control -/

/-- Stop reading on every stream of the list `l` that satisfies `p`, in list
order (the `for` loops of `circuit_consider_stop_edge_reading`). -/
def stop_reading_streams (l : stream_list) (p : edge_connection_t → Bool)
    (c : circuit_t κ δ) (n : Nat) : circuit_t κ δ :=
  (List.range n).foldl (fun c i =>
    match c.get_conn ⟨l, i⟩ with
    | none => c
    | some e =>
      if p e then (connection_stop_reading c ⟨l, i⟩).getD c else c) c

/-- Check if the package window of the circuit is empty (at hop
`layer_hint` if it is defined); if yes, tell edge streams to stop reading
and return true (`circuit_consider_stop_edge_reading`). -/
def circuit_consider_stop_edge_reading (circ : circuit_t κ δ)
    (layer_hint : Option Nat) : Option (Bool × circuit_t κ δ) :=
  match layer_hint with
  | none =>
    if circ.is_origin then none
    else if circ.package_window ≤ 0 then
      some (true, stop_reading_streams .n_streams (fun _ => true) circ
        circ.n_streams.length)
    else some (false, circ)
  | some lh =>
    match circ.cpath[lh]? with
    | none => none
    | some hop =>
      if hop.package_window ≤ 0 then
        if !circ.is_origin then none
        else
          some (true, stop_reading_streams .p_streams
            (fun conn => conn.cpath_layer == some lh) circ
            circ.p_streams.length)
      else some (false, circ)

/-- The window decrement of `connection_edge_package_raw_inbuf`, with its
assertion that the window is positive: the circuit's window when the stream
has no hop, else the hop's. -/
def package_window_decrement (circ : circuit_t κ δ)
    (cpath_layer : Option Nat) : Option (circuit_t κ δ) :=
  match cpath_layer with
  | none =>
    if circ.package_window > 0 then
      some { circ with package_window := circ.package_window - 1 }
    else none
  | some lh =>
    match circ.cpath[lh]? with
    | none => none
    | some hop =>
      if hop.package_window > 0 then
        some { circ with
          cpath := circ.cpath.set lh
            { hop with package_window := hop.package_window - 1 } }
      else none

/-- The body of `connection_edge_package_raw_inbuf` from the label
`repeat_connection_edge_package_raw_inbuf`; each `goto` spends one unit of
fuel. -/
def connection_edge_package_raw_inbuf_loop :
    Nat → circuit_t κ δ → conn_ref → Bool → Option (Int × circuit_t κ δ)
  | 0, _, _, _ => none
  | fuel + 1, circ, conn, package_partial =>
    match circ.get_conn conn with
    | none => none
    | some e =>
      if !e.on_circuit then
        some (-1, circ.set_conn conn
          { e with end_reason := END_STREAM_REASON_CANT_ATTACH })
      else
        match circuit_consider_stop_edge_reading circ e.cpath_layer with
        | none => none
        | some (true, circ1) => some (0, circ1)
        | some (false, circ1) =>
          if e.package_window ≤ 0 then
            (connection_stop_reading circ1 conn).map (fun c => (0, c))
          else
            let amount_to_process := e.inbuf.length
            if amount_to_process = 0 then some (0, circ1)
            else if ! package_partial && amount_to_process < RELAY_PAYLOAD_SIZE
            then some (0, circ1)
            else
              let length :=
                if amount_to_process > RELAY_PAYLOAD_SIZE then RELAY_PAYLOAD_SIZE
                else amount_to_process
              let payload := e.inbuf.take length
              let circ2 :=
                circ1.set_conn conn { e with inbuf := e.inbuf.drop length }
              match connection_edge_send_command ops circ2 conn
                  RELAY_COMMAND_DATA payload with
              | none => none
              | some (r, circ3) =>
                if r < 0 then some (0, circ3)
                else
                  match package_window_decrement circ3 e.cpath_layer with
                  | none => none
                  | some circ4 =>
                    match circ4.get_conn conn with
                    | none => none
                    | some e4 =>
                      let e5 :=
                        { e4 with package_window := e4.package_window - 1 }
                      let circ5 := circ4.set_conn conn e5
                      if e5.package_window ≤ 0 then
                        match connection_stop_reading circ5 conn with
                        | none => none
                        | some circ6 =>
                          (circuit_consider_stop_edge_reading circ6
                            e.cpath_layer).map (fun r => (0, r.2))
                      else
                        connection_edge_package_raw_inbuf_loop fuel circ5 conn
                          package_partial

/-- While the stream's inbuf has an entire relay payload of bytes on it
(or any bytes, with `package_partial`), and the appropriate package windows
are not empty, grab a cell and send it down the circuit
(`connection_edge_package_raw_inbuf`). -/
def connection_edge_package_raw_inbuf (circ : circuit_t κ δ) (conn : conn_ref)
    ( package_partial : Bool) : Option (Int × circuit_t κ δ) :=
  match circ.get_conn conn with
  | none => none
  | some e =>
    if e.marked_for_close then some (0, circ)
    else
      connection_edge_package_raw_inbuf_loop ops (e.inbuf.length + 1) circ conn
        package_partial

variable (env : collaborators)

/-- The `while` loop of `connection_edge_consider_sending_sendme`. -/
def connection_edge_consider_sending_sendme_loop :
    Nat → circuit_t κ δ → conn_ref → Option (circuit_t κ δ)
  | 0, _, _ => none
  | fuel + 1, circ, conn =>
    match circ.get_conn conn with
    | none => none
    | some e =>
      if e.deliver_window < STREAMWINDOW_START - STREAMWINDOW_INCREMENT then
        let circ1 := circ.set_conn conn
          { e with deliver_window := e.deliver_window + STREAMWINDOW_INCREMENT }
        match connection_edge_send_command ops circ1 conn RELAY_COMMAND_SENDME
            [] with
        | none => none
        | some (r, circ2) =>
          if r < 0 then some circ2
          else connection_edge_consider_sending_sendme_loop fuel circ2 conn
      else some circ

/-- If the stream's outbuf is not too full and its deliver window is low,
send back a suitable number of stream-level sendme cells
(`connection_edge_consider_sending_sendme`). -/
def connection_edge_consider_sending_sendme (circ : circuit_t κ δ)
    (conn : conn_ref) : Option (circuit_t κ δ) :=
  match circ.get_conn conn with
  | none => none
  | some e =>
    if env.connection_outbuf_too_full e then some circ
    else if !e.on_circuit then some circ
    else
      connection_edge_consider_sending_sendme_loop ops
        ((STREAMWINDOW_START - STREAMWINDOW_INCREMENT - e.deliver_window).toNat /
          50 + 2) circ conn

/-- The deliver window `circuit_consider_sending_sendme` looks at: the hop's
if `layer_hint` is defined, else the circuit's. -/
def circuit_deliver_window (circ : circuit_t κ δ) (layer_hint : Option Nat) :
    Option Int :=
  match layer_hint with
  | none => some circ.deliver_window
  | some lh => (circ.cpath[lh]?).map (fun hop => hop.deliver_window)

/-- Add `CIRCWINDOW_INCREMENT` to the deliver window
`circuit_consider_sending_sendme` looks at. -/
def circuit_deliver_window_increment (circ : circuit_t κ δ)
    (layer_hint : Option Nat) : Option (circuit_t κ δ) :=
  match layer_hint with
  | none =>
    some { circ with deliver_window := circ.deliver_window + CIRCWINDOW_INCREMENT }
  | some lh =>
    (circ.cpath[lh]?).map (fun hop =>
      { circ with
        cpath := circ.cpath.set lh
          { hop with deliver_window := hop.deliver_window + CIRCWINDOW_INCREMENT } })

/-- The `while` loop of `circuit_consider_sending_sendme`. -/
def circuit_consider_sending_sendme_loop :
    Nat → circuit_t κ δ → Option Nat → Option (circuit_t κ δ)
  | 0, _, _ => none
  | fuel + 1, circ, layer_hint =>
    match circuit_deliver_window circ layer_hint with
    | none => none
    | some w =>
      if w < CIRCWINDOW_START - CIRCWINDOW_INCREMENT then
        match circuit_deliver_window_increment circ layer_hint with
        | none => none
        | some circ1 =>
          match relay_send_command_from_edge ops 0 circ1 RELAY_COMMAND_SENDME []
              layer_hint with
          | none => none
          | some (r, circ2) =>
            if r < 0 then some circ2
            else circuit_consider_sending_sendme_loop fuel circ2 layer_hint
      else some circ

/-- Check if the deliver window of the circuit (at hop `layer_hint` if it is
defined) is low enough that we should send a circuit-level sendme back down
the circuit; if so, send enough sendmes that the window would be overfull if
we sent any more (`circuit_consider_sending_sendme`). -/
def circuit_consider_sending_sendme (circ : circuit_t κ δ)
    (layer_hint : Option Nat) : Option (circuit_t κ δ) :=
  match circuit_deliver_window circ layer_hint with
  | none => none
  | some w =>
    circuit_consider_sending_sendme_loop ops
      ((CIRCWINDOW_START - CIRCWINDOW_INCREMENT - w).toNat / 100 + 2) circ
      layer_hint

/-- The `for` loop of `circuit_resume_edge_reading_helper` over the stream
list `l`, from position `i`, with `n` streams left to look at. -/
def circuit_resume_edge_reading_helper (l : stream_list) :
    Nat → Nat → circuit_t κ δ → Option Nat → Option (Int × circuit_t κ δ)
  | 0, _, circ, _ => some (0, circ)
  | n + 1, i, circ, layer_hint =>
    match circ.get_conn ⟨l, i⟩ with
    | none => some (0, circ)
    | some e =>
      if e.marked_for_close then
        circuit_resume_edge_reading_helper l n (i + 1) circ layer_hint
      else if (layer_hint.isNone && e.package_window > 0) ||
          (layer_hint.isSome && e.package_window > 0 &&
            e.cpath_layer == layer_hint) then
        match connection_start_reading circ ⟨l, i⟩ with
        | none => none
        | some circ1 =>
          match connection_edge_package_raw_inbuf ops circ1 ⟨l, i⟩ true with
          | none => none
          | some (r, circ2) =>
            if r < 0 then
              match connection_mark_for_close circ2 ⟨l, i⟩ with
              | none => none
              | some circ3 =>
                circuit_resume_edge_reading_helper l n (i + 1) circ3 layer_hint
            else
              match circuit_consider_stop_edge_reading circ2 layer_hint with
              | none => none
              | some (true, circ3) => some (-1, circ3)
              | some (false, circ3) =>
                circuit_resume_edge_reading_helper l n (i + 1) circ3 layer_hint
      else circuit_resume_edge_reading_helper l n (i + 1) circ layer_hint

/-- The circuit has received a circuit-level sendme (on hop `layer_hint`, if
we are the origin): go through all the attached streams and let them resume
reading and packaging, if their stream windows allow it
(`circuit_resume_edge_reading`). -/
def circuit_resume_edge_reading (circ : circuit_t κ δ)
    (layer_hint : Option Nat) : Option (circuit_t κ δ) :=
  if circ.is_origin then
    (circuit_resume_edge_reading_helper ops .p_streams circ.p_streams.length 0
      circ layer_hint).map (fun r => r.2)
  else
    (circuit_resume_edge_reading_helper ops .n_streams circ.n_streams.length 0
      circ layer_hint).map (fun r => r.2)

/-! ## Receive dispatcher -/

/-- Read a `char` as an `int` (two's complement, eight bits). -/
def char_to_int (b : Nat) : Int := if b % 256 ≥ 128 then (b % 256 : Int) - 256 else (b % 256 : Int)

/-- The value of `ntohl(get_uint32(buf+off))`. -/
def get_uint32_be (buf : List Nat) (off : Nat) : Nat :=
  ((buf.getD off 0 * 256 + buf.getD (off + 1) 0) * 256 + buf.getD (off + 2) 0) * 256 +
    buf.getD (off + 3) 0

/-- The cast `(int)` of a 32 bit unsigned value. -/
def uint32_to_int (v : Nat) : Int :=
  if v % 4294967296 ≥ 2147483648 then (v % 4294967296 : Int) - 4294967296
  else (v % 4294967296 : Int)

/-- Return true if `reason` is something that you should retry if you get
the end cell before you have connected (`edge_reason_is_retriable`). -/
def edge_reason_is_retriable (reason : Int) : Bool :=
  reason == END_STREAM_REASON_HIBERNATING ||
  reason == END_STREAM_REASON_RESOURCELIMIT ||
  reason == END_STREAM_REASON_EXITPOLICY ||
  reason == END_STREAM_REASON_RESOLVEFAILED ||
  reason == END_STREAM_REASON_MISC

/-- The call `connection_ap_detach_retriable(conn, circ, reason)`: recorded,
with the collaborator's return value and its marking of the stream. -/
def connection_ap_detach_retriable (circ : circuit_t κ δ) (conn : conn_ref)
    (reason : Int) : Option (Int × circuit_t κ δ) :=
  match circ.get_conn conn with
  | none => none
  | some e =>
    let res := env.connection_ap_detach_retriable e reason
    some (res.1, (circ.set_conn conn
      { e with marked_for_close := e.marked_for_close || res.2 }).emit
      (.connection_ap_detach_retriable conn reason))

/-- Stop wanting a specific exit: clear `chosen_exit_optional` and
`chosen_exit_name` (and `chosen_exit_retries` when `retries` is set). -/
def clear_chosen_exit (circ : circuit_t κ δ) (conn : conn_ref)
    (retries : Bool) : Option (circuit_t κ δ) :=
  (circ.get_conn conn).map (fun e =>
    circ.set_conn conn
      { e with chosen_exit_optional := false, chosen_exit_name := none,
               chosen_exit_retries := if retries then 0 else e.chosen_exit_retries })

/-- The `case END_STREAM_REASON_EXITPOLICY` of
`connection_ap_process_end_not_open`; the boolean tells whether the function
returned 0 from inside the case. -/
def end_not_open_exitpolicy (rh : relay_header_t) (cell : cell_t)
    (circ : circuit_t κ δ) (conn : conn_ref) (control_reason : Int) :
    Option (Bool × circuit_t κ δ) :=
  match circ.get_conn conn with
  | none => none
  | some e =>
    match e.socks_request with
    | none => none
    | some sr =>
      let addr := get_uint32_be cell.payload (RELAY_HEADER_SIZE + 1)
      let ttl : Int :=
        if rh.length ≥ 9 then
          uint32_to_int (get_uint32_be cell.payload (RELAY_HEADER_SIZE + 5))
        else -1
      if rh.length ≥ 5 && addr == 0 then
        (connection_mark_unattached_ap circ conn
          END_STREAM_REASON_TORPROTOCOL).map (fun c => (true, c))
      else if rh.length ≥ 5 && env.ClientDNSRejectInternalAddresses &&
          env.is_internal_IP addr then
        (connection_mark_unattached_ap circ conn
          END_STREAM_REASON_TORPROTOCOL).map (fun c => (true, c))
      else
        let circ1 :=
          if rh.length ≥ 5 then
            circ.emit (.client_dns_set_addressmap sr.address addr
              e.chosen_exit_name ttl)
          else circ
        let circ2 :=
          if env.router_get_by_digest &&
              (rh.length < 5 ||
                (env.tor_inet_aton sr.address && e.chosen_exit_name.isNone)) then
            circ1.emit .policies_set_router_exitpolicy_to_reject_all
          else circ1
        let circ3 :=
          match env.addressmap_rewrite sr.address with
          | some a =>
            circ2.set_conn conn
              { e with socks_request := some { sr with address := a } }
          | none => circ2
        let circ4 :=
          if e.chosen_exit_optional || e.chosen_exit_retries != 0 then
            clear_chosen_exit circ3 conn true
          else some circ3
        match circ4 with
        | none => none
        | some circ4 =>
          match connection_ap_detach_retriable env circ4 conn control_reason with
          | none => none
          | some (r, circ5) => some (decide (r ≥ 0), circ5)

/-- The `case END_STREAM_REASON_RESOLVEFAILED`, `TIMEOUT`, `MISC` of
`connection_ap_process_end_not_open` (also reached from `CONNECTREFUSED`
by fall-through). -/
def end_not_open_resolvefailed (circ : circuit_t κ δ) (conn : conn_ref)
    (control_reason : Int) : Option (Bool × circuit_t κ δ) :=
  match circ.get_conn conn with
  | none => none
  | some e =>
    match e.socks_request with
    | none => none
    | some sr =>
      let circ1 := circ.emit (.client_dns_incr_failures sr.address)
      if env.client_dns_incr_failures sr.address < MAX_RESOLVE_FAILURES then
        if circ1.timestamp_dirty = 0 then none
        else
          let circ2 :=
            { circ1 with
              timestamp_dirty := circ1.timestamp_dirty - env.MaxCircuitDirtiness }
          let circ3 :=
            if e.chosen_exit_optional then clear_chosen_exit circ2 conn false
            else some circ2
          match circ3 with
          | none => none
          | some circ3 =>
            match connection_ap_detach_retriable env circ3 conn control_reason with
            | none => none
            | some (r, circ4) => some (decide (r ≥ 0), circ4)
      else
        some (false, circ1.emit (.client_dns_clear_failures sr.address))

/-- The `case END_STREAM_REASON_HIBERNATING`, `RESOURCELIMIT` of
`connection_ap_process_end_not_open`. -/
def end_not_open_hibernating (circ : circuit_t κ δ) (conn : conn_ref)
    (control_reason : Int) : Option (Bool × circuit_t κ δ) :=
  match circ.get_conn conn with
  | none => none
  | some e =>
    let circ1 :=
      if env.router_get_by_digest then
        circ.emit .policies_set_router_exitpolicy_to_reject_all
      else circ
    let circ2 :=
      if e.chosen_exit_optional then clear_chosen_exit circ1 conn false
      else some circ1
    match circ2 with
    | none => none
    | some circ2 =>
      match connection_ap_detach_retriable env circ2 conn control_reason with
      | none => none
      | some (r, circ3) => some (decide (r ≥ 0), circ3)

/-- Called when we receive an END cell on a stream that is not open yet,
from the client side (`connection_ap_process_end_not_open`). -/
def connection_ap_process_end_not_open (rh : relay_header_t) (cell : cell_t)
    (circ : circuit_t κ δ) (conn : conn_ref) (_layer_hint : Option Nat) :
    Option (Int × circuit_t κ δ) :=
  match circ.get_conn conn with
  | none => none
  | some e =>
    let reason : Int := char_to_int (cell.payload.getD RELAY_HEADER_SIZE 0)
    let control_reason : Int := Int.lor reason END_STREAM_REASON_FLAG_REMOTE
    let retry : Option (Bool × circuit_t κ δ) :=
      if rh.length > 0 && edge_reason_is_retriable reason &&
          !e.is_rendezvous_stream then
        if e.socks_request.isNone then none
        else if reason = END_STREAM_REASON_EXITPOLICY then
          end_not_open_exitpolicy env rh cell circ conn control_reason
        else if reason = END_STREAM_REASON_CONNECTREFUSED then
          if !e.chosen_exit_optional then some (false, circ)
          else end_not_open_resolvefailed env circ conn control_reason
        else if reason = END_STREAM_REASON_RESOLVEFAILED ∨
            reason = END_STREAM_REASON_TIMEOUT ∨
            reason = END_STREAM_REASON_MISC then
          end_not_open_resolvefailed env circ conn control_reason
        else if reason = END_STREAM_REASON_HIBERNATING ∨
            reason = END_STREAM_REASON_RESOURCELIMIT then
          end_not_open_hibernating env circ conn control_reason
        else some (false, circ)
      else some (false, circ)
    match retry with
    | none => none
    | some (true, circ1) => some (0, circ1)
    | some (false, circ1) =>
      match circ1.get_conn conn with
      | none => none
      | some e1 =>
        if !e1.marked_for_close then
          (connection_mark_unattached_ap circ1 conn control_reason).map
            (fun c => (0, c))
        else some (0, circ1)

/-- Change the address of the SOCKS request of `conn` to the dotted-quad
representation of `new_addr` (`remap_event_helper`). -/
def remap_event_helper (circ : circuit_t κ δ) (conn : conn_ref)
    (new_addr : Nat) : Option (circuit_t κ δ) :=
  match circ.get_conn conn with
  | none => none
  | some e =>
    match e.socks_request with
    | none => none
    | some sr =>
      let sr1 : socks_request_t := { sr with address := env.tor_inet_ntoa new_addr }
      some (circ.set_conn conn { e with socks_request := some sr1 })

/-- The CONNECTED case of `connection_edge_process_relay_cell_not_open` for
a client stream. -/
def not_open_connected (rh : relay_header_t) (cell : cell_t)
    (circ : circuit_t κ δ) (conn : conn_ref) : Option (Int × circuit_t κ δ) :=
  match circ.get_conn conn with
  | none => none
  | some e =>
    if !circ.is_origin then none
    else if e.state ≠ AP_CONN_STATE_CONNECT_WAIT then some (0, circ)
    else
      let circ1 := circ.set_conn conn { e with state := AP_CONN_STATE_OPEN }
      let addr := get_uint32_be cell.payload RELAY_HEADER_SIZE
      if rh.length ≥ 4 &&
          (addr == 0 || (env.ClientDNSRejectInternalAddresses &&
            env.is_internal_IP addr)) then
        (connection_mark_unattached_ap
          (circ1.emit (.connection_edge_end conn END_STREAM_REASON_TORPROTOCOL))
          conn END_STREAM_REASON_TORPROTOCOL).map (fun c => (0, c))
      else
        match e.socks_request with
        | none => none
        | some sr =>
          let ttl : Int :=
            if rh.length ≥ 8 then
              uint32_to_int (get_uint32_be cell.payload (RELAY_HEADER_SIZE + 4))
            else -1
          let circ2 :=
            if rh.length ≥ 4 then
              remap_event_helper env
                (circ1.emit (.client_dns_set_addressmap sr.address addr
                  e.chosen_exit_name ttl)) conn addr
            else some circ1
          match circ2 with
          | none => none
          | some circ2 =>
            let circ3 :=
              if !sr.has_finished then
                circ2.emit (.connection_ap_handshake_socks_reply conn)
              else circ2
            match connection_edge_package_raw_inbuf ops circ3 conn true with
            | none => none
            | some (r, circ4) =>
              if r < 0 then
                (connection_mark_for_close circ4 conn).map (fun c => (0, c))
              else some (0, circ4)

/-- The RESOLVED case of `connection_edge_process_relay_cell_not_open` for a
client stream. -/
def not_open_resolved (rh : relay_header_t) (cell : cell_t)
    (circ : circuit_t κ δ) (conn : conn_ref) : Option (Int × circuit_t κ δ) :=
  match circ.get_conn conn with
  | none => none
  | some e =>
    if e.state ≠ AP_CONN_STATE_RESOLVE_WAIT then some (0, circ)
    else
      match e.socks_request with
      | none => none
      | some sr =>
        if sr.command ≠ SOCKS_COMMAND_RESOLVE ∧
            sr.command ≠ SOCKS_COMMAND_RESOLVE_PTR then none
        else
          let answer_len : Int :=
            char_to_int (cell.payload.getD (RELAY_HEADER_SIZE + 1) 0)
          if rh.length < 2 ∨ answer_len + 2 > (rh.length : Int) then
            (connection_mark_unattached_ap circ conn
              END_STREAM_REASON_TORPROTOCOL).map (fun c => (0, c))
          else
            let answer_type := cell.payload.getD RELAY_HEADER_SIZE 0 % 256
            let off := (RELAY_HEADER_SIZE + 2 + answer_len).toNat
            let ttl : Int :=
              if (rh.length : Int) ≥ answer_len + 6 then
                uint32_to_int (get_uint32_be cell.payload off)
              else -1
            let addr := get_uint32_be cell.payload (RELAY_HEADER_SIZE + 2)
            if answer_type = RESOLVED_TYPE_IPV4 ∧ answer_len ≥ 4 ∧
                env.ClientDNSRejectInternalAddresses ∧ env.is_internal_IP addr then
              (connection_mark_unattached_ap
                (circ.emit (.connection_ap_handshake_socks_resolved conn
                  RESOLVED_TYPE_ERROR_TRANSIENT 0 [] 0))
                conn END_STREAM_REASON_TORPROTOCOL).map (fun c => (0, c))
            else
              let alen := cell.payload.getD (RELAY_HEADER_SIZE + 1) 0 % 256
              let circ1 :=
                circ.emit (.connection_ap_handshake_socks_resolved conn
                  answer_type alen
                  ((cell.payload.drop (RELAY_HEADER_SIZE + 2)).take alen) ttl)
              let circ2 :=
                if answer_type = RESOLVED_TYPE_IPV4 ∧ answer_len ≥ 4 then
                  remap_event_helper env circ1 conn addr
                else some circ1
              match circ2 with
              | none => none
              | some circ2 =>
                (connection_mark_unattached_ap circ2 conn
                  (Int.lor END_STREAM_REASON_DONE
                    END_STREAM_REASON_FLAG_ALREADY_SOCKS_REPLIED)).map
                  (fun c => (0, c))

/-- An incoming relay cell has arrived for the stream `conn`, which is not
in an open state (`connection_edge_process_relay_cell_not_open`). -/
def connection_edge_process_relay_cell_not_open (rh : relay_header_t)
    (cell : cell_t) (circ : circuit_t κ δ) (conn : conn_ref)
    (layer_hint : Option Nat) : Option (Int × circuit_t κ δ) :=
  match circ.get_conn conn with
  | none => none
  | some e =>
    if rh.command = RELAY_COMMAND_END then
      if circ.is_origin && e.type == CONN_TYPE_AP then
        connection_ap_process_end_not_open env rh cell circ conn layer_hint
      else
        (connection_mark_for_close
          (circ.set_conn conn
            { e with edge_has_sent_end := true,
                     end_reason :=
                      Int.lor (char_to_int (cell.payload.getD RELAY_HEADER_SIZE 0))
                        END_STREAM_REASON_FLAG_REMOTE % 65536 })
          conn).map (fun c => (0, c))
    else if e.type = CONN_TYPE_AP ∧ rh.command = RELAY_COMMAND_CONNECTED then
      not_open_connected ops env rh cell circ conn
    else if e.type = CONN_TYPE_AP ∧ rh.command = RELAY_COMMAND_RESOLVED then
      not_open_resolved env rh cell circ conn
    else some (0, circ)

/-- Body of a relay cell: the bytes after the relay header. -/
def cell_body (cell : cell_t) (len : Nat) : List Nat :=
  (cell.payload.drop RELAY_HEADER_SIZE).take len

/-- The decrement of the circuit-level deliver window in the DATA case: the
hop's if `layer_hint` is defined, else the circuit's.  Returns the circuit
and whether the window is now below zero. -/
def deliver_window_decrement (circ : circuit_t κ δ) (layer_hint : Option Nat) :
    Option (Bool × circuit_t κ δ) :=
  match layer_hint with
  | some lh =>
    match circ.cpath[lh]? with
    | none => none
    | some hop =>
      some (decide (hop.deliver_window - 1 < 0),
        { circ with
          cpath := circ.cpath.set lh
            { hop with deliver_window := hop.deliver_window - 1 } })
  | none =>
    some (decide (circ.deliver_window - 1 < 0),
      { circ with deliver_window := circ.deliver_window - 1 })

/-- The `case RELAY_COMMAND_DATA` of `connection_edge_process_relay_cell`. -/
def process_relay_data (rh : relay_header_t) (cell : cell_t)
    (circ : circuit_t κ δ) (conn : Option conn_ref) (layer_hint : Option Nat) :
    Option (Int × circuit_t κ δ) :=
  match deliver_window_decrement circ layer_hint with
  | none => none
  | some (true, circ1) =>
    match conn with
    | none => none
    | some cr =>
      (connection_mark_for_close
        (circ1.emit (.connection_edge_end cr END_STREAM_REASON_TORPROTOCOL))
        cr).map (fun c => (-END_CIRC_REASON_TORPROTOCOL, c))
  | some (false, circ1) =>
    match circuit_consider_sending_sendme ops circ1 layer_hint with
    | none => none
    | some circ2 =>
      match conn with
      | none => some (0, circ2)
      | some cr =>
        match circ2.get_conn cr with
        | none => none
        | some e =>
          let e1 := { e with deliver_window := e.deliver_window - 1 }
          let circ3 := circ2.set_conn cr e1
          if e1.deliver_window < 0 then some (-END_CIRC_REASON_TORPROTOCOL, circ3)
          else
            let circ4 := circ3.set_conn cr
              { e1 with outbuf := e1.outbuf ++ cell_body cell rh.length }
            (connection_edge_consider_sending_sendme ops env circ4 cr).map
              (fun c => (0, c))

/-- The `case RELAY_COMMAND_END` of `connection_edge_process_relay_cell`. -/
def process_relay_end (rh : relay_header_t) (cell : cell_t)
    (circ : circuit_t κ δ) (conn : Option conn_ref) :
    Option (Int × circuit_t κ δ) :=
  let reason : Int :=
    if rh.length > 0 then (cell.payload.getD RELAY_HEADER_SIZE 0 % 256 : Nat)
    else END_STREAM_REASON_MISC
  match conn with
  | none => some (0, circ)
  | some cr =>
    match circ.get_conn cr with
    | none => none
    | some e =>
      let e1 := { e with edge_has_sent_end := true }
      let e2 :=
        if e1.end_reason = 0 then
          { e1 with end_reason := Int.lor reason END_STREAM_REASON_FLAG_REMOTE }
        else e1
      let circ1 := circ.set_conn cr e2
      if !e2.marked_for_close then
        match connection_mark_for_close circ1 cr with
        | none => none
        | some circ2 =>
          (circ2.get_conn cr).map (fun e3 =>
            (0, circ2.set_conn cr { e3 with hold_open_until_flushed := true }))
      else some (0, circ1)

/-- The `case RELAY_COMMAND_SENDME` of `connection_edge_process_relay_cell`. -/
def process_relay_sendme (circ : circuit_t κ δ) (conn : Option conn_ref)
    (layer_hint : Option Nat) : Option (Int × circuit_t κ δ) :=
  match conn with
  | none =>
    match layer_hint with
    | some lh =>
      match circ.cpath[lh]? with
      | none => none
      | some hop =>
        (circuit_resume_edge_reading ops
          { circ with
            cpath := circ.cpath.set lh
              { hop with
                package_window := hop.package_window + CIRCWINDOW_INCREMENT } }
          layer_hint).map (fun c => (0, c))
    | none =>
      (circuit_resume_edge_reading ops
        { circ with package_window := circ.package_window + CIRCWINDOW_INCREMENT }
        layer_hint).map (fun c => (0, c))
  | some cr =>
    match circ.get_conn cr with
    | none => none
    | some e =>
      let circ1 := circ.set_conn cr
        { e with package_window := e.package_window + STREAMWINDOW_INCREMENT }
      match connection_start_reading circ1 cr with
      | none => none
      | some circ2 =>
        match connection_edge_package_raw_inbuf ops circ2 cr true with
        | none => none
        | some (r, circ3) =>
          if r < 0 then (connection_mark_for_close circ3 cr).map (fun c => (0, c))
          else some (0, circ3)

/-- The `case RELAY_COMMAND_TRUNCATE` of `connection_edge_process_relay_cell`
at a relayed circuit. -/
def process_relay_truncate (cell : cell_t) (circ : circuit_t κ δ) :
    Option (Int × circuit_t κ δ) :=
  let circ1 :=
    match circ.n_conn with
    | some nc =>
      { (circ.emit (.connection_or_send_destroy circ.n_circ_id nc
          (cell.payload.getD RELAY_HEADER_SIZE 0 % 256))) with
        n_circ_id := 0, n_conn := none }
    | none => circ
  (relay_send_command_from_edge ops 0 circ1 RELAY_COMMAND_TRUNCATED
    [(END_CIRC_REASON_REQUESTED.toNat)] none).map (fun r => (0, r.2))

/-- Whether the relay command is one of the hidden-service commands handed
to `rend_process_relay_cell`. -/
def is_rend_command (command : Nat) : Bool :=
  command == RELAY_COMMAND_ESTABLISH_INTRO ||
  command == RELAY_COMMAND_ESTABLISH_RENDEZVOUS ||
  command == RELAY_COMMAND_INTRODUCE1 ||
  command == RELAY_COMMAND_INTRODUCE2 ||
  command == RELAY_COMMAND_INTRODUCE_ACK ||
  command == RELAY_COMMAND_RENDEZVOUS1 ||
  command == RELAY_COMMAND_RENDEZVOUS2 ||
  command == RELAY_COMMAND_INTRO_ESTABLISHED ||
  command == RELAY_COMMAND_RENDEZVOUS_ESTABLISHED

/-- An incoming relay cell has arrived on the circuit: if `conn` is `none`
this is a control cell, else the cell is destined for `conn`; if
`layer_hint` is defined we are the origin of the circuit and it is the hop
that packaged the cell (`connection_edge_process_relay_cell`).  Returns
minus the reason to tear down the circuit, else 0. -/
def connection_edge_process_relay_cell (cell : cell_t) (circ : circuit_t κ δ)
    (conn : Option conn_ref) (layer_hint : Option Nat) :
    Option (Int × circuit_t κ δ) :=
  let rh := relay_header_unpack cell.payload
  if rh.length > RELAY_PAYLOAD_SIZE then some (-END_CIRC_REASON_TORPROTOCOL, circ)
  else
    let not_open : Option (Option conn_ref) :=
      match conn with
      | none => some none
      | some cr =>
        (circ.get_conn cr).map (fun e =>
          if !connection_state_is_open e then some cr else none)
    match not_open with
    | none => none
    | some (some cr) =>
      connection_edge_process_relay_cell_not_open ops env rh cell circ cr
        layer_hint
    | some none =>
      if rh.command = RELAY_COMMAND_DROP then some (0, circ)
      else if rh.command = RELAY_COMMAND_BEGIN ∨
          rh.command = RELAY_COMMAND_BEGIN_DIR then
        if layer_hint.isSome && circ.purpose != CIRCUIT_PURPOSE_S_REND_JOINED
        then some (0, circ)
        else if circ.purpose == CIRCUIT_PURPOSE_S_REND_JOINED && !circ.is_origin
        then none
        else if circ.purpose == CIRCUIT_PURPOSE_S_REND_JOINED &&
            layer_hint != (cpath_head circ.cpath).map (cpath_prev circ.cpath)
        then some (0, circ)
        else if conn.isSome then some (0, circ)
        else
          some (env.connection_exit_begin_conn cell,
            circ.emit (.connection_exit_begin_conn cell))
      else if rh.command = RELAY_COMMAND_DATA then
        process_relay_data ops env rh cell circ conn layer_hint
      else if rh.command = RELAY_COMMAND_END then
        process_relay_end rh cell circ conn
      else if rh.command = RELAY_COMMAND_EXTEND then
        if conn.isSome then some (0, circ)
        else some (env.circuit_extend cell, circ.emit (.circuit_extend cell))
      else if rh.command = RELAY_COMMAND_EXTENDED then
        if layer_hint.isNone then some (0, circ)
        else if !circ.is_origin then none
        else
          let body := cell.payload.drop RELAY_HEADER_SIZE
          let circ1 := circ.emit (.circuit_finish_handshake body)
          if env.circuit_finish_handshake body < 0 then
            some (env.circuit_finish_handshake body, circ1)
          else
            let circ2 := circ1.emit .circuit_send_next_onion_skin
            if env.circuit_send_next_onion_skin < 0 then
              some (env.circuit_send_next_onion_skin, circ2)
            else some (0, circ2)
      else if rh.command = RELAY_COMMAND_TRUNCATE then
        if layer_hint.isSome then some (0, circ)
        else process_relay_truncate ops cell circ
      else if rh.command = RELAY_COMMAND_TRUNCATED then
        match layer_hint with
        | none => some (0, circ)
        | some lh =>
          if !circ.is_origin then none
          else some (0, circ.emit (.circuit_truncated lh))
      else if rh.command = RELAY_COMMAND_CONNECTED then
        if conn.isSome then some (-END_CIRC_REASON_TORPROTOCOL, circ)
        else some (0, circ)
      else if rh.command = RELAY_COMMAND_SENDME then
        process_relay_sendme ops circ conn layer_hint
      else if rh.command = RELAY_COMMAND_RESOLVE then
        if layer_hint.isSome then some (0, circ)
        else if conn.isSome then some (0, circ)
        else if circ.purpose ≠ CIRCUIT_PURPOSE_OR then some (0, circ)
        else if circ.is_origin then none
        else some (0, circ.emit (.connection_exit_begin_resolve cell))
      else if rh.command = RELAY_COMMAND_RESOLVED then
        if conn.isSome then some (-END_CIRC_REASON_TORPROTOCOL, circ)
        else some (0, circ)
      else if is_rend_command rh.command then
        some (0, circ.emit (.rend_process_relay_cell layer_hint rh.command
          rh.length (cell.payload.drop RELAY_HEADER_SIZE)))
      else some (0, circ)

/-! ## Receive path -/

/-- The layered decryption loop of `relay_crypt` at the origin: decrypt with
the backward cipher of `thishop`, test recognition, and move to the next hop
while it is not the head and is open.  Returns the status, the hops, the
payload and the recognizing hop, if any. -/
def relay_crypt_loop :
    Nat → List (crypt_path_t κ δ) → Nat → cell_t →
      Option (Int × List (crypt_path_t κ δ) × cell_t × Option Nat)
  | 0, _, _, _ => none
  | fuel + 1, cpath, thishop, cell =>
    match cpath[thishop]? with
    | none => none
    | some hop =>
      let res := relay_crypt_one_payload ops hop.b_crypto cell.payload 0
      let hop1 := { hop with b_crypto := res.2.1 }
      let cell1 := { cell with payload := res.2.2 }
      if res.1 < 0 then some (-1, cpath.set thishop hop1, cell1, none)
      else
        let rh := relay_header_unpack cell1.payload
        let m :=
          if rh.recognized = 0 then relay_digest_matches ops hop1.b_digest cell1
          else (false, hop1.b_digest, cell1)
        let cpath1 := cpath.set thishop { hop1 with b_digest := m.2.1 }
        if m.1 then some (0, cpath1, m.2.2, some thishop)
        else
          let thishop1 := cpath_next cpath thishop
          match cpath1[thishop1]? with
          | none => none
          | some nxt =>
            if thishop1 ≠ 0 ∧ nxt.state = CPATH_STATE_OPEN then
              relay_crypt_loop fuel cpath1 thishop1 m.2.2
            else some (-1, cpath1, m.2.2, none)

/-- Do the appropriate en/decryptions for a cell arriving on the circuit in
direction `cell_direction` (`relay_crypt`).  Returns the status (-1 to mark
the circuit for close), the circuit, the cell, the recognizing hop and
whether the cell is recognized. -/
def relay_crypt (circ : circuit_t κ δ) (cell : cell_t)
    (cell_direction : cell_direction_t) :
    Option (Int × circuit_t κ δ × cell_t × Option Nat × Bool) :=
  match cell_direction with
  | CELL_DIRECTION_IN =>
    if circ.is_origin then
      match circ.cpath[0]? with
      | none => none
      | some first =>
        if first.state ≠ CPATH_STATE_OPEN then some (-1, circ, cell, none, false)
        else
          match relay_crypt_loop ops circ.cpath.length circ.cpath 0 cell with
          | none => none
          | some (r, cpath1, cell1, hint) =>
            some (r, { circ with cpath := cpath1 }, cell1, hint, hint.isSome)
    else
      let res := relay_crypt_one_payload ops circ.p_crypto cell.payload 1
      let circ1 := { circ with p_crypto := res.2.1 }
      let cell1 := { cell with payload := res.2.2 }
      if res.1 < 0 then some (-1, circ1, cell1, none, false)
      else some (0, circ1, cell1, none, false)
  | CELL_DIRECTION_OUT =>
    if circ.is_origin then none
    else
      let res := relay_crypt_one_payload ops circ.n_crypto cell.payload 0
      let circ1 := { circ with n_crypto := res.2.1 }
      let cell1 := { cell with payload := res.2.2 }
      if res.1 < 0 then some (-1, circ1, cell1, none, false)
      else
        let rh := relay_header_unpack cell1.payload
        if rh.recognized = 0 then
          let m := relay_digest_matches ops circ1.n_digest cell1
          some (0, { circ1 with n_digest := m.2.1 }, m.2.2, none, m.1)
        else some (0, circ1, cell1, none, false)

/-- A circuit together with the circuit it is spliced to at a rendezvous
point, when there is one (`rend_splice`). -/
structure world (κ δ : Type) where
  /-- The circuit the cell arrives on. -/
  circ : circuit_t κ δ
  /-- The circuit `circ` is spliced to. -/
  rend_splice : Option (circuit_t κ δ)

/-- Receive a relay cell (`circuit_receive_relay_cell`): crypt it, deliver
it if recognized, else pass it on.  The recursion into the spliced circuit
spends one unit of fuel.  Returns minus the reason on failure, the circuits
and the cell. -/
def circuit_receive_relay_cell_aux :
    Nat → cell_t → world κ δ → cell_direction_t → Option (Int × world κ δ × cell_t)
  | 0, _, _, _ => none
  | fuel + 1, cell, w, cell_direction =>
    let circ := w.circ
    if circ.marked_for_close then some (0, w, cell)
    else
      match relay_crypt ops circ cell cell_direction with
      | none => none
      | some (r, circ1, cell1, layer_hint, recognized) =>
        if r < 0 then
          some (-END_CIRC_REASON_INTERNAL, { w with circ := circ1 }, cell1)
        else if recognized then
          let conn := relay_lookup_conn circ1 cell1 cell_direction layer_hint
          let hint :=
            match cell_direction with
            | CELL_DIRECTION_OUT => none
            | CELL_DIRECTION_IN => layer_hint
          match connection_edge_process_relay_cell ops env cell1 circ1 conn hint with
          | none => none
          | some (reason, circ2) =>
            if reason < 0 then some (reason, { w with circ := circ2 }, cell1)
            else some (0, { w with circ := circ2 }, cell1)
        else
          let fwd : Option (cell_t × Option Nat) :=
            match cell_direction with
            | CELL_DIRECTION_OUT =>
              some ({ cell1 with circ_id := circ1.n_circ_id }, circ1.n_conn)
            | CELL_DIRECTION_IN =>
              if !circ1.is_origin then
                some ({ cell1 with circ_id := circ1.p_circ_id }, circ1.p_conn)
              else none
          match fwd with
          | none => some (0, { w with circ := circ1 }, cell1)
          | some (cell2, or_conn) =>
            match or_conn with
            | none =>
              match w.rend_splice with
              | some splice =>
                if !circ1.is_origin && cell_direction == CELL_DIRECTION_OUT then
                  if circ1.purpose ≠ CIRCUIT_PURPOSE_REND_ESTABLISHED ∨
                      splice.purpose ≠ CIRCUIT_PURPOSE_REND_ESTABLISHED then none
                  else
                    let cell3 := { cell2 with circ_id := splice.p_circ_id }
                    match circuit_receive_relay_cell_aux fuel cell3
                        { circ := splice, rend_splice := some circ1 }
                        CELL_DIRECTION_IN with
                    | none => none
                    | some (reason, w1, cell4) =>
                      let back : circuit_t κ δ := w1.rend_splice.getD circ1
                      if reason < 0 then
                        some (reason,
                          { circ := circuit_mark_for_close back (-reason),
                            rend_splice := some w1.circ }, cell4)
                      else
                        some (0, { circ := back, rend_splice := some w1.circ }, cell4)
                else
                  some (-END_CIRC_REASON_TORPROTOCOL, { w with circ := circ1 }, cell2)
              | none =>
                some (-END_CIRC_REASON_TORPROTOCOL, { w with circ := circ1 }, cell2)
            | some _ =>
              let circ2 := circ1.emit
                (.append_cell_to_circuit_queue or_conn cell2 cell_direction)
              some (0, { w with circ := circ2 }, cell2)

/-- Receive a relay cell on a circuit (`circuit_receive_relay_cell`). -/
def circuit_receive_relay_cell (cell : cell_t) (w : world κ δ)
    (cell_direction : cell_direction_t) : Option (Int × world κ δ × cell_t) :=
  circuit_receive_relay_cell_aux ops env 2 cell w cell_direction

/-! ## Notions used to state the properties -/

/-- What the engine relies on from the crypto collaborator: a cipher call
given bytes returns as many bytes, and reading four bytes of a digest gives
four bytes. -/
def crypto_ops.wf (ops : crypto_ops κ δ) : Prop :=
  (∀ c p, (ops.crypto_cipher_crypt_inplace c p).2.2.length = p.length) ∧
  (∀ c p, (∀ b ∈ p, b < 256) →
    ∀ b ∈ (ops.crypto_cipher_crypt_inplace c p).2.2, b < 256) ∧
  (∀ d, (ops.crypto_digest_get_digest d 4).length = 4) ∧
  (∀ d, ∀ b ∈ ops.crypto_digest_get_digest d 4, b < 256)

/-- The cipher `cn` undoes the cipher `cf`: whatever bytes `cf` encrypts
successfully, `cn` decrypts successfully to the same bytes. -/
def cipher_inverts (cf cn : κ) : Prop :=
  ∀ p, (∀ b ∈ p, b < 256) → (ops.crypto_cipher_crypt_inplace cf p).1 = 0 →
    (ops.crypto_cipher_crypt_inplace cn
      (ops.crypto_cipher_crypt_inplace cf p).2.2).1 = 0 ∧
    (ops.crypto_cipher_crypt_inplace cn
      (ops.crypto_cipher_crypt_inplace cf p).2.2).2.2 = p

/-- A cell travelling away from the origin through the relays of a path, in
order: each relay runs `relay_crypt` outbound on the cell and, not
recognizing it, passes the cell on.  The result is the relays and the cell
as it leaves the last of them; there is none when a relay's `relay_crypt`
fails or a relay recognizes the cell, which then travels no further. -/
def relay_forward_out :
    List (circuit_t κ δ) → cell_t → Option (List (circuit_t κ δ) × cell_t)
  | [], cell => some ([], cell)
  | r :: rs, cell =>
    match relay_crypt ops r cell CELL_DIRECTION_OUT with
    | none => none
    | some (st, r1, cell1, _, recognized) =>
      if st < 0 ∨ recognized = true then none
      else (relay_forward_out rs cell1).map (fun x => (r1 :: x.1, x.2))

end engine

/-! ## Concrete circuits -/

/-- A small crypto collaborator for concrete runs: the cipher adds its key to
every byte, the digest state is a running sum of the bytes fed. -/
def toy_ops : crypto_ops Nat Nat where
  crypto_cipher_crypt_inplace c p := (0, c, p.map (fun b => (b + c) % 256))
  crypto_digest_add_bytes d bs := (d + bs.sum + 1) % 4294967296
  crypto_digest_get_digest d _ :=
    [d / 16777216 % 256, d / 65536 % 256, d / 256 % 256, d % 256]

/-- A fresh open hop with full windows. -/
def new_hop {κ δ : Type} (fc bc : κ) (fd bd : δ) : crypt_path_t κ δ :=
  { f_crypto := fc, b_crypto := bc, f_digest := fd, b_digest := bd,
    state := CPATH_STATE_OPEN, package_window := CIRCWINDOW_START,
    deliver_window := CIRCWINDOW_START }

/-- A fresh circuit with full windows, both connections present, and no
hops or streams. -/
def new_circuit {κ δ : Type} (is_origin : Bool) (k : κ) (d : δ) : circuit_t κ δ :=
  { is_origin := is_origin, marked_for_close := false, purpose := CIRCUIT_PURPOSE_OR,
    n_conn := some 1, n_circ_id := 1, package_window := CIRCWINDOW_START,
    deliver_window := CIRCWINDOW_START, timestamp_dirty := 1, cpath := [],
    p_streams := [], remaining_relay_early_cells := 8,
    relay_early_commands := List.replicate 8 0, relay_early_cells_sent := 0,
    p_circ_id := 2, p_conn := some 2, p_crypto := k, n_crypto := k, p_digest := d,
    n_digest := d, n_streams := [], resolving_streams := [], trace := [] }

/-- An origin circuit with two open hops. -/
def toy_origin : circuit_t Nat Nat :=
  { new_circuit true 0 0 with cpath := [new_hop 3 5 10 20, new_hop 7 9 30 40] }
/-- The relay at the first hop of `toy_origin`. -/
def toy_relay1 : circuit_t Nat Nat := { new_circuit false 0 0 with n_crypto := 253, n_digest := 10 }
/-- The relay at the second hop of `toy_origin`. -/
def toy_relay2 : circuit_t Nat Nat := { new_circuit false 0 0 with n_crypto := 249, n_digest := 30 }
/-- A DATA cell for stream 5 as `relay_send_command_from_edge` builds it. -/
def toy_cell : cell_t :=
  { circ_id := 1, command := CELL_RELAY,
    payload := relay_header_pack (List.replicate CELL_PAYLOAD_SIZE 0)
      { command := RELAY_COMMAND_DATA, recognized := 0, stream_id := 5,
        integrity := [0, 0, 0, 0], length := 3 } }

/-- The cell `toy_cell` packaged at `toy_origin` for its second hop. -/
def toy_packaged := circuit_package_relay_cell toy_ops toy_cell toy_origin CELL_DIRECTION_OUT (some 1)
/-- The origin circuit after packaging `toy_cell`. -/
def toy_oc1 := (toy_packaged.map (fun x => x.2.1)).getD toy_origin
/-- The encrypted cell the origin queues. -/
def toy_cellE := (toy_packaged.map (fun x => x.2.2)).getD toy_cell
/-- The encrypted cell passed on by the first relay. -/
def toy_fwd := relay_forward_out toy_ops [toy_relay1] toy_cellE
/-- The first relay after passing the cell on. -/
def toy_front1 := (toy_fwd.map (fun x => x.1)).getD []
/-- The cell as it reaches the second relay. -/
def toy_cellM := (toy_fwd.map (fun x => x.2)).getD toy_cell


/-- Collaborator answers for concrete runs: nothing is internal, every
address parses, a detached stream is taken over, and an address has failed
as many times as it has characters. -/
def toy_env : collaborators where
  connection_outbuf_too_full _ := false
  router_get_by_digest := true
  ClientDNSRejectInternalAddresses := false
  MaxCircuitDirtiness := 600
  is_internal_IP _ := false
  tor_inet_aton _ := true
  addressmap_rewrite _ := none
  tor_inet_ntoa _ := []
  client_dns_incr_failures a := a.length
  connection_ap_detach_retriable _ _ := (0, false)
  connection_exit_begin_conn _ := 0
  circuit_extend _ := 0
  circuit_finish_handshake _ := 0
  circuit_send_next_onion_skin := 0

/-- A fresh stream with full windows and empty buffers. -/
def new_stream (type state stream_id : Nat) (cpath_layer : Option Nat) :
    edge_connection_t :=
  { type := type, state := state, marked_for_close := false,
    hold_open_until_flushed := false, reading := true, inbuf := [], outbuf := [],
    stream_id := stream_id, on_circuit := true, cpath_layer := cpath_layer,
    package_window := STREAMWINDOW_START, deliver_window := STREAMWINDOW_START,
    edge_has_sent_end := false, end_reason := 0, is_rendezvous_stream := false,
    socks_request := none, chosen_exit_name := none, chosen_exit_optional := false,
    chosen_exit_retries := 0 }

/-- A client stream waiting for CONNECTED, asking for the address `address`. -/
def toy_ap_stream (address : List Nat) : edge_connection_t :=
  { new_stream CONN_TYPE_AP AP_CONN_STATE_CONNECT_WAIT 5 (some 1) with
    socks_request := some { address := address, command := 1, has_finished := false } }

/-- The origin circuit `toy_origin` with one client stream attached. -/
def toy_origin_ap (address : List Nat) : circuit_t Nat Nat :=
  { toy_origin with p_streams := [toy_ap_stream address] }

/-- An END cell for stream 5 with the given reason byte. -/
def toy_end_cell (reason : Nat) : cell_t :=
  relay_send_cell 1 5 RELAY_COMMAND_END [reason]

/-- A cell whose payload no hop of `toy_origin` authenticates. -/
def junk_cell : cell_t :=
  { circ_id := 1, command := CELL_RELAY, payload := List.replicate CELL_PAYLOAD_SIZE 1 }

/-- What `relay_crypt` leaves of `toy_origin` and `junk_cell`. -/
def junk_crypted := relay_crypt toy_ops toy_origin junk_cell CELL_DIRECTION_IN

/-- Send `n` EXTEND cells toward the first hop, one after the other. -/
def send_extends {κ δ : Type} (ops : crypto_ops κ δ) :
    Nat → circuit_t κ δ → Option (circuit_t κ δ)
  | 0, circ => some circ
  | n + 1, circ =>
    match relay_send_command_from_edge ops 0 circ RELAY_COMMAND_EXTEND [] (some 0) with
    | none => none
    | some (_, circ1) => send_extends ops n circ1

/-- The cell commands of the cells handed to the cell queue, oldest first. -/
def queued_commands (trace : List action) : List Nat :=
  trace.filterMap (fun a =>
    match a with
    | .append_cell_to_circuit_queue _ cell _ => some cell.command
    | _ => none)

/-- Hand `n` copies of a recognized cell, one after the other, to the
dispatcher of a relayed circuit, as the recognized branch of
`circuit_receive_relay_cell` does for a cell travelling away from the
origin: look the stream up, then `connection_edge_process_relay_cell` with
no hop.  Delivery stops at the first cell the dispatcher answers with a
negative reason. -/
def deliver_cells {κ δ : Type} (ops : crypto_ops κ δ) (env : collaborators)
    (cell : cell_t) : Nat → circuit_t κ δ → Option (Int × circuit_t κ δ)
  | 0, circ => some (0, circ)
  | n + 1, circ =>
    match connection_edge_process_relay_cell ops env cell circ
        (relay_lookup_conn circ cell CELL_DIRECTION_OUT none) none with
    | none => none
    | some (r, circ1) =>
      if r < 0 then some (r, circ1) else deliver_cells ops env cell n circ1

/-- Whether a call hands a circuit-level SENDME (relay command SENDME,
stream id 0) to the cell queue toward the origin; the header is read from
the cell as queued. -/
def is_circuit_sendme (a : action) : Bool :=
  match a with
  | .append_cell_to_circuit_queue _ cell .CELL_DIRECTION_IN =>
    (relay_header_unpack cell.payload).command == RELAY_COMMAND_SENDME &&
      (relay_header_unpack cell.payload).stream_id == 0
  | _ => false

/-- A relayed circuit at the end of a path, with one open exit stream
(stream id 5); its cipher toward the origin leaves bytes as they are. -/
def toy_exit : circuit_t Nat Nat :=
  { new_circuit false 0 0 with
    n_conn := none
    n_streams := [new_stream CONN_TYPE_EXIT EXIT_CONN_STATE_OPEN 5 none] }

/-- A DATA cell for stream 5 carrying three bytes. -/
def toy_data_cell : cell_t := relay_send_cell 2 5 RELAY_COMMAND_DATA [104, 105, 10]

/-- The deliver windows of a circuit: the circuit's own, its hops', and its
streams', list by list. -/
def deliver_view {κ δ : Type} (c : circuit_t κ δ) :
    Int × List Int × List Int × List Int × List Int :=
  (c.deliver_window, c.cpath.map (fun h => h.deliver_window),
    c.p_streams.map (fun s => s.deliver_window),
    c.n_streams.map (fun s => s.deliver_window),
    c.resolving_streams.map (fun s => s.deliver_window))

/-- No deliver window of the view is above its start value. -/
def deliver_view_ok (v : Int × List Int × List Int × List Int × List Int) : Prop :=
  v.1 ≤ CIRCWINDOW_START ∧ (∀ w ∈ v.2.1, w ≤ CIRCWINDOW_START) ∧
  (∀ w ∈ v.2.2.1, w ≤ STREAMWINDOW_START) ∧
  (∀ w ∈ v.2.2.2.1, w ≤ STREAMWINDOW_START) ∧
  (∀ w ∈ v.2.2.2.2, w ≤ STREAMWINDOW_START)

/-- No deliver window of the circuit, of a hop or of a stream is above its
start value. -/
def deliver_ok {κ δ : Type} (c : circuit_t κ δ) : Prop :=
  deliver_view_ok (deliver_view c)

/-- The package windows of a circuit: the circuit's own, its hops', and its
streams', list by list. -/
def package_view {κ δ : Type} (c : circuit_t κ δ) :
    Int × List Int × List Int × List Int × List Int :=
  (c.package_window, c.cpath.map (fun h => h.package_window),
    c.p_streams.map (fun s => s.package_window),
    c.n_streams.map (fun s => s.package_window),
    c.resolving_streams.map (fun s => s.package_window))

/-- One operation of the dispatcher or of the send path on a circuit. -/
inductive engine_op where
  /-- The dispatcher `connection_edge_process_relay_cell` on a cell. -/
  | process (cell : cell_t) (conn : Option conn_ref) (layer_hint : Option Nat)
  /-- The send path `connection_edge_package_raw_inbuf` on a stream. -/
  | package (conn : conn_ref) ( package_partial : Bool)
  /-- Stream-level `connection_edge_consider_sending_sendme`. -/
  | stream_sendme (conn : conn_ref)
  /-- Circuit-level `circuit_consider_sending_sendme`. -/
  | circuit_sendme (layer_hint : Option Nat)
  /-- Bytes arriving from the application on a stream. -/
  | edge_read (conn : conn_ref) (bytes : List Nat)

/-- Run one operation; the value an operation returns is dropped. -/
def run_op {κ δ : Type} (ops : crypto_ops κ δ) (env : collaborators)
    (c : circuit_t κ δ) : engine_op → Option (circuit_t κ δ)
  | .process cell conn layer_hint =>
    (connection_edge_process_relay_cell ops env cell c conn layer_hint).map (fun r => r.2)
  | .package conn package_partial =>
    (connection_edge_package_raw_inbuf ops c conn package_partial).map (fun r => r.2)
  | .stream_sendme conn => connection_edge_consider_sending_sendme ops env c conn
  | .circuit_sendme layer_hint => circuit_consider_sending_sendme ops c layer_hint
  | .edge_read conn bytes =>
    (c.get_conn conn).map (fun e => c.set_conn conn { e with inbuf := e.inbuf ++ bytes })

/-- Run a trace of operations, oldest first. -/
def run_ops {κ δ : Type} (ops : crypto_ops κ δ) (env : collaborators) :
    List engine_op → circuit_t κ δ → Option (circuit_t κ δ)
  | [], c => some c
  | op :: rest, c =>
    match run_op ops env c op with
    | none => none
    | some c1 => run_ops ops env rest c1

/-- A circuit-level SENDME cell (stream id 0) as it reaches the dispatcher. -/
def toy_circuit_sendme : cell_t := relay_send_cell 2 0 RELAY_COMMAND_SENDME []

/-- A trace on `toy_exit`: a DATA cell for the open stream, three bytes from
the application, the send path, and the two SENDME senders. -/
def toy_window_trace : List engine_op :=
  [.process toy_data_cell (some ⟨.n_streams, 0⟩) none,
   .edge_read ⟨.n_streams, 0⟩ [1, 2, 3],
   .package ⟨.n_streams, 0⟩ true,
   .stream_sendme ⟨.n_streams, 0⟩,
   .circuit_sendme none]

/-- What the flow-control paths keep of a stream whatever they do to its
flags: the package window, the input buffer and the hop. -/
def flow_of (e : edge_connection_t) : Int × List Nat × Option Nat :=
  (e.package_window, e.inbuf, e.cpath_layer)

/-- The flow-control view of a circuit: whether it is an origin, its package
window, its hops' package windows, and `flow_of` of its streams, list by
list. -/
def flow_view {κ δ : Type} (c : circuit_t κ δ) :
    Bool × Int × List Int × List (Int × List Nat × Option Nat) ×
      List (Int × List Nat × Option Nat) × List (Int × List Nat × Option Nat) :=
  (c.is_origin, c.package_window, c.cpath.map (fun h => h.package_window),
    c.p_streams.map flow_of, c.n_streams.map flow_of,
    c.resolving_streams.map flow_of)

/-- A hop pointer fits the circuit: no hop at a relayed circuit, an existing
hop at an origin circuit. -/
def layer_ok (is_origin : Bool) (hops : Nat) (l : Option Nat) : Bool :=
  match l with
  | none => !is_origin
  | some i => is_origin && decide (i < hops)

/-- What sending a cell leaves as it is: the kind of circuit, the next and
the previous connection, the circuit's windows, the windows and state of
each hop, and the three stream lists. -/
def send_view {κ δ : Type} (c : circuit_t κ δ) :
    Bool × (Option Nat × Option Nat) × Int × Int × List (Int × Int × Nat) ×
      List edge_connection_t × List edge_connection_t × List edge_connection_t :=
  (c.is_origin, (c.n_conn, c.p_conn), c.package_window, c.deliver_window,
    c.cpath.map (fun h => (h.package_window, h.deliver_window, h.state)),
    c.p_streams, c.n_streams, c.resolving_streams)

/-- The RELAY_EARLY bookkeeping fits its array: the count left is not
negative, and the count left plus the count sent is within the capacity of
`relay_early_commands`. -/
def relay_early_ok {κ δ : Type} (c : circuit_t κ δ) : Bool :=
  decide (0 ≤ c.remaining_relay_early_cells ∧
    c.remaining_relay_early_cells + (c.relay_early_cells_sent : Int) ≤
      (c.relay_early_commands.length : Int))

/-- A circuit on which a cell for the hop `layer` can be sent: the hop
pointer fits the circuit, the RELAY_EARLY bookkeeping fits its array, and a
relayed circuit has its previous connection (the inbound branch of
`circuit_package_relay_cell` hands it to the cell queue untested). -/
def send_ok {κ δ : Type} (c : circuit_t κ δ) (layer : Option Nat) : Bool :=
  layer_ok c.is_origin c.cpath.length layer && relay_early_ok c &&
    (c.is_origin || c.p_conn.isSome)

/-- The three stream lists of a circuit. -/
def streams_of {κ δ : Type} (c : circuit_t κ δ) :
    List edge_connection_t × List edge_connection_t × List edge_connection_t :=
  (c.p_streams, c.n_streams, c.resolving_streams)

/-- The output buffers of the streams of a circuit, list by list. -/
def outbuf_view {κ δ : Type} (c : circuit_t κ δ) :
    List (List Nat) × List (List Nat) × List (List Nat) :=
  (c.p_streams.map (fun s => s.outbuf), c.n_streams.map (fun s => s.outbuf),
    c.resolving_streams.map (fun s => s.outbuf))

/-- The package window `connection_edge_package_raw_inbuf` decrements for a
stream whose hop pointer is `cpath_layer`: the hop's if there is one, else
the circuit's. -/
def circuit_package_window {κ δ : Type} (circ : circuit_t κ δ)
    (cpath_layer : Option Nat) : Option Int :=
  match cpath_layer with
  | none => some circ.package_window
  | some lh => (circ.cpath[lh]?).map (fun hop => hop.package_window)

/-- The body of `connection_edge_package_raw_inbuf` from the label
`repeat_connection_edge_package_raw_inbuf`, as
`connection_edge_package_raw_inbuf_loop`, returning besides the status and
the circuit the contents of `payload` at each call of
`connection_edge_send_command`, in order, and whether the last of these
calls failed. -/
def connection_edge_package_raw_inbuf_loop_cells {κ δ : Type} (ops : crypto_ops κ δ) :
    Nat → circuit_t κ δ → conn_ref → Bool →
      Option (Int × circuit_t κ δ × List (List Nat) × Bool)
  | 0, _, _, _ => none
  | fuel + 1, circ, conn, package_partial =>
    match circ.get_conn conn with
    | none => none
    | some e =>
      if !e.on_circuit then
        some (-1, circ.set_conn conn
          { e with end_reason := END_STREAM_REASON_CANT_ATTACH }, [], false)
      else
        match circuit_consider_stop_edge_reading circ e.cpath_layer with
        | none => none
        | some (true, circ1) => some (0, circ1, [], false)
        | some (false, circ1) =>
          if e.package_window ≤ 0 then
            (connection_stop_reading circ1 conn).map (fun c => (0, c, [], false))
          else
            let amount_to_process := e.inbuf.length
            if amount_to_process = 0 then some (0, circ1, [], false)
            else if ! package_partial && amount_to_process < RELAY_PAYLOAD_SIZE
            then some (0, circ1, [], false)
            else
              let length :=
                if amount_to_process > RELAY_PAYLOAD_SIZE then RELAY_PAYLOAD_SIZE
                else amount_to_process
              let payload := e.inbuf.take length
              let circ2 :=
                circ1.set_conn conn { e with inbuf := e.inbuf.drop length }
              match connection_edge_send_command ops circ2 conn
                  RELAY_COMMAND_DATA payload with
              | none => none
              | some (r, circ3) =>
                if r < 0 then some (0, circ3, [payload], true)
                else
                  match package_window_decrement circ3 e.cpath_layer with
                  | none => none
                  | some circ4 =>
                    match circ4.get_conn conn with
                    | none => none
                    | some e4 =>
                      let e5 :=
                        { e4 with package_window := e4.package_window - 1 }
                      let circ5 := circ4.set_conn conn e5
                      if e5.package_window ≤ 0 then
                        match connection_stop_reading circ5 conn with
                        | none => none
                        | some circ6 =>
                          (circuit_consider_stop_edge_reading circ6
                            e.cpath_layer).map (fun r => (0, r.2, [payload], false))
                      else
                        (connection_edge_package_raw_inbuf_loop_cells ops fuel circ5 conn
                          package_partial).map
                          (fun x => (x.1, x.2.1, payload :: x.2.2.1, x.2.2.2))

/-- The function `connection_edge_package_raw_inbuf`, returning besides the
status and the circuit the payloads it handed to
`connection_edge_send_command`, in order, and whether the last of these
sends failed. -/
def connection_edge_package_raw_inbuf_cells {κ δ : Type} (ops : crypto_ops κ δ)
    (circ : circuit_t κ δ) (conn : conn_ref) ( package_partial : Bool) :
    Option (Int × circuit_t κ δ × List (List Nat) × Bool) :=
  match circ.get_conn conn with
  | none => none
  | some e =>
    if e.marked_for_close then some (0, circ, [], false)
    else
      connection_edge_package_raw_inbuf_loop_cells ops (e.inbuf.length + 1) circ conn
        package_partial

/-- The stream list `circuit_consider_stop_edge_reading` and
`circuit_resume_edge_reading` walk: `p_streams` at an origin circuit,
`n_streams` at a relayed one. -/
def walked_list {κ δ : Type} (c : circuit_t κ δ) : stream_list :=
  if c.is_origin then .p_streams else .n_streams

/-- The relayed circuit `toy_exit` with its stream changed by `f`. -/
def toy_exit_with (f : edge_connection_t → edge_connection_t) : circuit_t Nat Nat :=
  { toy_exit with
    n_streams := [f (new_stream CONN_TYPE_EXIT EXIT_CONN_STATE_OPEN 5 none)] }

/-! ## Address codec -/

/-- Address family `AF_UNSPEC`. -/
def AF_UNSPEC : Nat := 0
/-- Address family `AF_INET`. -/
def AF_INET : Nat := 2
/-- Address family `AF_INET6`. -/
def AF_INET6 : Nat := 10
/-- Answer type of an IPv6 RESOLVED cell. -/
def RESOLVED_TYPE_IPV6 : Nat := 6

/-- Modelled from the spec: a typed IP address (`tor_addr_t`) is its family
and its address bytes in network order, four for IPv4 and sixteen for IPv6. -/
structure tor_addr_t where
  /-- The address family. -/
  family : Nat
  /-- The address bytes, in network order. -/
  addr : List Nat
deriving DecidableEq, Repr

/-- Modelled from the spec: the family of an address (`tor_addr_family`). -/
def tor_addr_family (a : tor_addr_t) : Nat := a.family

/-- Modelled from the spec: the IPv4 address in network order, as its four
bytes in memory, or 0 when the address is not IPv4 (`tor_addr_to_ipv4n`). -/
def tor_addr_to_ipv4n (a : tor_addr_t) : List Nat :=
  if a.family = AF_INET then (List.range 4).map (fun i => a.addr.getD i 0)
  else [0, 0, 0, 0]

/-- Modelled from the spec: the sixteen bytes of an IPv6 address
(`tor_addr_to_in6_addr8`). -/
def tor_addr_to_in6_addr8 (a : tor_addr_t) : List Nat :=
  (List.range 16).map (fun i => a.addr.getD i 0)

/-- Modelled from the spec: the IPv4 address with the given four bytes in
network order (`tor_addr_from_ipv4n`). -/
def tor_addr_from_ipv4n (v4addr : List Nat) : tor_addr_t :=
  { family := AF_INET, addr := v4addr }

/-- Modelled from the spec: the IPv6 address with the sixteen bytes at
`bytes` (`tor_addr_from_ipv6_bytes`). -/
def tor_addr_from_ipv6_bytes (bytes : List Nat) : tor_addr_t :=
  { family := AF_INET6, addr := (List.range 16).map (fun i => bytes.getD i 0) }

/-- Modelled from the spec: the unspecified address (`tor_addr_make_unspec`). -/
def tor_addr_make_unspec : tor_addr_t := { family := AF_UNSPEC, addr := [] }

/-- Load the four bytes at `buf+off` (`get_uint32`). -/
def get_uint32 (buf : List Nat) (off : Nat) : List Nat :=
  (List.range 4).map (fun i => buf.getD (off + i) 0)

/-- Append an encoded value of `addr` to `payload_out`: a type byte, a
length byte and the address bytes (`append_address_to_payload`).  Returns
the number of bytes added, or -1 on error, and the buffer. -/
def append_address_to_payload (payload_out : List Nat) (addr : tor_addr_t) :
    Int × List Nat :=
  if tor_addr_family addr = AF_INET then
    let p0 := buf_write payload_out 0 [RESOLVED_TYPE_IPV4]
    let p1 := buf_write p0 1 [4]
    let a := tor_addr_to_ipv4n addr
    (6, buf_write p1 2 a)
  else if tor_addr_family addr = AF_INET6 then
    let p0 := buf_write payload_out 0 [RESOLVED_TYPE_IPV6]
    let p1 := buf_write p0 1 [16]
    (18, buf_write p1 2 (tor_addr_to_in6_addr8 addr))
  else (-1, payload_out)

/-- Given `payload_len` bytes at `payload`, starting with an address encoded
as by `append_address_to_payload`, try to decode the address
(`decode_address_from_payload`).  Returns the address and the offset of the
next byte in the payload after it, or `none` where the C code returns NULL. -/
def decode_address_from_payload (payload : List Nat) (payload_len : Int) :
    Option (tor_addr_t × Nat) :=
  if payload_len < 2 then none
  else if payload_len < 2 + ((payload.getD 1 0 % 256 : Nat) : Int) then none
  else
    let next := 2 + payload.getD 1 0 % 256
    if payload.getD 0 0 = RESOLVED_TYPE_IPV4 then
      if payload.getD 1 0 ≠ 4 then none
      else some (tor_addr_from_ipv4n (get_uint32 payload 2), next)
    else if payload.getD 0 0 = RESOLVED_TYPE_IPV6 then
      if payload.getD 1 0 ≠ 16 then none
      else some (tor_addr_from_ipv6_bytes (payload.drop 2), next)
    else some (tor_addr_make_unspec, next)

/-! ## Layering rule -/

/-- The layering rule of the spec for the send path at the origin: apply the
forward cipher of each hop listed in `hops`, in that order, one call of the
cipher collaborator per entry, to the payload; stop with -1 at the first
call that fails.  Returns the status, the hops with the ciphers advanced,
and the payload. -/
def apply_forward_ciphers {κ δ : Type} (ops : crypto_ops κ δ) :
    List Nat → List (crypt_path_t κ δ) → List Nat →
      Int × List (crypt_path_t κ δ) × List Nat
  | [], cpath, payload => (0, cpath, payload)
  | i :: rest, cpath, payload =>
    match cpath[i]? with
    | none => (-1, cpath, payload)
    | some hop =>
      let res := ops.crypto_cipher_crypt_inplace hop.f_crypto payload
      let cpath1 := cpath.set i { hop with f_crypto := res.2.1 }
      if res.1 ≠ 0 then (-1, cpath1, res.2.2)
      else apply_forward_ciphers ops rest cpath1 res.2.2

/-- The hops from the target hop at position `lh` toward the head:
`lh, lh-1, ..., 0`. -/
def hops_toward_head (lh : Nat) : List Nat := (List.range (lh + 1)).reverse

/-! ## Cell queues -/

/-- Size of a cell on the wire (`CELL_NETWORK_SIZE`). -/
def CELL_NETWORK_SIZE : Nat := 512
/-- Stop reading on edge connections when we have this many cells waiting on
the appropriate queue (`CELL_QUEUE_HIGHWATER_SIZE`). -/
def CELL_QUEUE_HIGHWATER_SIZE : Int := 256
/-- Start reading from edge connections again when we get down to this many
cells (`CELL_QUEUE_LOWWATER_SIZE`). -/
def CELL_QUEUE_LOWWATER_SIZE : Int := 64

/-- A cell as stored on a queue (`packed_cell_t`); a pointer to a packed
cell is its position in the memory of the pool. -/
structure packed_cell_t where
  /-- Next cell queued on this circuit. -/
  next : Option Nat
  /-- Cell as packed for network. -/
  body : List Nat
deriving DecidableEq, Repr

/-- A queue of cells on a circuit, waiting to be added to a connection's
outbuf (`cell_queue_t`). -/
structure cell_queue_t where
  /-- The first cell, or `none` if the queue is empty. -/
  head : Option Nat
  /-- The last cell, or `none` if the queue is empty. -/
  tail : Option Nat
  /-- The number of cells in the queue. -/
  n : Int
deriving DecidableEq, Repr

/-- Modelled from the spec: the memory pool the packed cells are allocated
from (`cell_pool`), with the counter `total_cells_allocated`.  A released
cell is recorded and its memory is left as it is. -/
structure cell_pool_t where
  /-- The memory of the pool: the packed cells by address. -/
  cells : List packed_cell_t
  /-- The cells handed back with `mp_pool_release`, oldest first. -/
  released : List Nat
  /-- The total number of cells we have allocated from the memory pool. -/
  total_cells_allocated : Int
deriving DecidableEq, Repr

/-- Release storage held by `cell` (`packed_cell_free`). -/
def packed_cell_free (pool : cell_pool_t) (cell : Nat) : cell_pool_t :=
  { pool with total_cells_allocated := pool.total_cells_allocated - 1,
              released := pool.released ++ [cell] }

/-- Allocate and return a new packed cell (`packed_cell_alloc`);
`mp_pool_get` is modelled as handing out fresh memory at the end of the
pool. -/
def packed_cell_alloc (pool : cell_pool_t) : Nat × cell_pool_t :=
  (pool.cells.length,
    { pool with total_cells_allocated := pool.total_cells_allocated + 1,
                cells := pool.cells ++ [{ next := none, body := [] }] })

/-- Modelled from the spec: the wire format of a cell is the 2-byte circuit
id, the 1-byte command and the 509-byte payload (`cell_pack`). -/
def cell_pack (src : cell_t) : List Nat :=
  htons src.circ_id ++ [src.command % 256] ++ src.payload.take CELL_PAYLOAD_SIZE

/-- Allocate a new copy of packed `cell` (`packed_cell_copy`). -/
def packed_cell_copy (pool : cell_pool_t) (cell : cell_t) : Nat × cell_pool_t :=
  let a := packed_cell_alloc pool
  (a.1, { a.2 with cells := a.2.cells.set a.1 { next := none, body := cell_pack cell } })

/-- Append `cell` to the end of `queue` (`cell_queue_append`); `cells` is
the memory holding the packed cells.  The result is `none` when an assertion
fails or a pointer is followed that points nowhere. -/
def cell_queue_append (cells : List packed_cell_t) (queue : cell_queue_t) (cell : Nat) :
    Option (List packed_cell_t × cell_queue_t) :=
  let linked : Option (List packed_cell_t × cell_queue_t) :=
    match queue.tail with
    | some t =>
      match cells[t]? with
      | none => none
      | some tc =>
        if tc.next.isSome then none
        else some (cells.set t { tc with next := some cell }, queue)
    | none => some (cells, { queue with head := some cell })
  match linked with
  | none => none
  | some (cells1, queue1) =>
    match cells1[cell]? with
    | none => none
    | some c =>
      some (cells1.set cell { c with next := none },
        { queue1 with tail := some cell, n := queue1.n + 1 })

/-- Append a newly allocated copy of `cell` to the end of `queue`
(`cell_queue_append_packed_copy`). -/
def cell_queue_append_packed_copy (pool : cell_pool_t) (queue : cell_queue_t)
    (cell : cell_t) : Option (cell_pool_t × cell_queue_t) :=
  let c := packed_cell_copy pool cell
  (cell_queue_append c.2.cells queue c.1).map
    (fun r => ({ c.2 with cells := r.1 }, r.2))

/-- The loop of `cell_queue_clear`: free `cell` and every cell after it. -/
def cell_queue_clear_loop : Nat → cell_pool_t → Option Nat → Option cell_pool_t
  | _, pool, none => some pool
  | 0, _, some _ => none
  | fuel + 1, pool, some cell =>
    match pool.cells[cell]? with
    | none => none
    | some c => cell_queue_clear_loop fuel (packed_cell_free pool cell) c.next

/-- Remove and free every cell in `queue` (`cell_queue_clear`). -/
def cell_queue_clear (pool : cell_pool_t) (queue : cell_queue_t) :
    Option (cell_pool_t × cell_queue_t) :=
  (cell_queue_clear_loop pool.cells.length pool queue.head).map
    (fun pool1 => (pool1, { queue with head := none, tail := none, n := 0 }))

/-- Extract and return the cell at the head of `queue`; return `none` as
the cell if `queue` is empty (`cell_queue_pop`). -/
def cell_queue_pop (cells : List packed_cell_t) (queue : cell_queue_t) :
    Option (Option Nat × cell_queue_t) :=
  match queue.head with
  | none => some (none, queue)
  | some cell =>
    match cells[cell]? with
    | none => none
    | some c =>
      let queue1 := { queue with head := c.next }
      if some cell = queue1.tail then
        if queue1.head.isSome then none
        else some (some cell, { queue1 with tail := none, n := queue1.n - 1 })
      else some (some cell, { queue1 with n := queue1.n - 1 })

/-- Whether the cells `nodes`, in this order, are the cells reached from the
pointer `p` by following `next` up to the null pointer. -/
def cell_chain (cells : List packed_cell_t) : Option Nat → List Nat → Bool
  | p, [] => p.isNone
  | p, x :: rest =>
    p == some x &&
      match cells[x]? with
      | none => false
      | some c => cell_chain cells c.next rest

/-- The invariant of a cell queue whose cells are `nodes`, first to last:
they are the cells reached from `head`, `tail` is the last of them, and `n`
is their number. -/
def cell_queue_ok (cells : List packed_cell_t) (queue : cell_queue_t) (nodes : List Nat) :
    Bool :=
  cell_chain cells queue.head nodes && queue.tail == nodes.getLast? &&
    queue.n == (nodes.length : Int)

/-- Append the cells `cs` to the queue, one call of `cell_queue_append` per
cell, first to last. -/
def cell_queue_append_all (cells : List packed_cell_t) (queue : cell_queue_t) :
    List Nat → Option (List packed_cell_t × cell_queue_t)
  | [] => some (cells, queue)
  | c :: cs =>
    match cell_queue_append cells queue c with
    | none => none
    | some (cells1, queue1) => cell_queue_append_all cells1 queue1 cs

/-- Call `cell_queue_pop` `k` times; returns what the calls returned, in
order, and the queue. -/
def cell_queue_pop_n (cells : List packed_cell_t) :
    Nat → cell_queue_t → Option (List (Option Nat) × cell_queue_t)
  | 0, queue => some ([], queue)
  | k + 1, queue =>
    match cell_queue_pop cells queue with
    | none => none
    | some (r, queue1) =>
      (cell_queue_pop_n cells k queue1).map (fun x => (r :: x.1, x.2))

/-! ## Active circuits of a connection -/

/-- The fields of an edge stream (`edge_connection_t`) that
`set_streams_blocked_on_circ` reads and writes. -/
structure edge_reader_t where
  /-- Field `edge_blocked_on_circ`. -/
  edge_blocked_on_circ : Bool
  /-- Whether the stream has a read event (`_base.read_event`). -/
  read_event : Bool
  /-- Whether the stream is reading (`connection_is_reading`). -/
  reading : Bool
deriving DecidableEq, Repr

/-- The fields of a circuit (`circuit_t`, with those of `origin_circuit_t`
and `or_circuit_t`) that the cell queues and the rings of active circuits
read and write.  A pointer to a circuit is its position in the list of
circuits; a pointer to a connection is the position of the connection. -/
structure queued_circuit_t where
  /-- Whether the circuit is an origin circuit (`CIRCUIT_IS_ORIGIN`). -/
  is_origin : Bool
  /-- The next connection, when there is one. -/
  n_conn : Option Nat
  /-- The previous connection, when there is one (relayed). -/
  p_conn : Option Nat
  /-- Queue of cells waiting to be transmitted on `n_conn`. -/
  n_conn_cells : cell_queue_t
  /-- Queue of cells waiting to be transmitted on `p_conn` (relayed). -/
  p_conn_cells : cell_queue_t
  /-- Next circuit in the ring of active circuits on `n_conn`. -/
  next_active_on_n_conn : Option Nat
  /-- Previous circuit in the ring of active circuits on `n_conn`. -/
  prev_active_on_n_conn : Option Nat
  /-- Next circuit in the ring of active circuits on `p_conn` (relayed). -/
  next_active_on_p_conn : Option Nat
  /-- Previous circuit in the ring of active circuits on `p_conn`
  (relayed). -/
  prev_active_on_p_conn : Option Nat
  /-- True iff we are waiting for `n_conn_cells` to become less full before
  allowing `p_streams` to add any more cells. -/
  streams_blocked_on_n_conn : Bool
  /-- True iff we are waiting for `p_conn_cells` to become less full before
  allowing `n_streams` to add any more cells. -/
  streams_blocked_on_p_conn : Bool
  /-- Streams of an origin circuit. -/
  p_streams : List edge_reader_t
  /-- Exit streams of a relayed circuit. -/
  n_streams : List edge_reader_t
deriving DecidableEq, Repr

/-- The fields of an OR connection (`or_connection_t`) that the cell queues
and the rings of active circuits read and write. -/
structure or_connection_t where
  /-- Head of the ring of circuits with queued cells waiting for room on
  this connection's outbuf, or `none` for no such circuit. -/
  active_circuits : Option Nat
  /-- Negotiated link protocol. -/
  link_proto : Nat
  /-- The bytes written to the connection and not yet sent. -/
  outbuf : List Nat
  /-- Field `timestamp_last_added_nonpadding`. -/
  timestamp_last_added_nonpadding : Int
deriving DecidableEq, Repr

/-- The memory the queue layer works on: the circuits, the OR connections
and the pool of packed cells. -/
structure queue_state where
  /-- The circuits, by address. -/
  circuits : List queued_circuit_t
  /-- The OR connections, by address. -/
  conns : List or_connection_t
  /-- The pool of packed cells. -/
  pool : cell_pool_t
deriving DecidableEq, Repr

/-- A pointer to a ring link of a circuit: the circuit and whether the link
is the one for `n_conn` (else the one for `p_conn`).  The address of a link
does not depend on what the links hold, so a pointer taken once is used for
every access to that link within a function. -/
structure link_ptr where
  /-- The circuit. -/
  circ : Nat
  /-- Whether the link is on the `n_conn` side. -/
  on_n_conn : Bool
deriving DecidableEq, Repr

/-- Return a pointer to the "next_active_on_{n,p}_conn" pointer of `circ`,
depending on whether `conn` matches n_conn or p_conn
(`next_circ_on_conn_p`); `none` when an assertion fails. -/
def next_circ_on_conn_p (st : queue_state) (circ : Option Nat) (conn : Nat) :
    Option link_ptr :=
  match circ with
  | none => none
  | some ci =>
    match st.circuits[ci]? with
    | none => none
    | some c =>
      if c.n_conn = some conn then some ⟨ci, true⟩
      else if c.is_origin then none
      else if c.p_conn = some conn then some ⟨ci, false⟩
      else none

/-- Return a pointer to the "prev_active_on_{n,p}_conn" pointer of `circ`,
depending on whether `conn` matches n_conn or p_conn
(`prev_circ_on_conn_p`); `none` when an assertion fails. -/
def prev_circ_on_conn_p (st : queue_state) (circ : Option Nat) (conn : Nat) :
    Option link_ptr :=
  match circ with
  | none => none
  | some ci =>
    match st.circuits[ci]? with
    | none => none
    | some c =>
      if c.n_conn = some conn then some ⟨ci, true⟩
      else if c.is_origin then none
      else if c.p_conn = some conn then some ⟨ci, false⟩
      else none

/-- Read the `next_active` link a pointer points to. -/
def get_next_active (st : queue_state) (p : link_ptr) : Option Nat :=
  match st.circuits[p.circ]? with
  | none => none
  | some c => if p.on_n_conn then c.next_active_on_n_conn else c.next_active_on_p_conn

/-- Read the `prev_active` link a pointer points to. -/
def get_prev_active (st : queue_state) (p : link_ptr) : Option Nat :=
  match st.circuits[p.circ]? with
  | none => none
  | some c => if p.on_n_conn then c.prev_active_on_n_conn else c.prev_active_on_p_conn

/-- Store a circuit at its address. -/
def queue_state.set_circ (st : queue_state) (ci : Nat) (c : queued_circuit_t) :
    queue_state :=
  { st with circuits := st.circuits.set ci c }

/-- Store a connection at its address. -/
def queue_state.set_conn (st : queue_state) (conn : Nat) (oc : or_connection_t) :
    queue_state :=
  { st with conns := st.conns.set conn oc }

/-- Write the `next_active` link a pointer points to. -/
def set_next_active (st : queue_state) (p : link_ptr) (v : Option Nat) : queue_state :=
  match st.circuits[p.circ]? with
  | none => st
  | some c =>
    st.set_circ p.circ
      (if p.on_n_conn then { c with next_active_on_n_conn := v }
       else { c with next_active_on_p_conn := v })

/-- Write the `prev_active` link a pointer points to. -/
def set_prev_active (st : queue_state) (p : link_ptr) (v : Option Nat) : queue_state :=
  match st.circuits[p.circ]? with
  | none => st
  | some c =>
    st.set_circ p.circ
      (if p.on_n_conn then { c with prev_active_on_n_conn := v }
       else { c with prev_active_on_p_conn := v })

/-- Set the head of the ring of a connection. -/
def set_active_circuits (st : queue_state) (conn : Nat) (v : Option Nat) : queue_state :=
  match st.conns[conn]? with
  | none => st
  | some oc => st.set_conn conn { oc with active_circuits := v }

/-- Add `circ` to the list of circuits with pending cells on `conn`; no
effect if `circ` is already linked (`make_circuit_active_on_conn`). -/
def make_circuit_active_on_conn (st : queue_state) (circ conn : Nat) :
    Option queue_state :=
  match next_circ_on_conn_p st (some circ) conn, prev_circ_on_conn_p st (some circ) conn with
  | some nextp, some prevp =>
    if (get_next_active st nextp).isSome && (get_prev_active st prevp).isSome then some st
    else
      match st.conns[conn]? with
      | none => none
      | some oc =>
        match oc.active_circuits with
        | none =>
          let st1 := set_active_circuits st conn (some circ)
          let st2 := set_next_active st1 nextp (some circ)
          some (set_prev_active st2 prevp (some circ))
        | some head =>
          match prev_circ_on_conn_p st (some head) conn with
          | none => none
          | some headprevp =>
            let old_tail := get_prev_active st headprevp
            match next_circ_on_conn_p st old_tail conn with
            | none => none
            | some tailnextp =>
              let st1 := set_next_active st tailnextp (some circ)
              let st2 := set_next_active st1 nextp (some head)
              let st3 := set_prev_active st2 headprevp (some circ)
              some (set_prev_active st3 prevp old_tail)
  | _, _ => none

/-- Remove `circ` from the list of circuits with pending cells on `conn`;
no effect if `circ` is already unlinked (`make_circuit_inactive_on_conn`). -/
def make_circuit_inactive_on_conn (st : queue_state) (circ conn : Nat) :
    Option queue_state :=
  match next_circ_on_conn_p st (some circ) conn, prev_circ_on_conn_p st (some circ) conn with
  | some nextp, some prevp =>
    let next := get_next_active st nextp
    let prev := get_prev_active st prevp
    if next.isNone && prev.isNone then some st
    else if !(next.isSome && prev.isSome) then none
    else
      match prev_circ_on_conn_p st next conn, next_circ_on_conn_p st prev conn with
      | some nextprevp, some prevnextp =>
        if get_prev_active st nextprevp ≠ some circ then none
        else if get_next_active st prevnextp ≠ some circ then none
        else
          match st.conns[conn]? with
          | none => none
          | some oc =>
            let st3 :=
              if next = some circ then set_active_circuits st conn none
              else
                let st1 := set_prev_active st nextprevp prev
                let st2 := set_next_active st1 prevnextp next
                if oc.active_circuits = some circ then set_active_circuits st2 conn next
                else st2
            let st4 := set_next_active st3 nextp none
            some (set_prev_active st4 prevp none)
      | _, _ => none
  | _, _ => none

/-- The loop of `connection_or_unlink_all_active_circs`: clear both links of
`cur` and go on with its successor until that is `head`. -/
def connection_or_unlink_all_active_circs_loop :
    Nat → queue_state → Nat → Nat → Option Nat → Option queue_state
  | 0, _, _, _, _ => none
  | fuel + 1, st, orconn, head, cur =>
    match next_circ_on_conn_p st cur orconn with
    | none => none
    | some nextp =>
      let next := get_next_active st nextp
      match prev_circ_on_conn_p st cur orconn with
      | none => none
      | some prevp =>
        let st1 := set_prev_active st prevp none
        let st2 := set_next_active st1 nextp none
        if next ≠ some head then
          connection_or_unlink_all_active_circs_loop fuel st2 orconn head next
        else some st2

/-- Remove all circuits from the list of circuits with pending cells on
`orconn` (`connection_or_unlink_all_active_circs`). -/
def connection_or_unlink_all_active_circs (st : queue_state) (orconn : Nat) :
    Option queue_state :=
  match st.conns[orconn]? with
  | none => none
  | some oc =>
    match oc.active_circuits with
    | none => some st
    | some head =>
      (connection_or_unlink_all_active_circs_loop st.circuits.length st orconn head
        (some head)).map (fun st1 => set_active_circuits st1 orconn none)

/-- The loop of `assert_active_circuits_ok`: check the links of `cur` and go
on with its successor until that is `head`. -/
def assert_active_circuits_ok_loop :
    Nat → queue_state → Nat → Nat → Option Nat → Option Unit
  | 0, _, _, _, _ => none
  | fuel + 1, st, orconn, head, cur =>
    match next_circ_on_conn_p st cur orconn, prev_circ_on_conn_p st cur orconn with
    | some nextp, some prevp =>
      let next := get_next_active st nextp
      let prev := get_prev_active st prevp
      if next.isNone then none
      else if prev.isNone then none
      else
        match next_circ_on_conn_p st prev orconn, prev_circ_on_conn_p st next orconn with
        | some prevnextp, some nextprevp =>
          if get_next_active st prevnextp ≠ cur then none
          else if get_prev_active st nextprevp ≠ cur then none
          else if next ≠ some head then
            assert_active_circuits_ok_loop fuel st orconn head next
          else some ()
        | _, _ => none
    | _, _ => none

/-- Fail with an assert if the active circuits ring on `orconn` is corrupt
(`assert_active_circuits_ok`): `some ()` when every assertion holds. -/
def assert_active_circuits_ok (st : queue_state) (orconn : Nat) : Option Unit :=
  match st.conns[orconn]? with
  | none => none
  | some oc =>
    match oc.active_circuits with
    | none => some ()
    | some head =>
      assert_active_circuits_ok_loop st.circuits.length st orconn head (some head)

/-- The successor of the circuit `c` in the ring of `conn`: what the link
that `next_circ_on_conn_p` points to holds; `none` for a circuit that is
not attached to `conn`. -/
def ring_next (st : queue_state) (conn c : Nat) : Option Nat :=
  match next_circ_on_conn_p st (some c) conn with
  | none => none
  | some p => get_next_active st p

/-- The predecessor of the circuit `c` in the ring of `conn`: what the link
that `prev_circ_on_conn_p` points to holds; `none` for a circuit that is
not attached to `conn`. -/
def ring_prev (st : queue_state) (conn c : Nat) : Option Nat :=
  match prev_circ_on_conn_p st (some c) conn with
  | none => none
  | some p => get_prev_active st p

/-- Whether following `nxt` from `a` visits the circuits of `l` in order and
then arrives at `z`, with `prv` the inverse of `nxt` at every step. -/
def ring_links (nxt prv : Nat → Option Nat) : Nat → List Nat → Nat → Bool
  | a, [], z => nxt a == some z && prv z == some a
  | a, b :: l, z => nxt a == some b && prv b == some a && ring_links nxt prv b l z

/-- Well-formedness of the ring of active circuits of `conn` with the
members `members`, listed from the head in the order of the `next` links:
the head of the ring is the first member (null for no members); following
`next` from the head visits the members in order and returns to the head,
and `prev` is the inverse of `next` on them; no member is listed twice; and
every circuit that is not a member has both links on the side of `conn`
null. -/
def active_ring_ok (st : queue_state) (conn : Nat) (members : List Nat) : Bool :=
  (match st.conns[conn]? with
    | none => false
    | some oc => oc.active_circuits == members.head?) &&
  (match members with
    | [] => true
    | h :: t => ring_links (ring_next st conn) (ring_prev st conn) h t h) &&
  decide members.Nodup &&
  (List.range st.circuits.length).all (fun c =>
    members.contains c ||
      ((ring_next st conn c).isNone && (ring_prev st conn c).isNone))

/-! ## Flushing and filling the queues -/

/-- Modelled from the spec: `write_bytes(conn, buf)` of the transport
connection appends the bytes to the connection's outbuf
(`connection_write_to_buf`); it does not touch the ring of the
connection. -/
def connection_write_to_buf (st : queue_state) (bytes : List Nat) (conn : Nat) :
    queue_state :=
  match st.conns[conn]? with
  | none => st
  | some oc => st.set_conn conn { oc with outbuf := oc.outbuf ++ bytes }

/-- The body of the loop of `set_streams_blocked_on_circ` for one edge
stream: set its `edge_blocked_on_circ` and, when it has a read event, stop
or start reading as appropriate. -/
def set_edge_blocked (block : Bool) (edge : edge_reader_t) : edge_reader_t :=
  let e1 := { edge with edge_blocked_on_circ := block }
  if !e1.read_event then e1
  else if block then
    if e1.reading then { e1 with reading := false } else e1
  else
    if !e1.reading then { e1 with reading := true } else e1

/-- The effect of `set_streams_blocked_on_circ` on the circuit itself: on
the `n_conn` side the flag `streams_blocked_on_n_conn` is set and the
streams of an origin circuit are walked; on the `p_conn` side the flag
`streams_blocked_on_p_conn` is set and the exit streams are walked. -/
def queued_circuit_t.set_blocked (c : queued_circuit_t) (on_n_conn : Bool) (block : Bool) :
    queued_circuit_t :=
  if on_n_conn then
    let c1 := { c with streams_blocked_on_n_conn := block }
    if c.is_origin then
      { c1 with p_streams := c1.p_streams.map (set_edge_blocked block) }
    else c1
  else
    { c with streams_blocked_on_p_conn := block,
             n_streams := c.n_streams.map (set_edge_blocked block) }

/-- Block (if `block` is true) or unblock (if `block` is false) every edge
connection that is using `circ` to write to `orconn`, and start or stop
reading as appropriate (`set_streams_blocked_on_circ`). -/
def set_streams_blocked_on_circ (st : queue_state) (circ orconn : Nat) (block : Bool) :
    Option queue_state :=
  match st.circuits[circ]? with
  | none => none
  | some c =>
    if c.n_conn = some orconn then some (st.set_circ circ (c.set_blocked true block))
    else if c.is_origin then none
    else some (st.set_circ circ (c.set_blocked false block))

/-- The queue of a circuit on the given side. -/
def queued_circuit_t.queue (c : queued_circuit_t) (on_n_conn : Bool) : cell_queue_t :=
  if on_n_conn then c.n_conn_cells else c.p_conn_cells

/-- Store the queue of a circuit on the given side. -/
def queued_circuit_t.set_queue (c : queued_circuit_t) (on_n_conn : Bool)
    (q : cell_queue_t) : queued_circuit_t :=
  if on_n_conn then { c with n_conn_cells := q } else { c with p_conn_cells := q }

/-- The loop of `connection_or_flush_from_first_active_circuit`: while fewer
than `max` cells are flushed and the queue has a cell, pop it, write it to
the outbuf of `conn` and free it.  Returns the number flushed, the memory,
and whether the loop was left through `goto done`. -/
def connection_or_flush_loop :
    Nat → queue_state → Nat → Nat → Bool → Int → Int → Option (Int × queue_state × Bool)
  | 0, _, _, _, _, _, _ => none
  | fuel + 1, st, conn, circ, on_n, max, n_flushed =>
    match st.circuits[circ]? with
    | none => none
    | some c =>
      if n_flushed < max && (c.queue on_n).head.isSome then
        match cell_queue_pop st.pool.cells (c.queue on_n) with
        | none => none
        | some (cellp, queue1) =>
          let st1 := st.set_circ circ (c.set_queue on_n queue1)
          match next_circ_on_conn_p st1 (some circ) conn with
          | none => none
          | some nextp =>
            if (get_next_active st1 nextp).isNone then none
            else
              match cellp with
              | none => none
              | some cp =>
                match st1.pool.cells[cp]? with
                | none => none
                | some pc =>
                  let st2 := connection_write_to_buf st1 (pc.body.take CELL_NETWORK_SIZE) conn
                  let st3 := { st2 with pool := packed_cell_free st2.pool cp }
                  match st3.conns[conn]? with
                  | none => none
                  | some oc =>
                    if oc.active_circuits ≠ some circ then some (n_flushed + 1, st3, true)
                    else connection_or_flush_loop fuel st3 conn circ on_n max (n_flushed + 1)
      else some (n_flushed, st, false)

/-- The part of `connection_or_flush_from_first_active_circuit` between the
loop and the label `done`: advance the head of the ring to the successor of
`circ`, unblock the streams when the queue is low enough, and make the
circuit inactive when its queue is empty. -/
def connection_or_flush_advance (st : queue_state) (conn circ : Nat) (on_n : Bool)
    (streams_blocked : Bool) : Option queue_state :=
  match next_circ_on_conn_p st (some circ) conn with
  | none => none
  | some nextp =>
    match get_next_active st nextp with
    | none => none
    | some next =>
      let st1 := set_active_circuits st conn (some next)
      match st1.circuits[circ]? with
      | none => none
      | some c =>
        let unblocked :=
          if streams_blocked && (c.queue on_n).n ≤ CELL_QUEUE_LOWWATER_SIZE then
            set_streams_blocked_on_circ st1 circ conn false
          else some st1
        match unblocked with
        | none => none
        | some st2 =>
          if (c.queue on_n).n = 0 then make_circuit_inactive_on_conn st2 circ conn
          else some st2

/-- Pull as many cells as possible (but no more than `max`) from the queue
of the first active circuit on `conn`, and write them to the outbuf of
`conn`; return the number of cells written, and advance the active circuit
pointer to the next active circuit in the ring
(`connection_or_flush_from_first_active_circuit`). -/
def connection_or_flush_from_first_active_circuit (st : queue_state) (conn : Nat)
    (max : Int) (now : Int) : Option (Int × queue_state) :=
  match st.conns[conn]? with
  | none => none
  | some oc =>
    match oc.active_circuits with
    | none => some (0, st)
    | some circ =>
      match st.circuits[circ]? with
      | none => none
      | some c =>
        let on_n := decide (c.n_conn = some conn)
        if !on_n && c.is_origin then none
        else
          let streams_blocked :=
            if on_n then c.streams_blocked_on_n_conn else c.streams_blocked_on_p_conn
          match next_circ_on_conn_p st (some circ) conn with
          | none => none
          | some nextp =>
            if (get_next_active st nextp).isNone then none
            else
              match connection_or_flush_loop (st.pool.cells.length + 1) st conn circ on_n
                  max 0 with
              | none => none
              | some (n_flushed, st1, done) =>
                let advanced :=
                  if done then some st1
                  else connection_or_flush_advance st1 conn circ on_n streams_blocked
                match advanced with
                | none => none
                | some st2 =>
                  match st2.conns[conn]? with
                  | none => none
                  | some oc2 =>
                    if n_flushed ≠ 0 then
                      some (n_flushed,
                        st2.set_conn conn { oc2 with timestamp_last_added_nonpadding := now })
                    else some (n_flushed, st2)

/-- Add `cell` to the queue of `circ` writing to `orconn` transmitting in
`direction` (`append_cell_to_circuit_queue`); `now` is `approx_time()`.
Returns the memory and the cell as left in the caller's buffer. -/
def append_cell_to_circuit_queue (st : queue_state) (circ orconn : Nat) (cell : cell_t)
    (direction : cell_direction_t) (now : Int) : Option (queue_state × cell_t) :=
  match st.circuits[circ]? with
  | none => none
  | some c =>
    let on_n := decide (direction = CELL_DIRECTION_OUT)
    if !on_n && c.is_origin then none
    else
      let streams_blocked :=
        if on_n then c.streams_blocked_on_n_conn else c.streams_blocked_on_p_conn
      match st.conns[orconn]? with
      | none => none
      | some oc =>
        let cell1 :=
          if cell.command = CELL_RELAY_EARLY ∧ oc.link_proto < 2 then
            { cell with command := CELL_RELAY }
          else cell
        match cell_queue_append_packed_copy st.pool (c.queue on_n) cell1 with
        | none => none
        | some (pool1, queue1) =>
          let st1 := ({ st with pool := pool1 }).set_circ circ (c.set_queue on_n queue1)
          let blocked :=
            if !streams_blocked && queue1.n ≥ CELL_QUEUE_HIGHWATER_SIZE then
              set_streams_blocked_on_circ st1 circ orconn true
            else some st1
          match blocked with
          | none => none
          | some st2 =>
            let activated :=
              if queue1.n = 1 then make_circuit_active_on_conn st2 circ orconn
              else some st2
            match activated with
            | none => none
            | some st3 =>
              match st3.conns[orconn]? with
              | none => none
              | some oc3 =>
                if oc3.outbuf.length = 0 then
                  (connection_or_flush_from_first_active_circuit st3 orconn 1 now).map
                    (fun r => (r.2, cell1))
                else some (st3, cell1)

/-- Everything in a circuit but its ring links: kind, connections, queues,
flags and streams. -/
def circ_view (c : queued_circuit_t) :
    Bool × Option Nat × Option Nat × cell_queue_t × cell_queue_t × Bool × Bool ×
      List edge_reader_t × List edge_reader_t :=
  (c.is_origin, c.n_conn, c.p_conn, c.n_conn_cells, c.p_conn_cells,
    c.streams_blocked_on_n_conn, c.streams_blocked_on_p_conn, c.p_streams, c.n_streams)

/-- Everything in a connection but the head of its ring: link protocol,
outbuf and timestamp. -/
def conn_view (oc : or_connection_t) : Nat × List Nat × Int :=
  (oc.link_proto, oc.outbuf, oc.timestamp_last_added_nonpadding)

/-- Everything in the memory but the ring links of the circuits and the
heads of the rings. -/
def queue_view (st : queue_state) :
    List (Bool × Option Nat × Option Nat × cell_queue_t × cell_queue_t × Bool × Bool ×
      List edge_reader_t × List edge_reader_t) × List (Nat × List Nat × Int) × cell_pool_t :=
  (st.circuits.map circ_view, st.conns.map conn_view, st.pool)

/-- The ring links in the memory and what they depend on: for each circuit
its kind, its connections and its four links; for each connection the head
of its ring. -/
def link_view (st : queue_state) :
    List (Bool × Option Nat × Option Nat × Option Nat × Option Nat × Option Nat × Option Nat) ×
      List (Option Nat) :=
  (st.circuits.map (fun c => (c.is_origin, c.n_conn, c.p_conn, c.next_active_on_n_conn,
      c.prev_active_on_n_conn, c.next_active_on_p_conn, c.prev_active_on_p_conn)),
    st.conns.map (fun oc => oc.active_circuits))

/-! ## Concrete rings -/

/-- A relayed circuit between the connections 0 and 1 with empty queues and
the given links in the ring of connection 0. -/
def toy_queued_circuit (next prev : Option Nat) : queued_circuit_t :=
  { is_origin := false, n_conn := some 0, p_conn := some 1,
    n_conn_cells := ⟨none, none, 0⟩, p_conn_cells := ⟨none, none, 0⟩,
    next_active_on_n_conn := next, prev_active_on_n_conn := prev,
    next_active_on_p_conn := none, prev_active_on_p_conn := none,
    streams_blocked_on_n_conn := false, streams_blocked_on_p_conn := false,
    p_streams := [], n_streams := [⟨false, true, true⟩] }

/-- Four circuits and two connections: the ring of connection 0 has the
members 1, 2 and 0, from the head; circuit 3 is not active. -/
def toy_ring_state : queue_state :=
  { circuits := [toy_queued_circuit (some 1) (some 2), toy_queued_circuit (some 2) (some 0),
      toy_queued_circuit (some 0) (some 1), toy_queued_circuit none none],
    conns := [⟨some 1, 2, [], 0⟩, ⟨none, 2, [], 0⟩],
    pool := ⟨[], [], 0⟩ }

/-- The bytes of the packed cells `l`, in order, as
`connection_or_flush_from_first_active_circuit` writes them to an outbuf:
`CELL_NETWORK_SIZE` bytes of each body. -/
def cell_bodies (cells : List packed_cell_t) (l : List Nat) : List Nat :=
  (l.map (fun p => (((cells[p]?).map (fun c => c.body)).getD []).take CELL_NETWORK_SIZE)).flatten

/-- The flag of a circuit that says its streams are blocked on the given
side: `streams_blocked_on_n_conn` or `streams_blocked_on_p_conn`. -/
def queued_circuit_t.streams_blocked (c : queued_circuit_t) (on_n_conn : Bool) : Bool :=
  if on_n_conn then c.streams_blocked_on_n_conn else c.streams_blocked_on_p_conn

/-- A memory of `n` packed cells, each linked to the next and the last to
null; the body of cell `i` is the byte `i`. -/
def toy_cell_chain (n : Nat) : List packed_cell_t :=
  (List.range n).map (fun i => ⟨if i + 1 < n then some (i + 1) else none, [i % 256]⟩)

/-- A relayed circuit between the connections 0 and 1 with the first `n`
cells of the memory on its queue towards connection 0, in a ring of its
own. -/
def toy_filled_circuit (n : Nat) (blocked : Bool) : queued_circuit_t :=
  { toy_queued_circuit (some 0) (some 0) with
    n_conn_cells := ⟨some 0, some (n - 1), n⟩
    streams_blocked_on_n_conn := blocked }

/-- A memory with the circuit `toy_filled_circuit n blocked`, which is the
one active circuit of connection 0, and the given outbuf of connection 0. -/
def toy_filled_state (n : Nat) (blocked : Bool) (outbuf : List Nat) : queue_state :=
  { circuits := [toy_filled_circuit n blocked]
    conns := [⟨some 0, 1, outbuf, 0⟩, ⟨none, 2, [], 0⟩]
    pool := ⟨toy_cell_chain n, [], n⟩ }

/-- A relayed circuit between the connections 0 and 1 with the first `n`
cells of the memory on its queue toward its previous connection 1, in a
ring of its own. -/
def toy_inbound_circuit (n : Nat) (blocked : Bool) : queued_circuit_t :=
  { toy_queued_circuit none none with
    p_conn_cells := ⟨some 0, some (n - 1), n⟩
    next_active_on_p_conn := some 0
    prev_active_on_p_conn := some 0
    streams_blocked_on_p_conn := blocked }

/-- A memory with the circuit `toy_inbound_circuit n blocked`, which is the
one active circuit of connection 1, and the given outbuf of connection 1. -/
def toy_inbound_state (n : Nat) (blocked : Bool) (outbuf : List Nat) : queue_state :=
  { circuits := [toy_inbound_circuit n blocked]
    conns := [⟨none, 2, [], 0⟩, ⟨some 0, 1, outbuf, 0⟩]
    pool := ⟨toy_cell_chain n, [], n⟩ }

/-- A relayed circuit whose next and previous connection are both the
connection 0, with the first `n` cells of the memory on its queue toward the
previous connection; it is in the ring of connection 0 through the links of
the next side, the links `next_circ_on_conn_p` picks for it. -/
def toy_aliased_circuit (n : Nat) : queued_circuit_t :=
  { toy_queued_circuit (some 0) (some 0) with
    p_conn := some 0
    p_conn_cells := ⟨some 0, some (n - 1), n⟩ }

/-- A memory with the circuit `toy_aliased_circuit n` and the given outbuf
of connection 0. -/
def toy_aliased_state (n : Nat) (outbuf : List Nat) : queue_state :=
  { circuits := [toy_aliased_circuit n]
    conns := [⟨some 0, 1, outbuf, 0⟩, ⟨none, 2, [], 0⟩]
    pool := ⟨toy_cell_chain n, [], n⟩ }

/-- A memory with two circuits in the ring of connection 0: circuit 0, the
head, holds the cells 0 and 1 and circuit 1 holds the cell 2; the outbuf of
connection 0 holds one byte. -/
def toy_flush_state : queue_state :=
  { circuits :=
      [{ toy_queued_circuit (some 1) (some 1) with n_conn_cells := ⟨some 0, some 1, 2⟩ },
       { toy_queued_circuit (some 0) (some 0) with n_conn_cells := ⟨some 2, some 2, 1⟩ }]
    conns := [⟨some 0, 2, [9], 0⟩, ⟨none, 2, [], 0⟩]
    pool := ⟨[⟨some 1, [7]⟩, ⟨none, [8]⟩, ⟨none, [6]⟩], [], 3⟩ }

/-! ## Layering rule of the receive path -/

/-- The layering rule of the spec for the receive path at the origin, in
terms of the crypto collaborator: for each hop listed in `hops`, in that
order, apply the backward cipher of the hop once to the payload and then
test recognition: the `recognized` field (bytes 1 and 2) is 0, and the
first four bytes of the backward digest of the hop, fed with the payload in
which the integrity bytes (5 to 8) are zeroed, are the integrity bytes of
the payload.  Stop with -1 at the first cipher that fails, and with 0 at the
first hop that authenticates the cell: the digest so fed is then left in
that hop and the payload keeps its integrity bytes zeroed.  When no hop is
left the result is -1.  Returns the status, the hops, the cell and the hop
that authenticated. -/
def apply_backward_ciphers {κ δ : Type} (ops : crypto_ops κ δ) :
    List Nat → List (crypt_path_t κ δ) → cell_t →
      Int × List (crypt_path_t κ δ) × cell_t × Option Nat
  | [], cpath, cell => (-1, cpath, cell, none)
  | i :: rest, cpath, cell =>
    match cpath[i]? with
    | none => (-1, cpath, cell, none)
    | some hop =>
      let res := ops.crypto_cipher_crypt_inplace hop.b_crypto cell.payload
      let cell1 := { cell with payload := res.2.2 }
      let cpath1 := cpath.set i { hop with b_crypto := res.2.1 }
      if res.1 ≠ 0 then (-1, cpath1, cell1, none)
      else
        let zeroed := buf_write res.2.2 5 [0, 0, 0, 0]
        let digest1 := ops.crypto_digest_add_bytes hop.b_digest zeroed
        if res.2.2.getD 1 0 = 0 ∧ res.2.2.getD 2 0 = 0 ∧
            ops.crypto_digest_get_digest digest1 4 = (res.2.2.drop 5).take 4 then
          (0, cpath.set i { hop with b_crypto := res.2.1, b_digest := digest1 },
            { cell with payload := zeroed }, some i)
        else apply_backward_ciphers ops rest cpath1 cell1

/-- Whether the hop at position `i` is open. -/
def hop_is_open {κ δ : Type} (cpath : List (crypt_path_t κ δ)) (i : Nat) : Bool :=
  match cpath[i]? with
  | none => false
  | some hop => hop.state == CPATH_STATE_OPEN

/-- The hops from the head, in list order, while their state is open. -/
def open_hops {κ δ : Type} (cpath : List (crypt_path_t κ δ)) : List Nat :=
  (List.range' 0 cpath.length).takeWhile (hop_is_open cpath)

/-- An origin circuit with two open hops whose second backward cipher leaves
the bytes as they are. -/
def toy_origin_plain : circuit_t Nat Nat :=
  { new_circuit true 0 0 with cpath := [new_hop 3 5 10 20, new_hop 7 0 30 40] }

/-- A cell travelling toward `toy_origin_plain` that its second hop
authenticates while the `recognized` field is already 0 after the first
hop: `toy_cell` with the integrity bytes 0, 0, 0, 51 of the backward digest
40 of the second hop, encrypted once for the first hop. -/
def toy_inbound_plain : cell_t :=
  { toy_cell with
    payload := (buf_write toy_cell.payload 5 [0, 0, 0, 51]).map (fun b => (b + 251) % 256) }

/-- A cell travelling toward `toy_origin` that its second hop authenticates:
`toy_cell` stamped from the backward digest 40 of that hop and encrypted
once for each of the two hops. -/
def toy_inbound : cell_t :=
  { (relay_set_digest toy_ops 40 toy_cell).2 with
    payload := (relay_set_digest toy_ops 40 toy_cell).2.payload.map (fun b => (b + 242) % 256) }

/-- A relayed circuit at a rendezvous point with no next connection. -/
def toy_splice_a : circuit_t Nat Nat :=
  { new_circuit false 0 0 with n_conn := none, purpose := CIRCUIT_PURPOSE_REND_ESTABLISHED }

/-- The relayed circuit `toy_splice_a` is spliced to; its previous
connection is 2 and its circuit id there is 7. -/
def toy_splice_b : circuit_t Nat Nat :=
  { new_circuit false 0 0 with purpose := CIRCUIT_PURPOSE_REND_ESTABLISHED, p_circ_id := 7 }

/-! ## Counting the circuit-level SENDME cells -/

/-- The `while` loop of `circuit_consider_sending_sendme`, which also
returns the values of its calls of `relay_send_command_from_edge`, in the
order made. -/
def circuit_consider_sending_sendme_loop_sends {κ δ : Type} (ops : crypto_ops κ δ) :
    Nat → circuit_t κ δ → Option Nat → Option (circuit_t κ δ × List Int)
  | 0, _, _ => none
  | fuel + 1, circ, layer_hint =>
    match circuit_deliver_window circ layer_hint with
    | none => none
    | some w =>
      if w < CIRCWINDOW_START - CIRCWINDOW_INCREMENT then
        match circuit_deliver_window_increment circ layer_hint with
        | none => none
        | some circ1 =>
          match relay_send_command_from_edge ops 0 circ1 RELAY_COMMAND_SENDME []
              layer_hint with
          | none => none
          | some (r, circ2) =>
            if r < 0 then some (circ2, [r])
            else
              (circuit_consider_sending_sendme_loop_sends ops fuel circ2 layer_hint).map
                (fun x => (x.1, r :: x.2))
      else some (circ, [])

/-- The function `circuit_consider_sending_sendme`, which also returns the
values of its calls of `relay_send_command_from_edge`. -/
def circuit_consider_sending_sendme_sends {κ δ : Type} (ops : crypto_ops κ δ)
    (circ : circuit_t κ δ) (layer_hint : Option Nat) : Option (circuit_t κ δ × List Int) :=
  match circuit_deliver_window circ layer_hint with
  | none => none
  | some w =>
    circuit_consider_sending_sendme_loop_sends ops
      ((CIRCWINDOW_START - CIRCWINDOW_INCREMENT - w).toNat / 100 + 2) circ layer_hint

/-- The number of SENDME cells the spec has for a deliver window `w`: the
ceiling of `(900 - w) / 100` when `w` is below 900, and none otherwise. -/
def sendme_cells_needed (w : Int) : Nat :=
  if w < 900 then ((900 - w + 99) / 100).toNat else 0

/-- Modelled from the spec: the conversions `%d` and `%ld` of `tor_asprintf`
(util.c, not under src): the decimal digits of the number, after a minus
sign when it is negative. -/
def format_d (n : Int) : List Char :=
  if n < 0 then '-' :: Nat.toDigits 10 n.natAbs else Nat.toDigits 10 n.toNat

/-- Modelled from the spec: the conversion `%02d` of `tor_asprintf`: as
`%d`, padded on the left with zeros to two characters. -/
def format_02d (n : Int) : List Char :=
  List.replicate (2 - (format_d n).length) '0' ++ format_d n

/-- Takes seconds `secs` and returns a human-readable uptime string
(`secs_to_uptime`); the divisions are those of C, which truncate. -/
def secs_to_uptime (secs : Int) : List Char :=
  let days := Int.tdiv secs 86400
  let hours := Int.tdiv (secs - days * 86400) 3600
  let minutes := Int.tdiv (secs - days * 86400 - hours * 3600) 60
  if days = 0 then format_d hours ++ [':'] ++ format_02d minutes
  else if days = 1 then
    format_d days ++ [' ', 'd', 'a', 'y', ' '] ++ format_d hours ++ [':'] ++ format_02d minutes
  else
    format_d days ++ [' ', 'd', 'a', 'y', 's', ' '] ++ format_d hours ++ [':'] ++
      format_02d minutes

/-- A number below 100 written with two digits, the first a zero when the
number is below 10. -/
def two_digits (m : Nat) : List Char := [Nat.digitChar (m / 10), Nat.digitChar (m % 10)]

/-! ## Ring membership and queue occupancy -/

/-- The payload of a relay cell as the spec has the send path assemble it:
the eleven header bytes in network order (the command, `recognized` 0, the
stream id, four zero integrity bytes, the length of the body), then the
body, then zeros up to `CELL_PAYLOAD_SIZE` bytes. -/
def relay_cell_payload (command stream_id : Nat) (body : List Nat) : List Nat :=
  [command % 256, 0, 0, stream_id / 256 % 256, stream_id % 256, 0, 0, 0, 0,
    body.length / 256 % 256, body.length % 256] ++ body ++
    List.replicate (RELAY_PAYLOAD_SIZE - body.length) 0

/-- The part of a circuit that sealing a relay cell reads and writes: the
kind of circuit, its two connections and circuit ids, the forward digest and
the forward cipher of each hop, the digest and the cipher toward the origin,
and the RELAY_EARLY bookkeeping. -/
structure seal_t (κ δ : Type) where
  /-- Whether the circuit is an origin circuit. -/
  is_origin : Bool
  /-- The next connection. -/
  n_conn : Option Nat
  /-- The previous connection. -/
  p_conn : Option Nat
  /-- Circuit id on the next connection. -/
  n_circ_id : Nat
  /-- Circuit id on the previous connection. -/
  p_circ_id : Nat
  /-- Forward digest of each hop, first hop first. -/
  f_digests : List δ
  /-- Forward cipher of each hop, first hop first. -/
  f_cryptos : List κ
  /-- Digest of cells sent toward the origin. -/
  p_digest : δ
  /-- Cipher toward the origin. -/
  p_crypto : κ
  /-- RELAY_EARLY cells that may still be sent. -/
  remaining_relay_early_cells : Int
  /-- Number of RELAY_EARLY cells sent. -/
  relay_early_cells_sent : Nat
  /-- Commands sent as RELAY_EARLY so far. -/
  relay_early_commands : List Nat
  deriving DecidableEq

/-- The part of a circuit that sealing a relay cell reads and writes. -/
def seal_view {κ δ : Type} (c : circuit_t κ δ) : seal_t κ δ :=
  { is_origin := c.is_origin, n_conn := c.n_conn, p_conn := c.p_conn,
    n_circ_id := c.n_circ_id, p_circ_id := c.p_circ_id,
    f_digests := c.cpath.map (fun h => h.f_digest),
    f_cryptos := c.cpath.map (fun h => h.f_crypto),
    p_digest := c.p_digest, p_crypto := c.p_crypto,
    remaining_relay_early_cells := c.remaining_relay_early_cells,
    relay_early_cells_sent := c.relay_early_cells_sent,
    relay_early_commands := c.relay_early_commands }

/-- The layering rule of the spec on the forward ciphers alone: one call of
the cipher collaborator for each hop listed in `hops`, in that order, on the
payload; stop with -1 at the first call that fails.  Returns the status, the
ciphers as the calls leave them, and the payload. -/
def seal_forward {κ δ : Type} (ops : crypto_ops κ δ) :
    List Nat → List κ → List Nat → Int × List κ × List Nat
  | [], ks, payload => (0, ks, payload)
  | i :: rest, ks, payload =>
    match ks[i]? with
    | none => (-1, ks, payload)
    | some k =>
      let res := ops.crypto_cipher_crypt_inplace k payload
      if res.1 ≠ 0 then (-1, ks.set i res.2.1, res.2.2)
      else seal_forward ops rest (ks.set i res.2.1) res.2.2

/-- The sealing rule of the spec for a cell that leaves an origin circuit for
the hop at position `l`, in terms of the crypto collaborator.  Without a
next connection the cell is dropped.  Else the forward digest of the target
hop is fed the payload, its first four bytes are written at offset 5, the
forward ciphers of the hops from the target toward the head are applied, and
the cell is handed to the queue of the next connection; a cipher that fails
gives -1 and no cell.  Returns the status, the state left, and the hand-over
made, if any. -/
def seal_outbound {κ δ : Type} (ops : crypto_ops κ δ) (s : seal_t κ δ) (l : Nat)
    (cell : cell_t) : Int × seal_t κ δ × List action :=
  match s.n_conn with
  | none => (0, s, [])
  | some nc =>
    match s.f_digests[l]? with
    | none => (-1, s, [])
    | some d =>
      let digest1 := ops.crypto_digest_add_bytes d cell.payload
      let stamped := buf_write cell.payload 5 (ops.crypto_digest_get_digest digest1 4)
      let res := seal_forward ops (hops_toward_head l) s.f_cryptos stamped
      let s1 := { s with f_digests := s.f_digests.set l digest1, f_cryptos := res.2.1 }
      if res.1 < 0 then (-1, s1, [])
      else
        (0, s1, [.append_cell_to_circuit_queue (some nc) { cell with payload := res.2.2 }
          CELL_DIRECTION_OUT])

/-- The sealing rule of the spec for a cell that a relayed circuit sends
toward the origin, in terms of the crypto collaborator: the digest toward
the origin is fed the payload, its first four bytes are written at offset 5,
the cipher toward the origin is applied once, and the cell is handed to the
queue of the previous connection; a cipher that fails gives -1 and no cell.
Returns the status, the state left, and the hand-over made, if any. -/
def seal_inbound {κ δ : Type} (ops : crypto_ops κ δ) (s : seal_t κ δ) (cell : cell_t) :
    Int × seal_t κ δ × List action :=
  let digest1 := ops.crypto_digest_add_bytes s.p_digest cell.payload
  let stamped := buf_write cell.payload 5 (ops.crypto_digest_get_digest digest1 4)
  let res := ops.crypto_cipher_crypt_inplace s.p_crypto stamped
  let s1 := { s with p_digest := digest1, p_crypto := res.2.1 }
  if res.1 ≠ 0 then (-1, s1, [])
  else
    (0, s1, [.append_cell_to_circuit_queue s.p_conn { cell with payload := res.2.2 }
      CELL_DIRECTION_IN])

/-- The sealing rule of the spec for one relay cell sent from the edge with
a command other than EXTEND.  The payload is assembled from the command, the
stream id and the body.  With a target hop (an origin circuit, the cell
travels away from the origin) the cell has the circuit id of the next side;
it is a RELAY_EARLY cell, and one is spent, when one is left and the target
is not the first hop; it is then sealed by `seal_outbound`.  Without a
target hop (a relayed circuit, the cell travels toward the origin) the cell
is a RELAY cell with the circuit id of the previous side, sealed by
`seal_inbound`.  Returns the status, the state left, and the hand-over made,
if any. -/
def seal_cell {κ δ : Type} (ops : crypto_ops κ δ) (s : seal_t κ δ) (layer : Option Nat)
    (stream_id command : Nat) (body : List Nat) : Int × seal_t κ δ × List action :=
  let plain := relay_cell_payload command stream_id body
  match layer with
  | some l =>
    if (decide (s.remaining_relay_early_cells > 0) && decide (l ≠ 0)) = true then
      seal_outbound ops
        { s with
          remaining_relay_early_cells := s.remaining_relay_early_cells - 1
          relay_early_commands := s.relay_early_commands.set s.relay_early_cells_sent
            (command % 256)
          relay_early_cells_sent := s.relay_early_cells_sent + 1 }
        l ⟨s.n_circ_id, CELL_RELAY_EARLY, plain⟩
    else seal_outbound ops s l ⟨s.n_circ_id, CELL_RELAY, plain⟩
  | none =>
    if s.is_origin then (-1, s, [])
    else seal_inbound ops s ⟨s.p_circ_id, CELL_RELAY, plain⟩

/-- The sealing rule for the relay cells of the bodies listed, in order, all
with the same command and stream id: each cell is sealed from the state the
one before left; the first cell that fails ends the run.  Returns the status
of the last cell sealed, the state left, and the hand-overs made, in
order. -/
def seal_cells {κ δ : Type} (ops : crypto_ops κ δ) (layer : Option Nat)
    (stream_id command : Nat) :
    seal_t κ δ → List (List Nat) → Int × seal_t κ δ × List action
  | s, [] => (0, s, [])
  | s, b :: bs =>
    let r := seal_cell ops s layer stream_id command b
    if r.1 < 0 then r
    else
      let r2 := seal_cells ops layer stream_id command r.2.1 bs
      (r2.1, r2.2.1, r.2.2 ++ r2.2.2)

/-- The hand-overs of cells to a cell queue among the calls recorded, in
order. -/
def queued_cells (t : List action) : List action :=
  t.filter (fun a =>
    match a with
    | .append_cell_to_circuit_queue _ _ _ => true
    | _ => false)

/-- The origin circuit `toy_origin` without its next connection, with the
deliver window 650 at its second hop. -/
def toy_origin_unlinked : circuit_t Nat Nat :=
  { toy_origin with
    n_conn := none
    cpath := [new_hop 3 5 10 20, { new_hop 7 9 30 40 with deliver_window := 650 }] }

/-- The payload of a circuit-level SENDME cell as `toy_exit` queues it when
its digest toward the origin reads `d`, a number below 256: the command
byte 5, the integrity field `d`, and zeros. -/
def toy_sendme_payload (d : Nat) : List Nat :=
  [5, 0, 0, 0, 0, 0, 0, 0, d, 0, 0] ++ List.replicate RELAY_PAYLOAD_SIZE 0

/-! ## Theorems -/

/-- The packed header occupies the first eleven bytes: for a valid header
the buffer after packing starts with the eleven wire bytes. -/
theorem relay_header_pack_bytes (dest : List Nat) (h : relay_header_t)
    (a b c d : Nat) (hi : h.integrity = [a, b, c, d]) :
    relay_header_pack dest h =
      [h.command % 256, h.recognized / 256 % 256, h.recognized % 256,
       h.stream_id / 256 % 256, h.stream_id % 256, a, b, c, d,
       h.length / 256 % 256, h.length % 256] ++ dest.drop 11 := by
  simp [relay_header_pack, set_uint16, buf_write, htons, hi, List.drop_drop]

/-- C1: for every relay header whose fields fit their C types,
`relay_header_unpack` applied to the bytes written by `relay_header_pack`
returns exactly that header (whatever the buffer held before). -/
theorem relay_header_unpack_pack (dest : List Nat) (h : relay_header_t)
    (hv : h.valid) : relay_header_unpack (relay_header_pack dest h) = h := by
  obtain ⟨hc, hr, hs, hl, hb, hlen⟩ := hv
  obtain ⟨cmd, rec, sid, integ, len⟩ := h
  simp only at hc hr hs hl hb hlen
  match integ, hl with
  | [a, b, c, d], _ =>
    rw [relay_header_pack_bytes dest _ a b c d rfl]
    simp only [relay_header_unpack, ntohs, get_uint16, List.getD_cons_zero,
      List.getD_cons_succ, List.cons_append, relay_header_t.mk.injEq, true_and]
    simp only [List.mem_cons, List.mem_singleton, forall_eq_or_imp, forall_eq] at hb
    refine ⟨?_, ?_, ?_, ?_⟩
    · omega
    · omega
    · omega
    · omega

/-- Reading back a packed header: the round trip that the crypto pipeline
uses, for a header whose fields fit their C types. -/
theorem relay_header_unpack_of_pack (dest : List Nat) (h : relay_header_t)
    (hv : h.valid) : relay_header_unpack (relay_header_pack dest h) = h := by
  obtain ⟨hc, hr, hs, hl, hb, hlen⟩ := hv
  obtain ⟨cmd, rec, sid, integ, len⟩ := h
  simp only at hc hr hs hl hb hlen
  match integ, hl with
  | [a, b, c, d], _ =>
    rw [relay_header_pack_bytes dest _ a b c d rfl]
    simp only [relay_header_unpack, ntohs, get_uint16, List.getD_cons_zero,
      List.getD_cons_succ, List.cons_append, relay_header_t.mk.injEq, true_and]
    simp only [List.mem_cons, List.mem_singleton, forall_eq_or_imp, forall_eq] at hb
    refine ⟨?_, ?_, ?_, ?_⟩
    · omega
    · omega
    · omega
    · omega

section crypto_theorems

variable {κ δ : Type}

/-- Packing the header read from a buffer of bytes leaves the buffer as is. -/
theorem relay_header_pack_unpack (p : List Nat) (hl : 11 ≤ p.length)
    (hb : ∀ b ∈ p, b < 256) : relay_header_pack p (relay_header_unpack p) = p := by
  match p, hl with
  | b0 :: b1 :: b2 :: b3 :: b4 :: b5 :: b6 :: b7 :: b8 :: b9 :: b10 :: rest, _ =>
    rw [relay_header_pack_bytes _ _ b5 b6 b7 b8 (by simp [relay_header_unpack])]
    simp only [List.mem_cons, forall_eq_or_imp] at hb
    obtain ⟨h0, h1, h2, h3, h4, h5, h6, h7, h8, h9, h10, -⟩ := hb
    simp only [relay_header_unpack, ntohs, get_uint16, List.getD_cons_zero,
      List.getD_cons_succ, List.drop_succ_cons, List.drop_zero, List.cons_append,
      List.nil_append, List.cons.injEq, and_true, true_and]
    refine ⟨?_, ?_, ?_, ?_, ?_, ?_, ?_⟩ <;> omega

/-- Packing twice is packing the second header. -/
theorem relay_header_pack_pack (p : List Nat) (h1 h2 : relay_header_t)
    (hl1 : h1.integrity.length = 4) (hl2 : h2.integrity.length = 4) :
    relay_header_pack (relay_header_pack p h1) h2 = relay_header_pack p h2 := by
  obtain ⟨c1, r1, s1, i1, l1⟩ := h1
  obtain ⟨c2, r2, s2, i2, l2⟩ := h2
  simp only at hl1 hl2
  match i1, hl1, i2, hl2 with
  | [a, b, c, d], _, [e, f, g, h], _ =>
    rw [relay_header_pack_bytes p _ a b c d rfl, relay_header_pack_bytes p _ e f g h rfl,
      relay_header_pack_bytes _ _ e f g h rfl]
    simp

/-- The header of a buffer of bytes is a valid header. -/
theorem relay_header_unpack_valid (p : List Nat) (hb : ∀ b ∈ p, b < 256) :
    (relay_header_unpack p).valid := by
  have hg : ∀ i, p.getD i 0 < 256 := by
    intro i
    rw [List.getD_eq_getElem?_getD]
    cases h : p[i]? with
    | none => simp
    | some v => simpa using hb v (List.getElem?_mem h)
  simp only [relay_header_t.valid, relay_header_unpack, ntohs, get_uint16,
    List.getD_cons_zero, List.getD_cons_succ, List.length_cons, List.length_nil,
    List.mem_cons, List.mem_singleton, forall_eq_or_imp, forall_eq]
  have h0 := hg 0; have h1 := hg 1; have h2 := hg (1+1); have h3 := hg 3
  have h4 := hg (3+1); have h5 := hg 5; have h6 := hg 6; have h7 := hg 7
  have h8 := hg 8; have h9 := hg 9; have h10 := hg (9+1)
  simp only [List.not_mem_nil, false_implies, implies_true, and_true, true_and]
  omega

variable (ops : crypto_ops κ δ)

/-- The length of a buffer of at least eleven bytes is kept by packing. -/
theorem relay_header_pack_length (p : List Nat) (h : relay_header_t)
    (hl : 11 ≤ p.length) (hi : h.integrity.length = 4) :
    (relay_header_pack p h).length = p.length := by
  obtain ⟨c, r, s, i, l⟩ := h
  simp only at hi
  match i, hi with
  | [a, b, c, d], _ =>
    rw [relay_header_pack_bytes p _ a b c d rfl]
    simp only [List.length_append, List.length_cons, List.length_nil, List.length_drop]
    omega

/-- A cell whose integrity bytes are zero, stamped by `relay_set_digest`, is
then matched by `relay_digest_matches` from the same digest: the answer is
yes, the digest is the one the sender is left with, and the payload is back
to what it was before the stamp. -/
theorem relay_digest_matches_after_set (hwf : ops.wf) (d : δ) (cell c1 : cell_t)
    (hl : 11 ≤ cell.payload.length) (hb : ∀ b ∈ cell.payload, b < 256)
    (hz : (relay_header_unpack cell.payload).integrity = [0, 0, 0, 0])
    (hc1 : c1.payload = (relay_set_digest ops d cell).2.payload) :
    relay_digest_matches ops d c1 =
      (true, (relay_set_digest ops d cell).1, { c1 with payload := cell.payload }) := by
  obtain ⟨-, -, hd4, hdb⟩ := hwf
  set d1 := ops.crypto_digest_add_bytes d (cell.payload.take CELL_PAYLOAD_SIZE) with hd1
  set dg := ops.crypto_digest_get_digest d1 4 with hdg
  have hv := relay_header_unpack_valid cell.payload hb
  have hv1 : ({ relay_header_unpack cell.payload with integrity := dg } : relay_header_t).valid := by
    obtain ⟨a, b, c, -, -, f⟩ := hv
    exact ⟨a, b, c, hd4 d1, hdb d1, f⟩
  have hu := relay_header_unpack_of_pack cell.payload _ hv1
  have hpp : relay_header_pack (relay_header_pack cell.payload
      { relay_header_unpack cell.payload with integrity := dg })
      { relay_header_unpack cell.payload with integrity := [0, 0, 0, 0] } = cell.payload := by
    rw [relay_header_pack_pack _ _ _ (hd4 d1) (by rfl)]
    have : ({ relay_header_unpack cell.payload with integrity := [0, 0, 0, 0] } : relay_header_t)
        = relay_header_unpack cell.payload := by
      rw [← hz]
    rw [this, relay_header_pack_unpack _ hl hb]
  simp only [relay_set_digest] at hc1
  simp only [relay_digest_matches, relay_set_digest, hc1]
  rw [hu]
  simp only [hpp, ← hd1, ← hdg, ne_eq, not_true_eq_false, if_false]

/-- When `relay_digest_matches` answers no, the digest and the cell are as
they were. -/
theorem relay_digest_matches_false (d : δ) (cell : cell_t)
    (hl : 11 ≤ cell.payload.length) (hb : ∀ b ∈ cell.payload, b < 256)
    (hm : (relay_digest_matches ops d cell).1 = false) :
    relay_digest_matches ops d cell = (false, d, cell) := by
  have hpp : relay_header_pack (relay_header_pack cell.payload
      { relay_header_unpack cell.payload with integrity := [0, 0, 0, 0] })
      (relay_header_unpack cell.payload) = cell.payload := by
    rw [relay_header_pack_pack _ _ _ (by rfl) (by rfl), relay_header_pack_unpack _ hl hb]
  unfold relay_digest_matches at hm ⊢
  simp only at hm ⊢
  split
  · simp only [hpp]
  · rename_i h
    rw [if_neg h] at hm
    simp at hm

/-- On a full payload `relay_crypt_one_payload` is the cipher call. -/
theorem relay_crypt_one_payload_full (c : κ) (inp : List Nat) (m : Nat)
    (hl : inp.length = CELL_PAYLOAD_SIZE) :
    relay_crypt_one_payload ops c inp m =
      (if (ops.crypto_cipher_crypt_inplace c inp).1 ≠ 0 then -1 else 0,
        (ops.crypto_cipher_crypt_inplace c inp).2.1,
        (ops.crypto_cipher_crypt_inplace c inp).2.2) := by
  have h1 : inp.take CELL_PAYLOAD_SIZE = inp := by
    rw [← hl]; exact List.take_length inp
  have h2 : inp.drop CELL_PAYLOAD_SIZE = [] := by
    rw [← hl]; exact List.drop_length inp
  unfold relay_crypt_one_payload
  simp only [h1, h2, List.append_nil]
  split <;> rfl

/-- A relay that does not recognize an outbound cell leaves `relay_crypt`
with the payload its cipher produced, and the cipher call succeeded. -/
theorem relay_crypt_out_unrecognized (hwf : ops.wf) (r r1 : circuit_t κ δ)
    (cell cell1 : cell_t) (st : Int) (h : Option Nat)
    (hl : cell.payload.length = CELL_PAYLOAD_SIZE)
    (hb : ∀ b ∈ cell.payload, b < 256)
    (hc : relay_crypt ops r cell CELL_DIRECTION_OUT = some (st, r1, cell1, h, false))
    (hst : ¬ st < 0) :
    (ops.crypto_cipher_crypt_inplace r.n_crypto cell.payload).1 = 0 ∧
    cell1.payload = (ops.crypto_cipher_crypt_inplace r.n_crypto cell.payload).2.2 := by
  obtain ⟨hlen, hbytes, -, -⟩ := hwf
  unfold relay_crypt at hc
  simp only [relay_crypt_one_payload_full ops _ _ _ hl] at hc
  by_cases ho : r.is_origin = true
  · simp [ho] at hc
  · simp only [ho, Bool.false_eq_true, if_false] at hc
    by_cases hs : (ops.crypto_cipher_crypt_inplace r.n_crypto cell.payload).1 = 0
    · refine ⟨hs, ?_⟩
      simp only [hs, ne_eq, not_true_eq_false, if_false, lt_self_iff_false] at hc
      split at hc
      · simp only [Option.some.injEq, Prod.mk.injEq] at hc
        obtain ⟨-, -, hcell, -, hm⟩ := hc
        have hl' : 11 ≤ (ops.crypto_cipher_crypt_inplace r.n_crypto cell.payload).2.2.length := by
          rw [hlen, hl]; decide
        have := relay_digest_matches_false ops r.n_digest
          { cell with payload := (ops.crypto_cipher_crypt_inplace r.n_crypto cell.payload).2.2 }
          hl' (hbytes _ _ hb) hm
        rw [this] at hcell
        rw [← hcell]
      · simp only [Option.some.injEq, Prod.mk.injEq] at hc
        rw [← hc.2.2.1]
    · simp only [hs, ne_eq, not_false_eq_true, if_true, Int.reduceNeg, Int.reduceLT,
        Option.some.injEq, Prod.mk.injEq] at hc
      exact absurd (by rw [← hc.1]; decide) hst

/-- The payload of a cell that `relay_forward_out` carries through relays is
the payload decrypted by each relay's cipher in turn, and each of those
cipher calls succeeds; the payload keeps its length. -/
theorem relay_forward_out_payload (hwf : ops.wf) (rs rs1 : List (circuit_t κ δ)) :
    ∀ (cell cell1 : cell_t), cell.payload.length = CELL_PAYLOAD_SIZE →
    (∀ b ∈ cell.payload, b < 256) →
    relay_forward_out ops rs cell = some (rs1, cell1) →
    cell1.payload = rs.foldl
      (fun p r => (ops.crypto_cipher_crypt_inplace r.n_crypto p).2.2) cell.payload := by
  induction rs generalizing rs1 with
  | nil =>
    intro cell cell1 _ _ h
    simp only [relay_forward_out, Option.some.injEq, Prod.mk.injEq] at h
    simp [h.2]
  | cons r rs ih =>
    intro cell cell1 hl hb h
    simp only [relay_forward_out] at h
    split at h
    · cases h
    · rename_i st r1 c1 hh recog hrc
      split at h
      · cases h
      · rename_i hcond
        simp only [not_or, Bool.not_eq_true] at hcond
        obtain ⟨hst, hrec⟩ := hcond
        subst hrec
        obtain ⟨hs, hp⟩ := relay_crypt_out_unrecognized ops hwf r r1 cell c1 st hh hl hb hrc hst
        simp only [Option.map_eq_some', Prod.mk.injEq] at h
        obtain ⟨⟨rs2, c2⟩, h2, -, hc2⟩ := h
        simp only at hc2
        subst hc2
        have hl1 : c1.payload.length = CELL_PAYLOAD_SIZE := by
          rw [hp, hwf.1, hl]
        have hb1 : ∀ b ∈ c1.payload, b < 256 := by
          rw [hp]; exact hwf.2.1 _ _ hb
        rw [ih rs2 c1 c2 hl1 hb1 h2, hp]
        simp


/-- The layered encryption of `circuit_package_relay_cell` is undone by the
ciphers of the relays before the target, in path order, up to the target
hop's own layer; the loop touches no digest. -/
theorem circuit_package_relay_cell_loop_decrypt (hwf : ops.wf) :
    ∀ (lh fuel : Nat) (cpath cpath1 : List (crypt_path_t κ δ))
      (payload q : List Nat) (front : List (circuit_t κ δ)),
    lh < cpath.length → payload.length = CELL_PAYLOAD_SIZE →
    (∀ b ∈ payload, b < 256) → front.length = lh →
    (∀ (i : Nat) (hop : crypt_path_t κ δ) (r : circuit_t κ δ),
      cpath[i]? = some hop → front[i]? = some r →
      cipher_inverts ops hop.f_crypto r.n_crypto) →
    ∀ r : Int, ¬ r < 0 →
    circuit_package_relay_cell_loop ops fuel cpath lh payload = some (r, cpath1, q) →
    ∃ hopL, cpath[lh]? = some hopL ∧
      (ops.crypto_cipher_crypt_inplace hopL.f_crypto payload).1 = 0 ∧
      front.foldl (fun p r => (ops.crypto_cipher_crypt_inplace r.n_crypto p).2.2) q =
        (ops.crypto_cipher_crypt_inplace hopL.f_crypto payload).2.2 ∧
      q.length = CELL_PAYLOAD_SIZE ∧ (∀ b ∈ q, b < 256) ∧
      ∀ i : Nat, (cpath1[i]?).map (fun h : crypt_path_t κ δ => h.f_digest) =
        (cpath[i]?).map (fun h : crypt_path_t κ δ => h.f_digest) := by
  intro lh
  induction lh with
  | zero =>
    intro fuel cpath cpath1 payload q front hlt hpl hpb hfl _ r hr hloop
    have hfront : front = [] := List.length_eq_zero.mp hfl
    subst hfront
    cases fuel with
    | zero => simp [circuit_package_relay_cell_loop] at hloop
    | succ fuel =>
      obtain ⟨hop, hhop⟩ : ∃ hop, cpath[0]? = some hop :=
        ⟨cpath[0], by simp [List.getElem?_eq_getElem hlt]⟩
      refine ⟨hop, hhop, ?_⟩
      simp only [circuit_package_relay_cell_loop, hhop,
        relay_crypt_one_payload_full ops _ _ _ hpl, ne_eq, not_true_eq_false, if_false] at hloop
      by_cases hs : (ops.crypto_cipher_crypt_inplace hop.f_crypto payload).1 = 0
      · simp only [hs, not_true_eq_false, if_false, lt_self_iff_false, Option.some.injEq,
          Prod.mk.injEq] at hloop
        obtain ⟨-, hc1, hq⟩ := hloop
        refine ⟨hs, by simp [hq], by rw [← hq, hwf.1, hpl], by rw [← hq]; exact hwf.2.1 _ _ hpb, ?_⟩
        intro i
        rw [← hc1, List.getElem?_set]
        split
        · rename_i hi; subst hi; simp [hhop]
        · rfl
      · simp only [hs, not_false_eq_true, if_true, Int.reduceNeg, Int.reduceLT,
          Option.some.injEq, Prod.mk.injEq] at hloop
        exact absurd (by rw [← hloop.1]; decide) hr
  | succ lh ih =>
    intro fuel cpath cpath1 payload q front hlt hpl hpb hfl hinv r hr hloop
    cases fuel with
    | zero => simp [circuit_package_relay_cell_loop] at hloop
    | succ fuel =>
      obtain ⟨hop, hhop⟩ : ∃ hop, cpath[lh + 1]? = some hop :=
        ⟨cpath[lh + 1], by simp [List.getElem?_eq_getElem hlt]⟩
      refine ⟨hop, hhop, ?_⟩
      have hprev : cpath_prev cpath (lh + 1) = lh := by simp [cpath_prev]
      have hne : lh ≠ cpath_prev cpath 0 := by simp [cpath_prev]; omega
      simp only [circuit_package_relay_cell_loop, hhop,
        relay_crypt_one_payload_full ops _ _ _ hpl, hprev] at hloop
      by_cases hs : (ops.crypto_cipher_crypt_inplace hop.f_crypto payload).1 = 0
      · simp only [hs, ne_eq, not_true_eq_false, if_false, lt_self_iff_false, hne,
          not_false_eq_true, if_true] at hloop
        have hfne : front ≠ [] := by
          intro h; rw [h] at hfl; simp at hfl
        have hdl := List.dropLast_append_getLast hfne
        set front1 := front.dropLast with hfront1
        set rl := front.getLast hfne with hrl
        have hfl1 : front1.length = lh := by
          rw [hfront1, List.length_dropLast, hfl]; rfl
        have hset : ∀ i : Nat, i ≠ lh + 1 →
            (cpath.set (lh + 1)
              { hop with f_crypto := (ops.crypto_cipher_crypt_inplace hop.f_crypto payload).2.1 })[i]?
              = cpath[i]? := by
          intro i hi
          rw [List.getElem?_set_ne (Ne.symm hi)]
        have hinv1 : ∀ (i : Nat) (hop1 : crypt_path_t κ δ) (r : circuit_t κ δ),
            (cpath.set (lh + 1)
              { hop with f_crypto := (ops.crypto_cipher_crypt_inplace hop.f_crypto payload).2.1 })[i]?
              = some hop1 → front1[i]? = some r →
            cipher_inverts ops hop1.f_crypto r.n_crypto := by
          intro i hop1 r h1 h2
          have hi : i < lh := by
            have := (List.getElem?_eq_some_iff.mp h2).1
            omega
          rw [hset i (by omega)] at h1
          refine hinv i hop1 r h1 ?_
          rw [← hdl, List.getElem?_append_left (by omega)]
          exact h2
        obtain ⟨hopL, hL, hsL, hfold, hql, hqb, hdig⟩ := ih fuel _ cpath1 _ q front1
          (by rw [List.length_set]; omega) (by rw [hwf.1, hpl]) (hwf.2.1 _ _ hpb) hfl1 hinv1 r hr hloop
        rw [hset lh (by omega)] at hL
        have hrl_at : front[lh]? = some rl := by
          rw [← hdl, List.getElem?_append_right (by omega)]
          simp [hfl1]
        have hinvL := hinv lh hopL rl hL hrl_at _ (hwf.2.1 _ _ hpb) hsL
        refine ⟨hs, ?_, hql, hqb, ?_⟩
        · rw [← hdl, List.foldl_append, hfold]
          simp only [List.foldl_cons, List.foldl_nil]
          exact hinvL.2
        · intro i
          rw [hdig i, List.getElem?_set]
          split
          · rename_i hi; subst hi; simp [hhop]
          · rfl
      · simp only [hs, ne_eq, not_false_eq_true, if_true, Int.reduceNeg, Int.reduceLT,
          Option.some.injEq, Prod.mk.injEq] at hloop
        exact absurd (by rw [← hloop.1]; decide) hr


/-- Packing a header whose fields are bytes into a buffer of bytes gives
bytes. -/
theorem relay_header_pack_lt (p : List Nat) (h : relay_header_t)
    (hb : ∀ b ∈ p, b < 256) (hi : h.integrity.length = 4)
    (hib : ∀ b ∈ h.integrity, b < 256) : ∀ b ∈ relay_header_pack p h, b < 256 := by
  obtain ⟨c, r, s, i, l⟩ := h
  simp only at hi hib
  match i, hi with
  | [a, b, c, d], _ =>
    rw [relay_header_pack_bytes _ _ a b c d rfl]
    intro x hx
    simp only [List.mem_append, List.mem_cons, List.mem_singleton, List.not_mem_nil,
      or_false, forall_eq_or_imp, forall_eq] at hx hib
    rcases hx with hx | hx
    · rcases hx with h | h | h | h | h | h | h | h | h | h | h <;> subst h <;> omega
    · exact hb x (List.mem_of_mem_drop hx)

/-- What `relay_set_digest` leaves in the cell: a full payload of bytes with
the `recognized` field untouched. -/
theorem relay_set_digest_payload (hwf : ops.wf) (d : δ) (cell : cell_t)
    (hlen : cell.payload.length = CELL_PAYLOAD_SIZE)
    (hbytes : ∀ b ∈ cell.payload, b < 256) :
    (relay_set_digest ops d cell).2.payload.length = CELL_PAYLOAD_SIZE ∧
    (∀ b ∈ (relay_set_digest ops d cell).2.payload, b < 256) ∧
    (relay_header_unpack (relay_set_digest ops d cell).2.payload).recognized =
      (relay_header_unpack cell.payload).recognized ∧
    (relay_set_digest ops d cell).2.circ_id = cell.circ_id ∧
    (relay_set_digest ops d cell).2.command = cell.command := by
  have h11 : 11 ≤ cell.payload.length := by rw [hlen]; decide
  have hv := relay_header_unpack_valid cell.payload hbytes
  obtain ⟨-, -, hd4, hdb⟩ := hwf
  simp only [relay_set_digest]
  refine ⟨?_, ?_, ?_⟩
  · rw [relay_header_pack_length _ _ h11 (hd4 _), hlen]
  · exact relay_header_pack_lt _ _ hbytes (hd4 _) (hdb _)
  · have hv1 : ({ relay_header_unpack cell.payload with
        integrity := ops.crypto_digest_get_digest
          (ops.crypto_digest_add_bytes d (List.take CELL_PAYLOAD_SIZE cell.payload)) 4 } :
        relay_header_t).valid := by
      obtain ⟨a, b, c, -, -, f⟩ := hv
      exact ⟨a, b, c, hd4 _, hdb _, f⟩
    rw [relay_header_unpack_of_pack _ _ hv1]
    simp

/-- `relay_forward_out` changes neither the circuit id nor the command of the
cell it carries. -/
theorem relay_forward_out_ids (rs rs1 : List (circuit_t κ δ)) :
    ∀ (cell cell1 : cell_t), relay_forward_out ops rs cell = some (rs1, cell1) →
    cell1.circ_id = cell.circ_id ∧ cell1.command = cell.command := by
  induction rs generalizing rs1 with
  | nil =>
    intro cell cell1 h
    simp only [relay_forward_out, Option.some.injEq, Prod.mk.injEq] at h
    simp [h.2]
  | cons r rs ih =>
    intro cell cell1 h
    simp only [relay_forward_out] at h
    split at h
    · cases h
    · rename_i st r1 c1 hh recog hrc
      split at h
      · cases h
      · simp only [Option.map_eq_some', Prod.mk.injEq] at h
        obtain ⟨⟨rs2, c2⟩, h2, -, hc2⟩ := h
        simp only at hc2
        subst hc2
        obtain ⟨i1, i2⟩ := ih rs2 c1 c2 h2
        rw [i1, i2]
        unfold relay_crypt at hrc
        simp only at hrc
        split at hrc
        · cases hrc
        · split at hrc
          · simp only [Option.some.injEq, Prod.mk.injEq] at hrc
            rw [← hrc.2.2.1]; exact ⟨rfl, rfl⟩
          · split at hrc
            · simp only [Option.some.injEq, Prod.mk.injEq] at hrc
              rw [← hrc.2.2.1]
              unfold relay_digest_matches
              simp only
              split <;> exact ⟨rfl, rfl⟩
            · simp only [Option.some.injEq, Prod.mk.injEq] at hrc
              rw [← hrc.2.2.1]; exact ⟨rfl, rfl⟩


/-- C2: on a path whose relays' next-side ciphers undo the origin's forward
ciphers hop by hop, and whose last relay holds the digest state of the
origin's target hop, a relay cell with zero `recognized` and zero integrity
bytes that the origin packages for the target hop
(`circuit_package_relay_cell`, outbound) and that the relays before the
target pass on (`relay_crypt`, outbound, at each in order) is recognized by
`relay_crypt` at the target relay; its payload there is the plaintext the
origin built, and the relay's digest after the commit is the origin's
forward digest for that hop after sending. -/
theorem package_relay_cell_recognized_at_target (hwf : ops.wf)
    (oc oc1 : circuit_t κ δ) (lh : Nat) (cell cellE cellM : cell_t)
    (front front1 : List (circuit_t κ δ)) (last : circuit_t κ δ)
    (hopT : crypt_path_t κ δ)
    (horigin : oc.is_origin = true) (hconn : oc.n_conn.isSome = true)
    (hhop : oc.cpath[lh]? = some hopT)
    (hlen : cell.payload.length = CELL_PAYLOAD_SIZE)
    (hbytes : ∀ b ∈ cell.payload, b < 256)
    (hrec : (relay_header_unpack cell.payload).recognized = 0)
    (hint : (relay_header_unpack cell.payload).integrity = [0, 0, 0, 0])
    (hfl : front.length = lh)
    (hinv : ∀ (i : Nat) (hop : crypt_path_t κ δ) (r : circuit_t κ δ),
      oc.cpath[i]? = some hop → (front ++ [last])[i]? = some r →
      cipher_inverts ops hop.f_crypto r.n_crypto)
    (hdig : last.n_digest = hopT.f_digest)
    (hlast : last.is_origin = false)
    (hpkg : circuit_package_relay_cell ops cell oc CELL_DIRECTION_OUT (some lh) =
      some (0, oc1, cellE))
    (hfwd : relay_forward_out ops front cellE = some (front1, cellM)) :
    ∃ (last1 : circuit_t κ δ) (cellK : cell_t) (hop1 : crypt_path_t κ δ),
      relay_crypt ops last cellM CELL_DIRECTION_OUT = some (0, last1, cellK, none, true) ∧
      cellK.payload = cell.payload ∧
      oc1.cpath[lh]? = some hop1 ∧ last1.n_digest = hop1.f_digest ∧
      oc1.trace = oc.trace ++
        [.append_cell_to_circuit_queue oc.n_conn cellE CELL_DIRECTION_OUT] := by
  have hlt : lh < oc.cpath.length := (List.getElem?_eq_some_iff.mp hhop).1
  have h11 : 11 ≤ cell.payload.length := by rw [hlen]; decide
  obtain ⟨hsdl, hsdb, hsdrec, -, -⟩ :=
    relay_set_digest_payload ops hwf hopT.f_digest cell hlen hbytes
  rw [hrec] at hsdrec
  set sd := relay_set_digest ops hopT.f_digest cell with hsd
  -- unfold the packaging
  unfold circuit_package_relay_cell at hpkg
  have hnc : oc.n_conn.isNone = false := by
    cases h : oc.n_conn <;> simp_all
  simp only [horigin, Bool.not_true, Bool.false_or, hhop, hnc, Bool.false_eq_true,
    if_false, ← hsd] at hpkg
  split at hpkg
  · cases hpkg
  · rename_i r cpath1 payload1 hloop
    rw [List.length_set] at hloop
    by_cases hr : r < 0
    · simp [hr] at hpkg
    · simp only [hr, if_false, Option.some.injEq, Prod.mk.injEq, true_and] at hpkg
      obtain ⟨hoc1, hcellE⟩ := hpkg
      have hinv0 : ∀ (i : Nat) (hop : crypt_path_t κ δ) (r : circuit_t κ δ),
          (oc.cpath.set lh { hopT with f_digest := sd.1 })[i]? = some hop →
          front[i]? = some r → cipher_inverts ops hop.f_crypto r.n_crypto := by
        intro i hop r h1 h2
        have hi : i < lh := by
          have := (List.getElem?_eq_some_iff.mp h2).1
          omega
        rw [List.getElem?_set_ne (by omega)] at h1
        refine hinv i hop r h1 ?_
        rw [List.getElem?_append_left (by omega)]
        exact h2
      obtain ⟨hopL, hL, hsL, hfold, hql, hqb, hdigs⟩ :=
        circuit_package_relay_cell_loop_decrypt ops hwf lh _ _ cpath1 _ payload1 front
          (by rw [List.length_set]; exact hlt) hsdl hsdb hfl hinv0 r hr hloop
      rw [List.getElem?_set_self hlt] at hL
      simp only [Option.some.injEq] at hL
      subst hL
      simp only at hsL hfold
      -- the cell at the target relay
      have hEp : cellE.payload = payload1 := by rw [← hcellE]
      have hMp := relay_forward_out_payload ops hwf front front1 cellE cellM
        (by rw [hEp]; exact hql) (by rw [hEp]; exact hqb) hfwd
      rw [hEp, hfold] at hMp
      have hMl : cellM.payload.length = CELL_PAYLOAD_SIZE := by
        rw [hMp, hwf.1]; exact hsdl
      have hlast_at : (front ++ [last])[lh]? = some last := by
        rw [List.getElem?_append_right (by omega)]
        simp [hfl]
      obtain ⟨hd0, hdp⟩ := hinv lh hopT last hhop hlast_at _ hsdb hsL
      rw [← hMp] at hd0 hdp
      have hmatch := relay_digest_matches_after_set ops hwf hopT.f_digest cell
        { cellM with payload := sd.2.payload } h11 hbytes hint rfl
      rw [← hsd] at hmatch
      simp only at hmatch
      have hdig1 := hdigs lh
      rw [List.getElem?_set_self hlt] at hdig1
      simp only [Option.map_some'] at hdig1
      obtain ⟨hop1, hhop1⟩ : ∃ hop1, cpath1[lh]? = some hop1 := by
        cases h : cpath1[lh]? with
        | none => rw [h] at hdig1; simp at hdig1
        | some v => exact ⟨v, rfl⟩
      rw [hhop1] at hdig1
      simp only [Option.map_some', Option.some.injEq] at hdig1
      refine ⟨{ last with
          n_crypto := (ops.crypto_cipher_crypt_inplace last.n_crypto cellM.payload).2.1
          n_digest := sd.1 }, { cellM with payload := cell.payload }, hop1, ?_, ?_, ?_, ?_, ?_⟩
      · unfold relay_crypt
        simp only [hlast, Bool.false_eq_true, if_false,
          relay_crypt_one_payload_full ops _ _ _ hMl, hd0, ne_eq, not_true_eq_false,
          lt_self_iff_false, hdp, hsdrec, if_true, hdig, hmatch]
      · rfl
      · rw [← hoc1]; exact hhop1
      · rw [hdig1]
      · rw [← hoc1, ← hcellE]; rfl

end crypto_theorems

/-- The small crypto collaborator is well formed. -/
theorem toy_ops_wf : toy_ops.wf := by
  refine ⟨?_, ?_, ?_, ?_⟩
  · intro c p; simp [toy_ops]
  · intro c p _ b hb
    simp only [toy_ops, List.mem_map] at hb
    obtain ⟨a, -, rfl⟩ := hb
    exact Nat.mod_lt _ (by decide)
  · intro d; rfl
  · intro d b hb
    simp only [toy_ops, List.mem_cons, List.mem_singleton, List.not_mem_nil, or_false] at hb
    rcases hb with h | h | h | h <;> subst h <;> exact Nat.mod_lt _ (by decide)

/-- In the small crypto collaborator the key `256 - k` undoes the key `k`. -/
theorem toy_cipher_inverts (k : Nat) (hk : k ≤ 256) : cipher_inverts toy_ops k (256 - k) := by
  intro p hp _
  refine ⟨rfl, ?_⟩
  simp only [toy_ops, List.map_map]
  conv_rhs => rw [← List.map_id p]
  apply List.map_congr_left
  intro b hb
  have := hp b hb
  simp only [Function.comp_apply, id_eq]
  omega

set_option maxRecDepth 100000 in
/-- C2 at a two-hop path: the cell packaged at `toy_origin` for its second
hop and passed on by the first relay is recognized at the second. -/
theorem package_relay_cell_recognized_at_target_witness : ∃ (last1 : circuit_t Nat Nat) (cellK : cell_t) (hop1 : crypt_path_t Nat Nat),
      relay_crypt toy_ops toy_relay2 toy_cellM CELL_DIRECTION_OUT =
        some (0, last1, cellK, none, true) ∧
      cellK.payload = toy_cell.payload ∧
      toy_oc1.cpath[1]? = some hop1 ∧ last1.n_digest = hop1.f_digest ∧
      toy_oc1.trace = toy_origin.trace ++
        [.append_cell_to_circuit_queue toy_origin.n_conn toy_cellE CELL_DIRECTION_OUT] :=
  package_relay_cell_recognized_at_target toy_ops toy_ops_wf toy_origin toy_oc1 1 toy_cell
    toy_cellE toy_cellM [toy_relay1] toy_front1 toy_relay2 (new_hop 7 9 30 40)
    rfl rfl rfl (by decide) (by decide) (by decide) (by decide) rfl
    (by
      intro i hop r h1 h2
      match i with
      | 0 =>
        simp only [toy_origin, List.getElem?_cons_zero, Option.some.injEq] at h1
        simp only [List.singleton_append, List.getElem?_cons_zero, Option.some.injEq] at h2
        subst h1; subst h2
        exact toy_cipher_inverts 3 (by decide)
      | 1 =>
        simp only [toy_origin, List.getElem?_cons_succ, List.getElem?_cons_zero,
          Option.some.injEq] at h1
        simp only [List.singleton_append, List.getElem?_cons_succ, List.getElem?_cons_zero,
          Option.some.injEq] at h2
        subst h1; subst h2
        exact toy_cipher_inverts 7 (by decide)
      | n + 2 => simp [toy_origin] at h1)
    rfl rfl (by rfl) (by rfl)

section dispatch_theorems

variable {κ δ : Type} (ops : crypto_ops κ δ) (env : collaborators)

@[simp] theorem get_conn_emit (c : circuit_t κ δ) (a : action) (r : conn_ref) :
    (c.emit a).get_conn r = c.get_conn r := rfl

@[simp] theorem trace_emit (c : circuit_t κ δ) (a : action) :
    (c.emit a).trace = c.trace ++ [a] := rfl

@[simp] theorem trace_set_conn (c : circuit_t κ δ) (r : conn_ref) (e : edge_connection_t) :
    (c.set_conn r e).trace = c.trace := by
  unfold circuit_t.set_conn; split <;> rfl

@[simp] theorem timestamp_dirty_set_conn (c : circuit_t κ δ) (r : conn_ref)
    (e : edge_connection_t) : (c.set_conn r e).timestamp_dirty = c.timestamp_dirty := by
  unfold circuit_t.set_conn; split <;> rfl

/-- Reading back a stream just stored gives the stored stream, when the
pointer is valid. -/
theorem get_conn_set_conn_self (c : circuit_t κ δ) (r : conn_ref)
    (e e1 : edge_connection_t) (h : c.get_conn r = some e) :
    (c.set_conn r e1).get_conn r = some e1 := by
  unfold circuit_t.get_conn at h ⊢
  unfold circuit_t.set_conn
  split at h <;> rename_i hl <;> simp only [hl] <;>
    exact List.getElem?_set_self (List.getElem?_eq_some_iff.mp h).1

/-- C7 at the failing input: for an END cell whose reason byte is TIMEOUT on
a stream that is not marked, `connection_ap_process_end_not_open` neither
increments the failure count nor retries: its only call is
`connection_mark_unattached_ap` with the reason TIMEOUT and the remote
flag, and the stream ends marked for close. -/
theorem connection_ap_process_end_not_open_timeout (circ : circuit_t κ δ)
    (conn : conn_ref) (e : edge_connection_t) (rh : relay_header_t) (cell : cell_t)
    (layer_hint : Option Nat)
    (hget : circ.get_conn conn = some e) (hmark : e.marked_for_close = false)
    (hreason : cell.payload.getD RELAY_HEADER_SIZE 0 = 7) :
    connection_ap_process_end_not_open env rh cell circ conn layer_hint =
      some (0, (circ.set_conn conn { e with marked_for_close := true }).emit
        (.connection_mark_unattached_ap conn
          (Int.lor END_STREAM_REASON_TIMEOUT END_STREAM_REASON_FLAG_REMOTE))) := by
  have hr : char_to_int (cell.payload.getD RELAY_HEADER_SIZE 0) = END_STREAM_REASON_TIMEOUT := by
    rw [hreason]; decide
  have hnr : edge_reason_is_retriable END_STREAM_REASON_TIMEOUT = false := by decide
  unfold connection_ap_process_end_not_open
  simp only [hget, hr, hnr, Bool.and_false, Bool.false_and, Bool.false_eq_true, if_false,
    hmark, Bool.not_false, if_true, connection_mark_unattached_ap, Option.map_some']


/-- Marking a client stream unattached: the call is recorded and the stream
is marked. -/
theorem connection_mark_unattached_ap_spec (c : circuit_t κ δ) (conn : conn_ref)
    (e : edge_connection_t) (reason : Int) (h : c.get_conn conn = some e) :
    ∃ c1 : circuit_t κ δ, connection_mark_unattached_ap c conn reason = some c1 ∧
      c1.trace = c.trace ++ [.connection_mark_unattached_ap conn reason] ∧
      c1.get_conn conn = some { e with marked_for_close := true } := by
  refine ⟨(c.set_conn conn { e with marked_for_close := true }).emit
    (.connection_mark_unattached_ap conn reason), ?_, by simp, ?_⟩
  · simp only [connection_mark_unattached_ap, h]
  · rw [get_conn_emit, get_conn_set_conn_self _ _ e _ h]

/-- Clearing the chosen exit of a stream keeps the trace and the mark. -/
theorem clear_chosen_exit_spec (c : circuit_t κ δ) (conn : conn_ref)
    (e : edge_connection_t) (b : Bool) (h : c.get_conn conn = some e) :
    ∃ (c1 : circuit_t κ δ) (e1 : edge_connection_t),
      clear_chosen_exit c conn b = some c1 ∧ c1.trace = c.trace ∧
      c1.get_conn conn = some e1 ∧ c1.timestamp_dirty = c.timestamp_dirty := by
  refine ⟨c.set_conn conn
      { e with chosen_exit_optional := false, chosen_exit_name := none,
               chosen_exit_retries := if b then 0 else e.chosen_exit_retries },
    { e with chosen_exit_optional := false, chosen_exit_name := none,
             chosen_exit_retries := if b then 0 else e.chosen_exit_retries }, ?_, by simp, ?_, by simp⟩
  · simp only [clear_chosen_exit, h, Option.map_some']
  · exact get_conn_set_conn_self _ _ e _ h

/-- The call of `connection_ap_detach_retriable` is recorded and returns. -/
theorem connection_ap_detach_retriable_spec (c : circuit_t κ δ) (conn : conn_ref)
    (e : edge_connection_t) (reason : Int) (h : c.get_conn conn = some e) :
    ∃ (c1 : circuit_t κ δ) (e1 : edge_connection_t) (r : Int),
      connection_ap_detach_retriable env c conn reason = some (r, c1) ∧
      c1.trace = c.trace ++ [.connection_ap_detach_retriable conn reason] ∧
      c1.get_conn conn = some e1 := by
  refine ⟨(c.set_conn conn
      { e with marked_for_close :=
          e.marked_for_close || (env.connection_ap_detach_retriable e reason).2 }).emit
      (.connection_ap_detach_retriable conn reason),
    { e with marked_for_close :=
          e.marked_for_close || (env.connection_ap_detach_retriable e reason).2 },
    (env.connection_ap_detach_retriable e reason).1, ?_, by simp, ?_⟩
  · simp only [connection_ap_detach_retriable, h]
  · rw [get_conn_emit, get_conn_set_conn_self _ _ e _ h]

/-- The RESOLVEFAILED case: the failure count is incremented first; below
the bound the stream is detached for a retry, at the bound the count is
cleared and the case leaves the stream to be closed. -/
theorem end_not_open_resolvefailed_spec (circ : circuit_t κ δ) (conn : conn_ref)
    (e : edge_connection_t) (sr : socks_request_t) (cr : Int)
    (hget : circ.get_conn conn = some e) (hsocks : e.socks_request = some sr)
    (hdirty : circ.timestamp_dirty ≠ 0) :
    ∃ (ret : Bool) (c1 : circuit_t κ δ),
      end_not_open_resolvefailed env circ conn cr = some (ret, c1) ∧
      (env.client_dns_incr_failures sr.address < MAX_RESOLVE_FAILURES →
        (∃ e1, c1.get_conn conn = some e1) ∧
        c1.trace = circ.trace ++
          [.client_dns_incr_failures sr.address, .connection_ap_detach_retriable conn cr]) ∧
      (¬ env.client_dns_incr_failures sr.address < MAX_RESOLVE_FAILURES →
        ret = false ∧ c1.get_conn conn = some e ∧
        c1.trace = circ.trace ++
          [.client_dns_incr_failures sr.address, .client_dns_clear_failures sr.address]) := by
  unfold end_not_open_resolvefailed
  simp only [hget, hsocks]
  by_cases hn : env.client_dns_incr_failures sr.address < MAX_RESOLVE_FAILURES
  · simp only [hn, if_true, not_true_eq_false, false_implies, and_true, true_implies]
    have hd : (circ.emit (.client_dns_incr_failures sr.address)).timestamp_dirty ≠ 0 := hdirty
    simp only [hd, if_false]
    set c2 : circuit_t κ δ :=
      { circ.emit (.client_dns_incr_failures sr.address) with
        timestamp_dirty :=
          (circ.emit (.client_dns_incr_failures sr.address)).timestamp_dirty -
            env.MaxCircuitDirtiness } with hc2
    have hget2 : c2.get_conn conn = some e := hget
    have htr2 : c2.trace = circ.trace ++ [.client_dns_incr_failures sr.address] := rfl
    by_cases hopt : e.chosen_exit_optional = true
    · simp only [hopt, if_true]
      obtain ⟨c3, e3, h3, ht3, hg3, -⟩ := clear_chosen_exit_spec c2 conn e false hget2
      obtain ⟨c4, e4, r4, h4, ht4, hg4⟩ :=
        connection_ap_detach_retriable_spec env c3 conn e3 cr hg3
      simp only [h3, h4]
      exact ⟨_, _, rfl, ⟨e4, hg4⟩, by rw [ht4, ht3, htr2]; simp⟩
    · simp only [hopt, Bool.false_eq_true, if_false]
      obtain ⟨c4, e4, r4, h4, ht4, hg4⟩ :=
        connection_ap_detach_retriable_spec env c2 conn e cr hget2
      simp only [h4]
      exact ⟨_, _, rfl, ⟨e4, hg4⟩, by rw [ht4, htr2]; simp⟩
  · simp only [hn, if_false, not_false_eq_true, true_implies, false_implies, true_and]
    exact ⟨_, _, rfl, rfl, hget, by simp⟩

/-- C8: for an END cell with reason RESOLVEFAILED or MISC and a non-empty
payload, on an unopened, unmarked client stream that is not a rendezvous
stream, `connection_ap_process_end_not_open` first calls
`client_dns_incr_failures`; if the value returned is below
`MAX_RESOLVE_FAILURES` its next call is `connection_ap_detach_retriable`
(after which the only call it may still make is the closing
`connection_mark_unattached_ap`); otherwise it calls
`client_dns_clear_failures` and then marks the stream closed with the
received reason carrying the remote flag, and never calls
`connection_ap_detach_retriable`. -/
theorem connection_ap_process_end_not_open_resolvefailed (circ : circuit_t κ δ)
    (conn : conn_ref) (e : edge_connection_t) (sr : socks_request_t)
    (rh : relay_header_t) (cell : cell_t) (layer_hint : Option Nat) (b : Nat)
    (hget : circ.get_conn conn = some e) (hmark : e.marked_for_close = false)
    (hrend : e.is_rendezvous_stream = false) (hsocks : e.socks_request = some sr)
    (hlen : 0 < rh.length) (hdirty : circ.timestamp_dirty ≠ 0)
    (hbyte : cell.payload.getD RELAY_HEADER_SIZE 0 = b)
    (hreason : (b : Int) = END_STREAM_REASON_RESOLVEFAILED ∨
      (b : Int) = END_STREAM_REASON_MISC) :
    ∃ circ1 : circuit_t κ δ,
      connection_ap_process_end_not_open env rh cell circ conn layer_hint =
        some (0, circ1) ∧
      (env.client_dns_incr_failures sr.address < MAX_RESOLVE_FAILURES →
        ∃ rest : List action,
          circ1.trace = circ.trace ++
            [.client_dns_incr_failures sr.address,
             .connection_ap_detach_retriable conn
               (Int.lor b END_STREAM_REASON_FLAG_REMOTE)] ++ rest ∧
          ∀ a ∈ rest, a = .connection_mark_unattached_ap conn
            (Int.lor b END_STREAM_REASON_FLAG_REMOTE)) ∧
      (¬ env.client_dns_incr_failures sr.address < MAX_RESOLVE_FAILURES →
        circ1.trace = circ.trace ++
          [.client_dns_incr_failures sr.address,
           .client_dns_clear_failures sr.address,
           .connection_mark_unattached_ap conn
             (Int.lor b END_STREAM_REASON_FLAG_REMOTE)] ∧
        (circ1.get_conn conn).map (fun s => s.marked_for_close) = some true) := by
  have hb : b = 2 ∨ b = 1 := by
    rcases hreason with h | h
    · left; unfold END_STREAM_REASON_RESOLVEFAILED at h; omega
    · right; unfold END_STREAM_REASON_MISC at h; omega
  have hr : char_to_int (cell.payload.getD RELAY_HEADER_SIZE 0) = (b : Int) := by
    rw [hbyte]; rcases hb with h | h <;> subst h <;> decide
  have hretri : edge_reason_is_retriable (b : Int) = true := by
    rcases hb with h | h <;> subst h <;> decide
  have hcase : ((b : Int) = END_STREAM_REASON_EXITPOLICY) = False ∧
      ((b : Int) = END_STREAM_REASON_CONNECTREFUSED) = False ∧
      ((b : Int) = END_STREAM_REASON_RESOLVEFAILED ∨ (b : Int) = END_STREAM_REASON_TIMEOUT ∨
        (b : Int) = END_STREAM_REASON_MISC) = True := by
    rcases hb with h | h <;> subst h <;> simp <;> decide
  obtain ⟨hc1, hc2, hc3⟩ := hcase
  unfold connection_ap_process_end_not_open
  simp only [hget, hr, hretri, hrend, hlen, hsocks, decide_True, Bool.and_self, Bool.not_false,
    if_true, Option.isNone_some, Bool.false_eq_true, if_false, hc1, hc2, hc3]
  obtain ⟨ret, c1, hcase, hlt, hge⟩ := end_not_open_resolvefailed_spec env circ conn e sr
    (Int.lor b END_STREAM_REASON_FLAG_REMOTE) hget hsocks hdirty
  simp only [hcase]
  by_cases hn : env.client_dns_incr_failures sr.address < MAX_RESOLVE_FAILURES
  · obtain ⟨⟨e1, hg1⟩, ht1⟩ := hlt hn
    simp only [hn, not_true_eq_false, false_implies, and_true, true_implies]
    cases ret with
    | true => exact ⟨c1, rfl, [], by rw [ht1]; simp, by simp⟩
    | false =>
      simp only [hg1]
      by_cases hm : e1.marked_for_close = true
      · simp only [hm, Bool.not_true, Bool.false_eq_true, if_false]
        exact ⟨c1, rfl, [], by rw [ht1]; simp, by simp⟩
      · obtain ⟨c2, h2, ht2, -⟩ := connection_mark_unattached_ap_spec c1 conn e1
          (Int.lor b END_STREAM_REASON_FLAG_REMOTE) hg1
        simp only [hm, Bool.not_false, if_true, h2, Option.map_some']
        refine ⟨c2, rfl, [.connection_mark_unattached_ap conn
          (Int.lor b END_STREAM_REASON_FLAG_REMOTE)], ?_, by simp⟩
        rw [ht2, ht1]
  · obtain ⟨hret, hg1, ht1⟩ := hge hn
    subst hret
    obtain ⟨c2, h2, ht2, hg2⟩ := connection_mark_unattached_ap_spec c1 conn e
      (Int.lor b END_STREAM_REASON_FLAG_REMOTE) hg1
    simp only [hn, not_false_eq_true, true_implies, false_implies, true_and, hg1, hmark,
      Bool.not_false, if_true, h2, Option.map_some']
    refine ⟨c2, rfl, ?_, ?_⟩
    · rw [ht2, ht1]; simp
    · rw [hg2]; rfl


/-- The layered decryption at the origin either names the recognizing hop
or fails: a result without a hop has status -1. -/
theorem relay_crypt_loop_unrecognized :
    ∀ (fuel : Nat) (cpath cpath1 : List (crypt_path_t κ δ)) (thishop : Nat)
      (cell cell1 : cell_t) (r : Int),
    relay_crypt_loop ops fuel cpath thishop cell = some (r, cpath1, cell1, none) →
    r = -1 := by
  intro fuel
  induction fuel with
  | zero => intro cpath cpath1 thishop cell cell1 r h; simp [relay_crypt_loop] at h
  | succ fuel ih =>
    intro cpath cpath1 thishop cell cell1 r h
    unfold relay_crypt_loop at h
    simp only at h
    repeat' split at h
    all_goals first
      | exact ih _ _ _ _ _ _ h
      | (cases h; done)
      | (cases h; rfl)

/-- C3 as the code has it: an inbound cell on an origin circuit that is not
marked for close and that `relay_crypt` leaves unrecognized makes
`circuit_receive_relay_cell` return minus `END_CIRC_REASON_INTERNAL`. -/
theorem circuit_receive_relay_cell_unrecognized_at_origin
    (circ circ1 : circuit_t κ δ) (splice : Option (circuit_t κ δ))
    (cell cell1 : cell_t) (r : Int) (hint : Option Nat)
    (horigin : circ.is_origin = true) (hmark : circ.marked_for_close = false)
    (hcrypt : relay_crypt ops circ cell CELL_DIRECTION_IN =
      some (r, circ1, cell1, hint, false)) :
    circuit_receive_relay_cell ops env cell ⟨circ, splice⟩ CELL_DIRECTION_IN =
      some (-END_CIRC_REASON_INTERNAL, ⟨circ1, splice⟩, cell1) := by
  have hr : r < 0 := by
    unfold relay_crypt at hcrypt
    simp only [horigin, if_true] at hcrypt
    split at hcrypt
    · cases hcrypt
    · split at hcrypt
      · simp only [Option.some.injEq, Prod.mk.injEq] at hcrypt
        rw [← hcrypt.1]; decide
      · split at hcrypt
        · cases hcrypt
        · rename_i r0 cp c1 h0 hl
          simp only [Option.some.injEq, Prod.mk.injEq] at hcrypt
          obtain ⟨hr0, -, -, hh, hs⟩ := hcrypt
          subst hh
          cases h0 with
          | none =>
            rw [← hr0, relay_crypt_loop_unrecognized ops _ _ _ _ _ _ _ hl]; decide
          | some v => simp at hs
  simp only [circuit_receive_relay_cell, circuit_receive_relay_cell_aux, hmark,
    Bool.false_eq_true, if_false, hcrypt, hr, if_true]


/-- C9 at the failing input: on an origin circuit called with no target hop,
`relay_send_command_from_edge` returns -1 and leaves the circuit exactly as
it was: it is not marked for close. -/
theorem relay_send_command_from_edge_origin_no_layer (circ : circuit_t κ δ)
    (stream_id relay_command : Nat) (payload : List Nat)
    (horigin : circ.is_origin = true)
    (hlen : payload.length ≤ RELAY_PAYLOAD_SIZE) :
    relay_send_command_from_edge ops stream_id circ relay_command payload none =
      some (-1, circ) := by
  unfold relay_send_command_from_edge
  simp [horigin, Nat.not_lt.mpr hlen]

/-- Marking a circuit for close adds one call to the trace and touches no
RELAY_EARLY count. -/
theorem circuit_mark_for_close_frame (circ : circuit_t κ δ) (reason : Int) :
    (circuit_mark_for_close circ reason).remaining_relay_early_cells =
      circ.remaining_relay_early_cells := rfl

end dispatch_theorems

set_option maxRecDepth 100000 in
/-- C1 at the two boundary lengths: a header of length 0 and one of length
498 both come back from the packed bytes. -/
theorem relay_header_unpack_pack_witness :
    relay_header_unpack (relay_header_pack (List.replicate CELL_PAYLOAD_SIZE 0)
      { command := 2, recognized := 0, stream_id := 5, integrity := [1, 2, 3, 4], length := 0 }) =
      { command := 2, recognized := 0, stream_id := 5, integrity := [1, 2, 3, 4], length := 0 } ∧
    relay_header_unpack (relay_header_pack (List.replicate CELL_PAYLOAD_SIZE 0)
      { command := 2, recognized := 0, stream_id := 5, integrity := [1, 2, 3, 4], length := 498 }) =
      { command := 2, recognized := 0, stream_id := 5, integrity := [1, 2, 3, 4], length := 498 } :=
  ⟨relay_header_unpack_pack _ _ (by decide), relay_header_unpack_pack _ _ (by decide)⟩

set_option maxRecDepth 100000 in
/-- C3 as stated fails: on `toy_origin` the cell `junk_cell`, which no hop
authenticates, makes `circuit_receive_relay_cell` return minus
`END_CIRC_REASON_INTERNAL`, not minus `END_CIRC_REASON_TORPROTOCOL`. -/
theorem circuit_receive_relay_cell_unrecognized_counterexample :
    toy_origin.is_origin = true ∧ toy_origin.marked_for_close = false ∧
    junk_crypted.map (fun x => x.2.2.2.2) = some false ∧
    (circuit_receive_relay_cell toy_ops toy_env junk_cell ⟨toy_origin, none⟩
      CELL_DIRECTION_IN).map (fun x => x.1) = some (-END_CIRC_REASON_INTERNAL) ∧
    (circuit_receive_relay_cell toy_ops toy_env junk_cell ⟨toy_origin, none⟩
      CELL_DIRECTION_IN).map (fun x => x.1) ≠ some (-END_CIRC_REASON_TORPROTOCOL) := by
  decide

set_option maxRecDepth 100000 in
/-- C3 as the code has it, at `toy_origin` and `junk_cell`. -/
theorem circuit_receive_relay_cell_unrecognized_at_origin_witness :
    circuit_receive_relay_cell toy_ops toy_env junk_cell ⟨toy_origin, none⟩ CELL_DIRECTION_IN =
      some (-END_CIRC_REASON_INTERNAL,
        ⟨(junk_crypted.map (fun x => x.2.1)).getD toy_origin, none⟩,
        (junk_crypted.map (fun x => x.2.2.1)).getD junk_cell) :=
  circuit_receive_relay_cell_unrecognized_at_origin toy_ops toy_env toy_origin _ none
    junk_cell _ (-1) none rfl rfl (by rfl)


set_option maxRecDepth 100000 in
/-- C8 at a client stream whose address has failed once: the stream is
detached for a retry. -/
theorem connection_ap_process_end_not_open_resolvefailed_witness :
    ∃ circ1 : circuit_t Nat Nat,
      connection_ap_process_end_not_open toy_env (relay_header_unpack (toy_end_cell 2).payload)
        (toy_end_cell 2) (toy_origin_ap [65]) ⟨.p_streams, 0⟩ (some 1) = some (0, circ1) ∧
      (toy_env.client_dns_incr_failures [65] < MAX_RESOLVE_FAILURES →
        ∃ rest : List action,
          circ1.trace = (toy_origin_ap [65]).trace ++
            [.client_dns_incr_failures [65],
             .connection_ap_detach_retriable ⟨.p_streams, 0⟩
               (Int.lor (2 : Nat) END_STREAM_REASON_FLAG_REMOTE)] ++ rest ∧
          ∀ a ∈ rest, a = .connection_mark_unattached_ap ⟨.p_streams, 0⟩
            (Int.lor (2 : Nat) END_STREAM_REASON_FLAG_REMOTE)) ∧
      (¬ toy_env.client_dns_incr_failures [65] < MAX_RESOLVE_FAILURES →
        circ1.trace = (toy_origin_ap [65]).trace ++
          [.client_dns_incr_failures [65],
           .client_dns_clear_failures [65],
           .connection_mark_unattached_ap ⟨.p_streams, 0⟩
             (Int.lor (2 : Nat) END_STREAM_REASON_FLAG_REMOTE)] ∧
        (circ1.get_conn ⟨.p_streams, 0⟩).map (fun s => s.marked_for_close) = some true) :=
  connection_ap_process_end_not_open_resolvefailed toy_env (toy_origin_ap [65])
    ⟨.p_streams, 0⟩ (toy_ap_stream [65]) { address := [65], command := 1, has_finished := false }
    (relay_header_unpack (toy_end_cell 2).payload) (toy_end_cell 2) (some 1) 2
    rfl rfl rfl rfl (by decide) (by decide) (by decide) (by decide)

set_option maxRecDepth 100000 in
/-- With eight RELAY_EARLY cells, eight EXTEND cells are sent as RELAY_EARLY
and leave none; the ninth EXTEND is sent as RELAY and the count stays 0. -/
theorem relay_early_exhaustion_scenario :
    (send_extends toy_ops 8 toy_origin).map
      (fun c => (c.remaining_relay_early_cells, queued_commands c.trace)) =
      some (0, List.replicate 8 CELL_RELAY_EARLY) ∧
    (send_extends toy_ops 9 toy_origin).map
      (fun c => (c.remaining_relay_early_cells, queued_commands c.trace)) =
      some (0, List.replicate 8 CELL_RELAY_EARLY ++ [CELL_RELAY]) := by
  decide

set_option maxRecDepth 1000000 in
/-- C4 at the failing input: after exactly 100 DATA cells delivered to the
open stream of `toy_exit`, whose deliver window started at 1000, the window
is 900 and no circuit-level SENDME has been queued; the SENDME is queued
only by the 101st cell, which leaves the window at 999. -/
theorem circuit_sendme_after_100_data_cells :
    toy_exit.deliver_window = CIRCWINDOW_START ∧
    (deliver_cells toy_ops toy_env toy_data_cell 100 toy_exit).map
      (fun x => (x.1, x.2.deliver_window, (x.2.trace.filter is_circuit_sendme).length)) =
      some (0, 900, 0) ∧
    (deliver_cells toy_ops toy_env toy_data_cell 101 toy_exit).map
      (fun x => (x.1, x.2.deliver_window, (x.2.trace.filter is_circuit_sendme).length)) =
      some (0, 999, 1) := by
  decide

section window_theorems

variable {κ δ : Type} (ops : crypto_ops κ δ) (env : collaborators)

@[simp] theorem deliver_view_emit (c : circuit_t κ δ) (a : action) :
    deliver_view (c.emit a) = deliver_view c := rfl

/-- The stream a pointer refers to has the deliver window the view lists at
its position. -/
theorem get_conn_deliver_view (c c1 : circuit_t κ δ) (r : conn_ref)
    (h : deliver_view c1 = deliver_view c) :
    (c1.get_conn r).map (fun s => s.deliver_window) =
      (c.get_conn r).map (fun s => s.deliver_window) := by
  simp only [deliver_view, Prod.mk.injEq] at h
  obtain ⟨-, -, hp, hn, hr⟩ := h
  unfold circuit_t.get_conn
  split
  · rw [← List.getElem?_map, ← List.getElem?_map, hp]
  · rw [← List.getElem?_map, ← List.getElem?_map, hn]
  · rw [← List.getElem?_map, ← List.getElem?_map, hr]

/-- Replacing an element of a list by one with the same image keeps the
mapped list. -/
theorem list_map_set_same {α β : Type} (l : List α) (f : α → β) (i : Nat) (a a1 : α)
    (h : l[i]? = some a) (hf : f a1 = f a) : (l.set i a1).map f = l.map f := by
  apply List.ext_getElem?
  intro j
  rw [List.getElem?_map, List.getElem?_map, List.getElem?_set]
  split
  · rename_i hj
    subst hj
    have hlt := (List.getElem?_eq_some_iff.mp h).1
    simp [hlt, h, hf]
  · rfl

/-- Storing a stream whose deliver window is that of the stream it replaces
keeps the deliver view. -/
theorem deliver_view_set_conn (c : circuit_t κ δ) (r : conn_ref)
    (e e1 : edge_connection_t) (h : c.get_conn r = some e)
    (hd : e1.deliver_window = e.deliver_window) :
    deliver_view (c.set_conn r e1) = deliver_view c := by
  unfold circuit_t.get_conn at h
  unfold circuit_t.set_conn deliver_view
  split at h <;> rename_i hl <;> simp only [hl] <;>
    rw [list_map_set_same _ _ _ _ _ h hd]

/-- Replacing a hop by one with the same deliver window keeps the deliver
view. -/
theorem deliver_view_set_hop (c : circuit_t κ δ) (lh : Nat)
    (hop hop1 : crypt_path_t κ δ) (h : c.cpath[lh]? = some hop)
    (hd : hop1.deliver_window = hop.deliver_window) :
    deliver_view { c with cpath := c.cpath.set lh hop1 } = deliver_view c := by
  unfold deliver_view
  simp only
  rw [list_map_set_same _ _ _ _ _ h hd]

/-- Stopping the reader of a stream keeps the deliver view. -/
theorem connection_stop_reading_dv (c c1 : circuit_t κ δ) (r : conn_ref)
    (h : connection_stop_reading c r = some c1) : deliver_view c1 = deliver_view c := by
  unfold connection_stop_reading at h
  split at h
  · cases h
  · rename_i e he
    cases h
    rw [deliver_view_emit]
    exact deliver_view_set_conn _ _ e _ he rfl

/-- Starting the reader of a stream keeps the deliver view. -/
theorem connection_start_reading_dv (c c1 : circuit_t κ δ) (r : conn_ref)
    (h : connection_start_reading c r = some c1) : deliver_view c1 = deliver_view c := by
  unfold connection_start_reading at h
  split at h
  · cases h
  · rename_i e he
    cases h
    rw [deliver_view_emit]
    exact deliver_view_set_conn _ _ e _ he rfl

/-- Marking a stream for close keeps the deliver view. -/
theorem connection_mark_for_close_dv (c c1 : circuit_t κ δ) (r : conn_ref)
    (h : connection_mark_for_close c r = some c1) : deliver_view c1 = deliver_view c := by
  unfold connection_mark_for_close at h
  split at h
  · cases h
  · rename_i e he
    cases h
    rw [deliver_view_emit]
    exact deliver_view_set_conn _ _ e _ he rfl

/-- Marking a client stream unattached keeps the deliver view. -/
theorem connection_mark_unattached_ap_dv (c c1 : circuit_t κ δ) (r : conn_ref)
    (reason : Int) (h : connection_mark_unattached_ap c r reason = some c1) :
    deliver_view c1 = deliver_view c := by
  unfold connection_mark_unattached_ap at h
  split at h
  · cases h
  · rename_i e he
    cases h
    rw [deliver_view_emit]
    exact deliver_view_set_conn _ _ e _ he rfl

/-- Stopping the readers of the streams of a list keeps the deliver view. -/
theorem stop_reading_streams_dv (l : stream_list) (p : edge_connection_t → Bool)
    (n : Nat) (c : circuit_t κ δ) :
    deliver_view (stop_reading_streams l p c n) = deliver_view c := by
  unfold stop_reading_streams
  generalize List.range n = is
  induction is generalizing c with
  | nil => rfl
  | cons i is ih =>
    rw [List.foldl_cons, ih]
    split
    · rfl
    · split
      · cases hs : connection_stop_reading c ⟨l, i⟩ with
        | none => rfl
        | some c1 => exact connection_stop_reading_dv c c1 _ hs
      · rfl

/-- Considering whether to stop edge reading keeps the deliver view. -/
theorem circuit_consider_stop_edge_reading_dv (c c1 : circuit_t κ δ)
    (layer_hint : Option Nat) (b : Bool)
    (h : circuit_consider_stop_edge_reading c layer_hint = some (b, c1)) :
    deliver_view c1 = deliver_view c := by
  unfold circuit_consider_stop_edge_reading at h
  repeat' split at h
  all_goals first
    | (cases h; done)
    | (cases h; rfl)
    | (cases h; exact stop_reading_streams_dv _ _ _ _)

/-- The package window decrement keeps the deliver view. -/
theorem package_window_decrement_dv (c c1 : circuit_t κ δ) (layer : Option Nat)
    (h : package_window_decrement c layer = some c1) :
    deliver_view c1 = deliver_view c := by
  unfold package_window_decrement at h
  repeat' split at h
  all_goals first
    | (cases h; done)
    | (cases h; rfl)
    | (cases h; apply deliver_view_set_hop; assumption; rfl)

/-- The RELAY/RELAY_EARLY choice keeps the deliver view. -/
theorem relay_early_choice_dv (cell cell1 : cell_t) (c c1 : circuit_t κ δ)
    (cmd : Nat) (layer : Option Nat)
    (h : relay_early_choice cell c cmd layer = some (cell1, c1)) :
    deliver_view c1 = deliver_view c := by
  unfold relay_early_choice at h
  repeat' split at h
  all_goals first
    | (cases h; done)
    | (cases h; rfl)

/-- The layered encryption keeps the deliver windows of the hops. -/
theorem circuit_package_relay_cell_loop_dv :
    ∀ (fuel : Nat) (cpath cpath1 : List (crypt_path_t κ δ)) (thishop : Nat)
      (payload p1 : List Nat) (r : Int),
    circuit_package_relay_cell_loop ops fuel cpath thishop payload = some (r, cpath1, p1) →
    cpath1.map (fun h => h.deliver_window) = cpath.map (fun h => h.deliver_window) := by
  intro fuel
  induction fuel with
  | zero => intro cpath cpath1 thishop payload p1 r h; simp [circuit_package_relay_cell_loop] at h
  | succ fuel ih =>
    intro cpath cpath1 thishop payload p1 r h
    unfold circuit_package_relay_cell_loop at h
    simp only at h
    repeat' split at h
    all_goals first
      | (cases h; done)
      | (cases h; apply list_map_set_same; assumption; rfl)
      | (rw [ih _ _ _ _ _ _ h]; apply list_map_set_same; assumption; rfl)

/-- Packaging a relay cell keeps the deliver view. -/
theorem circuit_package_relay_cell_dv (cell cell1 : cell_t) (c c1 : circuit_t κ δ)
    (dir : cell_direction_t) (layer : Option Nat) (r : Int)
    (h : circuit_package_relay_cell ops cell c dir layer = some (r, c1, cell1)) :
    deliver_view c1 = deliver_view c := by
  unfold circuit_package_relay_cell at h
  simp only at h
  repeat' split at h
  all_goals first
    | (cases h; done)
    | (cases h; rfl)
    | (cases h
       have h1 := circuit_package_relay_cell_loop_dv ops _ _ _ _ _ _ _ ‹_›
       simp only [deliver_view, circuit_t.emit]
       rw [h1]
       congr 2
       apply list_map_set_same
       · assumption
       · rfl)

/-- Sending a relay command from the edge keeps the deliver view. -/
theorem relay_send_command_from_edge_dv (c c1 : circuit_t κ δ)
    (sid cmd : Nat) (payload : List Nat) (layer : Option Nat) (r : Int)
    (h : relay_send_command_from_edge ops sid c cmd payload layer = some (r, c1)) :
    deliver_view c1 = deliver_view c := by
  unfold relay_send_command_from_edge at h
  simp only at h
  split at h
  · cases h
  · split at h
    · cases h; rfl
    · rename_i circ_id dir hdir
      split at h
      · cases h
      · rename_i cell0 circ0 hstep
        have h0 : deliver_view circ0 = deliver_view c := by
          cases dir with
          | CELL_DIRECTION_OUT => exact relay_early_choice_dv _ _ _ _ _ _ hstep
          | CELL_DIRECTION_IN => cases hstep; rfl
        split at h
        · cases h
        · rename_i r0 c0 ce hpk
          have h1 := circuit_package_relay_cell_dv ops _ _ _ _ _ _ _ hpk
          split at h
          · cases h
            exact h1.trans h0
          · cases h
            exact h1.trans h0

/-- Sending a relay command for a stream keeps the deliver view. -/
theorem connection_edge_send_command_dv (c c1 : circuit_t κ δ) (conn : conn_ref)
    (cmd : Nat) (payload : List Nat) (r : Int)
    (h : connection_edge_send_command ops c conn cmd payload = some (r, c1)) :
    deliver_view c1 = deliver_view c := by
  unfold connection_edge_send_command at h
  split at h
  · cases h
  · rename_i e he
    split at h
    · cases h; rfl
    · split at h
      · split at h
        · simp only [Option.map_eq_some', Prod.mk.injEq] at h
          obtain ⟨c2, h2, -, rfl⟩ := h
          exact connection_mark_unattached_ap_dv _ _ _ _ h2
        · simp only [Option.map_eq_some', Prod.mk.injEq] at h
          obtain ⟨c2, h2, -, rfl⟩ := h
          rw [connection_mark_for_close_dv _ _ _ h2]
          exact deliver_view_set_conn _ _ e _ he rfl
      · exact relay_send_command_from_edge_dv ops _ _ _ _ _ _ _ h

/-- The send path keeps the deliver view, whatever it packages. -/
theorem connection_edge_package_raw_inbuf_loop_dv :
    ∀ (fuel : Nat) (c c1 : circuit_t κ δ) (conn : conn_ref) (pp : Bool) (r : Int),
    connection_edge_package_raw_inbuf_loop ops fuel c conn pp = some (r, c1) →
    deliver_view c1 = deliver_view c := by
  intro fuel
  induction fuel with
  | zero => intro c c1 conn pp r h; simp [connection_edge_package_raw_inbuf_loop] at h
  | succ fuel ih =>
    intro c c1 conn pp r h
    unfold connection_edge_package_raw_inbuf_loop at h
    split at h
    · cases h
    · rename_i e he
      split at h
      · cases h
        exact deliver_view_set_conn _ _ e _ he rfl
      · split at h
        · cases h
        · rename_i circ1 hstop
          cases h
          exact circuit_consider_stop_edge_reading_dv _ _ _ _ hstop
        · rename_i circ1 hstop
          have hs := circuit_consider_stop_edge_reading_dv _ _ _ _ hstop
          have hget1 := get_conn_deliver_view c circ1 conn hs
          rw [he] at hget1
          obtain ⟨e0, he0, hd0⟩ : ∃ e0, circ1.get_conn conn = some e0 ∧
              e0.deliver_window = e.deliver_window := by
            cases hg : circ1.get_conn conn with
            | none => rw [hg] at hget1; simp at hget1
            | some v =>
              rw [hg] at hget1
              simp only [Option.map_some', Option.some.injEq] at hget1
              exact ⟨v, rfl, hget1⟩
          split at h
          · simp only [Option.map_eq_some', Prod.mk.injEq] at h
            obtain ⟨c2, h2, -, rfl⟩ := h
            exact (connection_stop_reading_dv _ _ _ h2).trans hs
          · simp only at h
            split at h
            · cases h; exact hs
            · split at h
              · cases h; exact hs
              · have hset : ∀ e1 : edge_connection_t, e1.deliver_window = e.deliver_window →
                    deliver_view (circ1.set_conn conn e1) = deliver_view circ1 := by
                  intro e1 h1
                  exact deliver_view_set_conn _ _ e0 _ he0 (h1.trans hd0.symm)
                split at h
                · cases h
                · rename_i r3 circ3 hsend
                  have h3 := connection_edge_send_command_dv ops _ _ _ _ _ _ hsend
                  split at h
                  · cases h
                    refine h3.trans (Eq.trans (hset _ ?_) hs)
                    rfl
                  · split at h
                    · cases h
                    · rename_i circ4 hdec
                      have h4 := package_window_decrement_dv _ _ _ hdec
                      split at h
                      · cases h
                      · rename_i e4 he4
                        have h5 : deliver_view (circ4.set_conn conn
                            { e4 with package_window := e4.package_window - 1 }) =
                            deliver_view circ4 :=
                          deliver_view_set_conn _ _ e4 _ he4 rfl
                        have hall : deliver_view (circ4.set_conn conn
                            { e4 with package_window := e4.package_window - 1 }) =
                            deliver_view c := by
                          refine h5.trans (h4.trans (h3.trans (Eq.trans (hset _ ?_) hs)))
                          rfl
                        split at h
                        · split at h
                          · cases h
                          · rename_i circ6 hstop6
                            have h6 := connection_stop_reading_dv _ _ _ hstop6
                            simp only [Option.map_eq_some', Prod.mk.injEq] at h
                            obtain ⟨⟨b7, c7⟩, h7, -, rfl⟩ := h
                            exact (circuit_consider_stop_edge_reading_dv _ _ _ _ h7).trans
                              (h6.trans hall)
                        · exact (ih _ _ _ _ _ h).trans hall

/-- The send path keeps the deliver view. -/
theorem connection_edge_package_raw_inbuf_dv (c c1 : circuit_t κ δ) (conn : conn_ref)
    (pp : Bool) (r : Int)
    (h : connection_edge_package_raw_inbuf ops c conn pp = some (r, c1)) :
    deliver_view c1 = deliver_view c := by
  unfold connection_edge_package_raw_inbuf at h
  split at h
  · cases h
  · split at h
    · cases h; rfl
    · exact connection_edge_package_raw_inbuf_loop_dv ops _ _ _ _ _ _ h

/-- Resuming edge reading keeps the deliver view. -/
theorem circuit_resume_edge_reading_helper_dv (l : stream_list) :
    ∀ (n i : Nat) (c c1 : circuit_t κ δ) (layer : Option Nat) (r : Int),
    circuit_resume_edge_reading_helper ops l n i c layer = some (r, c1) →
    deliver_view c1 = deliver_view c := by
  intro n
  induction n with
  | zero =>
    intro i c c1 layer r h
    simp only [circuit_resume_edge_reading_helper, Option.some.injEq, Prod.mk.injEq] at h
    rw [h.2]
  | succ n ih =>
    intro i c c1 layer r h
    unfold circuit_resume_edge_reading_helper at h
    split at h
    · cases h; rfl
    · split at h
      · exact ih _ _ _ _ _ h
      · split at h
        · split at h
          · cases h
          · rename_i circ1 hstart
            have h1 := connection_start_reading_dv _ _ _ hstart
            split at h
            · cases h
            · rename_i r2 circ2 hpk
              have h2 := connection_edge_package_raw_inbuf_dv ops _ _ _ _ _ hpk
              split at h
              · split at h
                · cases h
                · rename_i circ3 hmark
                  have h3 := connection_mark_for_close_dv _ _ _ hmark
                  exact (ih _ _ _ _ _ h).trans (h3.trans (h2.trans h1))
              · split at h
                · cases h
                · rename_i circ3 hstop
                  cases h
                  exact (circuit_consider_stop_edge_reading_dv _ _ _ _ hstop).trans (h2.trans h1)
                · rename_i circ3 hstop
                  exact (ih _ _ _ _ _ h).trans
                    ((circuit_consider_stop_edge_reading_dv _ _ _ _ hstop).trans (h2.trans h1))
        · exact ih _ _ _ _ _ h

/-- Resuming edge reading on a circuit keeps the deliver view. -/
theorem circuit_resume_edge_reading_dv (c c1 : circuit_t κ δ) (layer : Option Nat)
    (h : circuit_resume_edge_reading ops c layer = some c1) :
    deliver_view c1 = deliver_view c := by
  unfold circuit_resume_edge_reading at h
  split at h <;>
    (simp only [Option.map_eq_some'] at h
     obtain ⟨⟨r, c2⟩, h2, rfl⟩ := h
     exact circuit_resume_edge_reading_helper_dv ops _ _ _ _ _ _ _ h2)

/-- A stream read through a pointer after a step that keeps the deliver view
has the deliver window it had. -/
theorem get_conn_of_deliver_view (c c1 : circuit_t κ δ) (r : conn_ref)
    (e : edge_connection_t) (h : deliver_view c1 = deliver_view c)
    (he : c.get_conn r = some e) :
    ∃ e0, c1.get_conn r = some e0 ∧ e0.deliver_window = e.deliver_window := by
  have hg := get_conn_deliver_view c c1 r h
  rw [he] at hg
  cases hc : c1.get_conn r with
  | none => rw [hc] at hg; simp at hg
  | some v =>
    rw [hc] at hg
    simp only [Option.map_some', Option.some.injEq] at hg
    exact ⟨v, rfl, hg⟩

/-- Storing, after a step that keeps the deliver view, a stream whose
deliver window is that of the stream read before the step keeps the
view. -/
theorem deliver_view_set_conn_stale (c c1 : circuit_t κ δ) (r : conn_ref)
    (e e1 : edge_connection_t) (h : deliver_view c1 = deliver_view c)
    (he : c.get_conn r = some e) (hd : e1.deliver_window = e.deliver_window) :
    deliver_view (c1.set_conn r e1) = deliver_view c := by
  obtain ⟨e0, he0, hd0⟩ := get_conn_of_deliver_view c c1 r e h he
  exact (deliver_view_set_conn _ _ e0 _ he0 (hd.trans hd0.symm)).trans h

/-- The call of `connection_ap_detach_retriable` keeps the deliver view. -/
theorem connection_ap_detach_retriable_dv (c c1 : circuit_t κ δ) (conn : conn_ref)
    (reason r : Int) (h : connection_ap_detach_retriable env c conn reason = some (r, c1)) :
    deliver_view c1 = deliver_view c := by
  unfold connection_ap_detach_retriable at h
  split at h
  · cases h
  · rename_i e he
    cases h
    rw [deliver_view_emit]
    exact deliver_view_set_conn _ _ e _ he rfl

/-- Clearing the chosen exit keeps the deliver view. -/
theorem clear_chosen_exit_dv (c c1 : circuit_t κ δ) (conn : conn_ref) (b : Bool)
    (h : clear_chosen_exit c conn b = some c1) : deliver_view c1 = deliver_view c := by
  unfold clear_chosen_exit at h
  simp only [Option.map_eq_some'] at h
  obtain ⟨e, he, rfl⟩ := h
  exact deliver_view_set_conn _ _ e _ he rfl

/-- Steps that only record calls keep the deliver view, whichever branch is
taken. -/
theorem deliver_view_ite (p : Prop) [Decidable p] (a b c : circuit_t κ δ)
    (ha : deliver_view a = deliver_view c) (hb : deliver_view b = deliver_view c) :
    deliver_view (if p then a else b) = deliver_view c := by
  split
  · exact ha
  · exact hb

/-- The EXITPOLICY case keeps the deliver view. -/
theorem end_not_open_exitpolicy_dv (rh : relay_header_t) (cell : cell_t)
    (c c1 : circuit_t κ δ) (conn : conn_ref) (cr : Int) (b : Bool)
    (h : end_not_open_exitpolicy env rh cell c conn cr = some (b, c1)) :
    deliver_view c1 = deliver_view c := by
  unfold end_not_open_exitpolicy at h
  split at h
  · cases h
  · rename_i e he
    split at h
    · cases h
    · rename_i sr hsr
      simp only at h
      split at h
      · simp only [Option.map_eq_some', Prod.mk.injEq] at h
        obtain ⟨c2, h2, -, rfl⟩ := h
        exact connection_mark_unattached_ap_dv _ _ _ _ h2
      · split at h
        · simp only [Option.map_eq_some', Prod.mk.injEq] at h
          obtain ⟨c2, h2, -, rfl⟩ := h
          exact connection_mark_unattached_ap_dv _ _ _ _ h2
        · split at h
          · cases h
          · rename_i c4 h4
            split at h
            · cases h
            · rename_i r5 circ5 h5
              cases h
              refine (connection_ap_detach_retriable_dv env _ _ _ _ _ h5).trans ?_
              have h3 : ∀ (x : circuit_t κ δ), deliver_view x = deliver_view c →
                  deliver_view (match env.addressmap_rewrite sr.address with
                    | some a => x.set_conn conn
                        { e with socks_request := some { sr with address := a } }
                    | none => x) = deliver_view c := by
                intro x hx
                split
                · exact deliver_view_set_conn_stale _ _ _ e _ hx he rfl
                · exact hx
              split at h4
              · refine (clear_chosen_exit_dv _ _ _ _ h4).trans (h3 _ ?_)
                apply deliver_view_ite <;> first | rfl | (apply deliver_view_ite <;> rfl)
              · cases h4
                refine h3 _ ?_
                apply deliver_view_ite <;> first | rfl | (apply deliver_view_ite <;> rfl)

/-- The RESOLVEFAILED case keeps the deliver view. -/
theorem end_not_open_resolvefailed_dv (c c1 : circuit_t κ δ) (conn : conn_ref)
    (cr : Int) (b : Bool)
    (h : end_not_open_resolvefailed env c conn cr = some (b, c1)) :
    deliver_view c1 = deliver_view c := by
  unfold end_not_open_resolvefailed at h
  split at h
  · cases h
  · rename_i e he
    split at h
    · cases h
    · rename_i sr hsr
      simp only at h
      split at h
      · split at h
        · cases h
        · split at h
          · cases h
          · rename_i c3 h3
            split at h
            · cases h
            · rename_i r5 circ5 h5
              cases h
              refine (connection_ap_detach_retriable_dv env _ _ _ _ _ h5).trans ?_
              split at h3
              · exact (clear_chosen_exit_dv _ _ _ _ h3).trans rfl
              · cases h3; rfl
      · cases h
        rfl

/-- The HIBERNATING case keeps the deliver view. -/
theorem end_not_open_hibernating_dv (c c1 : circuit_t κ δ) (conn : conn_ref)
    (cr : Int) (b : Bool)
    (h : end_not_open_hibernating env c conn cr = some (b, c1)) :
    deliver_view c1 = deliver_view c := by
  unfold end_not_open_hibernating at h
  split at h
  · cases h
  · rename_i e he
    simp only at h
    split at h
    · cases h
    · rename_i c3 h3
      split at h
      · cases h
      · rename_i r5 circ5 h5
        cases h
        refine (connection_ap_detach_retriable_dv env _ _ _ _ _ h5).trans ?_
        split at h3
        · refine (clear_chosen_exit_dv _ _ _ _ h3).trans ?_
          apply deliver_view_ite <;> rfl
        · cases h3
          apply deliver_view_ite <;> rfl

/-- The handler `connection_ap_process_end_not_open` keeps the deliver
view. -/
theorem connection_ap_process_end_not_open_dv (rh : relay_header_t) (cell : cell_t)
    (c c1 : circuit_t κ δ) (conn : conn_ref) (lh : Option Nat) (r : Int)
    (h : connection_ap_process_end_not_open env rh cell c conn lh = some (r, c1)) :
    deliver_view c1 = deliver_view c := by
  unfold connection_ap_process_end_not_open at h
  split at h
  · cases h
  · rename_i e he
    simp only at h
    have hr : ∀ (x : Option (Bool × circuit_t κ δ)) (b : Bool) (c2 : circuit_t κ δ),
        x = (if (decide (rh.length > 0) &&
              edge_reason_is_retriable (char_to_int (cell.payload.getD RELAY_HEADER_SIZE 0)) &&
              !e.is_rendezvous_stream) = true then
            if e.socks_request.isNone = true then none
            else if char_to_int (cell.payload.getD RELAY_HEADER_SIZE 0) =
                END_STREAM_REASON_EXITPOLICY then
              end_not_open_exitpolicy env rh cell c conn
                ((char_to_int (cell.payload.getD RELAY_HEADER_SIZE 0)).lor
                  END_STREAM_REASON_FLAG_REMOTE)
            else if char_to_int (cell.payload.getD RELAY_HEADER_SIZE 0) =
                END_STREAM_REASON_CONNECTREFUSED then
              if (!e.chosen_exit_optional) = true then some (false, c)
              else end_not_open_resolvefailed env c conn
                ((char_to_int (cell.payload.getD RELAY_HEADER_SIZE 0)).lor
                  END_STREAM_REASON_FLAG_REMOTE)
            else if char_to_int (cell.payload.getD RELAY_HEADER_SIZE 0) =
                  END_STREAM_REASON_RESOLVEFAILED ∨
                char_to_int (cell.payload.getD RELAY_HEADER_SIZE 0) =
                  END_STREAM_REASON_TIMEOUT ∨
                char_to_int (cell.payload.getD RELAY_HEADER_SIZE 0) =
                  END_STREAM_REASON_MISC then
              end_not_open_resolvefailed env c conn
                ((char_to_int (cell.payload.getD RELAY_HEADER_SIZE 0)).lor
                  END_STREAM_REASON_FLAG_REMOTE)
            else if char_to_int (cell.payload.getD RELAY_HEADER_SIZE 0) =
                  END_STREAM_REASON_HIBERNATING ∨
                char_to_int (cell.payload.getD RELAY_HEADER_SIZE 0) =
                  END_STREAM_REASON_RESOURCELIMIT then
              end_not_open_hibernating env c conn
                ((char_to_int (cell.payload.getD RELAY_HEADER_SIZE 0)).lor
                  END_STREAM_REASON_FLAG_REMOTE)
            else some (false, c)
          else some (false, c)) →
        x = some (b, c2) → deliver_view c2 = deliver_view c := by
      intro x b c2 hx hb
      rw [hx] at hb
      repeat' split at hb
      all_goals first
        | (cases hb; done)
        | (cases hb; rfl)
        | exact end_not_open_exitpolicy_dv env _ _ _ _ _ _ _ hb
        | exact end_not_open_resolvefailed_dv env _ _ _ _ _ hb
        | exact end_not_open_hibernating_dv env _ _ _ _ _ hb
    split at h
    · cases h
    · rename_i c2 h2
      cases h
      exact hr _ _ _ rfl h2
    · rename_i c2 h2
      have h2a := hr _ _ _ rfl h2
      split at h
      · cases h
      · split at h
        · simp only [Option.map_eq_some', Prod.mk.injEq] at h
          obtain ⟨c3, h3, -, rfl⟩ := h
          exact (connection_mark_unattached_ap_dv _ _ _ _ h3).trans h2a
        · cases h
          exact h2a

/-- The call of `remap_event_helper` keeps the deliver view. -/
theorem remap_event_helper_dv (c c1 : circuit_t κ δ) (conn : conn_ref) (a : Nat)
    (h : remap_event_helper env c conn a = some c1) :
    deliver_view c1 = deliver_view c := by
  unfold remap_event_helper at h
  split at h
  · cases h
  · rename_i e he
    split at h
    · cases h
    · cases h
      exact deliver_view_set_conn _ _ e _ he rfl

/-- The CONNECTED case for a stream that is not open keeps the deliver
view. -/
theorem not_open_connected_dv (rh : relay_header_t) (cell : cell_t)
    (c c1 : circuit_t κ δ) (conn : conn_ref) (r : Int)
    (h : not_open_connected ops env rh cell c conn = some (r, c1)) :
    deliver_view c1 = deliver_view c := by
  unfold not_open_connected at h
  split at h
  · cases h
  · rename_i e he
    split at h
    · cases h
    · split at h
      · cases h; rfl
      · simp only at h
        have h1 : deliver_view (c.set_conn conn { e with state := AP_CONN_STATE_OPEN }) =
            deliver_view c := deliver_view_set_conn _ _ e _ he rfl
        split at h
        · simp only [Option.map_eq_some', Prod.mk.injEq] at h
          obtain ⟨c3, h3, -, rfl⟩ := h
          exact (connection_mark_unattached_ap_dv _ _ _ _ h3).trans h1
        · split at h
          · cases h
          · rename_i sr hsr
            split at h
            · cases h
            · rename_i c2 h2
              have h2a : deliver_view c2 = deliver_view c := by
                split at h2
                · exact (remap_event_helper_dv env _ _ _ _ h2).trans h1
                · cases h2; exact h1
              split at h
              · cases h
              · rename_i r4 c4 h4
                have h4a : deliver_view c4 = deliver_view c := by
                  refine (connection_edge_package_raw_inbuf_dv ops _ _ _ _ _ h4).trans ?_
                  apply deliver_view_ite
                  · exact h2a
                  · exact h2a
                split at h
                · simp only [Option.map_eq_some', Prod.mk.injEq] at h
                  obtain ⟨c5, h5, -, rfl⟩ := h
                  exact (connection_mark_for_close_dv _ _ _ h5).trans h4a
                · cases h
                  exact h4a

/-- The RESOLVED case for a stream that is not open keeps the deliver
view. -/
theorem not_open_resolved_dv (rh : relay_header_t) (cell : cell_t)
    (c c1 : circuit_t κ δ) (conn : conn_ref) (r : Int)
    (h : not_open_resolved env rh cell c conn = some (r, c1)) :
    deliver_view c1 = deliver_view c := by
  unfold not_open_resolved at h
  split at h
  · cases h
  · rename_i e he
    split at h
    · cases h; rfl
    · split at h
      · cases h
      · rename_i sr hsr
        split at h
        · cases h
        · simp only at h
          split at h
          · simp only [Option.map_eq_some', Prod.mk.injEq] at h
            obtain ⟨c3, h3, -, rfl⟩ := h
            exact connection_mark_unattached_ap_dv _ _ _ _ h3
          · split at h
            · simp only [Option.map_eq_some', Prod.mk.injEq] at h
              obtain ⟨c3, h3, -, rfl⟩ := h
              exact (connection_mark_unattached_ap_dv _ _ _ _ h3).trans rfl
            · split at h
              · cases h
              · rename_i c2 h2
                simp only [Option.map_eq_some', Prod.mk.injEq] at h
                obtain ⟨c3, h3, -, rfl⟩ := h
                refine (connection_mark_unattached_ap_dv _ _ _ _ h3).trans ?_
                split at h2
                · exact (remap_event_helper_dv env _ _ _ _ h2).trans rfl
                · cases h2; rfl

/-- The handler `connection_edge_process_relay_cell_not_open` keeps the
deliver view. -/
theorem connection_edge_process_relay_cell_not_open_dv (rh : relay_header_t)
    (cell : cell_t) (c c1 : circuit_t κ δ) (conn : conn_ref) (lh : Option Nat)
    (r : Int)
    (h : connection_edge_process_relay_cell_not_open ops env rh cell c conn lh =
      some (r, c1)) :
    deliver_view c1 = deliver_view c := by
  unfold connection_edge_process_relay_cell_not_open at h
  split at h
  · cases h
  · rename_i e he
    split at h
    · split at h
      · exact connection_ap_process_end_not_open_dv env _ _ _ _ _ _ _ h
      · simp only [Option.map_eq_some', Prod.mk.injEq] at h
        obtain ⟨c3, h3, -, rfl⟩ := h
        exact (connection_mark_for_close_dv _ _ _ h3).trans
          (deliver_view_set_conn _ _ e _ he rfl)
    · split at h
      · exact not_open_connected_dv ops env _ _ _ _ _ _ h
      · split at h
        · exact not_open_resolved_dv env _ _ _ _ _ _ h
        · cases h; rfl

/-- The END case of the dispatcher keeps the deliver view. -/
theorem process_relay_end_dv (rh : relay_header_t) (cell : cell_t)
    (c c1 : circuit_t κ δ) (conn : Option conn_ref) (r : Int)
    (h : process_relay_end rh cell c conn = some (r, c1)) :
    deliver_view c1 = deliver_view c := by
  unfold process_relay_end at h
  simp only at h
  split at h
  · cases h; rfl
  · rename_i cr
    split at h
    · cases h
    · rename_i e he
      generalize he2 : (if e.end_reason = 0 then _ else _ : edge_connection_t) = e2 at h
      have h2 : e2.deliver_window = e.deliver_window := by
        rw [← he2]
        repeat' split
        all_goals rfl
      have h1 : deliver_view (c.set_conn cr e2) = deliver_view c :=
        deliver_view_set_conn _ _ e _ he h2
      split at h
      · split at h
        · cases h
        · rename_i c2 hc2
          simp only [Option.map_eq_some', Prod.mk.injEq] at h
          obtain ⟨e3, he3, -, rfl⟩ := h
          refine Eq.trans ?_ ((connection_mark_for_close_dv _ _ _ hc2).trans h1)
          apply deliver_view_set_conn _ _ e3 _ he3
          rfl
      · cases h
        exact h1

/-- The TRUNCATE case of the dispatcher keeps the deliver view. -/
theorem process_relay_truncate_dv (cell : cell_t) (c c1 : circuit_t κ δ) (r : Int)
    (h : process_relay_truncate ops cell c = some (r, c1)) :
    deliver_view c1 = deliver_view c := by
  unfold process_relay_truncate at h
  simp only [Option.map_eq_some', Prod.mk.injEq] at h
  obtain ⟨⟨r2, c2⟩, h2, -, rfl⟩ := h
  refine (relay_send_command_from_edge_dv ops _ _ _ _ _ _ _ h2).trans ?_
  split <;> rfl

/-- The SENDME case of the dispatcher keeps the deliver view. -/
theorem process_relay_sendme_dv (c c1 : circuit_t κ δ) (conn : Option conn_ref)
    (lh : Option Nat) (r : Int)
    (h : process_relay_sendme ops c conn lh = some (r, c1)) :
    deliver_view c1 = deliver_view c := by
  unfold process_relay_sendme at h
  split at h
  · split at h
    · split at h
      · cases h
      · rename_i hop hhop
        simp only [Option.map_eq_some', Prod.mk.injEq] at h
        obtain ⟨c2, h2, -, rfl⟩ := h
        refine (circuit_resume_edge_reading_dv ops _ _ _ h2).trans ?_
        exact deliver_view_set_hop _ _ hop _ hhop rfl
    · simp only [Option.map_eq_some', Prod.mk.injEq] at h
      obtain ⟨c2, h2, -, rfl⟩ := h
      exact (circuit_resume_edge_reading_dv ops _ _ _ h2).trans rfl
  · rename_i cr
    split at h
    · cases h
    · rename_i e he
      simp only at h
      split at h
      · cases h
      · rename_i c2 h2
        have h2a : deliver_view c2 = deliver_view c :=
          (connection_start_reading_dv _ _ _ h2).trans
            (deliver_view_set_conn _ _ e _ he rfl)
        split at h
        · cases h
        · rename_i r3 c3 h3
          have h3a := (connection_edge_package_raw_inbuf_dv ops _ _ _ _ _ h3).trans h2a
          split at h
          · simp only [Option.map_eq_some', Prod.mk.injEq] at h
            obtain ⟨c5, h5, -, rfl⟩ := h
            exact (connection_mark_for_close_dv _ _ _ h5).trans h3a
          · cases h
            exact h3a

/-- A step that keeps the deliver view keeps the bound on the deliver
windows. -/
theorem deliver_ok_of_view (c c1 : circuit_t κ δ)
    (h : deliver_view c1 = deliver_view c) (hok : deliver_ok c) : deliver_ok c1 := by
  unfold deliver_ok at *
  rw [h]
  exact hok

/-- Replacing one element of a list by one within the bound keeps the
bound. -/
theorem list_set_bound {α : Type} (l : List α) (f : α → Int) (i : Nat) (a1 : α)
    (B : Int) (hl : ∀ w ∈ l.map f, w ≤ B) (h1 : f a1 ≤ B) :
    ∀ w ∈ (l.set i a1).map f, w ≤ B := by
  intro w hw
  rw [List.mem_map] at hw
  obtain ⟨a, ha, rfl⟩ := hw
  rcases List.mem_or_eq_of_mem_set ha with hm | rfl
  · exact hl _ (List.mem_map_of_mem f hm)
  · exact h1

/-- Storing a stream whose deliver window is within the bound keeps the
bound. -/
theorem deliver_ok_set_conn (c : circuit_t κ δ) (r : conn_ref) (e1 : edge_connection_t)
    (hok : deliver_ok c) (h1 : e1.deliver_window ≤ STREAMWINDOW_START) :
    deliver_ok (c.set_conn r e1) := by
  unfold deliver_ok deliver_view_ok deliver_view at *
  obtain ⟨h0, hc, hp, hn, hr⟩ := hok
  unfold circuit_t.set_conn
  split
  · exact ⟨h0, hc, list_set_bound _ _ _ _ _ hp h1, hn, hr⟩
  · exact ⟨h0, hc, hp, list_set_bound _ _ _ _ _ hn h1, hr⟩
  · exact ⟨h0, hc, hp, hn, list_set_bound _ _ _ _ _ hr h1⟩

/-- Under the bound, the deliver window of a stream read through a pointer
is at most the stream-level start value. -/
theorem deliver_ok_get_conn (c : circuit_t κ δ) (r : conn_ref) (e : edge_connection_t)
    (hok : deliver_ok c) (he : c.get_conn r = some e) :
    e.deliver_window ≤ STREAMWINDOW_START := by
  unfold deliver_ok deliver_view_ok deliver_view at hok
  obtain ⟨-, -, hp, hn, hr⟩ := hok
  unfold circuit_t.get_conn at he
  split at he
  · exact hp _ (List.mem_map_of_mem _ (List.getElem?_mem he))
  · exact hn _ (List.mem_map_of_mem _ (List.getElem?_mem he))
  · exact hr _ (List.mem_map_of_mem _ (List.getElem?_mem he))

/-- Storing a hop whose deliver window is within the bound keeps the
bound. -/
theorem deliver_ok_set_hop (c : circuit_t κ δ) (lh : Nat) (hop1 : crypt_path_t κ δ)
    (hok : deliver_ok c) (h1 : hop1.deliver_window ≤ CIRCWINDOW_START) :
    deliver_ok { c with cpath := c.cpath.set lh hop1 } := by
  unfold deliver_ok deliver_view_ok deliver_view at *
  obtain ⟨h0, hc, hp, hn, hr⟩ := hok
  exact ⟨h0, list_set_bound _ _ _ _ _ hc h1, hp, hn, hr⟩

/-- Under the bound, the deliver window of a hop is at most the
circuit-level start value. -/
theorem deliver_ok_get_hop (c : circuit_t κ δ) (lh : Nat) (hop : crypt_path_t κ δ)
    (hok : deliver_ok c) (he : c.cpath[lh]? = some hop) :
    hop.deliver_window ≤ CIRCWINDOW_START := by
  unfold deliver_ok deliver_view_ok deliver_view at hok
  exact hok.2.1 _ (List.mem_map_of_mem _ (List.getElem?_mem he))

/-- Changing the circuit's own deliver window to a value within the bound
keeps the bound. -/
theorem deliver_ok_set_circ (c : circuit_t κ δ) (w : Int)
    (hok : deliver_ok c) (h1 : w ≤ CIRCWINDOW_START) :
    deliver_ok { c with deliver_window := w } := by
  unfold deliver_ok deliver_view_ok deliver_view at *
  exact ⟨h1, hok.2⟩

/-- The stream-level SENDME loop keeps the bound on the deliver windows: it
adds the increment only to a window below start minus increment. -/
theorem connection_edge_consider_sending_sendme_loop_ok :
    ∀ (fuel : Nat) (c c1 : circuit_t κ δ) (conn : conn_ref),
      connection_edge_consider_sending_sendme_loop ops fuel c conn = some c1 →
      deliver_ok c → deliver_ok c1 := by
  intro fuel
  induction fuel with
  | zero => intro c c1 conn h; cases h
  | succ n ih =>
    intro c c1 conn h hok
    unfold connection_edge_consider_sending_sendme_loop at h
    split at h
    · cases h
    · rename_i e he
      split at h
      · rename_i hlt
        simp only at h
        have h1 : deliver_ok (c.set_conn conn
            { e with deliver_window := e.deliver_window + STREAMWINDOW_INCREMENT }) := by
          apply deliver_ok_set_conn _ _ _ hok
          simp only [STREAMWINDOW_START, STREAMWINDOW_INCREMENT] at hlt ⊢
          omega
        split at h
        · cases h
        · rename_i r c2 h2
          have h2a := deliver_ok_of_view _ _
            (connection_edge_send_command_dv ops _ _ _ _ _ _ h2) h1
          split at h
          · cases h; exact h2a
          · exact ih _ _ _ h h2a
      · cases h; exact hok

/-- The stream-level `connection_edge_consider_sending_sendme` keeps the
bound on the deliver windows. -/
theorem connection_edge_consider_sending_sendme_ok (c c1 : circuit_t κ δ)
    (conn : conn_ref)
    (h : connection_edge_consider_sending_sendme ops env c conn = some c1)
    (hok : deliver_ok c) : deliver_ok c1 := by
  unfold connection_edge_consider_sending_sendme at h
  split at h
  · cases h
  · split at h
    · cases h; exact hok
    · split at h
      · cases h; exact hok
      · exact connection_edge_consider_sending_sendme_loop_ok ops _ _ _ _ h hok

/-- The increment of the circuit-level deliver window keeps the bound when
the window is below start minus increment. -/
theorem circuit_deliver_window_increment_ok (c c1 : circuit_t κ δ)
    (lh : Option Nat) (w : Int) (hw : circuit_deliver_window c lh = some w)
    (hlt : w < CIRCWINDOW_START - CIRCWINDOW_INCREMENT)
    (h : circuit_deliver_window_increment c lh = some c1)
    (hok : deliver_ok c) : deliver_ok c1 := by
  unfold circuit_deliver_window at hw
  unfold circuit_deliver_window_increment at h
  split at h
  · cases h
    simp only [Option.some.injEq] at hw
    apply deliver_ok_set_circ _ _ hok
    simp only [CIRCWINDOW_START, CIRCWINDOW_INCREMENT] at hlt ⊢
    omega
  · rename_i l
    simp only [Option.map_eq_some'] at h hw
    obtain ⟨hop, hhop, rfl⟩ := h
    obtain ⟨hop1, hhop1, rfl⟩ := hw
    rw [hhop] at hhop1
    cases hhop1
    apply deliver_ok_set_hop _ _ _ hok
    simp only [CIRCWINDOW_START, CIRCWINDOW_INCREMENT] at hlt ⊢
    omega

/-- The circuit-level SENDME loop keeps the bound on the deliver windows. -/
theorem circuit_consider_sending_sendme_loop_ok :
    ∀ (fuel : Nat) (c c1 : circuit_t κ δ) (lh : Option Nat),
      circuit_consider_sending_sendme_loop ops fuel c lh = some c1 →
      deliver_ok c → deliver_ok c1 := by
  intro fuel
  induction fuel with
  | zero => intro c c1 lh h; cases h
  | succ n ih =>
    intro c c1 lh h hok
    unfold circuit_consider_sending_sendme_loop at h
    split at h
    · cases h
    · rename_i w hw
      split at h
      · rename_i hlt
        split at h
        · cases h
        · rename_i c2 h2
          have h2a := circuit_deliver_window_increment_ok _ _ _ _ hw hlt h2 hok
          split at h
          · cases h
          · rename_i r c3 h3
            have h3a := deliver_ok_of_view _ _
              (relay_send_command_from_edge_dv ops _ _ _ _ _ _ _ h3) h2a
            split at h
            · cases h; exact h3a
            · exact ih _ _ _ h h3a
      · cases h; exact hok

/-- The circuit-level `circuit_consider_sending_sendme` keeps the bound on
the deliver windows. -/
theorem circuit_consider_sending_sendme_ok (c c1 : circuit_t κ δ) (lh : Option Nat)
    (h : circuit_consider_sending_sendme ops c lh = some c1)
    (hok : deliver_ok c) : deliver_ok c1 := by
  unfold circuit_consider_sending_sendme at h
  split at h
  · cases h
  · exact circuit_consider_sending_sendme_loop_ok ops _ _ _ _ h hok

/-- The decrement of the circuit-level deliver window keeps the bound. -/
theorem deliver_window_decrement_ok (c c1 : circuit_t κ δ) (lh : Option Nat)
    (b : Bool) (h : deliver_window_decrement c lh = some (b, c1))
    (hok : deliver_ok c) : deliver_ok c1 := by
  unfold deliver_window_decrement at h
  split at h
  · split at h
    · cases h
    · rename_i hop hhop
      cases h
      apply deliver_ok_set_hop _ _ _ hok
      have := deliver_ok_get_hop _ _ _ hok hhop
      show hop.deliver_window - 1 ≤ CIRCWINDOW_START
      omega
  · cases h
    apply deliver_ok_set_circ _ _ hok
    have : c.deliver_window ≤ CIRCWINDOW_START := hok.1
    omega

/-- The DATA case of the dispatcher keeps the bound on the deliver
windows. -/
theorem process_relay_data_ok (rh : relay_header_t) (cell : cell_t)
    (c c1 : circuit_t κ δ) (conn : Option conn_ref) (lh : Option Nat) (r : Int)
    (h : process_relay_data ops env rh cell c conn lh = some (r, c1))
    (hok : deliver_ok c) : deliver_ok c1 := by
  unfold process_relay_data at h
  split at h
  · cases h
  · rename_i c2 h2
    have h2a := deliver_window_decrement_ok _ _ _ _ h2 hok
    split at h
    · cases h
    · rename_i cr
      simp only [Option.map_eq_some', Prod.mk.injEq] at h
      obtain ⟨c3, h3, -, rfl⟩ := h
      exact deliver_ok_of_view _ _
        ((connection_mark_for_close_dv _ _ _ h3).trans (deliver_view_emit _ _)) h2a
  · rename_i c2 h2
    have h2a := deliver_window_decrement_ok _ _ _ _ h2 hok
    split at h
    · cases h
    · rename_i c3 h3
      have h3a := circuit_consider_sending_sendme_ok ops _ _ _ h3 h2a
      split at h
      · cases h; exact h3a
      · rename_i cr
        split at h
        · cases h
        · rename_i e he
          have hle := deliver_ok_get_conn _ _ _ h3a he
          have h4 : deliver_ok (c3.set_conn cr
              { e with deliver_window := e.deliver_window - 1 }) := by
            apply deliver_ok_set_conn _ _ _ h3a
            show e.deliver_window - 1 ≤ STREAMWINDOW_START
            omega
          simp only at h
          split at h
          · cases h; exact h4
          · simp only [Option.map_eq_some', Prod.mk.injEq] at h
            obtain ⟨c5, h5, -, rfl⟩ := h
            refine connection_edge_consider_sending_sendme_ok ops env _ _ _ h5 ?_
            apply deliver_ok_set_conn _ _ _ h4
            show e.deliver_window - 1 ≤ STREAMWINDOW_START
            omega

/-- The dispatcher `connection_edge_process_relay_cell` keeps the bound on
the deliver windows: only the DATA case changes a deliver window, by the
decrement and by the increments of the two SENDME loops. -/
theorem connection_edge_process_relay_cell_ok (cell : cell_t)
    (c c1 : circuit_t κ δ) (conn : Option conn_ref) (lh : Option Nat) (r : Int)
    (h : connection_edge_process_relay_cell ops env cell c conn lh = some (r, c1))
    (hok : deliver_ok c) : deliver_ok c1 := by
  unfold connection_edge_process_relay_cell at h
  simp only at h
  generalize relay_header_unpack cell.payload = rh at h
  by_cases hlen : rh.length > RELAY_PAYLOAD_SIZE
  · rw [if_pos hlen] at h
    cases h; exact hok
  rw [if_neg hlen] at h
  generalize (match conn with
    | none => some none
    | some cr => Option.map (fun e =>
        if (!connection_state_is_open e) = true then some cr else none)
        (c.get_conn cr)) = no at h
  split at h
  · cases h
  · exact deliver_ok_of_view _ _
      (connection_edge_process_relay_cell_not_open_dv ops env _ _ _ _ _ _ _ h) hok
  · by_cases h1 : rh.command = RELAY_COMMAND_DROP
    · rw [if_pos h1] at h
      cases h; exact hok
    rw [if_neg h1] at h
    by_cases h2 : rh.command = RELAY_COMMAND_BEGIN ∨ rh.command = RELAY_COMMAND_BEGIN_DIR
    · rw [if_pos h2] at h
      repeat' split at h
      all_goals first
        | (cases h; done)
        | (cases h; exact hok)
    rw [if_neg h2] at h
    by_cases h3 : rh.command = RELAY_COMMAND_DATA
    · rw [if_pos h3] at h
      exact process_relay_data_ok ops env _ _ _ _ _ _ _ h hok
    rw [if_neg h3] at h
    by_cases h4 : rh.command = RELAY_COMMAND_END
    · rw [if_pos h4] at h
      exact deliver_ok_of_view _ _ (process_relay_end_dv _ _ _ _ _ _ h) hok
    rw [if_neg h4] at h
    by_cases h5 : rh.command = RELAY_COMMAND_EXTEND
    · rw [if_pos h5] at h
      repeat' split at h
      all_goals first
        | (cases h; done)
        | (cases h; exact hok)
    rw [if_neg h5] at h
    by_cases h6 : rh.command = RELAY_COMMAND_EXTENDED
    · rw [if_pos h6] at h
      repeat' split at h
      all_goals first
        | (cases h; done)
        | (cases h; exact hok)
    rw [if_neg h6] at h
    by_cases h7 : rh.command = RELAY_COMMAND_TRUNCATE
    · rw [if_pos h7] at h
      split at h
      · cases h; exact hok
      · exact deliver_ok_of_view _ _ (process_relay_truncate_dv ops _ _ _ _ h) hok
    rw [if_neg h7] at h
    by_cases h8 : rh.command = RELAY_COMMAND_TRUNCATED
    · rw [if_pos h8] at h
      split at h
      · cases h; exact hok
      · split at h
        · cases h
        · cases h; exact deliver_ok_of_view _ _ rfl hok
    rw [if_neg h8] at h
    by_cases h9 : rh.command = RELAY_COMMAND_CONNECTED
    · rw [if_pos h9] at h
      repeat' split at h
      all_goals first
        | (cases h; done)
        | (cases h; exact hok)
    rw [if_neg h9] at h
    by_cases h10 : rh.command = RELAY_COMMAND_SENDME
    · rw [if_pos h10] at h
      exact deliver_ok_of_view _ _ (process_relay_sendme_dv ops _ _ _ _ _ h) hok
    rw [if_neg h10] at h
    by_cases h11 : rh.command = RELAY_COMMAND_RESOLVE
    · rw [if_pos h11] at h
      repeat' split at h
      all_goals first
        | (cases h; done)
        | (cases h; exact hok)
    rw [if_neg h11] at h
    by_cases h12 : rh.command = RELAY_COMMAND_RESOLVED
    · rw [if_pos h12] at h
      repeat' split at h
      all_goals first
        | (cases h; done)
        | (cases h; exact hok)
    rw [if_neg h12] at h
    split at h
    · cases h; exact deliver_ok_of_view _ _ rfl hok
    · cases h; exact hok

/-- One operation of the engine keeps the bound on the deliver windows. -/
theorem run_op_ok (c c1 : circuit_t κ δ) (op : engine_op)
    (h : run_op ops env c op = some c1) (hok : deliver_ok c) : deliver_ok c1 := by
  cases op with
  | process cell conn lh =>
    simp only [run_op, Option.map_eq_some'] at h
    obtain ⟨⟨r, c2⟩, h2, rfl⟩ := h
    exact connection_edge_process_relay_cell_ok ops env _ _ _ _ _ _ h2 hok
  | package conn pp =>
    simp only [run_op, Option.map_eq_some'] at h
    obtain ⟨⟨r, c2⟩, h2, rfl⟩ := h
    exact deliver_ok_of_view _ _
      (connection_edge_package_raw_inbuf_dv ops _ _ _ _ _ h2) hok
  | stream_sendme conn =>
    exact connection_edge_consider_sending_sendme_ok ops env _ _ _ h hok
  | circuit_sendme lh =>
    exact circuit_consider_sending_sendme_ok ops _ _ _ h hok
  | edge_read conn bytes =>
    simp only [run_op, Option.map_eq_some'] at h
    obtain ⟨e, he, rfl⟩ := h
    exact deliver_ok_of_view _ _ (deliver_view_set_conn _ _ e _ he rfl) hok
/-- C5, amended to the deliver windows: in every trace of dispatcher
(`connection_edge_process_relay_cell`) and send-path
(`connection_edge_package_raw_inbuf`, the two SENDME senders, bytes arriving
on a stream) operations that starts with no deliver window above its start
value (1000 for the circuit and its hops, 500 for the streams), every state
reached has no deliver window above its start value. -/
theorem deliver_windows_never_exceed_start (l : List engine_op) :
    ∀ (c c1 : circuit_t κ δ),
      deliver_ok c → run_ops ops env l c = some c1 → deliver_ok c1 := by
  induction l with
  | nil =>
    intro c c1 hok h
    simp only [run_ops, Option.some.injEq] at h
    subst h
    exact hok
  | cons op rest ih =>
    intro c c1 hok h
    simp only [run_ops] at h
    split at h
    · cases h
    · rename_i c2 h2
      exact ih _ _ (run_op_ok ops env _ _ _ h2 hok) h

/-- Recording a call keeps the flow-control view. -/
theorem flow_view_emit (c : circuit_t κ δ) (a : action) :
    flow_view (c.emit a) = flow_view c := rfl

/-- Storing a stream with the window, buffer and hop of the stream it
replaces keeps the flow-control view. -/
theorem flow_view_set_conn (c : circuit_t κ δ) (r : conn_ref)
    (e e1 : edge_connection_t) (h : c.get_conn r = some e)
    (hd : flow_of e1 = flow_of e) :
    flow_view (c.set_conn r e1) = flow_view c := by
  unfold circuit_t.get_conn at h
  unfold circuit_t.set_conn flow_view
  split at h <;> rename_i hl <;> simp only [hl] <;>
    rw [list_map_set_same _ _ _ _ _ h hd]

/-- A stream read through a pointer after a step that keeps the flow-control
view has the window, buffer and hop it had. -/
theorem get_conn_of_flow_view (c c1 : circuit_t κ δ) (r : conn_ref)
    (e : edge_connection_t) (h : flow_view c1 = flow_view c)
    (he : c.get_conn r = some e) :
    ∃ e0, c1.get_conn r = some e0 ∧ flow_of e0 = flow_of e := by
  simp only [flow_view, Prod.mk.injEq] at h
  obtain ⟨-, -, -, hp, hn, hr⟩ := h
  have hg : (c1.get_conn r).map flow_of = (c.get_conn r).map flow_of := by
    unfold circuit_t.get_conn
    split
    · rw [← List.getElem?_map, ← List.getElem?_map, hp]
    · rw [← List.getElem?_map, ← List.getElem?_map, hn]
    · rw [← List.getElem?_map, ← List.getElem?_map, hr]
  rw [he] at hg
  cases hc : c1.get_conn r with
  | none => rw [hc] at hg; simp at hg
  | some v =>
    rw [hc] at hg
    simp only [Option.map_some', Option.some.injEq] at hg
    exact ⟨v, rfl, hg⟩

/-- Stopping the reader of an existing stream succeeds and keeps the
flow-control view. -/
theorem connection_stop_reading_fv (c : circuit_t κ δ) (r : conn_ref)
    (e : edge_connection_t) (he : c.get_conn r = some e) :
    ∃ c1, connection_stop_reading c r = some c1 ∧ flow_view c1 = flow_view c := by
  unfold connection_stop_reading
  rw [he]
  exact ⟨_, rfl, (flow_view_emit _ _).trans (flow_view_set_conn _ _ e _ he rfl)⟩

/-- Stopping the readers of the streams of a list keeps the flow-control
view. -/
theorem stop_reading_streams_fv (l : stream_list) (p : edge_connection_t → Bool)
    (n : Nat) (c : circuit_t κ δ) :
    flow_view (stop_reading_streams l p c n) = flow_view c := by
  unfold stop_reading_streams
  generalize List.range n = is
  induction is generalizing c with
  | nil => rfl
  | cons i is ih =>
    rw [List.foldl_cons, ih]
    split
    · rfl
    · rename_i e he
      split
      · obtain ⟨c1, h1, hv⟩ := connection_stop_reading_fv c ⟨l, i⟩ e he
        rw [h1]
        exact hv
      · rfl

end window_theorems

set_option maxRecDepth 1000000 in
/-- C5 at a concrete trace: `toy_exit` starts with its circuit windows at
1000 and its stream windows at 500; one circuit-level SENDME handed to the
dispatcher leaves the circuit's package window at 1100, above its start
value. -/
theorem package_window_exceeds_start_counterexample :
    package_view toy_exit = (CIRCWINDOW_START, [], [], [STREAMWINDOW_START], []) ∧
    deliver_view toy_exit = (CIRCWINDOW_START, [], [], [STREAMWINDOW_START], []) ∧
    (run_ops toy_ops toy_env [.process toy_circuit_sendme none none] toy_exit).map
      package_view = some (1100, [], [], [500], []) ∧
    CIRCWINDOW_START < 1100 := by
  decide

set_option maxRecDepth 1000000 in
/-- The bound on the deliver windows at the trace `toy_window_trace` from
`toy_exit`: the trace runs to its end, and the state it reaches has the
deliver windows 999 and 499. -/
theorem deliver_windows_never_exceed_start_witness :
    deliver_ok toy_exit ∧
    (run_ops toy_ops toy_env toy_window_trace toy_exit).map deliver_view =
      some (999, [], [], [499], []) ∧
    ∀ c1, run_ops toy_ops toy_env toy_window_trace toy_exit = some c1 → deliver_ok c1 :=
  have hok : deliver_ok toy_exit := by
    unfold deliver_ok deliver_view_ok
    decide
  ⟨hok, by decide,
    fun c1 h => deliver_windows_never_exceed_start toy_ops toy_env toy_window_trace
      toy_exit c1 hok h⟩

set_option maxRecDepth 1000000 in
/-- The TIMEOUT case at `toy_origin_ap`: the END cell has length 1 and reason
byte 7, the stream is no rendezvous stream and the failure count of its
address would be below the bound, yet the only call is
`connection_mark_unattached_ap`. -/
theorem connection_ap_process_end_not_open_timeout_witness :
    (relay_header_unpack (toy_end_cell 7).payload).length = 1 ∧
    (toy_ap_stream [65]).is_rendezvous_stream = false ∧
    toy_env.client_dns_incr_failures [65] < MAX_RESOLVE_FAILURES ∧
    connection_ap_process_end_not_open toy_env
      (relay_header_unpack (toy_end_cell 7).payload) (toy_end_cell 7)
      (toy_origin_ap [65]) ⟨.p_streams, 0⟩ (some 1) =
      some (0, ((toy_origin_ap [65]).set_conn ⟨.p_streams, 0⟩
        { toy_ap_stream [65] with marked_for_close := true }).emit
        (.connection_mark_unattached_ap ⟨.p_streams, 0⟩
          (Int.lor END_STREAM_REASON_TIMEOUT END_STREAM_REASON_FLAG_REMOTE))) :=
  ⟨by decide, rfl, by decide,
    connection_ap_process_end_not_open_timeout toy_env (toy_origin_ap [65])
      ⟨.p_streams, 0⟩ (toy_ap_stream [65]) _ (toy_end_cell 7) (some 1) rfl rfl
      (by decide)⟩

/-- The early return at `toy_origin`, which is not marked for close: a DATA
payload of three bytes with no target hop gives -1 and the circuit as it
was. -/
theorem relay_send_command_from_edge_origin_no_layer_witness :
    toy_origin.marked_for_close = false ∧
    relay_send_command_from_edge toy_ops 5 toy_origin RELAY_COMMAND_DATA [1, 2, 3] none =
      some (-1, toy_origin) :=
  ⟨rfl, relay_send_command_from_edge_origin_no_layer toy_ops toy_origin 5
    RELAY_COMMAND_DATA [1, 2, 3] rfl (by decide)⟩

section send_theorems

variable {κ δ : Type} (ops : crypto_ops κ δ) (env : collaborators)

/-- The layered-encryption loop returns when it starts at an existing hop
with more fuel than the position of that hop, and it leaves the windows and
state of every hop as they were. -/
theorem circuit_package_relay_cell_loop_total :
    ∀ (thishop fuel : Nat) (cpath : List (crypt_path_t κ δ)) (payload : List Nat),
      thishop < cpath.length → thishop < fuel →
      ∃ r cpath1 p1,
        circuit_package_relay_cell_loop ops fuel cpath thishop payload =
          some (r, cpath1, p1) ∧ (r = 0 ∨ r = -1) ∧
        cpath1.map (fun h => (h.package_window, h.deliver_window, h.state)) =
          cpath.map (fun h => (h.package_window, h.deliver_window, h.state)) := by
  intro thishop
  induction thishop with
  | zero =>
    intro fuel cpath payload hlt hf
    obtain ⟨f, rfl⟩ : ∃ f, fuel = f + 1 := ⟨fuel - 1, by omega⟩
    have hget : cpath[0]? = some (cpath.get ⟨0, hlt⟩) := List.getElem?_eq_getElem hlt
    unfold circuit_package_relay_cell_loop
    simp only [hget]
    split
    · exact ⟨_, _, _, rfl, Or.inr rfl, list_map_set_same _ _ _ _ _ hget rfl⟩
    · simp only [cpath_prev, if_true, ne_eq, not_true_eq_false, if_false]
      exact ⟨_, _, _, rfl, Or.inl rfl, list_map_set_same _ _ _ _ _ hget rfl⟩
  | succ k ih =>
    intro fuel cpath payload hlt hf
    obtain ⟨f, rfl⟩ : ∃ f, fuel = f + 1 := ⟨fuel - 1, by omega⟩
    have hget : cpath[k + 1]? = some (cpath.get ⟨k + 1, hlt⟩) :=
      List.getElem?_eq_getElem hlt
    unfold circuit_package_relay_cell_loop
    simp only [hget]
    split
    · exact ⟨_, _, _, rfl, Or.inr rfl, list_map_set_same _ _ _ _ _ hget rfl⟩
    · have hne : cpath_prev cpath (k + 1) ≠ cpath_prev cpath 0 := by
        simp only [cpath_prev, Nat.add_one_ne_zero, if_false, if_true, Nat.add_sub_cancel]
        omega
      have hk : cpath_prev cpath (k + 1) = k := by
        simp only [cpath_prev, Nat.add_one_ne_zero, if_false, Nat.add_sub_cancel]
      rw [if_pos hne, hk]
      obtain ⟨r, cpath1, p1, h1, hr, hm⟩ := ih f
        (cpath.set (k + 1)
          { (cpath.get ⟨k + 1, hlt⟩) with
            f_crypto := (relay_crypt_one_payload ops
              (cpath.get ⟨k + 1, hlt⟩).f_crypto payload 1).2.1 })
        (relay_crypt_one_payload ops (cpath.get ⟨k + 1, hlt⟩).f_crypto payload 1).2.2
        (by rw [List.length_set]; omega) (by omega)
      exact ⟨r, cpath1, p1, h1, hr, hm.trans (list_map_set_same _ _ _ _ _ hget rfl)⟩

/-- Under `relay_early_ok` the count of RELAY_EARLY cells left is not
negative and, with the count sent, within the capacity of the array. -/
theorem relay_early_ok_iff (c : circuit_t κ δ) :
    relay_early_ok c = true ↔
      (0 ≤ c.remaining_relay_early_cells ∧
        c.remaining_relay_early_cells + (c.relay_early_cells_sent : Int) ≤
          (c.relay_early_commands.length : Int)) := by
  simp only [relay_early_ok, decide_eq_true_eq]

/-- Packaging a cell returns when, for a cell that leaves an origin circuit,
the target hop exists and, for a cell that goes toward the origin on a
relayed circuit, the previous connection exists; it returns 0 or -1 and
leaves the send view and the RELAY_EARLY bookkeeping as they were. -/
theorem circuit_package_relay_cell_total (cell : cell_t) (c : circuit_t κ δ)
    (dir : cell_direction_t) (layer : Option Nat)
    (h : dir = CELL_DIRECTION_OUT → c.is_origin = true →
      ∃ l, layer = some l ∧ l < c.cpath.length)
    (hp : dir = CELL_DIRECTION_IN → c.is_origin = false → c.p_conn.isSome = true) :
    ∃ r c1 cell1, circuit_package_relay_cell ops cell c dir layer = some (r, c1, cell1) ∧
      (r = 0 ∨ r = -1) ∧ send_view c1 = send_view c ∧
      c1.remaining_relay_early_cells = c.remaining_relay_early_cells ∧
      c1.relay_early_cells_sent = c.relay_early_cells_sent ∧
      c1.relay_early_commands = c.relay_early_commands ∧
      c1.marked_for_close = c.marked_for_close := by
  unfold circuit_package_relay_cell
  cases dir with
  | CELL_DIRECTION_OUT =>
    simp only
    split
    · exact ⟨_, _, _, rfl, Or.inl rfl, rfl, rfl, rfl, rfl, rfl⟩
    · rename_i hc
      simp only [Bool.or_eq_true, Bool.not_eq_true', not_or, Bool.not_eq_false] at hc
      obtain ⟨l, rfl, hl⟩ := h rfl hc.1
      have hget : c.cpath[l]? = some (c.cpath.get ⟨l, hl⟩) := List.getElem?_eq_getElem hl
      simp only [hget]
      obtain ⟨r, cpath1, p1, h1, hr, hm⟩ := circuit_package_relay_cell_loop_total ops l
        (c.cpath.set l { (c.cpath.get ⟨l, hl⟩) with
          f_digest := (relay_set_digest ops (c.cpath.get ⟨l, hl⟩).f_digest cell).1 }).length
        (c.cpath.set l { (c.cpath.get ⟨l, hl⟩) with
          f_digest := (relay_set_digest ops (c.cpath.get ⟨l, hl⟩).f_digest cell).1 })
        (relay_set_digest ops (c.cpath.get ⟨l, hl⟩).f_digest cell).2.payload
        (by rw [List.length_set]; exact hl) (by rw [List.length_set]; exact hl)
      rw [h1]
      have hm2 := hm.trans (list_map_set_same _ _ _ _ _ hget rfl)
      simp only
      split
      · refine ⟨_, _, _, rfl, Or.inr rfl, ?_, rfl, rfl, rfl, rfl⟩
        simp only [send_view, hm2]
      · refine ⟨_, _, _, rfl, Or.inl rfl, ?_, rfl, rfl, rfl, rfl⟩
        simp only [send_view, circuit_t.emit, hm2]
  | CELL_DIRECTION_IN =>
    simp only
    split
    · exact ⟨_, _, _, rfl, Or.inl rfl, rfl, rfl, rfl, rfl, rfl⟩
    · rename_i ho
      split
      · exact ⟨_, _, _, rfl, Or.inr rfl, rfl, rfl, rfl, rfl, rfl⟩
      · obtain ⟨pc, hpc⟩ := Option.isSome_iff_exists.mp (hp rfl (by simpa using ho))
        rw [hpc]
        refine ⟨_, _, _, rfl, Or.inl rfl, ?_, rfl, rfl, rfl, rfl⟩
        simp only [send_view, circuit_t.emit, hpc]

/-- At an origin circuit whose RELAY_EARLY bookkeeping fits its array, the
choice between RELAY and RELAY_EARLY returns, keeps the send view and the
hops, and keeps the bookkeeping within the array. -/
theorem relay_early_choice_total (cell : cell_t) (c : circuit_t κ δ) (cmd : Nat)
    (layer : Option Nat) (ho : c.is_origin = true) (hok : relay_early_ok c = true) :
    ∃ cell1 c1, relay_early_choice cell c cmd layer = some (cell1, c1) ∧
      send_view c1 = send_view c ∧ c1.cpath = c.cpath ∧ relay_early_ok c1 = true ∧
      c1.marked_for_close = c.marked_for_close := by
  rw [relay_early_ok_iff] at hok
  unfold relay_early_choice
  have hno : ¬ ((!c.is_origin) = true) := by simp [ho]
  rw [if_neg hno]
  split
  · rename_i hc
    simp only [Bool.and_eq_true, decide_eq_true_eq] at hc
    have hlt : c.relay_early_cells_sent < c.relay_early_commands.length := by omega
    rw [if_pos hlt]
    refine ⟨_, _, rfl, rfl, rfl, ?_, rfl⟩
    rw [relay_early_ok_iff]
    simp only [List.length_set, Nat.cast_add, Nat.cast_one]
    omega
  · split
    · exact ⟨_, _, rfl, rfl, rfl, (relay_early_ok_iff _).mpr hok, rfl⟩
    · exact ⟨_, _, rfl, rfl, rfl, (relay_early_ok_iff _).mpr hok, rfl⟩

/-- On a circuit that `send_ok` accepts, `relay_send_command_from_edge`
with a payload that fits a cell returns 0 or -1, keeps the send view, and
leaves a circuit that `send_ok` accepts. -/
theorem relay_send_command_from_edge_total (sid : Nat) (c : circuit_t κ δ) (cmd : Nat)
    (payload : List Nat) (layer : Option Nat)
    (hlen : payload.length ≤ RELAY_PAYLOAD_SIZE) (hok : send_ok c layer = true) :
    ∃ r c1, relay_send_command_from_edge ops sid c cmd payload layer = some (r, c1) ∧
      (r = 0 ∨ r = -1) ∧ send_view c1 = send_view c ∧
      (∀ l, send_ok c l = true → send_ok c1 l = true) := by
  simp only [send_ok, Bool.and_eq_true] at hok
  obtain ⟨⟨hl, he⟩, hpc⟩ := hok
  have hsame : ∀ c1 : circuit_t κ δ, send_view c1 = send_view c →
      relay_early_ok c1 = true → ∀ l, send_ok c l = true → send_ok c1 l = true := by
    intro c1 hv h1 l hl0
    simp only [send_view, Prod.mk.injEq] at hv
    have hlen1 : c1.cpath.length = c.cpath.length := by
      have := congrArg List.length hv.2.2.2.2.1
      simpa only [List.length_map] using this
    simp only [send_ok, Bool.and_eq_true] at hl0 ⊢
    rw [hv.1, hlen1, hv.2.1.2]
    exact ⟨⟨hl0.1.1, h1⟩, hl0.2⟩
  unfold relay_send_command_from_edge
  rw [if_neg (Nat.not_lt.mpr hlen)]
  cases layer with
  | none =>
    simp only [layer_ok, Bool.not_eq_true'] at hl
    simp only [Option.isSome_none, Bool.false_eq_true, if_false, hl, Bool.not_false, if_true]
    obtain ⟨r, c1, cell1, h1, hr, hv, h2, h3, h4, -⟩ :=
      circuit_package_relay_cell_total ops
        (relay_send_cell c.p_circ_id sid cmd payload) c CELL_DIRECTION_IN none
        (fun h => by cases h) (fun _ ho => by simpa [ho] using hpc)
    rw [h1]
    simp only
    have he1 : relay_early_ok c1 = true := by
      rw [relay_early_ok_iff] at he ⊢
      rw [h2, h3, h4]
      exact he
    split
    · exact ⟨_, _, rfl, Or.inr rfl, hv, hsame _ hv he1⟩
    · exact ⟨_, _, rfl, Or.inl rfl, hv, hsame _ hv he1⟩
  | some l =>
    simp only [layer_ok, Bool.and_eq_true, decide_eq_true_eq] at hl
    obtain ⟨ho, hlt⟩ := hl
    simp only [Option.isSome_some, if_true]
    obtain ⟨cell0, c0, h0, hv0, hc0, he0, -⟩ :=
      relay_early_choice_total (relay_send_cell c.n_circ_id sid cmd payload) c cmd (some l)
        ho he
    rw [h0]
    simp only
    obtain ⟨r, c1, cell1, h1, hr, hv, h2, h3, h4, -⟩ :=
      circuit_package_relay_cell_total ops cell0 c0 CELL_DIRECTION_OUT (some l)
        (fun _ _ => ⟨l, rfl, by rw [hc0]; exact hlt⟩) (fun h => by cases h)
    rw [h1]
    simp only
    have he1 : relay_early_ok c1 = true := by
      rw [relay_early_ok_iff] at he0 ⊢
      rw [h2, h3, h4]
      exact he0
    split
    · exact ⟨_, _, rfl, Or.inr rfl, hv.trans hv0, hsame _ (hv.trans hv0) he1⟩
    · exact ⟨_, _, rfl, Or.inl rfl, hv.trans hv0, hsame _ (hv.trans hv0) he1⟩

/-- The streams are part of the send view. -/
theorem get_conn_of_send_view (c c1 : circuit_t κ δ) (r : conn_ref)
    (h : send_view c1 = send_view c) : c1.get_conn r = c.get_conn r := by
  simp only [send_view, Prod.mk.injEq] at h
  obtain ⟨-, -, -, -, -, hp, hn, hr⟩ := h
  unfold circuit_t.get_conn
  rw [hp, hn, hr]

/-- The circuit-level deliver window is part of the send view. -/
theorem circuit_deliver_window_of_send_view (c c1 : circuit_t κ δ) (lh : Option Nat)
    (h : send_view c1 = send_view c) :
    circuit_deliver_window c1 lh = circuit_deliver_window c lh := by
  simp only [send_view, Prod.mk.injEq] at h
  obtain ⟨-, -, -, hd, hc, -, -, -⟩ := h
  unfold circuit_deliver_window
  cases lh with
  | none => simp only [hd]
  | some l =>
    have h1 : ∀ cp : List (crypt_path_t κ δ),
        (cp[l]?).map (fun hop => hop.deliver_window) =
          ((cp.map (fun h => (h.package_window, h.deliver_window, h.state)))[l]?).map
            (fun t => t.2.1) := by
      intro cp
      rw [List.getElem?_map, Option.map_map]
      rfl
    simp only
    rw [h1, h1, hc]

/-- Storing a stream keeps `send_ok`. -/
theorem send_ok_set_conn (c : circuit_t κ δ) (r : conn_ref) (e : edge_connection_t)
    (l : Option Nat) : send_ok (c.set_conn r e) l = send_ok c l := by
  unfold circuit_t.set_conn
  split <;> rfl

/-- Storing a stream in two circuits with the same send view gives the same
send view. -/
theorem send_view_set_conn_congr (a b : circuit_t κ δ) (r : conn_ref)
    (x : edge_connection_t) (h : send_view a = send_view b) :
    send_view (a.set_conn r x) = send_view (b.set_conn r x) := by
  simp only [send_view, Prod.mk.injEq] at h
  obtain ⟨h1, h2, h3, h4, h5, h6, h7, h8⟩ := h
  unfold circuit_t.set_conn
  split <;> simp only [send_view, h1, h2, h3, h4, h5, h6, h7, h8]

/-- Storing a stream twice through the same pointer is storing the second
stream. -/
theorem set_conn_set_conn (c : circuit_t κ δ) (r : conn_ref) (a b : edge_connection_t) :
    (c.set_conn r a).set_conn r b = c.set_conn r b := by
  unfold circuit_t.set_conn
  split <;> rename_i hl <;> simp only [hl, List.set_set]

/-- Storing the stream a pointer refers to changes nothing. -/
theorem set_conn_get_conn (c : circuit_t κ δ) (r : conn_ref) (e : edge_connection_t)
    (h : c.get_conn r = some e) : c.set_conn r e = c := by
  have key : ∀ (l : List edge_connection_t) (i : Nat), l[i]? = some e → l.set i e = l := by
    intro l i hi
    have hlt := (List.getElem?_eq_some_iff.mp hi).1
    apply List.ext_getElem?
    intro j
    rw [List.getElem?_set]
    split
    · rename_i hj
      subst hj
      simp [hlt, hi]
    · rfl
  unfold circuit_t.get_conn at h
  unfold circuit_t.set_conn
  split at h <;> rename_i hl <;> simp only [hl, key _ _ h]

/-- Sending a command from a stream that is on its circuit returns 0 or -1
and keeps the send view, when the payload fits a cell and the stream's hop
pointer fits the circuit. -/
theorem connection_edge_send_command_total (c : circuit_t κ δ) (conn : conn_ref)
    (cmd : Nat) (payload : List Nat) (e : edge_connection_t)
    (he : c.get_conn conn = some e) (hon : e.on_circuit = true)
    (hlen : payload.length ≤ RELAY_PAYLOAD_SIZE)
    (hok : send_ok c e.cpath_layer = true) :
    ∃ r c1, connection_edge_send_command ops c conn cmd payload = some (r, c1) ∧
      (r = 0 ∨ r = -1) ∧ send_view c1 = send_view c ∧
      (∀ l, send_ok c l = true → send_ok c1 l = true) ∧
      (e.marked_for_close = true → r = 0 ∧ c1 = c) ∧
      (e.marked_for_close = false →
        relay_send_command_from_edge ops e.stream_id c cmd payload e.cpath_layer =
          some (r, c1)) := by
  unfold connection_edge_send_command
  simp only [he]
  by_cases hm : e.marked_for_close = true
  · rw [if_pos hm]
    exact ⟨_, _, rfl, Or.inl rfl, rfl, fun _ h => h, fun _ => ⟨rfl, rfl⟩,
      fun h => by rw [hm] at h; cases h⟩
  · rw [if_neg hm]
    simp only [hon, Bool.not_true, Bool.false_eq_true, if_false]
    obtain ⟨r, c1, h1, hr, hv, hs⟩ :=
      relay_send_command_from_edge_total ops e.stream_id c cmd payload e.cpath_layer hlen hok
    exact ⟨r, c1, h1, hr, hv, hs, fun h => absurd h hm, fun _ => h1⟩

/-- The stream-level SENDME loop returns, given fuel for the increments the
window needs: it leaves the circuit as sending leaves it, but for the
deliver window of the stream, which is not lowered. -/
theorem connection_edge_consider_sending_sendme_loop_total (conn : conn_ref) :
    ∀ (fuel : Nat) (c : circuit_t κ δ) (e : edge_connection_t),
      c.get_conn conn = some e → e.on_circuit = true →
      send_ok c e.cpath_layer = true →
      (STREAMWINDOW_START - 1 - e.deliver_window).toNat / 50 + 1 ≤
        fuel →
      ∃ c1 w1, connection_edge_consider_sending_sendme_loop ops fuel c conn = some c1 ∧
        e.deliver_window ≤ w1 ∧
        send_view c1 = send_view (c.set_conn conn { e with deliver_window := w1 }) ∧
        (∀ l, send_ok c l = true → send_ok c1 l = true) ∧
        (¬ e.deliver_window < STREAMWINDOW_START - STREAMWINDOW_INCREMENT →
          w1 = e.deliver_window) := by
  intro fuel
  induction fuel with
  | zero => intro c e _ _ _ hf; omega
  | succ n ih =>
    intro c e he hon hok hf
    unfold connection_edge_consider_sending_sendme_loop
    simp only [he]
    split
    · rename_i hlt
      have he1 : (c.set_conn conn
          { e with deliver_window := e.deliver_window + STREAMWINDOW_INCREMENT }).get_conn conn =
          some { e with deliver_window := e.deliver_window + STREAMWINDOW_INCREMENT } :=
        get_conn_set_conn_self c conn e _ he
      obtain ⟨r, c2, h2, hr, hv2, hs2, -, -⟩ := connection_edge_send_command_total ops
        (c.set_conn conn
          { e with deliver_window := e.deliver_window + STREAMWINDOW_INCREMENT })
        conn RELAY_COMMAND_SENDME [] _ he1 hon (by decide)
        (by rw [send_ok_set_conn]; exact hok)
      rw [h2]
      simp only
      have hs : ∀ l, send_ok c l = true → send_ok c2 l = true := by
        intro l hl
        apply hs2
        rw [send_ok_set_conn]
        exact hl
      split
      · refine ⟨c2, e.deliver_window + STREAMWINDOW_INCREMENT, rfl, ?_, hv2, hs,
          fun h => absurd hlt h⟩
        simp only [STREAMWINDOW_INCREMENT]
        omega
      · have he2 : c2.get_conn conn =
            some { e with deliver_window := e.deliver_window + STREAMWINDOW_INCREMENT } := by
          rw [get_conn_of_send_view _ _ _ hv2, he1]
        obtain ⟨c3, w3, h3, hw3, hv3, hs3, -⟩ := ih c2 _ he2 hon (hs _ hok) (by
          simp only [STREAMWINDOW_START, STREAMWINDOW_INCREMENT] at hf hlt ⊢
          omega)
        refine ⟨c3, w3, h3, ?_, ?_, fun l hl => hs3 l (hs l hl), fun h => absurd hlt h⟩
        · simp only [STREAMWINDOW_INCREMENT] at hw3
          omega
        · rw [hv3, send_view_set_conn_congr _ _ conn _ hv2, set_conn_set_conn]
    · refine ⟨c, e.deliver_window, rfl, le_refl _, ?_, fun _ h => h, fun _ => rfl⟩
      rw [set_conn_get_conn c conn e he]

/-- A pointer reads the same stream in two circuits with the same stream
lists. -/
theorem get_conn_of_streams (c c1 : circuit_t κ δ) (r : conn_ref)
    (h : streams_of c1 = streams_of c) : c1.get_conn r = c.get_conn r := by
  simp only [streams_of, Prod.mk.injEq] at h
  unfold circuit_t.get_conn
  rw [h.1, h.2.1, h.2.2]

/-- The stream lists are part of the send view. -/
theorem streams_of_send_view (c c1 : circuit_t κ δ)
    (h : send_view c1 = send_view c) : streams_of c1 = streams_of c := by
  simp only [send_view, Prod.mk.injEq] at h
  simp only [streams_of, h.2.2.2.2.2.1, h.2.2.2.2.2.2.1, h.2.2.2.2.2.2.2]

/-- The stream-level `connection_edge_consider_sending_sendme` returns on a
stream whose hop pointer fits the circuit: it leaves the circuit as sending
leaves it, but for the deliver window of the stream, which is not
lowered. -/
theorem connection_edge_consider_sending_sendme_total (c : circuit_t κ δ)
    (conn : conn_ref) (e : edge_connection_t) (he : c.get_conn conn = some e)
    (hok : send_ok c e.cpath_layer = true) :
    ∃ c1 w1, connection_edge_consider_sending_sendme ops env c conn = some c1 ∧
      e.deliver_window ≤ w1 ∧
      send_view c1 = send_view (c.set_conn conn { e with deliver_window := w1 }) ∧
      (∀ l, send_ok c l = true → send_ok c1 l = true) ∧
      (¬ e.deliver_window < STREAMWINDOW_START - STREAMWINDOW_INCREMENT →
        w1 = e.deliver_window) := by
  have hsame : send_view c =
      send_view (c.set_conn conn { e with deliver_window := e.deliver_window }) := by
    rw [set_conn_get_conn c conn e he]
  unfold connection_edge_consider_sending_sendme
  simp only [he]
  split
  · exact ⟨c, e.deliver_window, rfl, le_refl _, hsame, fun _ h => h, fun _ => rfl⟩
  · split
    · exact ⟨c, e.deliver_window, rfl, le_refl _, hsame, fun _ h => h, fun _ => rfl⟩
    · rename_i hon
      simp only [Bool.not_eq_true', Bool.not_eq_false] at hon
      exact connection_edge_consider_sending_sendme_loop_total ops conn _ c e he hon hok (by
        simp only [STREAMWINDOW_START, STREAMWINDOW_INCREMENT]
        omega)

/-- The increment of the circuit-level deliver window returns when the hop
pointer fits the circuit; it adds exactly `CIRCWINDOW_INCREMENT` to that
window and keeps the streams and `send_ok`. -/
theorem circuit_deliver_window_increment_total (c : circuit_t κ δ) (lh : Option Nat)
    (hl : layer_ok c.is_origin c.cpath.length lh = true) :
    ∃ w c1, circuit_deliver_window c lh = some w ∧
      circuit_deliver_window_increment c lh = some c1 ∧
      circuit_deliver_window c1 lh = some (w + CIRCWINDOW_INCREMENT) ∧
      streams_of c1 = streams_of c ∧ package_view c1 = package_view c ∧
      (∀ l, send_ok c1 l = send_ok c l) := by
  unfold circuit_deliver_window circuit_deliver_window_increment
  cases lh with
  | none => exact ⟨_, _, rfl, rfl, rfl, rfl, rfl, fun _ => rfl⟩
  | some l =>
    simp only [layer_ok, Bool.and_eq_true, decide_eq_true_eq] at hl
    have hget : c.cpath[l]? = some (c.cpath.get ⟨l, hl.2⟩) := List.getElem?_eq_getElem hl.2
    simp only [hget, Option.map_some']
    refine ⟨_, _, rfl, rfl, ?_, rfl, ?_, ?_⟩
    · simp only [List.getElem?_set_self hl.2, Option.map_some']
    · unfold package_view
      simp only [Prod.mk.injEq, true_and, and_true]
      apply list_map_set_same _ _ _ _ _ hget
      rfl
    · intro l1
      simp only [send_ok, relay_early_ok, List.length_set]

/-- The circuit-level SENDME loop returns, given fuel for the increments the
window needs; it keeps the streams and the package windows and does not
lower the circuit-level deliver window. -/
theorem circuit_consider_sending_sendme_loop_total (lh : Option Nat) :
    ∀ (fuel : Nat) (c : circuit_t κ δ) (w : Int),
      send_ok c lh = true → circuit_deliver_window c lh = some w →
      (CIRCWINDOW_START - 1 - w).toNat / 100 + 1 ≤ fuel →
      ∃ c1 w1, circuit_consider_sending_sendme_loop ops fuel c lh = some c1 ∧
        circuit_deliver_window c1 lh = some w1 ∧ w ≤ w1 ∧
        streams_of c1 = streams_of c ∧ package_view c1 = package_view c ∧
        (∀ l, send_ok c l = true → send_ok c1 l = true) ∧
        (¬ w < CIRCWINDOW_START - CIRCWINDOW_INCREMENT → w1 = w) := by
  intro fuel
  induction fuel with
  | zero => intro c w _ _ hf; omega
  | succ n ih =>
    intro c w hok hw hf
    have hl : layer_ok c.is_origin c.cpath.length lh = true := by
      simp only [send_ok, Bool.and_eq_true] at hok
      exact hok.1.1
    unfold circuit_consider_sending_sendme_loop
    simp only [hw]
    split
    · rename_i hlt
      obtain ⟨w0, c1, hw0, h1, hw1, hs1, hp1, hk1⟩ :=
        circuit_deliver_window_increment_total c lh hl
      rw [hw] at hw0
      cases hw0
      rw [h1]
      simp only
      obtain ⟨r, c2, h2, hr, hv2, hs2⟩ := relay_send_command_from_edge_total ops 0 c1
        RELAY_COMMAND_SENDME [] lh (by decide) (by rw [hk1]; exact hok)
      rw [h2]
      simp only
      have hw2 : circuit_deliver_window c2 lh = some (w + CIRCWINDOW_INCREMENT) := by
        rw [circuit_deliver_window_of_send_view _ _ _ hv2, hw1]
      have hst2 : streams_of c2 = streams_of c := (streams_of_send_view _ _ hv2).trans hs1
      have hpv2 : package_view c2 = package_view c := by
        refine Eq.trans ?_ hp1
        simp only [send_view, Prod.mk.injEq] at hv2
        obtain ⟨-, -, h3, -, h5, h6, h7, h8⟩ := hv2
        have h5a := congrArg (List.map (fun t : Int × Int × Nat => t.1)) h5
        simp only [List.map_map] at h5a
        simp only [package_view, h3, h6, h7, h8]
        exact congrArg (fun x => (c1.package_window, x, _)) h5a
      have hk2 : ∀ l, send_ok c l = true → send_ok c2 l = true := by
        intro l hl0
        apply hs2
        rw [hk1]
        exact hl0
      split
      · refine ⟨c2, _, rfl, hw2, ?_, hst2, hpv2, hk2, fun h => absurd hlt h⟩
        simp only [CIRCWINDOW_INCREMENT]
        omega
      · obtain ⟨c3, w3, h3, hw3, hle3, hst3, hpv3, hk3, -⟩ := ih c2 _ (hk2 _ hok) hw2 (by
          simp only [CIRCWINDOW_START, CIRCWINDOW_INCREMENT] at hf hlt ⊢
          omega)
        refine ⟨c3, w3, h3, hw3, ?_, hst3.trans hst2, hpv3.trans hpv2,
          fun l hl0 => hk3 l (hk2 l hl0), fun h => absurd hlt h⟩
        simp only [CIRCWINDOW_INCREMENT] at hle3
        omega
    · exact ⟨c, w, rfl, hw, le_refl _, rfl, rfl, fun _ h => h, fun _ => rfl⟩

/-- The circuit-level `circuit_consider_sending_sendme` returns on a circuit
that `send_ok` accepts; it keeps the streams and the package windows and
does not lower the circuit-level deliver window. -/
theorem circuit_consider_sending_sendme_total (c : circuit_t κ δ) (lh : Option Nat)
    (w : Int) (hok : send_ok c lh = true) (hw : circuit_deliver_window c lh = some w) :
    ∃ c1 w1, circuit_consider_sending_sendme ops c lh = some c1 ∧
      circuit_deliver_window c1 lh = some w1 ∧ w ≤ w1 ∧
      streams_of c1 = streams_of c ∧ package_view c1 = package_view c ∧
      (∀ l, send_ok c l = true → send_ok c1 l = true) ∧
      (¬ w < CIRCWINDOW_START - CIRCWINDOW_INCREMENT → w1 = w) := by
  unfold circuit_consider_sending_sendme
  simp only [hw]
  exact circuit_consider_sending_sendme_loop_total ops lh _ c w hok hw (by
    simp only [CIRCWINDOW_START, CIRCWINDOW_INCREMENT]
    omega)

/-- Storing streams with the same output buffer through the same pointer,
in circuits with the same streams, gives the same output buffers. -/
theorem outbuf_view_set_conn_congr (c c1 : circuit_t κ δ) (r : conn_ref)
    (x y : edge_connection_t) (hs : streams_of c1 = streams_of c)
    (hxy : x.outbuf = y.outbuf) :
    outbuf_view (c1.set_conn r x) = outbuf_view (c.set_conn r y) := by
  simp only [streams_of, Prod.mk.injEq] at hs
  obtain ⟨hp, hn, hr⟩ := hs
  unfold circuit_t.set_conn outbuf_view
  split <;> simp only [hp, hn, hr, List.map_set, hxy]

/-- Circuits with the same streams have the same output buffers. -/
theorem outbuf_view_of_streams (c c1 : circuit_t κ δ)
    (hs : streams_of c1 = streams_of c) : outbuf_view c1 = outbuf_view c := by
  simp only [streams_of, Prod.mk.injEq] at hs
  simp only [outbuf_view, hs.1, hs.2.1, hs.2.2]

/-- A DATA cell for no stream, or for an open stream, reaches the DATA case
of the dispatcher. -/
theorem connection_edge_process_relay_cell_data (cell : cell_t) (c : circuit_t κ δ)
    (conn : Option conn_ref) (lh : Option Nat)
    (hcmd : (relay_header_unpack cell.payload).command = RELAY_COMMAND_DATA)
    (hlen : (relay_header_unpack cell.payload).length ≤ RELAY_PAYLOAD_SIZE)
    (hopen : ∀ cr, conn = some cr →
      ∃ e, c.get_conn cr = some e ∧ connection_state_is_open e = true) :
    connection_edge_process_relay_cell ops env cell c conn lh =
      process_relay_data ops env (relay_header_unpack cell.payload) cell c conn lh := by
  unfold connection_edge_process_relay_cell
  simp only
  rw [if_neg (Nat.not_lt.mpr hlen)]
  split
  · rename_i heq
    cases conn with
    | none => cases heq
    | some cr =>
      obtain ⟨e, he, ho⟩ := hopen cr rfl
      simp [he] at heq
  · rename_i cr0 heq
    cases conn with
    | none => cases heq
    | some cr =>
      obtain ⟨e, he, ho⟩ := hopen cr rfl
      simp [he, ho] at heq
  · have h1 : ¬ RELAY_COMMAND_DATA = RELAY_COMMAND_DROP := by decide
    have h2 : ¬ (RELAY_COMMAND_DATA = RELAY_COMMAND_BEGIN ∨
        RELAY_COMMAND_DATA = RELAY_COMMAND_BEGIN_DIR) := by decide
    rw [hcmd, if_neg h1, if_neg h2, if_pos rfl]

/-- The decrement of the circuit-level deliver window takes exactly one from
it, reports whether the result is below zero, and keeps the streams, the
package windows and `send_ok`. -/
theorem deliver_window_decrement_spec (c : circuit_t κ δ) (lh : Option Nat) (w : Int)
    (hw : circuit_deliver_window c lh = some w) :
    ∃ c1, deliver_window_decrement c lh = some (decide (w - 1 < 0), c1) ∧
      circuit_deliver_window c1 lh = some (w - 1) ∧ streams_of c1 = streams_of c ∧
      package_view c1 = package_view c ∧ (∀ l, send_ok c1 l = send_ok c l) := by
  unfold circuit_deliver_window at hw
  unfold deliver_window_decrement circuit_deliver_window
  cases lh with
  | none =>
    simp only [Option.some.injEq] at hw
    subst hw
    exact ⟨_, rfl, rfl, rfl, rfl, fun _ => rfl⟩
  | some l =>
    simp only [Option.map_eq_some'] at hw
    obtain ⟨hop, hget, rfl⟩ := hw
    have hlt := (List.getElem?_eq_some_iff.mp hget).1
    simp only [hget]
    refine ⟨_, rfl, ?_, rfl, ?_, ?_⟩
    · simp only [List.getElem?_set_self hlt, Option.map_some']
    · unfold package_view
      simp only [Prod.mk.injEq, true_and, and_true]
      apply list_map_set_same _ _ _ _ _ hget
      rfl
    · intro l1
      simp only [send_ok, relay_early_ok, List.length_set]

/-- C11: a DATA cell with a length field of at most 498 for the open stream
`cr`, on a circuit whose circuit-level deliver window is `w` (the hop's with
`layer_hint`, else the circuit's) and on which SENDME cells can be sent
(`send_ok`: the hop pointers fit the circuit, the RELAY_EARLY bookkeeping
fits its array, and a relayed circuit has its previous connection, which the
cell queue asserts).  The dispatcher returns.  If `w - 1` is negative it returns
`-END_CIRC_REASON_TORPROTOCOL`, the circuit-level window is `w - 1` and no
output buffer has changed.  Otherwise the circuit-level window ends at
`w - 1` or above (exactly `w - 1` when no SENDME is due), and if the stream's
deliver window minus one is negative the dispatcher returns the same error,
the stream's window is one less and no output buffer has changed; otherwise
it returns 0, the stream's window ends at one less or above (exactly one less
when no SENDME is due), and the output buffers are those of the circuit with
the first `length` body bytes of the cell appended to the stream's. -/
theorem process_relay_cell_data_open_stream (cell : cell_t) (circ : circuit_t κ δ)
    (cr : conn_ref) (e : edge_connection_t) (lh : Option Nat) (w : Int)
    (hcmd : (relay_header_unpack cell.payload).command = RELAY_COMMAND_DATA)
    (hlen : (relay_header_unpack cell.payload).length ≤ RELAY_PAYLOAD_SIZE)
    (he : circ.get_conn cr = some e) (hopen : connection_state_is_open e = true)
    (hw : circuit_deliver_window circ lh = some w)
    (hok : send_ok circ lh = true) (hoks : send_ok circ e.cpath_layer = true) :
    ∃ r c1 e1 w1,
      connection_edge_process_relay_cell ops env cell circ (some cr) lh = some (r, c1) ∧
      c1.get_conn cr = some e1 ∧ circuit_deliver_window c1 lh = some w1 ∧
      (w - 1 < 0 →
        r = -END_CIRC_REASON_TORPROTOCOL ∧ w1 = w - 1 ∧
        e1.deliver_window = e.deliver_window ∧ outbuf_view c1 = outbuf_view circ) ∧
      (¬ w - 1 < 0 →
        w - 1 ≤ w1 ∧ (¬ w - 1 < CIRCWINDOW_START - CIRCWINDOW_INCREMENT → w1 = w - 1) ∧
        (e.deliver_window - 1 < 0 →
          r = -END_CIRC_REASON_TORPROTOCOL ∧ e1.deliver_window = e.deliver_window - 1 ∧
          outbuf_view c1 = outbuf_view circ) ∧
        (¬ e.deliver_window - 1 < 0 →
          r = 0 ∧ e.deliver_window - 1 ≤ e1.deliver_window ∧
          (¬ e.deliver_window - 1 < STREAMWINDOW_START - STREAMWINDOW_INCREMENT →
            e1.deliver_window = e.deliver_window - 1) ∧
          outbuf_view c1 = outbuf_view (circ.set_conn cr
            { e with outbuf := e.outbuf ++
                cell_body cell (relay_header_unpack cell.payload).length }))) := by
  rw [connection_edge_process_relay_cell_data ops env cell circ (some cr) lh hcmd hlen
    (fun cr1 h => by cases h; exact ⟨e, he, hopen⟩)]
  obtain ⟨c1, h1, hw1, hs1, -, hk1⟩ := deliver_window_decrement_spec circ lh w hw
  have he1 : c1.get_conn cr = some e := by rw [get_conn_of_streams _ _ _ hs1, he]
  have hwin : ∀ (c3 : circuit_t κ δ) (x : edge_connection_t),
      circuit_deliver_window (c3.set_conn cr x) lh = circuit_deliver_window c3 lh := by
    intro c3 x
    cases hl : cr.list <;> simp only [circuit_deliver_window, circuit_t.set_conn, hl]
  unfold process_relay_data
  rw [h1]
  by_cases hneg : w - 1 < 0
  · rw [decide_eq_true hneg]
    simp only []
    have he1a : (c1.emit (.connection_edge_end cr END_STREAM_REASON_TORPROTOCOL)).get_conn cr =
        some e := he1
    unfold connection_mark_for_close
    simp only [he1a, Option.map_some']
    refine ⟨_, _, { e with marked_for_close := true }, w - 1, rfl, ?_, ?_, ?_, ?_⟩
    · exact get_conn_set_conn_self _ _ e _ he1a
    · rw [← hw1]
      exact hwin _ _
    · intro _
      refine ⟨rfl, rfl, rfl, ?_⟩
      have hx : outbuf_view
          ((c1.emit (.connection_edge_end cr END_STREAM_REASON_TORPROTOCOL)).set_conn cr
            { e with marked_for_close := true }) =
          outbuf_view (circ.set_conn cr e) :=
        outbuf_view_set_conn_congr circ _ cr _ _ hs1 rfl
      rw [set_conn_get_conn circ cr e he] at hx
      exact hx
    · intro h
      exact absurd hneg h
  · rw [decide_eq_false hneg]
    simp only []
    obtain ⟨c2, w2, h2, hw2, hle2, hs2, -, hk2, hx2⟩ :=
      circuit_consider_sending_sendme_total ops c1 lh (w - 1) (by rw [hk1]; exact hok) hw1
    rw [h2]
    have hs20 : streams_of c2 = streams_of circ := hs2.trans hs1
    have he2 : c2.get_conn cr = some e := by rw [get_conn_of_streams _ _ _ hs20, he]
    have hk20 : ∀ l, send_ok circ l = true → send_ok c2 l = true := by
      intro l hl
      apply hk2
      rw [hk1]
      exact hl
    simp only [he2]
    by_cases hneg2 : e.deliver_window - 1 < 0
    · rw [if_pos hneg2]
      refine ⟨_, _, { e with deliver_window := e.deliver_window - 1 }, w2, rfl, ?_, ?_, ?_, ?_⟩
      · exact get_conn_set_conn_self _ _ e _ he2
      · rw [hwin, hw2]
      · intro h
        exact absurd h hneg
      · intro _
        refine ⟨hle2, hx2, fun _ => ⟨rfl, rfl, ?_⟩, fun h => absurd hneg2 h⟩
        have hx : outbuf_view (c2.set_conn cr { e with deliver_window := e.deliver_window - 1 }) =
            outbuf_view (circ.set_conn cr e) :=
          outbuf_view_set_conn_congr circ c2 cr _ _ hs20 rfl
        rw [set_conn_get_conn circ cr e he] at hx
        exact hx
    · rw [if_neg hneg2]
      rw [set_conn_set_conn]
      have he4 : (c2.set_conn cr
          { e with deliver_window := e.deliver_window - 1,
                   outbuf := e.outbuf ++
                    cell_body cell (relay_header_unpack cell.payload).length }).get_conn cr =
          some { e with deliver_window := e.deliver_window - 1,
                        outbuf := e.outbuf ++
                          cell_body cell (relay_header_unpack cell.payload).length } :=
        get_conn_set_conn_self _ _ e _ he2
      obtain ⟨c5, w5, h5, hle5, hv5, -, hx5⟩ :=
        connection_edge_consider_sending_sendme_total ops env _ cr _ he4
          (by rw [send_ok_set_conn]; exact hk20 _ hoks)
      rw [h5]
      rw [set_conn_set_conn] at hv5
      have hs5 := streams_of_send_view _ _ hv5
      have hcw5 := circuit_deliver_window_of_send_view _ _ lh hv5
      refine ⟨_, _, { e with deliver_window := w5,
                             outbuf := e.outbuf ++
                              cell_body cell (relay_header_unpack cell.payload).length },
        w2, rfl, ?_, ?_, ?_, ?_⟩
      · rw [get_conn_of_streams _ _ _ hs5]
        exact get_conn_set_conn_self _ _ e _ he2
      · rw [hcw5, hwin, hw2]
      · intro h
        exact absurd h hneg
      · intro _
        refine ⟨hle2, hx2, fun h => absurd h hneg2, fun _ => ⟨rfl, hle5, hx5, ?_⟩⟩
        rw [outbuf_view_of_streams _ _ hs5]
        exact outbuf_view_set_conn_congr circ c2 cr _ _ hs20 rfl

set_option maxRecDepth 1000000 in
/-- The DATA case at `toy_exit`: with the circuit window at 1000 and the
stream window at 500 the three body bytes of `toy_data_cell` reach the
stream's output buffer and the dispatcher returns 0; with the circuit window
at 0 it returns -1 (`-END_CIRC_REASON_TORPROTOCOL`) and the buffer stays
empty. -/
theorem process_relay_cell_data_open_stream_witness :
    (∃ c1, connection_edge_process_relay_cell toy_ops toy_env toy_data_cell toy_exit
        (some ⟨.n_streams, 0⟩) none = some (0, c1) ∧
      outbuf_view c1 = ([], [[104, 105, 10]], [])) ∧
    (∃ c1, connection_edge_process_relay_cell toy_ops toy_env toy_data_cell
        { toy_exit with deliver_window := 0 } (some ⟨.n_streams, 0⟩) none = some (-1, c1) ∧
      outbuf_view c1 = ([], [[]], [])) := by
  obtain ⟨r, c1, e1, w1, h, -, -, -, h2⟩ :=
    process_relay_cell_data_open_stream toy_ops toy_env toy_data_cell toy_exit
      ⟨.n_streams, 0⟩ (new_stream CONN_TYPE_EXIT EXIT_CONN_STATE_OPEN 5 none) none 1000
      (by decide) (by decide) (by decide) (by decide) (by decide) (by decide) (by decide)
  obtain ⟨-, -, -, h3⟩ := h2 (by decide)
  obtain ⟨hr, -, -, ho⟩ := h3 (by decide)
  obtain ⟨r0, c0, e0, w0, h0, -, -, h4, -⟩ :=
    process_relay_cell_data_open_stream toy_ops toy_env toy_data_cell
      { toy_exit with deliver_window := 0 }
      ⟨.n_streams, 0⟩ (new_stream CONN_TYPE_EXIT EXIT_CONN_STATE_OPEN 5 none) none 0
      (by decide) (by decide) (by decide) (by decide) (by decide) (by decide) (by decide)
  obtain ⟨hr0, -, -, ho0⟩ := h4 (by decide)
  subst hr hr0
  exact ⟨⟨c1, h, ho.trans (by decide)⟩, ⟨c0, h0, ho0.trans (by decide)⟩⟩

/-- Packaging a cell only adds to the trace. -/
theorem circuit_package_relay_cell_trace (cell cell1 : cell_t) (c c1 : circuit_t κ δ)
    (dir : cell_direction_t) (layer : Option Nat) (r : Int)
    (h : circuit_package_relay_cell ops cell c dir layer = some (r, c1, cell1)) :
    ∃ t, c1.trace = c.trace ++ t := by
  unfold circuit_package_relay_cell at h
  simp only at h
  repeat' split at h
  all_goals first
    | (cases h; done)
    | (cases h; exact ⟨[], (List.append_nil _).symm⟩)
    | (cases h; exact ⟨[_], rfl⟩)

/-- The choice between RELAY and RELAY_EARLY only adds to the trace. -/
theorem relay_early_choice_trace (cell cell1 : cell_t) (c c1 : circuit_t κ δ)
    (cmd : Nat) (layer : Option Nat)
    (h : relay_early_choice cell c cmd layer = some (cell1, c1)) :
    ∃ t, c1.trace = c.trace ++ t := by
  unfold relay_early_choice at h
  repeat' split at h
  all_goals first
    | (cases h; done)
    | (cases h; exact ⟨[], (List.append_nil _).symm⟩)
    | (cases h; exact ⟨[_], rfl⟩)

/-- Sending a relay command only adds to the trace. -/
theorem relay_send_command_from_edge_trace (sid : Nat) (c c1 : circuit_t κ δ)
    (cmd : Nat) (payload : List Nat) (layer : Option Nat) (r : Int)
    (h : relay_send_command_from_edge ops sid c cmd payload layer = some (r, c1)) :
    ∃ t, c1.trace = c.trace ++ t := by
  unfold relay_send_command_from_edge at h
  split at h
  · cases h
  · simp only at h
    split at h
    · cases h
      exact ⟨[], (List.append_nil _).symm⟩
    · rename_i cid dir hdir
      split at h
      · cases h
      · rename_i cell0 c0 hstep
        have h0 : ∃ t, c0.trace = c.trace ++ t := by
          cases dir with
          | CELL_DIRECTION_OUT => exact relay_early_choice_trace _ _ _ _ _ _ hstep
          | CELL_DIRECTION_IN =>
            simp only [Option.some.injEq, Prod.mk.injEq] at hstep
            rw [← hstep.2]
            exact ⟨[], (List.append_nil _).symm⟩
        obtain ⟨t0, ht0⟩ := h0
        split at h
        · cases h
        · rename_i r1 c2 cell2 hp
          obtain ⟨t1, ht1⟩ := circuit_package_relay_cell_trace ops _ _ _ _ _ _ _ hp
          split at h
          · cases h
            refine ⟨t0 ++ t1 ++ [.circuit_mark_for_close END_CIRC_REASON_INTERNAL], ?_⟩
            simp only [circuit_mark_for_close, circuit_t.emit, ht1, ht0, List.append_assoc]
          · cases h
            exact ⟨t0 ++ t1, by rw [ht1, ht0, List.append_assoc]⟩

/-- Dropping the recorded payloads from the instrumented loop gives the loop
of `connection_edge_package_raw_inbuf`. -/
theorem connection_edge_package_raw_inbuf_loop_cells_erase (conn : conn_ref) (pp : Bool) :
    ∀ (fuel : Nat) (c : circuit_t κ δ),
      (connection_edge_package_raw_inbuf_loop_cells ops fuel c conn pp).map
        (fun x => (x.1, x.2.1)) = connection_edge_package_raw_inbuf_loop ops fuel c conn pp := by
  intro fuel
  induction fuel with
  | zero => intro c; rfl
  | succ n ih =>
    intro c
    unfold connection_edge_package_raw_inbuf_loop_cells connection_edge_package_raw_inbuf_loop
    cases h0 : c.get_conn conn with
    | none => rfl
    | some e =>
      simp only
      split
      · rfl
      · cases h1 : circuit_consider_stop_edge_reading c e.cpath_layer with
        | none => rfl
        | some bc =>
          obtain ⟨b, c1⟩ := bc
          cases b with
          | true => rfl
          | false =>
            simp only
            split
            · simp only [Option.map_map]
              rfl
            · split
              · rfl
              · split
                · rfl
                · generalize connection_edge_send_command ops _ conn RELAY_COMMAND_DATA _ = sr
                  cases sr with
                  | none => rfl
                  | some rc =>
                    obtain ⟨r, c3⟩ := rc
                    simp only
                    split
                    · rfl
                    · cases h3 : package_window_decrement c3 e.cpath_layer with
                      | none => rfl
                      | some c4 =>
                        simp only
                        cases h4 : c4.get_conn conn with
                        | none => rfl
                        | some e4 =>
                          simp only
                          split
                          · generalize connection_stop_reading _ conn = s5
                            cases s5 with
                            | none => rfl
                            | some c6 =>
                              simp only [Option.map_map]
                              rfl
                          · rw [← ih, Option.map_map]
                            rfl

/-- Dropping the recorded payloads from the instrumented function gives
`connection_edge_package_raw_inbuf`. -/
theorem connection_edge_package_raw_inbuf_cells_erase (c : circuit_t κ δ)
    (conn : conn_ref) (pp : Bool) :
    (connection_edge_package_raw_inbuf_cells ops c conn pp).map (fun x => (x.1, x.2.1)) =
      connection_edge_package_raw_inbuf ops c conn pp := by
  unfold connection_edge_package_raw_inbuf_cells connection_edge_package_raw_inbuf
  cases h0 : c.get_conn conn with
  | none => rfl
  | some e =>
    simp only
    split
    · rfl
    · exact connection_edge_package_raw_inbuf_loop_cells_erase ops conn pp _ c

/-- The flow-control view is part of the send view. -/
theorem flow_view_of_send_view (c c1 : circuit_t κ δ)
    (h : send_view c1 = send_view c) : flow_view c1 = flow_view c := by
  simp only [send_view, Prod.mk.injEq] at h
  obtain ⟨h1, -, h3, -, h5, h6, h7, h8⟩ := h
  have h5a := congrArg (List.map (fun t : Int × Int × Nat => t.1)) h5
  simp only [List.map_map] at h5a
  simp only [flow_view, h1, h3, h6, h7, h8, Prod.mk.injEq, true_and, and_true]
  exact h5a

/-- The package window the send path decrements is part of the flow-control
view. -/
theorem circuit_package_window_of_flow_view (c c1 : circuit_t κ δ) (layer : Option Nat)
    (h : flow_view c1 = flow_view c) :
    circuit_package_window c1 layer = circuit_package_window c layer := by
  simp only [flow_view, Prod.mk.injEq] at h
  obtain ⟨-, hw, hc, -, -, -⟩ := h
  unfold circuit_package_window
  cases layer with
  | none => simp only [hw]
  | some l =>
    simp only
    rw [← List.getElem?_map, ← List.getElem?_map, hc]

/-- The kind of circuit and the number of hops are part of the flow-control
view. -/
theorem shape_of_flow_view (c c1 : circuit_t κ δ) (h : flow_view c1 = flow_view c) :
    c1.is_origin = c.is_origin ∧ c1.cpath.length = c.cpath.length := by
  simp only [flow_view, Prod.mk.injEq] at h
  obtain ⟨h1, -, hc, -, -, -⟩ := h
  have := congrArg List.length hc
  simp only [List.length_map] at this
  exact ⟨h1, this⟩

/-- Stopping the readers of the streams of a list only adds to the trace,
and adds the call for every stream of the list that satisfies `p`, when `p`
looks at the window, buffer and hop of a stream only. -/
theorem stop_reading_streams_trace (l : stream_list) (p : edge_connection_t → Bool)
    (hp : ∀ e e1 : edge_connection_t, flow_of e1 = flow_of e → p e1 = p e)
    (n : Nat) (c : circuit_t κ δ) :
    ∃ t, (stop_reading_streams l p c n).trace = c.trace ++ t ∧
      ∀ (i : Nat) (e : edge_connection_t), i < n → c.get_conn ⟨l, i⟩ = some e →
        p e = true → action.connection_stop_reading ⟨l, i⟩ ∈ t := by
  unfold stop_reading_streams
  have key : ∀ (is : List Nat) (c : circuit_t κ δ),
      ∃ t, (is.foldl (fun c i =>
          match c.get_conn ⟨l, i⟩ with
          | none => c
          | some e => if p e then (connection_stop_reading c ⟨l, i⟩).getD c else c) c).trace =
          c.trace ++ t ∧
        ∀ (i : Nat) (e : edge_connection_t), i ∈ is → c.get_conn ⟨l, i⟩ = some e →
          p e = true → action.connection_stop_reading ⟨l, i⟩ ∈ t := by
    intro is
    induction is with
    | nil =>
      intro c
      exact ⟨[], (List.append_nil _).symm, fun i e hi => by cases hi⟩
    | cons j rest ih =>
      intro c
      rw [List.foldl_cons]
      cases hj : c.get_conn ⟨l, j⟩ with
      | none =>
        simp only
        obtain ⟨t, ht, hm⟩ := ih c
        refine ⟨t, ht, ?_⟩
        intro i e hi he hpe
        rcases List.mem_cons.mp hi with rfl | hi
        · rw [hj] at he; cases he
        · exact hm i e hi he hpe
      | some ej =>
        simp only
        by_cases hpj : p ej = true
        · rw [if_pos hpj]
          obtain ⟨c1, h1, hv1⟩ := connection_stop_reading_fv c ⟨l, j⟩ ej hj
          have ht1 : c1.trace = c.trace ++ [action.connection_stop_reading ⟨l, j⟩] := by
            unfold connection_stop_reading at h1
            simp only [hj, Option.some.injEq] at h1
            rw [← h1]
            simp only [circuit_t.emit, trace_set_conn]
          rw [h1]
          simp only [Option.getD_some]
          obtain ⟨t, ht, hm⟩ := ih c1
          refine ⟨action.connection_stop_reading ⟨l, j⟩ :: t, ?_, ?_⟩
          · rw [ht, ht1, List.append_assoc]
            rfl
          · intro i e hi he hpe
            rcases List.mem_cons.mp hi with rfl | hi
            · exact List.mem_cons_self _ _
            · obtain ⟨e1, he1, hf1⟩ := get_conn_of_flow_view c c1 ⟨l, i⟩ e hv1 he
              exact List.mem_cons_of_mem _ (hm i e1 hi he1 (by rw [hp e e1 hf1]; exact hpe))
        · rw [if_neg hpj]
          obtain ⟨t, ht, hm⟩ := ih c
          refine ⟨t, ht, ?_⟩
          intro i e hi he hpe
          rcases List.mem_cons.mp hi with rfl | hi
          · rw [hj] at he
            cases he
            exact absurd hpe hpj
          · exact hm i e hi he hpe
  obtain ⟨t, ht, hm⟩ := key (List.range n) c
  exact ⟨t, ht, fun i e hi => hm i e (List.mem_range.mpr hi)⟩

/-- Storing a stream keeps the RELAY_EARLY bookkeeping. -/
theorem relay_early_ok_set_conn (c : circuit_t κ δ) (r : conn_ref) (e : edge_connection_t) :
    relay_early_ok (c.set_conn r e) = relay_early_ok c := by
  unfold circuit_t.set_conn
  split <;> rfl

/-- Circuits with the same flow-control view, RELAY_EARLY bookkeeping and
previous connection are accepted by `send_ok` alike. -/
theorem send_ok_of_flow_view (c c1 : circuit_t κ δ) (hv : flow_view c1 = flow_view c)
    (hr : relay_early_ok c1 = relay_early_ok c) (hp : c1.p_conn = c.p_conn)
    (l : Option Nat) : send_ok c1 l = send_ok c l := by
  obtain ⟨h1, h2⟩ := shape_of_flow_view c c1 hv
  simp only [send_ok, h1, h2, hr, hp]

/-- Stopping the reader of a stream keeps the RELAY_EARLY bookkeeping. -/
theorem connection_stop_reading_relay_early (c c1 : circuit_t κ δ) (r : conn_ref)
    (h : connection_stop_reading c r = some c1) : relay_early_ok c1 = relay_early_ok c := by
  unfold connection_stop_reading at h
  split at h
  · cases h
  · cases h
    exact relay_early_ok_set_conn _ _ _

/-- Stopping the readers of the streams of a list keeps the RELAY_EARLY
bookkeeping. -/
theorem stop_reading_streams_relay_early (l : stream_list) (p : edge_connection_t → Bool)
    (n : Nat) (c : circuit_t κ δ) :
    relay_early_ok (stop_reading_streams l p c n) = relay_early_ok c := by
  unfold stop_reading_streams
  generalize List.range n = is
  induction is generalizing c with
  | nil => rfl
  | cons i is ih =>
    rw [List.foldl_cons, ih]
    split
    · rfl
    · split
      · cases hs : connection_stop_reading c ⟨l, i⟩ with
        | none => rfl
        | some c1 => exact connection_stop_reading_relay_early c c1 _ hs
      · rfl

/-- With a hop pointer that fits the circuit,
`circuit_consider_stop_edge_reading` returns whether the package window it
looks at is exhausted.  It keeps the flow-control view and the RELAY_EARLY
bookkeeping and only adds to the trace; when the window is not exhausted it
changes nothing, and when it is, it stops the reader of every stream of the
walked list that is attached to the hop. -/
theorem circuit_consider_stop_edge_reading_spec (c : circuit_t κ δ) (layer : Option Nat)
    (pwc : Int) (hl : layer_ok c.is_origin c.cpath.length layer = true)
    (hw : circuit_package_window c layer = some pwc) :
    ∃ c1 t, circuit_consider_stop_edge_reading c layer = some (decide (pwc ≤ 0), c1) ∧
      flow_view c1 = flow_view c ∧ relay_early_ok c1 = relay_early_ok c ∧
      c1.trace = c.trace ++ t ∧ (¬ pwc ≤ 0 → c1 = c) ∧
      (pwc ≤ 0 → ∀ (i : Nat) (e : edge_connection_t),
        c.get_conn ⟨walked_list c, i⟩ = some e → e.cpath_layer = layer →
        action.connection_stop_reading ⟨walked_list c, i⟩ ∈ t) := by
  unfold circuit_package_window at hw
  unfold circuit_consider_stop_edge_reading
  cases layer with
  | none =>
    simp only [layer_ok, Bool.not_eq_true'] at hl
    simp only [Option.some.injEq] at hw
    subst hw
    simp only [hl, Bool.false_eq_true, if_false]
    by_cases hle : c.package_window ≤ 0
    · rw [if_pos hle, decide_eq_true hle]
      obtain ⟨t, ht, hm⟩ := stop_reading_streams_trace .n_streams (fun _ => true)
        (fun _ _ _ => rfl) c.n_streams.length c
      refine ⟨_, t, rfl, stop_reading_streams_fv _ _ _ _,
        stop_reading_streams_relay_early _ _ _ _, ht, fun h => absurd hle h, ?_⟩
      intro _ i e he _
      have hwl : walked_list c = .n_streams := by simp only [walked_list, hl, Bool.false_eq_true, if_false]
      rw [hwl] at he ⊢
      have hi : i < c.n_streams.length := by
        unfold circuit_t.get_conn at he
        exact (List.getElem?_eq_some_iff.mp he).1
      exact hm i e hi he rfl
    · rw [if_neg hle, decide_eq_false hle]
      exact ⟨c, [], rfl, rfl, rfl, (List.append_nil _).symm, fun _ => rfl,
        fun h => absurd h hle⟩
  | some lh =>
    simp only [layer_ok, Bool.and_eq_true, decide_eq_true_eq] at hl
    obtain ⟨ho, hlt⟩ := hl
    simp only [Option.map_eq_some'] at hw
    obtain ⟨hop, hget, rfl⟩ := hw
    simp only [hget]
    by_cases hle : hop.package_window ≤ 0
    · rw [if_pos hle, decide_eq_true hle]
      simp only [ho, Bool.not_true, Bool.false_eq_true, if_false]
      obtain ⟨t, ht, hm⟩ := stop_reading_streams_trace .p_streams
        (fun conn => conn.cpath_layer == some lh)
        (fun e e1 h => by
          simp only [flow_of, Prod.mk.injEq] at h
          simp only [h.2.2])
        c.p_streams.length c
      refine ⟨_, t, rfl, stop_reading_streams_fv _ _ _ _,
        stop_reading_streams_relay_early _ _ _ _, ht, fun h => absurd hle h, ?_⟩
      intro _ i e he hlay
      have hwl : walked_list c = .p_streams := by simp only [walked_list, ho, if_true]
      rw [hwl] at he ⊢
      have hi : i < c.p_streams.length := by
        unfold circuit_t.get_conn at he
        exact (List.getElem?_eq_some_iff.mp he).1
      exact hm i e hi he (by simp only [hlay, beq_self_eq_true])
    · rw [if_neg hle, decide_eq_false hle]
      exact ⟨c, [], rfl, rfl, rfl, (List.append_nil _).symm, fun _ => rfl,
        fun h => absurd h hle⟩

/-- The window decrement of the send path on a positive window takes exactly
one from it and changes nothing else the send path looks at. -/
theorem package_window_decrement_spec (c : circuit_t κ δ) (layer : Option Nat) (pwc : Int)
    (hw : circuit_package_window c layer = some pwc) (hpos : 0 < pwc) :
    ∃ c1, package_window_decrement c layer = some c1 ∧
      circuit_package_window c1 layer = some (pwc - 1) ∧
      streams_of c1 = streams_of c ∧ c1.trace = c.trace ∧
      c1.is_origin = c.is_origin ∧ c1.cpath.length = c.cpath.length ∧
      relay_early_ok c1 = relay_early_ok c ∧ c1.p_conn = c.p_conn := by
  unfold circuit_package_window at hw
  unfold package_window_decrement circuit_package_window
  cases layer with
  | none =>
    simp only [Option.some.injEq] at hw
    subst hw
    simp only [gt_iff_lt, hpos, if_true]
    exact ⟨_, rfl, rfl, rfl, rfl, rfl, rfl, rfl, rfl⟩
  | some l =>
    simp only [Option.map_eq_some'] at hw
    obtain ⟨hop, hget, rfl⟩ := hw
    have hlt := (List.getElem?_eq_some_iff.mp hget).1
    simp only [hget, gt_iff_lt, hpos, if_true]
    refine ⟨_, rfl, ?_, rfl, rfl, rfl, ?_, ?_, rfl⟩
    · simp only [List.getElem?_set_self hlt, Option.map_some']
    · simp only [List.length_set]
    · simp only [relay_early_ok]

/-- Storing a stream changes neither the kind of circuit, nor its hops, nor
its own package window. -/
theorem set_conn_frame (c : circuit_t κ δ) (r : conn_ref) (x : edge_connection_t) :
    (c.set_conn r x).is_origin = c.is_origin ∧ (c.set_conn r x).cpath = c.cpath ∧
    (c.set_conn r x).package_window = c.package_window := by
  unfold circuit_t.set_conn
  split <;> exact ⟨rfl, rfl, rfl⟩

/-- Storing a stream keeps the package window the send path decrements. -/
theorem circuit_package_window_set_conn (c : circuit_t κ δ) (r : conn_ref)
    (x : edge_connection_t) (layer : Option Nat) :
    circuit_package_window (c.set_conn r x) layer = circuit_package_window c layer := by
  obtain ⟨-, h2, h3⟩ := set_conn_frame c r x
  simp only [circuit_package_window, h2, h3]

/-- Storing a stream keeps the list that is walked. -/
theorem walked_list_set_conn (c : circuit_t κ δ) (r : conn_ref) (x : edge_connection_t) :
    walked_list (c.set_conn r x) = walked_list c := by
  simp only [walked_list, (set_conn_frame c r x).1]

/-- The loop of `connection_edge_package_raw_inbuf` on a stream that is on
its circuit and not marked, with windows that are not negative: it returns
0; the recorded payloads are, in order, the bytes taken from the front of
the input buffer, each of 1 to 498 bytes and all but the last of 498; when
no send failed both windows have dropped by the number of payloads; the
windows are still not negative; a stream whose window is 0 on return had its
reader stopped; and without `package_partial` the loop ends with fewer than
498 bytes left or a window exhausted. -/
theorem connection_edge_package_raw_inbuf_loop_cells_spec (conn : conn_ref) (pp : Bool) :
    ∀ (fuel : Nat) (c : circuit_t κ δ) (e : edge_connection_t) (pwc : Int),
      c.get_conn conn = some e → e.on_circuit = true → e.marked_for_close = false →
      conn.list = walked_list c → send_ok c e.cpath_layer = true →
      circuit_package_window c e.cpath_layer = some pwc → e.inbuf.length < fuel →
      ∃ c1 bodies failed e1 pwc1 t,
        connection_edge_package_raw_inbuf_loop_cells ops fuel c conn pp =
          some (0, c1, bodies, failed) ∧
        c1.get_conn conn = some e1 ∧
        circuit_package_window c1 e.cpath_layer = some pwc1 ∧
        c1.trace = c.trace ++ t ∧
        e.inbuf = bodies.flatten ++ e1.inbuf ∧
        (∀ b ∈ bodies, 1 ≤ b.length ∧ b.length ≤ RELAY_PAYLOAD_SIZE) ∧
        (∀ b ∈ bodies.dropLast, b.length = RELAY_PAYLOAD_SIZE) ∧
        (pp = false → ∀ b ∈ bodies, b.length = RELAY_PAYLOAD_SIZE) ∧
        (failed = false →
          e1.package_window = e.package_window - bodies.length ∧
          pwc1 = pwc - bodies.length) ∧
        (0 ≤ e.package_window → 0 ≤ e1.package_window) ∧ (0 ≤ pwc → 0 ≤ pwc1) ∧
        (e1.package_window = 0 → action.connection_stop_reading conn ∈ t) ∧
        (failed = false → pp = false →
          e1.inbuf.length < RELAY_PAYLOAD_SIZE ∨ e1.package_window ≤ 0 ∨ pwc1 ≤ 0) := by
  intro fuel
  induction fuel with
  | zero => intro c e pwc _ _ _ _ _ _ hf; omega
  | succ n ih =>
    intro c e pwc he hon hmk hwl hok hw hf
    have hl : layer_ok c.is_origin c.cpath.length e.cpath_layer = true := by
      simp only [send_ok, Bool.and_eq_true] at hok
      exact hok.1.1
    have hconn : conn = ⟨walked_list c, conn.idx⟩ := by
      cases conn
      simp only at hwl
      simp only [hwl]
    obtain ⟨c1, t1, h1, hv1, hr1, ht1, hsame1, hstop1⟩ :=
      circuit_consider_stop_edge_reading_spec c e.cpath_layer pwc hl hw
    unfold connection_edge_package_raw_inbuf_loop_cells
    have hnon : ¬ ((!e.on_circuit) = true) := by simp [hon]
    simp only [he]
    rw [if_neg hnon, h1]
    by_cases hc0 : pwc ≤ 0
    · -- the circuit-level window is exhausted
      rw [decide_eq_true hc0]
      simp only []
      obtain ⟨e1, he1, hf1⟩ := get_conn_of_flow_view c c1 conn e hv1 he
      simp only [flow_of, Prod.mk.injEq] at hf1
      refine ⟨c1, [], false, e1, pwc, t1, rfl, he1, ?_, ht1, ?_, ?_, ?_, ?_, ?_, ?_, fun h => h,
        ?_, ?_⟩
      · rw [circuit_package_window_of_flow_view _ _ _ hv1, hw]
      · simp only [List.flatten_nil, List.nil_append, hf1.2.1]
      · intro b hb; cases hb
      · intro b hb; cases hb
      · intro _ b hb; cases hb
      · intro _
        simp only [List.length_nil, Nat.cast_zero, sub_zero, hf1.1, and_self]
      · rw [hf1.1]; exact fun h => h
      · intro _
        have := hstop1 hc0 conn.idx e (by rw [← hconn]; exact he) rfl
        rw [← hconn] at this
        exact this
      · intro _ _
        exact Or.inr (Or.inr hc0)
    · rw [decide_eq_false hc0]
      simp only []
      have hcc := hsame1 hc0
      subst hcc
      by_cases hs0 : e.package_window ≤ 0
      · -- the stream's window is exhausted
        rw [if_pos hs0]
        obtain ⟨c2, h2, hv2⟩ := connection_stop_reading_fv c1 conn e he
        have ht2 : c2.trace = c1.trace ++ [action.connection_stop_reading conn] := by
          unfold connection_stop_reading at h2
          simp only [he, Option.some.injEq] at h2
          rw [← h2]
          simp only [circuit_t.emit, trace_set_conn]
        rw [h2]
        obtain ⟨e1, he1, hf1⟩ := get_conn_of_flow_view c1 c2 conn e hv2 he
        simp only [flow_of, Prod.mk.injEq] at hf1
        refine ⟨c2, [], false, e1, pwc, [action.connection_stop_reading conn], rfl, he1, ?_,
          ht2, ?_, ?_, ?_, ?_, ?_, ?_, fun h => h, ?_, ?_⟩
        · rw [circuit_package_window_of_flow_view _ _ _ hv2, hw]
        · simp only [List.flatten_nil, List.nil_append, hf1.2.1]
        · intro b hb; cases hb
        · intro b hb; cases hb
        · intro _ b hb; cases hb
        · intro _
          simp only [List.length_nil, Nat.cast_zero, sub_zero, hf1.1, and_self]
        · rw [hf1.1]; exact fun h => h
        · intro _
          exact List.mem_singleton.mpr rfl
        · intro _ _
          exact Or.inr (Or.inl (by rw [hf1.1]; exact hs0))
      · rw [if_neg hs0]
        by_cases ha0 : e.inbuf.length = 0
        · -- nothing to package
          rw [if_pos ha0]
          refine ⟨c1, [], false, e, pwc, [], rfl, he, hw, (List.append_nil _).symm, ?_, ?_, ?_,
            ?_, ?_, fun h => h, fun h => h, ?_, ?_⟩
          · simp only [List.flatten_nil, List.nil_append]
          · intro b hb; cases hb
          · intro b hb; cases hb
          · intro _ b hb; cases hb
          · intro _
            simp only [List.length_nil, Nat.cast_zero, sub_zero, and_self]
          · intro h
            exact absurd (le_of_eq h) hs0
          · intro _ _
            exact Or.inl (by rw [ha0]; decide)
        · rw [if_neg ha0]
          by_cases hpart : (!pp && decide (e.inbuf.length < RELAY_PAYLOAD_SIZE)) = true
          · -- less than a full payload, and no partial cells
            rw [if_pos hpart]
            simp only [Bool.and_eq_true, Bool.not_eq_true', decide_eq_true_eq] at hpart
            refine ⟨c1, [], false, e, pwc, [], rfl, he, hw, (List.append_nil _).symm, ?_, ?_,
              ?_, ?_, ?_, fun h => h, fun h => h, ?_, ?_⟩
            · simp only [List.flatten_nil, List.nil_append]
            · intro b hb; cases hb
            · intro b hb; cases hb
            · intro _ b hb; cases hb
            · intro _
              simp only [List.length_nil, Nat.cast_zero, sub_zero, and_self]
            · intro h
              exact absurd (le_of_eq h) hs0
            · intro _ _
              exact Or.inl hpart.2
          · rw [if_neg hpart]
            -- one cell is packaged
            have hlenfacts : ∃ len : Nat,
                (if e.inbuf.length > RELAY_PAYLOAD_SIZE then RELAY_PAYLOAD_SIZE
                  else e.inbuf.length) = len ∧ 1 ≤ len ∧ len ≤ RELAY_PAYLOAD_SIZE ∧
                len ≤ e.inbuf.length ∧ (len < RELAY_PAYLOAD_SIZE → len = e.inbuf.length) ∧
                (pp = false → len = RELAY_PAYLOAD_SIZE) := by
              refine ⟨_, rfl, ?_⟩
              simp only [Bool.and_eq_true, Bool.not_eq_true', decide_eq_true_eq, not_and,
                not_lt] at hpart
              simp only [RELAY_PAYLOAD_SIZE] at hpart ⊢
              split
              · refine ⟨by omega, by omega, by omega, by omega, fun _ => rfl⟩
              · refine ⟨by omega, by omega, by omega, fun _ => rfl, ?_⟩
                intro hp
                have := hpart hp
                omega
            obtain ⟨len, hlen, hlen1, hlen2, hlen3, hlen4, hlen5⟩ := hlenfacts
            simp only [hlen]
            have hpl : (e.inbuf.take len).length = len := by
              rw [List.length_take]; omega
            have he2 : (c1.set_conn conn { e with inbuf := e.inbuf.drop len }).get_conn conn =
                some { e with inbuf := e.inbuf.drop len } :=
              get_conn_set_conn_self c1 conn e _ he
            obtain ⟨r, c3, h3, hr, hv3, hs3, -, hsend⟩ := connection_edge_send_command_total ops
              (c1.set_conn conn { e with inbuf := e.inbuf.drop len }) conn RELAY_COMMAND_DATA
              (e.inbuf.take len) _ he2 hon (by rw [hpl]; exact hlen2)
              (by rw [send_ok_set_conn]; exact hok)
            obtain ⟨t3, ht3⟩ := relay_send_command_from_edge_trace ops _ _ _ _ _ _ _ (hsend hmk)
            simp only [trace_set_conn] at ht3
            have hfv3 := flow_view_of_send_view _ _ hv3
            have hw3 : circuit_package_window c3 e.cpath_layer = some pwc := by
              rw [circuit_package_window_of_flow_view _ _ _ hfv3,
                circuit_package_window_set_conn, hw]
            have he3 : c3.get_conn conn = some { e with inbuf := e.inbuf.drop len } := by
              rw [get_conn_of_send_view _ _ _ hv3, he2]
            have hok3 : send_ok c3 e.cpath_layer = true :=
              hs3 _ (by rw [send_ok_set_conn]; exact hok)
            have hwl3 : walked_list c3 = walked_list c1 := by
              have := (shape_of_flow_view _ _ hfv3).1
              simp only [walked_list, this, (set_conn_frame c1 conn _).1]
            rw [h3]
            simp only []
            have hsizes : ∀ b ∈ [e.inbuf.take len], 1 ≤ b.length ∧ b.length ≤ RELAY_PAYLOAD_SIZE := by
              intro b hb
              rw [List.mem_singleton.mp hb, hpl]
              exact ⟨hlen1, hlen2⟩
            rcases hr with hr | hr
            · -- the send succeeded
              subst hr
              rw [if_neg (by decide)]
              obtain ⟨c4, h4, hw4, hs4, ht4, ho4, hcl4, hre4, hpc4⟩ :=
                package_window_decrement_spec c3 e.cpath_layer pwc hw3 (by omega)
              rw [h4]
              simp only []
              have he4 : c4.get_conn conn = some { e with inbuf := e.inbuf.drop len } := by
                rw [get_conn_of_streams _ _ _ hs4, he3]
              rw [he4]
              simp only []
              have he5 : (c4.set_conn conn
                  { e with inbuf := e.inbuf.drop len,
                           package_window := e.package_window - 1 }).get_conn conn =
                  some { e with inbuf := e.inbuf.drop len,
                                package_window := e.package_window - 1 } :=
                get_conn_set_conn_self c4 conn _ _ he4
              have hok4 : send_ok c4 e.cpath_layer = true := by
                simp only [send_ok, ho4, hcl4, hre4, hpc4]
                exact hok3
              have hw5 : circuit_package_window (c4.set_conn conn
                  { e with inbuf := e.inbuf.drop len,
                           package_window := e.package_window - 1 }) e.cpath_layer =
                  some (pwc - 1) := by
                rw [circuit_package_window_set_conn, hw4]
              have hwl5 : walked_list (c4.set_conn conn
                  { e with inbuf := e.inbuf.drop len,
                           package_window := e.package_window - 1 }) = walked_list c1 := by
                rw [walked_list_set_conn, ← hwl3]
                simp only [walked_list, ho4]
              have htr5 : (c4.set_conn conn
                  { e with inbuf := e.inbuf.drop len,
                           package_window := e.package_window - 1 }).trace = c1.trace ++ t3 := by
                rw [trace_set_conn, ht4, ht3]
              by_cases hz : e.package_window - 1 ≤ 0
              · -- the stream's window reached 0
                rw [if_pos hz]
                obtain ⟨c6, h6, hv6⟩ := connection_stop_reading_fv _ conn _ he5
                have ht6 : c6.trace = c1.trace ++ t3 ++ [action.connection_stop_reading conn] := by
                  unfold connection_stop_reading at h6
                  simp only [he5, Option.some.injEq] at h6
                  rw [← h6]
                  simp only [circuit_t.emit, trace_set_conn, ht4, ht3]
                have hre6 := connection_stop_reading_relay_early _ _ _ h6
                rw [h6]
                simp only []
                have hsh6 := shape_of_flow_view _ _ hv6
                have hl6 : layer_ok c6.is_origin c6.cpath.length e.cpath_layer = true := by
                  rw [hsh6.1, hsh6.2, (set_conn_frame c4 conn _).1, (set_conn_frame c4 conn _).2.1]
                  simp only [send_ok, Bool.and_eq_true] at hok4
                  exact hok4.1.1
                have hw6 : circuit_package_window c6 e.cpath_layer = some (pwc - 1) := by
                  rw [circuit_package_window_of_flow_view _ _ _ hv6, hw5]
                obtain ⟨c7, t7, h7, hv7, -, ht7, -, -⟩ :=
                  circuit_consider_stop_edge_reading_spec c6 e.cpath_layer (pwc - 1) hl6 hw6
                rw [h7]
                obtain ⟨e6, he6, hf6⟩ := get_conn_of_flow_view _ c6 conn _ hv6 he5
                obtain ⟨e7, he7, hf7⟩ := get_conn_of_flow_view _ c7 conn _ hv7 he6
                have hf := hf7.trans hf6
                simp only [flow_of, Prod.mk.injEq] at hf
                refine ⟨c7, [e.inbuf.take len], false, e7, pwc - 1,
                  t3 ++ [action.connection_stop_reading conn] ++ t7, rfl, he7, ?_, ?_, ?_,
                  hsizes, ?_, ?_, ?_, ?_, fun _ => by omega, ?_, ?_⟩
                · rw [circuit_package_window_of_flow_view _ _ _ hv7, hw6]
                · rw [ht7, ht6]
                  simp only [List.append_assoc]
                · simp only [List.flatten_cons, List.flatten_nil, List.append_nil, hf.2.1,
                    List.take_append_drop]
                · intro b hb; cases hb
                · intro hp b hb
                  rw [List.mem_singleton.mp hb, hpl]
                  exact hlen5 hp
                · intro _
                  simp only [List.length_singleton, Nat.cast_one, hf.1, and_self]
                · rw [hf.1]; intro _; omega
                · intro _
                  simp only [List.mem_append, List.mem_singleton, true_or, or_true]
                · intro _ _
                  exact Or.inr (Or.inl (by rw [hf.1]; exact hz))
              · -- more to do
                rw [if_neg hz]
                obtain ⟨c8, bodies, failed, e8, pwc8, t8, h8, he8, hw8, ht8, hin8, hsz8, hdl8,
                    hpp8, hwin8, h0s8, h0c8, hst8, hret8⟩ :=
                  ih (c4.set_conn conn
                      { e with inbuf := e.inbuf.drop len,
                               package_window := e.package_window - 1 })
                    { e with inbuf := e.inbuf.drop len,
                             package_window := e.package_window - 1 } (pwc - 1)
                    he5 hon hmk (by rw [hwl5]; exact hwl)
                    (by rw [send_ok_set_conn]; exact hok4) hw5
                    (by simp only [List.length_drop]; omega)
                rw [h8]
                simp only [Option.map_some']
                simp only at hin8 hwin8 h0s8
                refine ⟨c8, e.inbuf.take len :: bodies, failed, e8, pwc8, t3 ++ t8, rfl, he8, hw8,
                  ?_, ?_, ?_, ?_, ?_, ?_, fun _ => h0s8 (by omega), fun _ => h0c8 (by omega),
                  ?_, hret8⟩
                · rw [ht8, htr5, List.append_assoc]
                · simp only [List.flatten_cons, List.append_assoc, ← hin8, List.take_append_drop]
                · intro b hb
                  rcases List.mem_cons.mp hb with rfl | hb
                  · rw [hpl]; exact ⟨hlen1, hlen2⟩
                  · exact hsz8 b hb
                · intro b hb
                  cases hbd : bodies with
                  | nil =>
                    rw [hbd] at hb
                    simp at hb
                  | cons b0 rest =>
                    rw [hbd, List.dropLast_cons₂] at hb
                    rcases List.mem_cons.mp hb with rfl | hb
                    · rw [hpl]
                      by_contra hne
                      have hlt : len < RELAY_PAYLOAD_SIZE := lt_of_le_of_ne hlen2 hne
                      have hall := hlen4 hlt
                      have hnil : e.inbuf.drop len = [] := by
                        apply List.eq_nil_of_length_eq_zero
                        rw [List.length_drop]; omega
                      rw [hnil, hbd] at hin8
                      have hb0 := hsz8 b0 (by rw [hbd]; exact List.mem_cons_self _ _)
                      have := congrArg List.length hin8
                      simp only [List.length_nil, List.flatten_cons, List.length_append] at this
                      omega
                    · exact hdl8 b (by rw [hbd]; exact hb)
                · intro hp b hb
                  rcases List.mem_cons.mp hb with rfl | hb
                  · rw [hpl]; exact hlen5 hp
                  · exact hpp8 hp b hb
                · intro hfl
                  obtain ⟨ha, hb⟩ := hwin8 hfl
                  simp only [List.length_cons, Nat.cast_add, Nat.cast_one]
                  exact ⟨by rw [ha]; ring, by rw [hb]; ring⟩
                · intro h
                  exact List.mem_append_right _ (hst8 h)
            · -- the send failed
              subst hr
              rw [if_pos (by decide)]
              refine ⟨c3, [e.inbuf.take len], true, _, pwc, t3, rfl, he3, hw3, ht3, ?_, hsizes,
                ?_, ?_, ?_, fun h => h, fun h => h, ?_, ?_⟩
              · simp only [List.flatten_cons, List.flatten_nil, List.append_nil,
                  List.take_append_drop]
              · intro b hb; cases hb
              · intro hp b hb
                rw [List.mem_singleton.mp hb, hpl]
                exact hlen5 hp
              · intro h; cases h
              · intro h
                exact absurd (le_of_eq h) hs0
              · intro h; cases h

/-- The function `connection_edge_package_raw_inbuf` on a stream that is on
its circuit and not marked: what the loop lemma says, from the fuel the
function gives the loop. -/
theorem connection_edge_package_raw_inbuf_cells_spec (c : circuit_t κ δ) (conn : conn_ref)
    (pp : Bool) (e : edge_connection_t) (pwc : Int)
    (he : c.get_conn conn = some e) (hon : e.on_circuit = true)
    (hmk : e.marked_for_close = false) (hwl : conn.list = walked_list c)
    (hok : send_ok c e.cpath_layer = true)
    (hw : circuit_package_window c e.cpath_layer = some pwc) :
    ∃ c1 bodies failed e1 pwc1 t,
      connection_edge_package_raw_inbuf_cells ops c conn pp = some (0, c1, bodies, failed) ∧
      connection_edge_package_raw_inbuf ops c conn pp = some (0, c1) ∧
      c1.get_conn conn = some e1 ∧
      circuit_package_window c1 e.cpath_layer = some pwc1 ∧
      c1.trace = c.trace ++ t ∧
      e.inbuf = bodies.flatten ++ e1.inbuf ∧
      (∀ b ∈ bodies, 1 ≤ b.length ∧ b.length ≤ RELAY_PAYLOAD_SIZE) ∧
      (∀ b ∈ bodies.dropLast, b.length = RELAY_PAYLOAD_SIZE) ∧
      (pp = false → ∀ b ∈ bodies, b.length = RELAY_PAYLOAD_SIZE) ∧
      (failed = false →
        e1.package_window = e.package_window - bodies.length ∧
        pwc1 = pwc - bodies.length) ∧
      (0 ≤ e.package_window → 0 ≤ e1.package_window) ∧ (0 ≤ pwc → 0 ≤ pwc1) ∧
      (e1.package_window = 0 → action.connection_stop_reading conn ∈ t) ∧
      (failed = false → pp = false →
        e1.inbuf.length < RELAY_PAYLOAD_SIZE ∨ e1.package_window ≤ 0 ∨ pwc1 ≤ 0) := by
  obtain ⟨c1, bodies, failed, e1, pwc1, t, h, rest⟩ :=
    connection_edge_package_raw_inbuf_loop_cells_spec ops conn pp (e.inbuf.length + 1) c e pwc
      he hon hmk hwl hok hw (Nat.lt_succ_self _)
  have hcells : connection_edge_package_raw_inbuf_cells ops c conn pp =
      some (0, c1, bodies, failed) := by
    unfold connection_edge_package_raw_inbuf_cells
    simp only [he]
    rw [if_neg (by simp [hmk])]
    exact h
  refine ⟨c1, bodies, failed, e1, pwc1, t, hcells, ?_, rest⟩
  rw [← connection_edge_package_raw_inbuf_cells_erase, hcells]
  rfl

/-- C12, amended to a stream that is not marked for close: for a stream on
its circuit (in the list the circuit walks, with a hop pointer that fits; a
relayed circuit has its previous connection, which the cell queue asserts)
whose package window and whose circuit-level package window (the hop's, or
the circuit's when the stream has no hop) are not negative,
`connection_edge_package_raw_inbuf` returns 0 (no assertion on a window
fails), both windows are still not negative on return, and if the stream's
window is 0 on return the calls made include `connection_stop_reading` on
the stream. -/
theorem package_raw_inbuf_windows_nonneg (c : circuit_t κ δ) (conn : conn_ref)
    (pp : Bool) (e : edge_connection_t) (pwc : Int)
    (he : c.get_conn conn = some e) (hon : e.on_circuit = true)
    (hmk : e.marked_for_close = false) (hwl : conn.list = walked_list c)
    (hok : send_ok c e.cpath_layer = true)
    (hw : circuit_package_window c e.cpath_layer = some pwc)
    (h0s : 0 ≤ e.package_window) (h0c : 0 ≤ pwc) :
    ∃ c1 e1 pwc1 t,
      connection_edge_package_raw_inbuf ops c conn pp = some (0, c1) ∧
      c1.get_conn conn = some e1 ∧
      circuit_package_window c1 e.cpath_layer = some pwc1 ∧
      c1.trace = c.trace ++ t ∧
      0 ≤ e1.package_window ∧ 0 ≤ pwc1 ∧
      (e1.package_window = 0 → action.connection_stop_reading conn ∈ t) := by
  obtain ⟨c1, bodies, failed, e1, pwc1, t, -, h, he1, hw1, ht, -, -, -, -, -, hs, hc, hst, -⟩ :=
    connection_edge_package_raw_inbuf_cells_spec ops c conn pp e pwc he hon hmk hwl hok hw
  exact ⟨c1, e1, pwc1, t, h, he1, hw1, ht, hs h0s, hc h0c, hst⟩

/-- Storing a stream with the package window of the stream it replaces keeps
the package windows. -/
theorem package_view_set_conn (c : circuit_t κ δ) (r : conn_ref)
    (e e1 : edge_connection_t) (h : c.get_conn r = some e)
    (hd : e1.package_window = e.package_window) :
    package_view (c.set_conn r e1) = package_view c := by
  unfold circuit_t.get_conn at h
  unfold circuit_t.set_conn package_view
  split at h <;> rename_i hl <;> simp only [hl] <;>
    rw [list_map_set_same _ _ _ _ _ h hd]

/-- C14, amended in the return value for a marked stream: on a stream that is
already marked for close `connection_edge_package_raw_inbuf` returns 0 and
changes nothing; on a stream that is not marked and has no circuit it
returns -1, having set the stream's `end_reason` and made no call; in both
cases it hands no payload to `connection_edge_send_command` and no package
or deliver window changes. -/
theorem package_raw_inbuf_dead_stream (c : circuit_t κ δ) (conn : conn_ref)
    (pp : Bool) (e : edge_connection_t) (he : c.get_conn conn = some e) :
    (e.marked_for_close = true →
      connection_edge_package_raw_inbuf_cells ops c conn pp = some (0, c, [], false) ∧
      connection_edge_package_raw_inbuf ops c conn pp = some (0, c)) ∧
    (e.marked_for_close = false → e.on_circuit = false →
      connection_edge_package_raw_inbuf_cells ops c conn pp =
        some (-1, c.set_conn conn { e with end_reason := END_STREAM_REASON_CANT_ATTACH },
          [], false) ∧
      connection_edge_package_raw_inbuf ops c conn pp =
        some (-1, c.set_conn conn { e with end_reason := END_STREAM_REASON_CANT_ATTACH }) ∧
      (c.set_conn conn { e with end_reason := END_STREAM_REASON_CANT_ATTACH }).trace =
        c.trace ∧
      package_view (c.set_conn conn { e with end_reason := END_STREAM_REASON_CANT_ATTACH }) =
        package_view c ∧
      deliver_view (c.set_conn conn { e with end_reason := END_STREAM_REASON_CANT_ATTACH }) =
        deliver_view c) := by
  constructor
  · intro hmk
    have hc : connection_edge_package_raw_inbuf_cells ops c conn pp = some (0, c, [], false) := by
      unfold connection_edge_package_raw_inbuf_cells
      simp only [he, hmk, if_true]
    refine ⟨hc, ?_⟩
    rw [← connection_edge_package_raw_inbuf_cells_erase, hc]
    rfl
  · intro hmk hon
    have hc : connection_edge_package_raw_inbuf_cells ops c conn pp =
        some (-1, c.set_conn conn { e with end_reason := END_STREAM_REASON_CANT_ATTACH },
          [], false) := by
      unfold connection_edge_package_raw_inbuf_cells
      simp only [he]
      rw [if_neg (by simp [hmk])]
      unfold connection_edge_package_raw_inbuf_loop_cells
      simp only [he]
      rw [if_pos (by simp [hon])]
    refine ⟨hc, ?_, trace_set_conn _ _ _, package_view_set_conn _ _ e _ he rfl,
      deliver_view_set_conn _ _ e _ he rfl⟩
    rw [← connection_edge_package_raw_inbuf_cells_erase, hc]
    rfl

/-- A digest that does not match is put back as it was. -/
theorem relay_digest_matches_digest (d : δ) (cell : cell_t)
    (hm : (relay_digest_matches ops d cell).1 = false) :
    (relay_digest_matches ops d cell).2.1 = d := by
  unfold relay_digest_matches at hm ⊢
  simp only at hm ⊢
  split
  · rfl
  · rename_i h
    rw [if_neg h] at hm
    cases hm

/-- At a relayed circuit, `relay_crypt` on a cell it does not recognize
changes the circuit in its two ciphers only. -/
theorem relay_crypt_unrecognized_frame (circ circ1 : circuit_t κ δ) (cell cell1 : cell_t)
    (dir : cell_direction_t) (r : Int) (hint : Option Nat)
    (hno : circ.is_origin = false)
    (h : relay_crypt ops circ cell dir = some (r, circ1, cell1, hint, false)) :
    circ1 = { circ with n_crypto := circ1.n_crypto, p_crypto := circ1.p_crypto } := by
  unfold relay_crypt at h
  have hno1 : ¬ (circ.is_origin = true) := by simp [hno]
  cases dir with
  | CELL_DIRECTION_IN =>
    simp only at h
    rw [if_neg hno1] at h
    split at h
    · simp only [Option.some.injEq, Prod.mk.injEq] at h
      rw [← h.2.1]
    · simp only [Option.some.injEq, Prod.mk.injEq] at h
      rw [← h.2.1]
  | CELL_DIRECTION_OUT =>
    simp only at h
    rw [if_neg hno1] at h
    split at h
    · simp only [Option.some.injEq, Prod.mk.injEq] at h
      rw [← h.2.1]
    · split at h
      · simp only [Option.some.injEq, Prod.mk.injEq] at h
        obtain ⟨-, hc, -, -, hm⟩ := h
        rw [← hc]
        simp only [relay_digest_matches_digest ops _ _ hm]
      · simp only [Option.some.injEq, Prod.mk.injEq] at h
        rw [← h.2.1]

/-- C15: at a relayed circuit that is not marked, for a cell `relay_crypt`
processes without error and does not recognize, `circuit_receive_relay_cell`
passes the cell on.  The circuit `relay_crypt` leaves differs from the one
before in its two ciphers only (no window, digest or stream changes).  An
outbound cell with a next connection is handed to
`append_cell_to_circuit_queue` for that connection, with `circ_id` set to
`n_circ_id`, and 0 is returned; an inbound cell with a previous connection is
handed over for that connection with `circ_id` set to `p_circ_id`, and 0 is
returned.  With the connection absent and no splice that applies (none, or
the cell is inbound) no call is made and `-END_CIRC_REASON_TORPROTOCOL` is
returned. -/
theorem circuit_receive_relay_cell_unrecognized_forwards (cell : cell_t) (w : world κ δ)
    (dir : cell_direction_t)
    (hno : w.circ.is_origin = false) (hmark : w.circ.marked_for_close = false)
    (hcrypt : (relay_crypt ops w.circ cell dir).map
      (fun x => (decide (x.1 < 0), x.2.2.2.2)) = some (false, false)) :
    ∃ circ1 cell1,
      (relay_crypt ops w.circ cell dir).map (fun x => (x.2.1, x.2.2.1)) =
        some (circ1, cell1) ∧
      circ1 = { w.circ with n_crypto := circ1.n_crypto, p_crypto := circ1.p_crypto } ∧
      (∀ nc, dir = CELL_DIRECTION_OUT → w.circ.n_conn = some nc →
        circuit_receive_relay_cell ops env cell w dir =
          some (0,
            { w with circ := circ1.emit (.append_cell_to_circuit_queue (some nc)
                { cell1 with circ_id := w.circ.n_circ_id } CELL_DIRECTION_OUT) },
            { cell1 with circ_id := w.circ.n_circ_id })) ∧
      (∀ pc, dir = CELL_DIRECTION_IN → w.circ.p_conn = some pc →
        circuit_receive_relay_cell ops env cell w dir =
          some (0,
            { w with circ := circ1.emit (.append_cell_to_circuit_queue (some pc)
                { cell1 with circ_id := w.circ.p_circ_id } CELL_DIRECTION_IN) },
            { cell1 with circ_id := w.circ.p_circ_id })) ∧
      (dir = CELL_DIRECTION_OUT → w.circ.n_conn = none → w.rend_splice = none →
        circuit_receive_relay_cell ops env cell w dir =
          some (-END_CIRC_REASON_TORPROTOCOL, { w with circ := circ1 },
            { cell1 with circ_id := w.circ.n_circ_id })) ∧
      (dir = CELL_DIRECTION_IN → w.circ.p_conn = none →
        circuit_receive_relay_cell ops env cell w dir =
          some (-END_CIRC_REASON_TORPROTOCOL, { w with circ := circ1 },
            { cell1 with circ_id := w.circ.p_circ_id })) := by
  cases hc : relay_crypt ops w.circ cell dir with
  | none => rw [hc] at hcrypt; cases hcrypt
  | some res =>
    obtain ⟨r, circ1, cell1, hint, rec⟩ := res
    rw [hc] at hcrypt
    simp only [Option.map_some', Option.some.injEq, Prod.mk.injEq, decide_eq_false_iff_not]
      at hcrypt
    obtain ⟨hr, hrec⟩ := hcrypt
    subst hrec
    have hfr := relay_crypt_unrecognized_frame ops _ _ _ _ _ _ _ hno hc
    have hn : circ1.n_conn = w.circ.n_conn := by rw [hfr]
    have hp : circ1.p_conn = w.circ.p_conn := by rw [hfr]
    have hni : circ1.n_circ_id = w.circ.n_circ_id := by rw [hfr]
    have hpi : circ1.p_circ_id = w.circ.p_circ_id := by rw [hfr]
    have ho : circ1.is_origin = false := by rw [hfr]; exact hno
    refine ⟨circ1, cell1, rfl, hfr, ?_, ?_, ?_, ?_⟩
    · intro nc hd hnc
      subst hd
      unfold circuit_receive_relay_cell circuit_receive_relay_cell_aux
      simp only [hmark, Bool.false_eq_true, if_false, hc, hr, hn, hnc, hni]
    · intro pc hd hpc
      subst hd
      unfold circuit_receive_relay_cell circuit_receive_relay_cell_aux
      simp only [hmark, Bool.false_eq_true, if_false, hc, hr, ho, Bool.not_false, if_true, hp,
        hpc, hpi]
    · intro hd hnc hsp
      subst hd
      unfold circuit_receive_relay_cell circuit_receive_relay_cell_aux
      simp only [hmark, Bool.false_eq_true, if_false, hc, hr, hn, hnc, hni, hsp]
    · intro hd hpc
      subst hd
      unfold circuit_receive_relay_cell circuit_receive_relay_cell_aux
      simp only [hmark, Bool.false_eq_true, if_false, hc, hr, ho, Bool.not_false, if_true, hp,
        hpc, hpi]
      cases w.rend_splice with
      | none => rfl
      | some sp =>
        simp only []
        rw [if_neg (by decide)]

set_option maxRecDepth 1000000 in
/-- Witness for C15: the relay at the first hop passes the cell for the
second hop on to its next connection, and fails with the protocol reason
when it has no next connection. -/
theorem circuit_receive_relay_cell_unrecognized_forwards_witness :
    (∃ (c1 : circuit_t Nat Nat) (cell1 : cell_t),
      circuit_receive_relay_cell toy_ops toy_env toy_cellE ⟨toy_relay1, none⟩
          CELL_DIRECTION_OUT =
        some (0, ⟨c1.emit (.append_cell_to_circuit_queue (some 1)
          { cell1 with circ_id := 1 } CELL_DIRECTION_OUT), none⟩,
          { cell1 with circ_id := 1 }) ∧
      c1.n_digest = 10 ∧ c1.deliver_window = 1000 ∧ c1.package_window = 1000 ∧
      c1.trace.length = 0) ∧
    (∃ (c1 : circuit_t Nat Nat) (cell1 : cell_t),
      circuit_receive_relay_cell toy_ops toy_env toy_cellE
          ⟨{ toy_relay1 with n_conn := none }, none⟩ CELL_DIRECTION_OUT =
        some (-END_CIRC_REASON_TORPROTOCOL, ⟨c1, none⟩, { cell1 with circ_id := 1 }) ∧
      c1.trace.length = 0) := by
  obtain ⟨c1, cell1, -, hfr, hout, -, -, -⟩ :=
    circuit_receive_relay_cell_unrecognized_forwards toy_ops toy_env toy_cellE
      (world.mk toy_relay1 none) CELL_DIRECTION_OUT (by decide) (by decide) (by decide)
  obtain ⟨c2, cell2, -, hfr2, -, -, hnone, -⟩ :=
    circuit_receive_relay_cell_unrecognized_forwards toy_ops toy_env toy_cellE
      (world.mk { toy_relay1 with n_conn := none } none) CELL_DIRECTION_OUT (by decide) (by decide)
      (by decide)
  refine ⟨⟨c1, cell1, hout 1 rfl rfl, ?_, ?_, ?_, ?_⟩, ⟨c2, cell2, hnone rfl rfl rfl, ?_⟩⟩
  · rw [hfr]; rfl
  · rw [hfr]; rfl
  · rw [hfr]; rfl
  · rw [hfr]; rfl
  · rw [hfr2]; rfl

/-- C16: a relay cell with length at most 498 whose command is none of the
commands the switch of `connection_edge_process_relay_cell` knows, arriving
as a control cell (no stream) or for an open stream, is dropped: the result
is 0 and the circuit, with its windows, streams and recorded calls, is the
one before. -/
theorem process_relay_cell_unknown_command (cell : cell_t) (circ : circuit_t κ δ)
    (conn : Option conn_ref) (layer_hint : Option Nat)
    (hlen : (relay_header_unpack cell.payload).length ≤ RELAY_PAYLOAD_SIZE)
    (hcmd : (relay_header_unpack cell.payload).command ∉
      [RELAY_COMMAND_DROP, RELAY_COMMAND_BEGIN, RELAY_COMMAND_BEGIN_DIR, RELAY_COMMAND_DATA,
        RELAY_COMMAND_END, RELAY_COMMAND_EXTEND, RELAY_COMMAND_EXTENDED,
        RELAY_COMMAND_TRUNCATE, RELAY_COMMAND_TRUNCATED, RELAY_COMMAND_CONNECTED,
        RELAY_COMMAND_SENDME, RELAY_COMMAND_RESOLVE, RELAY_COMMAND_RESOLVED,
        RELAY_COMMAND_ESTABLISH_INTRO, RELAY_COMMAND_ESTABLISH_RENDEZVOUS,
        RELAY_COMMAND_INTRODUCE1, RELAY_COMMAND_INTRODUCE2, RELAY_COMMAND_INTRODUCE_ACK,
        RELAY_COMMAND_RENDEZVOUS1, RELAY_COMMAND_RENDEZVOUS2,
        RELAY_COMMAND_INTRO_ESTABLISHED, RELAY_COMMAND_RENDEZVOUS_ESTABLISHED])
    (hconn : conn = none ∨ ∃ cr e, conn = some cr ∧ circ.get_conn cr = some e ∧
      connection_state_is_open e = true) :
    connection_edge_process_relay_cell ops env cell circ conn layer_hint = some (0, circ) := by
  unfold connection_edge_process_relay_cell
  generalize relay_header_unpack cell.payload = rh at hlen hcmd
  simp only [List.mem_cons, List.mem_singleton, List.not_mem_nil, or_false, not_or] at hcmd
  obtain ⟨h1, h2, h3, h4, h5, h6, h7, h8, h9, h10, h11, h12, h13, r1, r2, r3, r4, r5, r6, r7,
    r8, r9⟩ := hcmd
  have hrend : ¬ (is_rend_command rh.command = true) := by
    unfold is_rend_command
    simp [r1, r2, r3, r4, r5, r6, r7, r8, r9]
  rcases hconn with hc | ⟨cr, e, hc, he, ho⟩
  · subst hc
    rw [if_neg (by omega)]
    simp only []
    rw [if_neg h1, if_neg (by simp [h2, h3]), if_neg h4, if_neg h5, if_neg h6, if_neg h7,
      if_neg h8, if_neg h9, if_neg h10, if_neg h11, if_neg h12, if_neg h13, if_neg hrend]
  · subst hc
    rw [if_neg (by omega)]
    simp only [he, Option.map_some', ho, Bool.not_true, Bool.false_eq_true, if_false]
    rw [if_neg h1, if_neg (by simp [h2, h3]), if_neg h4, if_neg h5, if_neg h6, if_neg h7,
      if_neg h8, if_neg h9, if_neg h10, if_neg h11, if_neg h12, if_neg h13, if_neg hrend]

set_option maxRecDepth 1000000 in
/-- Witness for C16: relay command 14 is dropped as a control cell and on
the open stream of `toy_exit`. -/
theorem process_relay_cell_unknown_command_witness :
    connection_edge_process_relay_cell toy_ops toy_env
        { toy_data_cell with payload := toy_data_cell.payload.set 0 14 } toy_exit none none =
      some (0, toy_exit) ∧
    connection_edge_process_relay_cell toy_ops toy_env
        { toy_data_cell with payload := toy_data_cell.payload.set 0 14 } toy_exit
        (some ⟨.n_streams, 0⟩) none = some (0, toy_exit) :=
  ⟨process_relay_cell_unknown_command toy_ops toy_env _ toy_exit none none (by decide)
      (by decide) (Or.inl rfl),
    process_relay_cell_unknown_command toy_ops toy_env _ toy_exit (some ⟨.n_streams, 0⟩) none
      (by decide) (by decide) (Or.inr ⟨⟨.n_streams, 0⟩, _, rfl, rfl, by decide⟩)⟩

/-- C17: for a header whose fields fit their C types and a buffer of at
least eleven bytes, `relay_header_pack` leaves a buffer of the same size
whose first eleven bytes are the command, `recognized` most significant byte
first, `stream_id` most significant byte first, the four integrity bytes in
order and `length` most significant byte first; every byte from offset 11 on
is the one the buffer held before. -/
theorem relay_header_pack_writes_eleven_bytes (dest : List Nat) (h : relay_header_t)
    (hv : h.valid) (hd : RELAY_HEADER_SIZE ≤ dest.length) :
    (relay_header_pack dest h).take 11 =
      [h.command, h.recognized / 256, h.recognized % 256,
        h.stream_id / 256, h.stream_id % 256,
        h.integrity.getD 0 0, h.integrity.getD 1 0, h.integrity.getD 2 0,
        h.integrity.getD 3 0, h.length / 256, h.length % 256] ∧
    (relay_header_pack dest h).drop 11 = dest.drop 11 ∧
    (relay_header_pack dest h).length = dest.length ∧
    (∀ i, 11 ≤ i → (relay_header_pack dest h)[i]? = dest[i]?) := by
  obtain ⟨hc, hr, hs, hl, hb, hlen⟩ := hv
  obtain ⟨cmd, rec, sid, integ, len⟩ := h
  simp only at hc hr hs hl hb hlen
  unfold RELAY_HEADER_SIZE at hd
  match integ, hl with
  | [a, b, c, d], _ =>
    rw [relay_header_pack_bytes dest _ a b c d rfl]
    have e1 : cmd % 256 = cmd := Nat.mod_eq_of_lt hc
    have e2 : rec / 256 % 256 = rec / 256 := Nat.mod_eq_of_lt (by omega)
    have e3 : sid / 256 % 256 = sid / 256 := Nat.mod_eq_of_lt (by omega)
    have e4 : len / 256 % 256 = len / 256 := Nat.mod_eq_of_lt (by omega)
    simp only [e1, e2, e3, e4]
    refine ⟨by simp, by simp, ?_, ?_⟩
    · simp only [List.length_append, List.length_cons, List.length_nil, List.length_drop]
      omega
    · intro i hi
      obtain ⟨j, rfl⟩ : ∃ j, i = 11 + j := ⟨i - 11, by omega⟩
      rw [List.getElem?_append_right (by simp)]
      simp only [List.length_cons, List.length_nil, List.getElem?_drop]
      congr 1
      omega

/-- Witness for C17: packing a DATA header for stream 5 into a buffer of
fourteen bytes. -/
theorem relay_header_pack_writes_eleven_bytes_witness :
    relay_header_pack [9, 9, 9, 9, 9, 9, 9, 9, 9, 9, 9, 21, 22, 23]
        { command := 2, recognized := 0, stream_id := 5, integrity := [1, 2, 3, 4],
          length := 498 } =
      [2, 0, 0, 0, 5, 1, 2, 3, 4, 1, 242, 21, 22, 23] ∧
    (relay_header_pack [9, 9, 9, 9, 9, 9, 9, 9, 9, 9, 9, 21, 22, 23]
        { command := 2, recognized := 0, stream_id := 5, integrity := [1, 2, 3, 4],
          length := 498 }).drop 11 = [21, 22, 23] :=
  ⟨by decide,
    (relay_header_pack_writes_eleven_bytes [9, 9, 9, 9, 9, 9, 9, 9, 9, 9, 9, 21, 22, 23]
      { command := 2, recognized := 0, stream_id := 5, integrity := [1, 2, 3, 4],
        length := 498 } (by decide) (by decide)).2.1⟩

/-- C18, as the code has it: `relay_header_unpack` reads the length field as
it stands in bytes 9 and 10 (most significant first), whatever its value;
the bound is enforced by `connection_edge_process_relay_cell`, which for a
cell whose length field exceeds 498 returns `-END_CIRC_REASON_TORPROTOCOL`
and leaves the circuit as it was, with or without a stream. -/
theorem relay_length_enforced_by_process_relay_cell (cell : cell_t) (circ : circuit_t κ δ)
    (conn : Option conn_ref) (layer_hint : Option Nat)
    (hlen : RELAY_PAYLOAD_SIZE < cell.payload.getD 9 0 * 256 + cell.payload.getD 10 0) :
    (relay_header_unpack cell.payload).length =
      cell.payload.getD 9 0 * 256 + cell.payload.getD 10 0 ∧
    connection_edge_process_relay_cell ops env cell circ conn layer_hint =
      some (-END_CIRC_REASON_TORPROTOCOL, circ) := by
  have hl : (relay_header_unpack cell.payload).length =
      cell.payload.getD 9 0 * 256 + cell.payload.getD 10 0 := by
    simp [relay_header_unpack, ntohs, get_uint16]
  refine ⟨hl, ?_⟩
  unfold connection_edge_process_relay_cell
  simp only []
  rw [if_pos (by rw [hl]; exact hlen)]

/-- Counterexample for C18: on an eleven-byte buffer whose length field is
499, `relay_header_unpack` returns a header, with length 499. -/
theorem relay_header_unpack_long_length_counterexample :
    RELAY_PAYLOAD_SIZE < 1 * 256 + 243 ∧
    relay_header_unpack [2, 0, 0, 0, 5, 0, 0, 0, 0, 1, 243] =
      { command := 2, recognized := 0, stream_id := 5, integrity := [0, 0, 0, 0],
        length := 499 } := by
  decide

set_option maxRecDepth 1000000 in
/-- Witness for C18: a cell with length field 499 for the open stream of
`toy_exit` is refused by `connection_edge_process_relay_cell`. -/
theorem relay_length_enforced_by_process_relay_cell_witness :
    connection_edge_process_relay_cell toy_ops toy_env
        { toy_data_cell with payload := (toy_data_cell.payload.set 9 1).set 10 243 } toy_exit
        (some ⟨.n_streams, 0⟩) none = some (-END_CIRC_REASON_TORPROTOCOL, toy_exit) :=
  (relay_length_enforced_by_process_relay_cell toy_ops toy_env
    { toy_data_cell with payload := (toy_data_cell.payload.set 9 1).set 10 243 } toy_exit
    (some ⟨.n_streams, 0⟩) none (by decide)).2

/-- The hops from position `lh + 1` toward the head are `lh + 1` followed by
the hops from `lh`. -/
theorem hops_toward_head_succ (lh : Nat) :
    hops_toward_head (lh + 1) = (lh + 1) :: hops_toward_head lh := by
  unfold hops_toward_head
  rw [List.range_succ, List.reverse_append]
  rfl

end send_theorems

set_option maxRecDepth 1000000 in
/-- C12 at a stream that is marked for close: the stream of the relayed
circuit is on its circuit, its package window is 0 and the circuit's is
1000; `connection_edge_package_raw_inbuf` returns 0 at once, the stream's
window is 0 on return, and no call was made: `connection_stop_reading` has
not been called. -/
theorem package_raw_inbuf_marked_no_stop_counterexample :
    package_view (toy_exit_with
      (fun s => { s with marked_for_close := true, package_window := 0 })) =
      (1000, [], [], [0], []) ∧
    (toy_exit_with
      (fun s => { s with marked_for_close := true, package_window := 0 })).trace.length = 0 ∧
    (connection_edge_package_raw_inbuf toy_ops
      (toy_exit_with (fun s => { s with marked_for_close := true, package_window := 0 }))
      ⟨.n_streams, 0⟩ true).map (fun r => (r.1, r.2.trace.length)) = some (0, 0) ∧
    (connection_edge_package_raw_inbuf toy_ops
      (toy_exit_with (fun s => { s with marked_for_close := true, package_window := 0 }))
      ⟨.n_streams, 0⟩ true).map (fun r => package_view r.2) =
      some (1000, [], [], [0], []) := by
  decide

set_option maxRecDepth 1000000 in
/-- The bound at a stream of `toy_exit` with three bytes to send and a
package window of 1: the call returns 0, the windows end at 999 and 0, and
`connection_stop_reading` was called on the stream. -/
theorem package_raw_inbuf_windows_nonneg_witness :
    (connection_edge_package_raw_inbuf toy_ops
      (toy_exit_with (fun s => { s with inbuf := [1, 2, 3], package_window := 1 }))
      ⟨.n_streams, 0⟩ true).map (fun r => package_view r.2) =
      some (999, [], [], [0], []) ∧
    ∃ c1 t, connection_edge_package_raw_inbuf toy_ops
        (toy_exit_with (fun s => { s with inbuf := [1, 2, 3], package_window := 1 }))
        ⟨.n_streams, 0⟩ true = some (0, c1) ∧
      c1.trace = t ∧ action.connection_stop_reading ⟨.n_streams, 0⟩ ∈ t := by
  refine ⟨by decide, ?_⟩
  obtain ⟨c1, e1, pwc1, t, h, he1, -, ht, -, -, hst⟩ :=
    package_raw_inbuf_windows_nonneg toy_ops
      (toy_exit_with (fun s => { s with inbuf := [1, 2, 3], package_window := 1 }))
      ⟨.n_streams, 0⟩ true
      { new_stream CONN_TYPE_EXIT EXIT_CONN_STATE_OPEN 5 none with
        inbuf := [1, 2, 3], package_window := 1 } 1000
      (by decide) (by decide) (by decide) (by decide) (by decide) (by decide) (by decide)
      (by decide)
  have hw : (connection_edge_package_raw_inbuf toy_ops
      (toy_exit_with (fun s => { s with inbuf := [1, 2, 3], package_window := 1 }))
      ⟨.n_streams, 0⟩ true).map
        (fun r => (r.2.get_conn ⟨.n_streams, 0⟩).map (fun s => s.package_window)) =
      some (some 0) := by decide
  rw [h] at hw
  simp only [Option.map_some', he1, Option.some.injEq] at hw
  refine ⟨c1, _, h, ht, ?_⟩
  exact List.mem_append_right _ (hst hw)

set_option maxRecDepth 1000000 in
/-- C13 at a stream that is marked for close: the stream holds 600 bytes, its
window is 500 and the circuit's 1000; without `package_partial` the call
returns 0 having made no call, so that no cell was handed to a queue, with
the 600 bytes still in the buffer and both windows as they were. -/
theorem package_raw_inbuf_marked_full_buffer_counterexample :
    (connection_edge_package_raw_inbuf toy_ops
      (toy_exit_with
        (fun s => { s with marked_for_close := true, inbuf := List.replicate 600 7 }))
      ⟨.n_streams, 0⟩ false).map
      (fun r => (r.1, r.2.trace, r.2.n_streams.map (fun s => s.inbuf.length))) =
      some (0, [], [600]) ∧
    (connection_edge_package_raw_inbuf toy_ops
      (toy_exit_with
        (fun s => { s with marked_for_close := true, inbuf := List.replicate 600 7 }))
      ⟨.n_streams, 0⟩ false).map (fun r => package_view r.2) =
      some (1000, [], [], [500], []) ∧
    ¬ (600 < RELAY_PAYLOAD_SIZE) := by
  decide

set_option maxRecDepth 1000000 in
/-- C14 at a stream that is marked for close: with three bytes to send,
`connection_edge_package_raw_inbuf` returns 0, not -1. -/
theorem package_raw_inbuf_marked_returns_zero_counterexample :
    (toy_exit_with (fun s => { s with marked_for_close := true, inbuf := [1, 2, 3] })).n_streams.map
      (fun s => s.marked_for_close) = [true] ∧
    (connection_edge_package_raw_inbuf toy_ops
      (toy_exit_with (fun s => { s with marked_for_close := true, inbuf := [1, 2, 3] }))
      ⟨.n_streams, 0⟩ true).map (fun r => r.1) = some 0 := by
  decide

/-- The two dead streams at `toy_exit`: marked for close the call returns 0
and the circuit as it was; with no circuit it returns -1 with only the
stream's `end_reason` set. -/
theorem package_raw_inbuf_dead_stream_witness :
    connection_edge_package_raw_inbuf toy_ops
      (toy_exit_with (fun s => { s with marked_for_close := true, inbuf := [1, 2, 3] }))
      ⟨.n_streams, 0⟩ true =
      some (0,
        toy_exit_with (fun s => { s with marked_for_close := true, inbuf := [1, 2, 3] })) ∧
    connection_edge_package_raw_inbuf toy_ops
      (toy_exit_with (fun s => { s with on_circuit := false, inbuf := [1, 2, 3] }))
      ⟨.n_streams, 0⟩ true =
      some (-1,
        toy_exit_with (fun s => { s with on_circuit := false, inbuf := [1, 2, 3],
                                         end_reason := END_STREAM_REASON_CANT_ATTACH })) :=
  ⟨((package_raw_inbuf_dead_stream toy_ops
      (toy_exit_with (fun s => { s with marked_for_close := true, inbuf := [1, 2, 3] }))
      ⟨.n_streams, 0⟩ true _ rfl).1 rfl).2,
   ((package_raw_inbuf_dead_stream toy_ops
      (toy_exit_with (fun s => { s with on_circuit := false, inbuf := [1, 2, 3] }))
      ⟨.n_streams, 0⟩ true _ rfl).2 rfl rfl).2.1⟩

/-- Reading `n` bytes one by one from a list of `n` bytes, followed by
anything, gives the list. -/
theorem range_map_getD (v rest : List Nat) (n : Nat) (hn : v.length = n) :
    (List.range n).map (fun i => (v ++ rest).getD i 0) = v := by
  apply List.ext_getElem
  · simp [hn]
  · intro i h1 h2
    simp only [List.getElem_map, List.getElem_range]
    rw [List.getD_eq_getElem?_getD, List.getElem?_append_left h2, List.getElem?_eq_getElem h2]
    rfl

/-- The three writes of `append_address_to_payload` lay out the type byte,
the length byte and the value at the start of the buffer. -/
theorem buf_write_tlv (out v : List Nat) (t l : Nat) (h : 2 + v.length ≤ out.length) :
    buf_write (buf_write (buf_write out 0 [t]) 1 [l]) 2 v =
      t :: l :: v ++ out.drop (2 + v.length) := by
  match out, h with
  | [], h => simp at h
  | [_], h => simp at h; omega
  | a :: b :: tl, h =>
    simp only [buf_write, List.take_zero, List.nil_append, List.length_singleton, zero_add,
      List.drop_succ_cons, List.drop_zero, List.singleton_append, List.take_succ_cons,
      List.cons_append, List.append_assoc, Nat.reduceAdd, List.take_zero]
    have e : 2 + v.length = (v.length + 1) + 1 := by omega
    rw [e]
    simp only [List.drop_succ_cons]

/-- Decoding a type byte, a length byte and a value of that length: the
value bytes are read back in order. -/
theorem get_uint32_tlv (t l : Nat) (v rest : List Nat) (hv : v.length = 4) :
    get_uint32 (t :: l :: v ++ rest) 2 = v := by
  unfold get_uint32
  have h := range_map_getD v rest 4 hv
  rw [← h]
  apply List.map_congr_left
  intro i _
  have e : 2 + i = (i + 1) + 1 := by omega
  rw [e]
  simp only [List.cons_append, List.getD_cons_succ]
  rw [h]

/-- C19: for every well-formed address TLV (the IPv4 type byte, length byte
4 and four value bytes, or the IPv6 type byte, length byte 16 and sixteen
value bytes), followed by anything and with `payload_len` at least its size,
`decode_address_from_payload` succeeds and returns the offset just past the
TLV, and `append_address_to_payload` applied to the decoded address writes
exactly the bytes of the TLV at the start of the output buffer and returns
their number, 6 or 18. -/
theorem append_address_of_decode_address (tlv rest payload_out : List Nat) (payload_len : Int)
    (htlv : (∃ v, v.length = 4 ∧ tlv = RESOLVED_TYPE_IPV4 :: 4 :: v) ∨
      (∃ v, v.length = 16 ∧ tlv = RESOLVED_TYPE_IPV6 :: 16 :: v))
    (hlen : (tlv.length : Int) ≤ payload_len) (hout : 18 ≤ payload_out.length) :
    ∃ a, decode_address_from_payload (tlv ++ rest) payload_len = some (a, tlv.length) ∧
      append_address_to_payload payload_out a =
        ((tlv.length : Int), tlv ++ payload_out.drop tlv.length) ∧
      (append_address_to_payload payload_out a).2.take tlv.length = tlv ∧
      (tlv.length = 6 ∨ tlv.length = 18) := by
  rcases htlv with ⟨v, hv, rfl⟩ | ⟨v, hv, rfl⟩
  · simp only [List.length_cons, hv] at hlen ⊢
    refine ⟨tor_addr_from_ipv4n v, ?_, ?_, ?_, ?_⟩
    rotate_right
    · trivial
    · unfold decode_address_from_payload
      simp only [List.cons_append, List.getD_cons_zero, List.getD_cons_succ]
      rw [if_neg (by omega), if_neg (by norm_num; omega)]
      simp only [if_true, ne_eq, not_true_eq_false, if_false]
      have g := get_uint32_tlv RESOLVED_TYPE_IPV4 4 v rest hv
      simp only [List.cons_append] at g
      rw [g]
    · unfold append_address_to_payload tor_addr_family tor_addr_to_ipv4n tor_addr_from_ipv4n
      simp only [if_true]
      have h := range_map_getD v [] 4 hv
      rw [List.append_nil] at h
      rw [h, buf_write_tlv _ _ _ _ (by omega), hv]
      rfl
    · unfold append_address_to_payload tor_addr_family tor_addr_to_ipv4n tor_addr_from_ipv4n
      simp only [if_true]
      have h := range_map_getD v [] 4 hv
      rw [List.append_nil] at h
      rw [h, buf_write_tlv _ _ _ _ (by omega)]
      have e : (RESOLVED_TYPE_IPV4 :: 4 :: v).length = 4 + 1 + 1 := by simp [hv]
      rw [← e]
      exact List.take_left' rfl
  · simp only [List.length_cons, hv] at hlen ⊢
    refine ⟨tor_addr_from_ipv6_bytes v, ?_, ?_, ?_, ?_⟩
    rotate_right
    · trivial
    · unfold decode_address_from_payload
      simp only [List.cons_append, List.getD_cons_zero, List.getD_cons_succ]
      rw [if_neg (by omega), if_neg (by norm_num; omega)]
      have h64 : ¬ (RESOLVED_TYPE_IPV6 = RESOLVED_TYPE_IPV4) := by decide
      simp only [h64, if_true, ne_eq, not_true_eq_false, if_false, List.drop_succ_cons,
        List.drop_zero]
      unfold tor_addr_from_ipv6_bytes
      rw [range_map_getD v rest 16 hv]
      have h := range_map_getD v [] 16 hv
      rw [List.append_nil] at h
      rw [h]
    · unfold append_address_to_payload tor_addr_family tor_addr_to_in6_addr8
        tor_addr_from_ipv6_bytes
      have h := range_map_getD v [] 16 hv
      rw [List.append_nil] at h
      have hfam : ¬ (AF_INET6 = AF_INET) := by decide
      simp only [h, hfam, if_true, if_false]
      rw [buf_write_tlv _ _ _ _ (by omega), hv]
      rfl
    · unfold append_address_to_payload tor_addr_family tor_addr_to_in6_addr8
        tor_addr_from_ipv6_bytes
      have h := range_map_getD v [] 16 hv
      rw [List.append_nil] at h
      have hfam : ¬ (AF_INET6 = AF_INET) := by decide
      simp only [h, hfam, if_true, if_false]
      rw [buf_write_tlv _ _ _ _ (by omega)]
      have e : (RESOLVED_TYPE_IPV6 :: 16 :: v).length = 16 + 1 + 1 := by simp [hv]
      rw [← e]
      exact List.take_left' rfl

/-- Witness for C19: the TLV of 10.1.2.3 followed by two more bytes decodes,
and encoding the decoded address into a buffer of eighteen bytes writes the
TLV back. -/
theorem append_address_of_decode_address_witness :
    ∃ a, decode_address_from_payload ([4, 4, 10, 1, 2, 3] ++ [77, 78]) 8 = some (a, 6) ∧
      append_address_to_payload (List.replicate 18 9) a =
        (6, [4, 4, 10, 1, 2, 3] ++ List.replicate 12 9) := by
  obtain ⟨a, h1, h2, -, -⟩ :=
    append_address_of_decode_address [4, 4, 10, 1, 2, 3] [77, 78] (List.replicate 18 9) 8
      (Or.inl ⟨[10, 1, 2, 3], rfl, rfl⟩) (by decide) (by decide)
  exact ⟨a, h1, h2⟩

/-- C20: with an output buffer of at least eighteen bytes,
`append_address_to_payload` on an IPv4 address writes the IPv4 type byte,
the length byte 4 and the four address bytes and returns 6; on an IPv6
address it writes the IPv6 type byte, the length byte 16 and the sixteen
address bytes and returns 18; for any other family it returns -1 and the
buffer is as before.  `decode_address_from_payload` on the bytes written,
with `payload_len` at least the number returned, yields the address and the
offset that many bytes past the start. -/
theorem decode_address_of_append_address (a : tor_addr_t) (payload_out : List Nat)
    (hout : 18 ≤ payload_out.length) :
    (a.family = AF_INET → a.addr.length = 4 →
      append_address_to_payload payload_out a =
        (6, RESOLVED_TYPE_IPV4 :: 4 :: a.addr ++ payload_out.drop 6) ∧
      ∀ payload_len : Int, 6 ≤ payload_len →
        decode_address_from_payload (append_address_to_payload payload_out a).2 payload_len =
          some (a, 6)) ∧
    (a.family = AF_INET6 → a.addr.length = 16 →
      append_address_to_payload payload_out a =
        (18, RESOLVED_TYPE_IPV6 :: 16 :: a.addr ++ payload_out.drop 18) ∧
      ∀ payload_len : Int, 18 ≤ payload_len →
        decode_address_from_payload (append_address_to_payload payload_out a).2 payload_len =
          some (a, 18)) ∧
    (a.family ≠ AF_INET → a.family ≠ AF_INET6 →
      append_address_to_payload payload_out a = (-1, payload_out)) := by
  obtain ⟨fam, v⟩ := a
  refine ⟨?_, ?_, ?_⟩
  · intro hf hv
    simp only at hf hv
    subst hf
    have h := range_map_getD v [] 4 hv
    rw [List.append_nil] at h
    have happ : append_address_to_payload payload_out ⟨AF_INET, v⟩ =
        (6, RESOLVED_TYPE_IPV4 :: 4 :: v ++ payload_out.drop 6) := by
      unfold append_address_to_payload tor_addr_family tor_addr_to_ipv4n
      simp only [if_true, h]
      rw [buf_write_tlv _ _ _ _ (by omega), hv]
    refine ⟨happ, ?_⟩
    intro payload_len hlen
    rw [happ]
    unfold decode_address_from_payload
    simp only [List.cons_append, List.getD_cons_zero, List.getD_cons_succ]
    rw [if_neg (by omega), if_neg (by norm_num; omega)]
    simp only [if_true, ne_eq, not_true_eq_false, if_false]
    have g := get_uint32_tlv RESOLVED_TYPE_IPV4 4 v (payload_out.drop 6) hv
    simp only [List.cons_append] at g
    rw [g]
    rfl
  · intro hf hv
    simp only at hf hv
    subst hf
    have h := range_map_getD v [] 16 hv
    rw [List.append_nil] at h
    have hfam : ¬ (AF_INET6 = AF_INET) := by decide
    have happ : append_address_to_payload payload_out ⟨AF_INET6, v⟩ =
        (18, RESOLVED_TYPE_IPV6 :: 16 :: v ++ payload_out.drop 18) := by
      unfold append_address_to_payload tor_addr_family tor_addr_to_in6_addr8
      simp only [h, hfam, if_true, if_false]
      rw [buf_write_tlv _ _ _ _ (by omega), hv]
    refine ⟨happ, ?_⟩
    intro payload_len hlen
    rw [happ]
    unfold decode_address_from_payload
    simp only [List.cons_append, List.getD_cons_zero, List.getD_cons_succ]
    rw [if_neg (by omega), if_neg (by norm_num; omega)]
    have h64 : ¬ (RESOLVED_TYPE_IPV6 = RESOLVED_TYPE_IPV4) := by decide
    simp only [h64, if_true, ne_eq, not_true_eq_false, if_false, List.drop_succ_cons,
      List.drop_zero]
    unfold tor_addr_from_ipv6_bytes
    rw [range_map_getD v _ 16 hv]
  · intro h4 h6
    simp only at h4 h6
    unfold append_address_to_payload tor_addr_family
    simp only []
    rw [if_neg h4, if_neg h6]

/-- Witness for C20: the IPv4 address 10.1.2.3, an IPv6 address and an
unspecified address, each encoded into a buffer of twenty bytes. -/
theorem decode_address_of_append_address_witness :
    (append_address_to_payload (List.replicate 20 9) ⟨AF_INET, [10, 1, 2, 3]⟩ =
        (6, [4, 4, 10, 1, 2, 3] ++ List.replicate 14 9) ∧
      decode_address_from_payload
          (append_address_to_payload (List.replicate 20 9) ⟨AF_INET, [10, 1, 2, 3]⟩).2 6 =
        some (⟨AF_INET, [10, 1, 2, 3]⟩, 6)) ∧
    (append_address_to_payload (List.replicate 20 9) ⟨AF_INET6, List.range 16⟩).1 = 18 ∧
    append_address_to_payload (List.replicate 20 9) ⟨AF_UNSPEC, []⟩ =
      (-1, List.replicate 20 9) := by
  have h4 := (decode_address_of_append_address ⟨AF_INET, [10, 1, 2, 3]⟩ (List.replicate 20 9)
    (by decide)).1 rfl rfl
  have h6 := (decode_address_of_append_address ⟨AF_INET6, List.range 16⟩ (List.replicate 20 9)
    (by decide)).2.1 rfl rfl
  have hu := (decode_address_of_append_address ⟨AF_UNSPEC, []⟩ (List.replicate 20 9)
    (by decide)).2.2 (by decide) (by decide)
  refine ⟨⟨h4.1, h4.2 6 (by decide)⟩, ?_, hu⟩
  rw [h6.1]

/-- C21: `decode_address_from_payload` fails (the C code returns NULL) if and
only if `payload_len` is below 2, or below 2 plus the length byte read as
unsigned, or the type byte is IPv4 and the length byte is not 4, or the type
byte is IPv6 and the length byte is not 16.  Whenever it succeeds the offset
returned is 2 plus the length byte, and the address is the unspecified
address when the type byte is neither IPv4 nor IPv6. -/
theorem decode_address_from_payload_fails_iff (payload : List Nat) (payload_len : Int) :
    (decode_address_from_payload payload payload_len = none ↔
      (payload_len < 2 ∨
        payload_len < 2 + ((payload.getD 1 0 % 256 : Nat) : Int) ∨
        (payload.getD 0 0 = RESOLVED_TYPE_IPV4 ∧ payload.getD 1 0 ≠ 4) ∨
        (payload.getD 0 0 = RESOLVED_TYPE_IPV6 ∧ payload.getD 1 0 ≠ 16))) ∧
    (∀ a next, decode_address_from_payload payload payload_len = some (a, next) →
      next = 2 + payload.getD 1 0 % 256 ∧
      (payload.getD 0 0 ≠ RESOLVED_TYPE_IPV4 → payload.getD 0 0 ≠ RESOLVED_TYPE_IPV6 →
        a = tor_addr_make_unspec)) := by
  have h46 : ¬ (RESOLVED_TYPE_IPV6 = RESOLVED_TYPE_IPV4) := by decide
  unfold decode_address_from_payload
  by_cases h1 : payload_len < 2
  · rw [if_pos h1]
    exact ⟨⟨fun _ => Or.inl h1, fun _ => rfl⟩, fun a next h => by cases h⟩
  rw [if_neg h1]
  by_cases h2 : payload_len < 2 + ((payload.getD 1 0 % 256 : Nat) : Int)
  · rw [if_pos h2]
    exact ⟨⟨fun _ => Or.inr (Or.inl h2), fun _ => rfl⟩, fun a next h => by cases h⟩
  rw [if_neg h2]
  simp only []
  by_cases h4 : payload.getD 0 0 = RESOLVED_TYPE_IPV4
  · rw [if_pos h4]
    by_cases hl : payload.getD 1 0 ≠ 4
    · rw [if_pos hl]
      exact ⟨⟨fun _ => Or.inr (Or.inr (Or.inl ⟨h4, hl⟩)), fun _ => rfl⟩,
        fun a next h => by cases h⟩
    · rw [if_neg hl]
      refine ⟨⟨fun h => Option.noConfusion h, ?_⟩, ?_⟩
      · rintro (h | h | ⟨_, h⟩ | ⟨h, _⟩)
        · exact absurd h h1
        · exact absurd h h2
        · exact absurd h hl
        · rw [h4] at h; exact absurd h.symm h46
      · intro a next h
        simp only [Option.some.injEq, Prod.mk.injEq] at h
        exact ⟨h.2.symm, fun hne => absurd h4 hne⟩
  rw [if_neg h4]
  by_cases h6 : payload.getD 0 0 = RESOLVED_TYPE_IPV6
  · rw [if_pos h6]
    by_cases hl : payload.getD 1 0 ≠ 16
    · rw [if_pos hl]
      exact ⟨⟨fun _ => Or.inr (Or.inr (Or.inr ⟨h6, hl⟩)), fun _ => rfl⟩,
        fun a next h => by cases h⟩
    · rw [if_neg hl]
      refine ⟨⟨fun h => Option.noConfusion h, ?_⟩, ?_⟩
      · rintro (h | h | ⟨h, _⟩ | ⟨_, h⟩)
        · exact absurd h h1
        · exact absurd h h2
        · exact absurd h h4
        · exact absurd h hl
      · intro a next h
        simp only [Option.some.injEq, Prod.mk.injEq] at h
        exact ⟨h.2.symm, fun _ hne => absurd h6 hne⟩
  rw [if_neg h6]
  refine ⟨⟨fun h => Option.noConfusion h, ?_⟩, ?_⟩
  · rintro (h | h | ⟨h, _⟩ | ⟨h, _⟩)
    · exact absurd h h1
    · exact absurd h h2
    · exact absurd h h4
    · exact absurd h h6
  · intro a next h
    simp only [Option.some.injEq, Prod.mk.injEq] at h
    exact ⟨h.2.symm, fun _ _ => h.1.symm⟩

/-- A chain of no cells starts at the null pointer. -/
theorem cell_chain_nil (cells : List packed_cell_t) (p : Option Nat) :
    cell_chain cells p [] = true ↔ p = none := by
  unfold cell_chain
  simp

/-- A chain of cells starts at its first cell and goes on from the `next`
pointer of that cell. -/
theorem cell_chain_cons (cells : List packed_cell_t) (p : Option Nat) (x : Nat)
    (rest : List Nat) :
    cell_chain cells p (x :: rest) = true ↔
      p = some x ∧ ∃ c, cells[x]? = some c ∧ cell_chain cells c.next rest = true := by
  rw [cell_chain]
  simp only [Bool.and_eq_true, beq_iff_eq]
  constructor
  · rintro ⟨h1, h2⟩
    refine ⟨h1, ?_⟩
    split at h2
    · cases h2
    · rename_i c hc
      exact ⟨c, hc, h2⟩
  · rintro ⟨h1, c, hc, h2⟩
    refine ⟨h1, ?_⟩
    simp only [hc]
    exact h2

/-- The cells reached from a pointer are determined by the memory. -/
theorem cell_chain_unique (cells : List packed_cell_t) :
    ∀ (l1 l2 : List Nat) (p : Option Nat),
      cell_chain cells p l1 = true → cell_chain cells p l2 = true → l1 = l2 := by
  intro l1
  induction l1 with
  | nil =>
    intro l2 p h1 h2
    rw [cell_chain_nil] at h1
    subst h1
    cases l2 with
    | nil => rfl
    | cons y r =>
      rw [cell_chain_cons] at h2
      cases h2.1
  | cons x rest ih =>
    intro l2 p h1 h2
    rw [cell_chain_cons] at h1
    obtain ⟨hp, c, hc, hr⟩ := h1
    subst hp
    cases l2 with
    | nil =>
      rw [cell_chain_nil] at h2
      cases h2
    | cons y r =>
      rw [cell_chain_cons] at h2
      obtain ⟨hp, c2, hc2, hr2⟩ := h2
      cases hp
      rw [hc] at hc2
      cases hc2
      rw [ih r _ hr hr2]

/-- The cells of a chain after a given cell form the chain from that cell. -/
theorem cell_chain_suffix (cells : List packed_cell_t) :
    ∀ (l1 l2 : List Nat) (p : Option Nat) (x : Nat),
      cell_chain cells p (l1 ++ x :: l2) = true →
      cell_chain cells (some x) (x :: l2) = true := by
  intro l1
  induction l1 with
  | nil =>
    intro l2 p x h
    rw [List.nil_append, cell_chain_cons] at h
    rw [cell_chain_cons]
    exact ⟨rfl, h.2⟩
  | cons y r ih =>
    intro l2 p x h
    rw [List.cons_append, cell_chain_cons] at h
    obtain ⟨-, c, -, hr⟩ := h
    exact ih l2 _ x hr

/-- No cell occurs twice in a chain that ends at the null pointer. -/
theorem cell_chain_nodup (cells : List packed_cell_t) :
    ∀ (l : List Nat) (p : Option Nat), cell_chain cells p l = true → l.Nodup := by
  intro l
  induction l with
  | nil => intro p _; exact List.nodup_nil
  | cons x rest ih =>
    intro p h
    have h0 := h
    rw [cell_chain_cons] at h
    obtain ⟨hp, c, hc, hr⟩ := h
    subst hp
    refine List.nodup_cons.mpr ⟨?_, ih _ hr⟩
    intro hx
    obtain ⟨l1, l2, hl⟩ := List.append_of_mem hx
    rw [hl] at hr
    have hs := cell_chain_suffix cells l1 l2 _ x hr
    have he := cell_chain_unique cells _ _ _ h0 hs
    have hlen := congrArg List.length he
    rw [hl] at hlen
    simp at hlen
    omega

/-- Every cell of a chain is in the memory. -/
theorem cell_chain_valid (cells : List packed_cell_t) :
    ∀ (l : List Nat) (p : Option Nat), cell_chain cells p l = true →
      ∀ x ∈ l, x < cells.length := by
  intro l
  induction l with
  | nil => intro p _ x hx; cases hx
  | cons y rest ih =>
    intro p h x hx
    rw [cell_chain_cons] at h
    obtain ⟨-, c, hc, hr⟩ := h
    rcases List.mem_cons.mp hx with rfl | hx
    · by_contra hlt
      rw [List.getElem?_eq_none (by omega)] at hc
      cases hc
    · exact ih _ hr x hx

/-- A chain has at most as many cells as the memory. -/
theorem cell_chain_length_le (cells : List packed_cell_t) (l : List Nat) (p : Option Nat)
    (h : cell_chain cells p l = true) : l.length ≤ cells.length := by
  have hsub : l ⊆ List.range cells.length := by
    intro x hx
    exact List.mem_range.mpr (cell_chain_valid cells l p h x hx)
  have := (List.subperm_of_subset (cell_chain_nodup cells l p h) hsub).length_le
  simpa using this

/-- A chain only depends on the `next` pointers of its own cells. -/
theorem cell_chain_congr (cells cells1 : List packed_cell_t) :
    ∀ (l : List Nat) (p : Option Nat),
      (∀ x ∈ l, (cells1[x]?).map (fun c => c.next) = (cells[x]?).map (fun c => c.next)) →
      cell_chain cells p l = true → cell_chain cells1 p l = true := by
  intro l
  induction l with
  | nil =>
    intro p _ h
    rw [cell_chain_nil] at h ⊢
    exact h
  | cons x rest ih =>
    intro p hx h
    rw [cell_chain_cons] at h ⊢
    obtain ⟨hp, c, hc, hr⟩ := h
    have h1 := hx x (List.mem_cons_self _ _)
    rw [hc] at h1
    cases hc1 : cells1[x]? with
    | none => rw [hc1] at h1; cases h1
    | some c1 =>
      rw [hc1] at h1
      simp only [Option.map_some', Option.some.injEq] at h1
      refine ⟨hp, c1, rfl, ?_⟩
      rw [h1]
      exact ih _ (fun y hy => hx y (List.mem_cons_of_mem _ hy)) hr

/-- The last cell of a chain points to the null pointer. -/
theorem cell_chain_last (cells : List packed_cell_t) :
    ∀ (l : List Nat) (p : Option Nat) (t : Nat),
      cell_chain cells p l = true → l.getLast? = some t →
      ∃ c, cells[t]? = some c ∧ c.next = none := by
  intro l
  induction l with
  | nil => intro p t _ ht; cases ht
  | cons x rest ih =>
    intro p t h ht
    rw [cell_chain_cons] at h
    obtain ⟨-, c, hc, hr⟩ := h
    cases rest with
    | nil =>
      simp only [List.getLast?_singleton, Option.some.injEq] at ht
      subst ht
      rw [cell_chain_nil] at hr
      exact ⟨c, hc, hr⟩
    | cons y r =>
      rw [List.getLast?_cons_cons] at ht
      exact ih _ t hr ht

/-- Linking a new cell behind the last cell of a chain extends the chain by
that cell. -/
theorem cell_chain_snoc (cells : List packed_cell_t) (cell : Nat) (cnew : packed_cell_t) :
    ∀ (l : List Nat) (p : Option Nat) (t : Nat) (tc : packed_cell_t),
      cell_chain cells p l = true → l.getLast? = some t → cells[t]? = some tc →
      cell ∉ l → cell < cells.length →
      cell_chain ((cells.set t { tc with next := some cell }).set cell
        { cnew with next := none }) p (l ++ [cell]) = true := by
  intro l
  induction l with
  | nil => intro p t tc _ ht; cases ht
  | cons x rest ih =>
    intro p t tc h ht htc hcell hlt
    have hnd := cell_chain_nodup cells _ _ h
    rw [cell_chain_cons] at h
    obtain ⟨hp, c, hc, hr⟩ := h
    have hxc : x ≠ cell := fun e => hcell (e ▸ List.mem_cons_self _ _)
    have hxlt : x < cells.length := by
      by_contra hlt2
      rw [List.getElem?_eq_none (by omega)] at hc
      cases hc
    rw [List.cons_append, cell_chain_cons]
    refine ⟨hp, ?_⟩
    cases rest with
    | nil =>
      simp only [List.getLast?_singleton, Option.some.injEq] at ht
      subst ht
      have e : c = tc := by rw [hc] at htc; exact Option.some.inj htc
      subst e
      refine ⟨{ c with next := some cell }, ?_, ?_⟩
      · rw [List.getElem?_set_ne (fun e => hxc e.symm), List.getElem?_set_self (by omega)]
      · rw [List.nil_append, cell_chain_cons]
        refine ⟨rfl, { cnew with next := none }, ?_, ?_⟩
        · rw [List.getElem?_set_self (by simp; omega)]
        · rw [cell_chain_nil]
    | cons y r =>
      rw [List.getLast?_cons_cons] at ht
      have hxt : x ≠ t := by
        intro e
        have : t ∈ y :: r := List.mem_of_getLast?_eq_some ht
        rw [← e] at this
        exact (List.nodup_cons.mp hnd).1 this
      refine ⟨c, ?_, ?_⟩
      · rw [List.getElem?_set_ne (fun e => hxc e.symm), List.getElem?_set_ne (fun e => hxt e.symm)]
        exact hc
      · exact ih _ t tc hr ht htc (fun hm => hcell (List.mem_cons_of_mem _ hm)) hlt

/-- The invariant of a cell queue, spelled out. -/
theorem cell_queue_ok_iff (cells : List packed_cell_t) (q : cell_queue_t) (ns : List Nat) :
    cell_queue_ok cells q ns = true ↔
      cell_chain cells q.head ns = true ∧ q.tail = ns.getLast? ∧ q.n = (ns.length : Int) := by
  unfold cell_queue_ok
  simp only [Bool.and_eq_true, beq_iff_eq, and_assoc]

/-- What the invariant says in the words of the queue's fields: `head` is
null exactly when `tail` is, and exactly when `n` is 0; the `next` pointer
of the cell at `tail` is null; `n` is the number of cells. -/
theorem cell_queue_ok_fields (cells : List packed_cell_t) (q : cell_queue_t) (ns : List Nat)
    (hok : cell_queue_ok cells q ns = true) :
    (q.head = none ↔ q.tail = none) ∧ (q.tail = none ↔ q.n = 0) ∧
      (∀ t, q.tail = some t → ∃ c, cells[t]? = some c ∧ c.next = none) ∧
      q.n = (ns.length : Int) := by
  rw [cell_queue_ok_iff] at hok
  obtain ⟨hc, ht, hn⟩ := hok
  cases ns with
  | nil =>
    rw [cell_chain_nil] at hc
    simp only [List.getLast?_nil] at ht
    simp only [List.length_nil, Nat.cast_zero] at hn
    simp [hc, ht, hn]
  | cons x rest =>
    have hl : ∃ t, (x :: rest).getLast? = some t :=
      ⟨(x :: rest).getLast (by simp), List.getLast?_eq_getLast _ (by simp)⟩
    obtain ⟨t, hlt⟩ := hl
    have hlast := cell_chain_last cells _ _ t hc hlt
    rw [cell_chain_cons] at hc
    rw [hlt] at ht
    refine ⟨?_, ?_, ?_, hn⟩
    · simp [hc.1, ht]
    · rw [hn]
      simp only [ht, false_iff, List.length_cons, reduceCtorEq]
      intro h0
      have h1 := Int.ofNat_inj.mp h0
      omega
    · intro t2 h2
      rw [ht] at h2
      cases h2
      exact hlast

/-- Appending to a queue that satisfies the invariant: for a cell in the
memory that is not on the queue, `cell_queue_append` returns, the cells of
the queue are the old ones followed by the new cell, `n` has gone up by 1,
and no cell body and no other cell of the memory has changed. -/
theorem cell_queue_append_spec (cells : List packed_cell_t) (q : cell_queue_t)
    (ns : List Nat) (cell : Nat) (hok : cell_queue_ok cells q ns = true)
    (hlt : cell < cells.length) (hn : cell ∉ ns) :
    ∃ cells1 q1, cell_queue_append cells q cell = some (cells1, q1) ∧
      cell_queue_ok cells1 q1 (ns ++ [cell]) = true ∧ q1.n = q.n + 1 ∧
      cells1.length = cells.length ∧
      cells1.map (fun c => c.body) = cells.map (fun c => c.body) ∧
      (∀ x, x ≠ cell → q.tail ≠ some x → cells1[x]? = cells[x]?) := by
  rw [cell_queue_ok_iff] at hok
  obtain ⟨hc, ht, hlen⟩ := hok
  have hcell : cells[cell]? = some (cells.get ⟨cell, hlt⟩) := List.getElem?_eq_getElem hlt
  cases hl : ns.getLast? with
  | none =>
    have hns : ns = [] := List.getLast?_eq_none_iff.mp hl
    subst hns
    rw [cell_chain_nil] at hc
    rw [hl] at ht
    unfold cell_queue_append
    simp only [ht, hcell]
    refine ⟨_, _, rfl, ?_, rfl, by simp, ?_, ?_⟩
    · rw [cell_queue_ok_iff]
      refine ⟨?_, by simp, by simp [hlen]⟩
      rw [List.nil_append, cell_chain_cons]
      refine ⟨rfl, _, List.getElem?_set_self (by omega), ?_⟩
      rw [cell_chain_nil]
    · apply List.ext_getElem?
      intro i
      simp only [List.getElem?_map, List.getElem?_set]
      split
      · rename_i e
        subst e
        simp [hcell, hlt]
      · rfl
    · intro x hx _
      rw [List.getElem?_set_ne (fun e => hx e.symm)]
  | some t =>
    rw [hl] at ht
    obtain ⟨tc, htc, htn⟩ := cell_chain_last cells _ _ t hc hl
    have htlt : t < cells.length := by
      by_contra hc2
      rw [List.getElem?_eq_none (by omega)] at htc
      cases htc
    have htcell : t ≠ cell := fun e => hn (e ▸ List.mem_of_getLast?_eq_some hl)
    have hcell1 : (cells.set t { tc with next := some cell })[cell]? =
        some (cells.get ⟨cell, hlt⟩) := by
      rw [List.getElem?_set_ne htcell]
      exact hcell
    unfold cell_queue_append
    simp only [ht, htc, htn, Option.isSome_none, Bool.false_eq_true, if_false, hcell1]
    refine ⟨_, _, rfl, ?_, rfl, by simp, ?_, ?_⟩
    · rw [cell_queue_ok_iff]
      refine ⟨?_, by simp, by simp [hlen]⟩
      exact cell_chain_snoc cells cell _ ns _ t tc hc hl htc hn hlt
    · apply List.ext_getElem?
      intro i
      simp only [List.getElem?_map, List.getElem?_set]
      split
      · rename_i e
        subst e
        simp [hcell, hlt]
      · split
        · rename_i e
          subst e
          simp [htc, htlt]
        · rfl
    · intro x hx hxt
      rw [List.getElem?_set_ne (fun e => hx e.symm),
        List.getElem?_set_ne (fun e => hxt (by rw [e]))]

/-- Popping from a queue that satisfies the invariant: `cell_queue_pop`
returns the first cell of the queue (null for an empty queue) and leaves the
other cells on it, in order; `n` has gone down by 1 unless the queue was
empty, and then the queue is the one before. -/
theorem cell_queue_pop_spec (cells : List packed_cell_t) (q : cell_queue_t) (ns : List Nat)
    (hok : cell_queue_ok cells q ns = true) :
    ∃ q1, cell_queue_pop cells q = some (ns.head?, q1) ∧
      cell_queue_ok cells q1 ns.tail = true ∧
      (ns = [] → q1 = q) ∧ (ns ≠ [] → q1.n = q.n - 1) := by
  have hok0 := hok
  rw [cell_queue_ok_iff] at hok
  obtain ⟨hc, ht, hlen⟩ := hok
  cases ns with
  | nil =>
    rw [cell_chain_nil] at hc
    unfold cell_queue_pop
    simp only [hc]
    exact ⟨q, rfl, hok0, fun _ => rfl, fun h => absurd rfl h⟩
  | cons x rest =>
    have hnd := cell_chain_nodup cells _ _ hc
    rw [cell_chain_cons] at hc
    obtain ⟨hh, c, hcx, hr⟩ := hc
    unfold cell_queue_pop
    simp only [hh, hcx]
    cases rest with
    | nil =>
      rw [cell_chain_nil] at hr
      simp only [List.getLast?_singleton] at ht
      simp only [ht, if_true, hr, Option.isSome_none, Bool.false_eq_true, if_false,
        List.head?_cons, List.tail_cons]
      refine ⟨_, rfl, ?_, (fun h => List.noConfusion h), fun _ => rfl⟩
      rw [cell_queue_ok_iff]
      simp [cell_chain_nil, hlen]
    | cons y r =>
      rw [List.getLast?_cons_cons] at ht
      have hxt : ¬ (some x = q.tail) := by
        intro e
        rw [ht] at e
        have : x ∈ y :: r := List.mem_of_getLast?_eq_some e.symm
        exact (List.nodup_cons.mp hnd).1 this
      rw [if_neg hxt]
      refine ⟨_, rfl, ?_, (fun h => List.noConfusion h), fun _ => rfl⟩
      rw [cell_queue_ok_iff]
      refine ⟨hr, ht, ?_⟩
      simp only [List.tail_cons, List.length_cons] at hlen ⊢
      rw [hlen]
      push_cast
      omega

/-- The loop of `cell_queue_clear` on a chain: with at least as much fuel
as cells it returns, having released exactly the cells of the chain, in
order, and changed nothing in the memory. -/
theorem cell_queue_clear_loop_spec :
    ∀ (ns : List Nat) (fuel : Nat) (pool : cell_pool_t) (p : Option Nat),
      cell_chain pool.cells p ns = true → ns.length ≤ fuel →
      cell_queue_clear_loop fuel pool p =
        some { pool with released := pool.released ++ ns,
                         total_cells_allocated := pool.total_cells_allocated - ns.length } := by
  intro ns
  induction ns with
  | nil =>
    intro fuel pool p h _
    rw [cell_chain_nil] at h
    subst h
    cases fuel <;> simp [cell_queue_clear_loop]
  | cons x rest ih =>
    intro fuel pool p h hf
    rw [cell_chain_cons] at h
    obtain ⟨hp, c, hc, hr⟩ := h
    subst hp
    obtain ⟨f, rfl⟩ : ∃ f, fuel = f + 1 := ⟨fuel - 1, by simp at hf; omega⟩
    rw [cell_queue_clear_loop]
    simp only [hc]
    rw [ih f (packed_cell_free pool x) c.next hr (by simp at hf; omega)]
    simp only [packed_cell_free, List.append_assoc, List.singleton_append, List.length_cons,
      Option.some.injEq, cell_pool_t.mk.injEq, true_and]
    push_cast
    omega

/-- A queue with no cells that satisfies the invariant is the empty queue. -/
theorem cell_queue_ok_nil (cells : List packed_cell_t) (q : cell_queue_t)
    (hok : cell_queue_ok cells q [] = true) : q = ⟨none, none, 0⟩ := by
  rw [cell_queue_ok_iff, cell_chain_nil] at hok
  obtain ⟨h1, h2, h3⟩ := hok
  cases q
  simp only [List.getLast?_nil, List.length_nil, Nat.cast_zero] at h1 h2 h3
  simp [h1, h2, h3]

/-- A chain is still a chain in a memory that has grown at its end. -/
theorem cell_chain_grow (cells extra : List packed_cell_t) (l : List Nat) (p : Option Nat)
    (h : cell_chain cells p l = true) : cell_chain (cells ++ extra) p l = true := by
  apply cell_chain_congr cells (cells ++ extra) l p _ h
  intro x hx
  have hlt := cell_chain_valid cells l p h x hx
  rw [List.getElem?_append_left hlt]

/-- Appending a newly allocated copy of a cell to a queue that satisfies the
invariant: `cell_queue_append_packed_copy` returns, the new packed cell is
at the end of the memory and holds the packed bytes of the cell, it is the
last cell of the queue, `n` has gone up by 1, and no other cell body has
changed. -/
theorem cell_queue_append_packed_copy_spec (pool : cell_pool_t) (q : cell_queue_t)
    (ns : List Nat) (cell : cell_t) (hok : cell_queue_ok pool.cells q ns = true) :
    ∃ pool1 q1, cell_queue_append_packed_copy pool q cell = some (pool1, q1) ∧
      cell_queue_ok pool1.cells q1 (ns ++ [pool.cells.length]) = true ∧ q1.n = q.n + 1 ∧
      pool1.cells.map (fun c => c.body) =
        pool.cells.map (fun c => c.body) ++ [cell_pack cell] ∧
      pool1.released = pool.released ∧
      (∀ x, x < pool.cells.length → q.tail ≠ some x → pool1.cells[x]? = pool.cells[x]?) := by
  have hok1 := hok
  rw [cell_queue_ok_iff] at hok1
  obtain ⟨hc, ht, hlen⟩ := hok1
  have hset : (pool.cells ++ [({ next := none, body := [] } : packed_cell_t)]).set
      pool.cells.length { next := none, body := cell_pack cell } =
      pool.cells ++ [{ next := none, body := cell_pack cell }] := by
    rw [List.set_append_right _ _ (le_refl _)]
    simp
  have hok2 : cell_queue_ok (pool.cells ++ [{ next := none, body := cell_pack cell }]) q ns =
      true := by
    rw [cell_queue_ok_iff]
    exact ⟨cell_chain_grow _ _ _ _ hc, ht, hlen⟩
  have hfresh : pool.cells.length ∉ ns := by
    intro hm
    have := cell_chain_valid _ _ _ hc _ hm
    omega
  obtain ⟨cells1, q1, happ, hok3, hn, hl, hb, hfr⟩ :=
    cell_queue_append_spec _ q ns pool.cells.length hok2 (by simp) hfresh
  unfold cell_queue_append_packed_copy packed_cell_copy packed_cell_alloc
  simp only [hset, happ, Option.map_some']
  refine ⟨_, _, rfl, hok3, hn, ?_, rfl, ?_⟩
  · simp only [hb, List.map_append, List.map_cons, List.map_nil]
  · intro x hx hxt
    simp only []
    rw [hfr x (by omega) hxt, List.getElem?_append_left hx]

/-- C22: a queue satisfies the invariant when its cells are the cells
reached from `head` by following `next` to the null pointer, `tail` is the
last of them and `n` is their number; then `head` is null exactly when
`tail` is and exactly when `n` is 0, and the `next` pointer of the cell at
`tail` is null.  From a queue that satisfies the invariant,
`cell_queue_append` of a cell of the memory that is not on the queue,
`cell_queue_append_packed_copy`, `cell_queue_pop` and `cell_queue_clear`
each return a queue that satisfies it: append raises `n` by 1, pop on a
non-empty queue lowers `n` by 1, clear leaves the empty queue with `n` 0. -/
theorem cell_queue_invariant_preserved (pool : cell_pool_t) (q : cell_queue_t)
    (ns : List Nat) (hok : cell_queue_ok pool.cells q ns = true) :
    ((q.head = none ↔ q.tail = none) ∧ (q.tail = none ↔ q.n = 0) ∧
      (∀ t, q.tail = some t → ∃ c, pool.cells[t]? = some c ∧ c.next = none) ∧
      q.n = (ns.length : Int)) ∧
    (∀ cell, cell < pool.cells.length → cell ∉ ns →
      ∃ cells1 q1, cell_queue_append pool.cells q cell = some (cells1, q1) ∧
        cell_queue_ok cells1 q1 (ns ++ [cell]) = true ∧ q1.n = q.n + 1) ∧
    (∀ cell : cell_t,
      ∃ pool1 q1, cell_queue_append_packed_copy pool q cell = some (pool1, q1) ∧
        cell_queue_ok pool1.cells q1 (ns ++ [pool.cells.length]) = true ∧ q1.n = q.n + 1) ∧
    (∃ q1, cell_queue_pop pool.cells q = some (ns.head?, q1) ∧
      cell_queue_ok pool.cells q1 ns.tail = true ∧ (ns ≠ [] → q1.n = q.n - 1)) ∧
    (∃ pool1 q1, cell_queue_clear pool q = some (pool1, q1) ∧
      cell_queue_ok pool1.cells q1 [] = true ∧ q1.n = 0 ∧ q1.head = none ∧ q1.tail = none ∧
      pool1.released = pool.released ++ ns) := by
  refine ⟨cell_queue_ok_fields _ _ _ hok, ?_, ?_, ?_, ?_⟩
  · intro cell hlt hn
    obtain ⟨cells1, q1, h1, h2, h3, -⟩ := cell_queue_append_spec _ q ns cell hok hlt hn
    exact ⟨cells1, q1, h1, h2, h3⟩
  · intro cell
    obtain ⟨pool1, q1, h1, h2, h3, -⟩ := cell_queue_append_packed_copy_spec pool q ns cell hok
    exact ⟨pool1, q1, h1, h2, h3⟩
  · obtain ⟨q1, h1, h2, -, h3⟩ := cell_queue_pop_spec _ q ns hok
    exact ⟨q1, h1, h2, h3⟩
  · have hc := ((cell_queue_ok_iff _ _ _).mp hok).1
    have hloop := cell_queue_clear_loop_spec ns pool.cells.length pool q.head hc
      (cell_chain_length_le _ _ _ hc)
    unfold cell_queue_clear
    rw [hloop]
    refine ⟨_, _, rfl, ?_, rfl, rfl, rfl, rfl⟩
    rw [cell_queue_ok_iff, cell_chain_nil]
    exact ⟨rfl, rfl, rfl⟩

/-- Witness for C22: a queue holding the cells 2 and 0 of a memory of three
cells; cell 1 is appended, cell 2 is popped, and the queue is cleared. -/
theorem cell_queue_invariant_preserved_witness :
    (cell_queue_append [⟨none, [7]⟩, ⟨none, [8]⟩, ⟨some 0, [9]⟩] ⟨some 2, some 0, 2⟩ 1).map
        (fun r => r.2) = some ⟨some 2, some 1, 3⟩ ∧
    cell_queue_pop [⟨none, [7]⟩, ⟨none, [8]⟩, ⟨some 0, [9]⟩] ⟨some 2, some 0, 2⟩ =
      some (some 2, ⟨some 0, some 0, 1⟩) ∧
    (cell_queue_clear ⟨[⟨none, [7]⟩, ⟨none, [8]⟩, ⟨some 0, [9]⟩], [], 2⟩
        ⟨some 2, some 0, 2⟩).map (fun r => (r.1.released, r.2)) =
      some ([2, 0], ⟨none, none, 0⟩) := by
  have h := cell_queue_invariant_preserved
    ⟨[⟨none, [7]⟩, ⟨none, [8]⟩, ⟨some 0, [9]⟩], [], 2⟩ ⟨some 2, some 0, 2⟩ [2, 0] (by decide)
  obtain ⟨-, happ, -, hpop, hclr⟩ := h
  obtain ⟨cells1, q1, h1, -, -⟩ := happ 1 (by decide) (by decide)
  obtain ⟨q2, h2, -, -⟩ := hpop
  obtain ⟨pool3, q3, h3, -, -, -, -, -⟩ := hclr
  refine ⟨by decide, ?_, by decide⟩
  rw [h2]
  have : some (([2, 0] : List Nat).head?, q2) = some (some 2, (⟨some 0, some 0, 1⟩ : cell_queue_t)) := by
    rw [← h2]; decide
  exact this

/-- Appending several cells, one after the other, to a queue that satisfies
the invariant: for distinct cells of the memory that are not on the queue
all the calls return, and the cells of the queue are the old ones followed
by the new ones in the order appended; no cell body changes. -/
theorem cell_queue_append_all_spec :
    ∀ (cs ns : List Nat) (cells : List packed_cell_t) (q : cell_queue_t),
      cell_queue_ok cells q ns = true → (ns ++ cs).Nodup → (∀ c ∈ cs, c < cells.length) →
      ∃ cells1 q1, cell_queue_append_all cells q cs = some (cells1, q1) ∧
        cell_queue_ok cells1 q1 (ns ++ cs) = true ∧
        cells1.map (fun c => c.body) = cells.map (fun c => c.body) := by
  intro cs
  induction cs with
  | nil =>
    intro ns cells q hok _ _
    exact ⟨cells, q, rfl, by rw [List.append_nil]; exact hok, rfl⟩
  | cons c rest ih =>
    intro ns cells q hok hnd hv
    have hc : c ∉ ns := by
      intro hm
      have := List.nodup_append.mp hnd
      exact this.2.2 hm (List.mem_cons_self _ _)
    obtain ⟨cells1, q1, h1, hok1, -, hl, hb, -⟩ :=
      cell_queue_append_spec cells q ns c hok (hv c (List.mem_cons_self _ _)) hc
    have hnd1 : ((ns ++ [c]) ++ rest).Nodup := by
      rw [List.append_assoc]; exact hnd
    obtain ⟨cells2, q2, h2, hok2, hb2⟩ := ih (ns ++ [c]) cells1 q1 hok1 hnd1
      (fun x hx => by rw [hl]; exact hv x (List.mem_cons_of_mem _ hx))
    refine ⟨cells2, q2, ?_, ?_, hb2.trans hb⟩
    · rw [cell_queue_append_all]
      simp only [h1]
      exact h2
    · rw [List.append_assoc] at hok2
      exact hok2

/-- Popping as many times as the queue has cells returns its cells, first to
last, and leaves the empty queue. -/
theorem cell_queue_pop_n_spec (cells : List packed_cell_t) :
    ∀ (ns : List Nat) (q : cell_queue_t), cell_queue_ok cells q ns = true →
      cell_queue_pop_n cells ns.length q = some (ns.map some, ⟨none, none, 0⟩) := by
  intro ns
  induction ns with
  | nil =>
    intro q hok
    rw [cell_queue_ok_nil cells q hok]
    rfl
  | cons x rest ih =>
    intro q hok
    obtain ⟨q1, h1, hok1, -, -⟩ := cell_queue_pop_spec cells q _ hok
    rw [List.length_cons, cell_queue_pop_n]
    simp only [h1, List.head?_cons]
    rw [List.tail_cons] at hok1
    rw [ih q1 hok1]
    rfl

/-- C23: the cell queue is first-in first-out.  For distinct cells `cs` of
the memory appended with `cell_queue_append`, first to last, to the empty
queue, every call returns and leaves the cell bodies as they were; then as
many calls of `cell_queue_pop` as there are cells return exactly those
cells in the order appended and leave the empty queue; and `cell_queue_pop`
on the empty queue returns the null pointer and the queue as it was. -/
theorem cell_queue_fifo (cells : List packed_cell_t) (cs : List Nat) (hnd : cs.Nodup)
    (hv : ∀ c ∈ cs, c < cells.length) :
    ∃ cells1 q1, cell_queue_append_all cells ⟨none, none, 0⟩ cs = some (cells1, q1) ∧
      cells1.map (fun c => c.body) = cells.map (fun c => c.body) ∧
      cell_queue_pop_n cells1 cs.length q1 = some (cs.map some, ⟨none, none, 0⟩) ∧
      cell_queue_pop cells1 ⟨none, none, 0⟩ = some (none, ⟨none, none, 0⟩) := by
  have hok0 : cell_queue_ok cells ⟨none, none, 0⟩ [] = true := by
    rw [cell_queue_ok_iff, cell_chain_nil]
    exact ⟨rfl, rfl, rfl⟩
  obtain ⟨cells1, q1, h1, hok1, hb⟩ :=
    cell_queue_append_all_spec cs [] cells ⟨none, none, 0⟩ hok0 (by simpa using hnd) hv
  rw [List.nil_append] at hok1
  exact ⟨cells1, q1, h1, hb, cell_queue_pop_n_spec cells1 cs q1 hok1, rfl⟩

/-- Witness for C23: the cells 2, 0 and 1 of a memory of three cells are
appended in this order and popped in this order. -/
theorem cell_queue_fifo_witness :
    ∃ cells1 q1,
      cell_queue_append_all [⟨none, [7]⟩, ⟨some 5, [8]⟩, ⟨some 0, [9]⟩] ⟨none, none, 0⟩
        [2, 0, 1] = some (cells1, q1) ∧
      cells1.map (fun c => c.body) = [[7], [8], [9]] ∧
      cell_queue_pop_n cells1 3 q1 = some ([some 2, some 0, some 1], ⟨none, none, 0⟩) := by
  obtain ⟨cells1, q1, h1, h2, h3, -⟩ :=
    cell_queue_fifo [⟨none, [7]⟩, ⟨some 5, [8]⟩, ⟨some 0, [9]⟩] [2, 0, 1] (by decide)
      (by decide)
  exact ⟨cells1, q1, h1, h2, h3⟩

/-- A ring path with no inner circuit. -/
theorem ring_links_nil (nxt prv : Nat → Option Nat) (a z : Nat) :
    ring_links nxt prv a [] z = true ↔ nxt a = some z ∧ prv z = some a := by
  simp [ring_links]

/-- A ring path through a first inner circuit. -/
theorem ring_links_cons (nxt prv : Nat → Option Nat) (a b z : Nat) (l : List Nat) :
    ring_links nxt prv a (b :: l) z = true ↔
      nxt a = some b ∧ prv b = some a ∧ ring_links nxt prv b l z = true := by
  simp [ring_links, and_assoc]

/-- A ring path only depends on the `next` links of its circuits but the
last and on the `prev` links of its circuits but the first. -/
theorem ring_links_congr (nxt prv nxt1 prv1 : Nat → Option Nat) :
    ∀ (l : List Nat) (a z : Nat),
      (∀ x ∈ a :: l, nxt1 x = nxt x) → (∀ y ∈ l ++ [z], prv1 y = prv y) →
      ring_links nxt prv a l z = true → ring_links nxt1 prv1 a l z = true := by
  intro l
  induction l with
  | nil =>
    intro a z hn hp h
    rw [ring_links_nil] at h ⊢
    rw [hn a (List.mem_cons_self _ _), hp z (by simp)]
    exact h
  | cons b l ih =>
    intro a z hn hp h
    rw [ring_links_cons] at h ⊢
    rw [hn a (List.mem_cons_self _ _), hp b (by simp)]
    refine ⟨h.1, h.2.1, ih b z (fun x hx => hn x (List.mem_cons_of_mem _ hx))
      (fun y hy => hp y (by simp only [List.cons_append]; exact List.mem_cons_of_mem _ hy)) h.2.2⟩

/-- The last circuit of a ring path points to the end of the path, and the
end points back to it. -/
theorem ring_links_last (nxt prv : Nat → Option Nat) :
    ∀ (l : List Nat) (a z : Nat), ring_links nxt prv a l z = true →
      nxt (l.getLastD a) = some z ∧ prv z = some (l.getLastD a) := by
  intro l
  induction l with
  | nil =>
    intro a z h
    rw [ring_links_nil] at h
    exact h
  | cons b l ih =>
    intro a z h
    rw [ring_links_cons] at h
    rw [List.getLastD_cons]
    exact ih b z h.2.2

/-- Every circuit of a ring path has a successor, and the successor points
back to it. -/
theorem ring_links_next (nxt prv : Nat → Option Nat) :
    ∀ (l : List Nat) (a z : Nat), ring_links nxt prv a l z = true →
      ∀ x ∈ a :: l, ∃ y ∈ l ++ [z], nxt x = some y ∧ prv y = some x := by
  intro l
  induction l with
  | nil =>
    intro a z h x hx
    rw [ring_links_nil] at h
    simp only [List.mem_singleton] at hx
    subst hx
    exact ⟨z, by simp, h⟩
  | cons b l ih =>
    intro a z h x hx
    rw [ring_links_cons] at h
    rcases List.mem_cons.mp hx with rfl | hx
    · exact ⟨b, by simp, h.1, h.2.1⟩
    · obtain ⟨y, hy, h1, h2⟩ := ih b z h.2.2 x hx
      exact ⟨y, by simp only [List.cons_append]; exact List.mem_cons_of_mem _ hy, h1, h2⟩

/-- Every circuit a ring path arrives at has a predecessor, and the
predecessor points to it. -/
theorem ring_links_prev (nxt prv : Nat → Option Nat) :
    ∀ (l : List Nat) (a z : Nat), ring_links nxt prv a l z = true →
      ∀ y ∈ l ++ [z], ∃ x ∈ a :: l, prv y = some x ∧ nxt x = some y := by
  intro l
  induction l with
  | nil =>
    intro a z h y hy
    rw [ring_links_nil] at h
    simp only [List.nil_append, List.mem_singleton] at hy
    subst hy
    exact ⟨a, by simp, h.2, h.1⟩
  | cons b l ih =>
    intro a z h y hy
    rw [ring_links_cons] at h
    simp only [List.cons_append] at hy
    rcases List.mem_cons.mp hy with rfl | hy
    · exact ⟨a, by simp, h.2.1, h.1⟩
    · obtain ⟨x, hx, h1, h2⟩ := ih b z h.2.2 y hy
      exact ⟨x, List.mem_cons_of_mem _ hx, h1, h2⟩

/-- The last element of a list with a default is the default or in the
list. -/
theorem getLastD_mem : ∀ (l : List Nat) (b : Nat), l.getLastD b ∈ b :: l := by
  intro l
  induction l with
  | nil => intro b; simp
  | cons y r ih =>
    intro b
    rw [List.getLastD_cons]
    exact List.mem_cons_of_mem _ (ih y)

/-- Linking a new circuit `c` behind the last circuit of a ring path, with
the end of the path as its successor, extends the path by `c`. -/
theorem ring_links_snoc (nxt prv : Nat → Option Nat) (c : Nat) :
    ∀ (l : List Nat) (a z : Nat), ring_links nxt prv a l z = true →
      (a :: l).Nodup → c ∉ a :: l → z ∉ l → z ≠ c →
      ring_links
        (Function.update (Function.update nxt (l.getLastD a) (some c)) c (some z))
        (Function.update (Function.update prv z (some c)) c (some (l.getLastD a)))
        a (l ++ [c]) z = true := by
  intro l
  induction l with
  | nil =>
    intro a z h _ hc _ hzc
    have hac : a ≠ c := fun e => hc (by simp [e])
    simp only [List.nil_append, List.getLastD_nil]
    rw [ring_links_cons, ring_links_nil]
    refine ⟨?_, ?_, ?_, ?_⟩
    · rw [Function.update_noteq hac, Function.update_same]
    · rw [Function.update_same]
    · rw [Function.update_same]
    · rw [Function.update_noteq hzc, Function.update_same]
  | cons b l ih =>
    intro a z h hnd hc hz hzc
    rw [ring_links_cons] at h
    have hnd1 : (b :: l).Nodup := (List.nodup_cons.mp hnd).2
    have hab : a ∉ b :: l := (List.nodup_cons.mp hnd).1
    have hac : a ≠ c := fun e => hc (by simp [e])
    have hbc : b ≠ c := fun e => hc (by simp [e])
    have hbz : b ≠ z := fun e => hz (by simp [e])
    have hlast : (b :: l).getLastD a = l.getLastD b := List.getLastD_cons a b l
    have hlm : l.getLastD b ∈ b :: l := getLastD_mem l b
    have hal : a ≠ l.getLastD b := fun e => hab (e ▸ hlm)
    rw [hlast, List.cons_append, ring_links_cons]
    refine ⟨?_, ?_, ?_⟩
    · rw [Function.update_noteq hac, Function.update_noteq hal]
      exact h.1
    · rw [Function.update_noteq hbc, Function.update_noteq hbz]
      exact h.2.1
    · exact ih b z h.2.2 hnd1 (fun hm => hc (List.mem_cons_of_mem _ hm))
        (fun hm => hz (List.mem_cons_of_mem _ hm)) hzc

/-- The first element of a list with a default is the default or in the
list. -/
theorem headD_mem (l : List Nat) (z : Nat) : l.headD z ∈ l ++ [z] := by
  cases l with
  | nil => simp
  | cons y r => simp

/-- Pointing the last circuit of a ring path to a new end `z1`, and `z1`
back to it, gives the path to `z1`; the links of a circuit `c` outside the
path may be cleared. -/
theorem ring_links_retarget (nxt prv : Nat → Option Nat) (c z1 : Nat) :
    ∀ (l : List Nat) (a z : Nat), ring_links nxt prv a l z = true →
      (a :: l).Nodup → c ∉ a :: l → z1 ∉ l → z1 ≠ c →
      ring_links
        (Function.update (Function.update nxt (l.getLastD a) (some z1)) c none)
        (Function.update (Function.update prv z1 (some (l.getLastD a))) c none)
        a l z1 = true := by
  intro l
  induction l with
  | nil =>
    intro a z _ _ hc _ hzc
    have hac : a ≠ c := fun e => hc (by simp [e])
    simp only [List.getLastD_nil]
    rw [ring_links_nil]
    refine ⟨?_, ?_⟩
    · rw [Function.update_noteq hac, Function.update_same]
    · rw [Function.update_noteq hzc, Function.update_same]
  | cons b l ih =>
    intro a z h hnd hc hz hzc
    rw [ring_links_cons] at h
    have hnd1 : (b :: l).Nodup := (List.nodup_cons.mp hnd).2
    have hab : a ∉ b :: l := (List.nodup_cons.mp hnd).1
    have hac : a ≠ c := fun e => hc (by simp [e])
    have hbc : b ≠ c := fun e => hc (by simp [e])
    have hbz : b ≠ z1 := fun e => hz (by simp [e])
    have hal : a ≠ l.getLastD b := fun e => hab (e ▸ getLastD_mem l b)
    rw [List.getLastD_cons, ring_links_cons]
    refine ⟨?_, ?_, ?_⟩
    · rw [Function.update_noteq hac, Function.update_noteq hal]
      exact h.1
    · rw [Function.update_noteq hbc, Function.update_noteq hbz]
      exact h.2.1
    · exact ih b z h.2.2 hnd1 (fun hm => hc (List.mem_cons_of_mem _ hm))
        (fun hm => hz (List.mem_cons_of_mem _ hm)) hzc

/-- Unlinking the circuit `c` from the inside of a ring path: its
predecessor and its successor are linked to each other and the links of `c`
are cleared; the path then visits the other circuits in the order before. -/
theorem ring_links_remove (nxt prv : Nat → Option Nat) (c : Nat) (l2 : List Nat) :
    ∀ (l1 : List Nat) (a z : Nat), ring_links nxt prv a (l1 ++ c :: l2) z = true →
      (a :: (l1 ++ c :: l2)).Nodup → z ∉ l1 ++ c :: l2 →
      ring_links
        (Function.update (Function.update nxt (l1.getLastD a) (some (l2.headD z))) c none)
        (Function.update (Function.update prv (l2.headD z) (some (l1.getLastD a))) c none)
        a (l1 ++ l2) z = true := by
  intro l1
  induction l1 with
  | nil =>
    intro a z h hnd hz
    simp only [List.nil_append] at h hnd hz ⊢
    rw [ring_links_cons] at h
    obtain ⟨h1, h2, h3⟩ := h
    have hac : a ≠ c := fun e => (List.nodup_cons.mp hnd).1 (by simp [e])
    have hzc : z ≠ c := fun e => hz (by simp [e])
    have hnd2 : (c :: l2).Nodup := (List.nodup_cons.mp hnd).2
    simp only [List.getLastD_nil]
    cases l2 with
    | nil =>
      simp only [List.headD_nil]
      rw [ring_links_nil]
      refine ⟨?_, ?_⟩
      · rw [Function.update_noteq hac, Function.update_same]
      · rw [Function.update_noteq hzc, Function.update_same]
    | cons y r =>
      simp only [List.headD_cons]
      rw [ring_links_cons] at h3
      obtain ⟨h4, h5, h6⟩ := h3
      have hyc : y ≠ c := fun e => (List.nodup_cons.mp hnd2).1 (by simp [e])
      rw [ring_links_cons]
      refine ⟨?_, ?_, ?_⟩
      · rw [Function.update_noteq hac, Function.update_same]
      · rw [Function.update_noteq hyc, Function.update_same]
      · apply ring_links_congr nxt prv _ _ r y z _ _ h6
        · intro x hx
          have hxc : x ≠ c := fun e => (List.nodup_cons.mp hnd2).1 (e ▸ hx)
          have hxa : x ≠ a := fun e =>
            (List.nodup_cons.mp hnd).1 (e ▸ List.mem_cons_of_mem _ hx)
          rw [Function.update_noteq hxc, Function.update_noteq hxa]
        · intro w hw
          have hnd3 : (y :: r).Nodup := (List.nodup_cons.mp hnd2).2
          rcases List.mem_append.mp hw with hw | hw
          · have hwc : w ≠ c := fun e =>
              (List.nodup_cons.mp hnd2).1 (e ▸ List.mem_cons_of_mem _ hw)
            have hwy : w ≠ y := fun e => (List.nodup_cons.mp hnd3).1 (e ▸ hw)
            rw [Function.update_noteq hwc, Function.update_noteq hwy]
          · simp only [List.mem_singleton] at hw
            subst hw
            have hwy : w ≠ y := fun e => hz (by simp [e])
            rw [Function.update_noteq hzc, Function.update_noteq hwy]
  | cons b l1 ih =>
    intro a z h hnd hz
    simp only [List.cons_append] at h hnd hz ⊢
    rw [ring_links_cons] at h
    obtain ⟨h1, h2, h3⟩ := h
    have hnd1 : (b :: (l1 ++ c :: l2)).Nodup := (List.nodup_cons.mp hnd).2
    have hab : a ∉ b :: (l1 ++ c :: l2) := (List.nodup_cons.mp hnd).1
    have hac : a ≠ c := fun e => hab (by simp [e])
    have hbc : b ≠ c := fun e => (List.nodup_cons.mp hnd1).1 (by simp [e])
    have hal : a ≠ l1.getLastD b := by
      intro e
      apply hab
      rw [e]
      rcases List.mem_cons.mp (getLastD_mem l1 b) with h0 | h0
      · rw [h0]; simp
      · exact List.mem_cons_of_mem _ (List.mem_append_left _ h0)
    have hbn : b ≠ l2.headD z := by
      intro e
      rcases List.mem_append.mp (headD_mem l2 z) with h0 | h0
      · apply (List.nodup_cons.mp hnd1).1
        rw [e]
        exact List.mem_append_right _ (List.mem_cons_of_mem _ h0)
      · simp only [List.mem_singleton] at h0
        apply hz
        rw [← h0, ← e]
        simp
    rw [List.getLastD_cons, ring_links_cons]
    refine ⟨?_, ?_, ?_⟩
    · rw [Function.update_noteq hac, Function.update_noteq hal]
      exact h1
    · rw [Function.update_noteq hbc, Function.update_noteq hbn]
      exact h2
    · exact ih b z h3 hnd1 (fun hm => hz (List.mem_cons_of_mem _ hm))

/-- The two pointer functions choose the side of a circuit in the same way. -/
theorem prev_circ_on_conn_p_eq (st : queue_state) (c : Option Nat) (conn : Nat) :
    prev_circ_on_conn_p st c conn = next_circ_on_conn_p st c conn := rfl

/-- Mapping over a list with one element replaced by one with the same
image gives the same list. -/
theorem list_map_set_same_image {α β : Type} (f : α → β) (l : List α) (i : Nat) (a b : α)
    (h : l[i]? = some a) (hf : f b = f a) : (l.set i b).map f = l.map f := by
  apply List.ext_getElem?
  intro j
  simp only [List.getElem?_map, List.getElem?_set]
  split
  · rename_i e
    subst e
    split
    · simp [h, hf]
    · rename_i hlt
      rw [List.getElem?_eq_none (by omega)] at h
      cases h
  · rfl

/-- Writing a `next` link changes nothing but ring links. -/
theorem queue_view_set_next_active (st : queue_state) (p : link_ptr) (v : Option Nat) :
    queue_view (set_next_active st p v) = queue_view st := by
  unfold set_next_active
  split
  · rfl
  · rename_i c hc
    unfold queue_view queue_state.set_circ
    simp only [Prod.mk.injEq, and_true]
    apply list_map_set_same_image _ _ _ _ _ hc
    split <;> rfl

/-- Writing a `prev` link changes nothing but ring links. -/
theorem queue_view_set_prev_active (st : queue_state) (p : link_ptr) (v : Option Nat) :
    queue_view (set_prev_active st p v) = queue_view st := by
  unfold set_prev_active
  split
  · rfl
  · rename_i c hc
    unfold queue_view queue_state.set_circ
    simp only [Prod.mk.injEq, and_true]
    apply list_map_set_same_image _ _ _ _ _ hc
    split <;> rfl

/-- Setting the head of a ring changes nothing but the head. -/
theorem queue_view_set_active_circuits (st : queue_state) (conn : Nat) (v : Option Nat) :
    queue_view (set_active_circuits st conn v) = queue_view st := by
  unfold set_active_circuits
  split
  · rfl
  · rename_i oc hoc
    unfold queue_view queue_state.set_conn
    simp only [Prod.mk.injEq, true_and, and_true]
    exact list_map_set_same_image _ _ _ _ _ hoc rfl

/-- Which link of a circuit belongs to a connection only depends on the
kind and the connections of the circuit. -/
theorem next_circ_on_conn_p_of_view (st st1 : queue_state)
    (h : queue_view st1 = queue_view st) (c : Option Nat) (conn : Nat) :
    next_circ_on_conn_p st1 c conn = next_circ_on_conn_p st c conn := by
  cases c with
  | none => rfl
  | some ci =>
    have hm : (st1.circuits[ci]?).map (fun c => (c.is_origin, c.n_conn, c.p_conn)) =
        (st.circuits[ci]?).map (fun c => (c.is_origin, c.n_conn, c.p_conn)) := by
      have h1 := congrArg (fun v => (v.1[ci]?).map (fun t => (t.1, t.2.1, t.2.2.1))) h
      simp only [queue_view, circ_view, List.getElem?_map, Option.map_map] at h1
      exact h1
    unfold next_circ_on_conn_p
    simp only []
    cases h1 : st1.circuits[ci]? with
    | none =>
      rw [h1] at hm
      cases h0 : st.circuits[ci]? with
      | none => rfl
      | some c0 => rw [h0] at hm; cases hm
    | some c1 =>
      rw [h1] at hm
      cases h0 : st.circuits[ci]? with
      | none => rw [h0] at hm; cases hm
      | some c0 =>
        rw [h0] at hm
        simp only [Option.map_some', Option.some.injEq, Prod.mk.injEq] at hm
        simp only [hm.1, hm.2.1, hm.2.2]

/-- A pointer to a link of a circuit points into that circuit, and the
circuit exists. -/
theorem next_circ_on_conn_p_some (st : queue_state) (ci conn : Nat) (p : link_ptr)
    (h : next_circ_on_conn_p st (some ci) conn = some p) :
    p.circ = ci ∧ ∃ c, st.circuits[ci]? = some c := by
  unfold next_circ_on_conn_p at h
  simp only at h
  split at h
  · cases h
  · rename_i c hc
    refine ⟨?_, c, hc⟩
    split at h
    · cases h; rfl
    · split at h
      · cases h
      · split at h
        · cases h; rfl
        · cases h

/-- Reading a `next` link only depends on the `next` links. -/
theorem get_next_active_congr (st st1 : queue_state)
    (h : st1.circuits.map (fun c => (c.next_active_on_n_conn, c.next_active_on_p_conn)) =
      st.circuits.map (fun c => (c.next_active_on_n_conn, c.next_active_on_p_conn)))
    (q : link_ptr) : get_next_active st1 q = get_next_active st q := by
  have hm := congrArg (fun v => v[q.circ]?) h
  simp only [List.getElem?_map] at hm
  unfold get_next_active
  cases h1 : st1.circuits[q.circ]? with
  | none =>
    rw [h1] at hm
    cases h0 : st.circuits[q.circ]? with
    | none => rfl
    | some c0 => rw [h0] at hm; cases hm
  | some c1 =>
    rw [h1] at hm
    cases h0 : st.circuits[q.circ]? with
    | none => rw [h0] at hm; cases hm
    | some c0 =>
      rw [h0] at hm
      simp only [Option.map_some', Option.some.injEq, Prod.mk.injEq] at hm
      simp only [hm.1, hm.2]

/-- Reading a `prev` link only depends on the `prev` links. -/
theorem get_prev_active_congr (st st1 : queue_state)
    (h : st1.circuits.map (fun c => (c.prev_active_on_n_conn, c.prev_active_on_p_conn)) =
      st.circuits.map (fun c => (c.prev_active_on_n_conn, c.prev_active_on_p_conn)))
    (q : link_ptr) : get_prev_active st1 q = get_prev_active st q := by
  have hm := congrArg (fun v => v[q.circ]?) h
  simp only [List.getElem?_map] at hm
  unfold get_prev_active
  cases h1 : st1.circuits[q.circ]? with
  | none =>
    rw [h1] at hm
    cases h0 : st.circuits[q.circ]? with
    | none => rfl
    | some c0 => rw [h0] at hm; cases hm
  | some c1 =>
    rw [h1] at hm
    cases h0 : st.circuits[q.circ]? with
    | none => rw [h0] at hm; cases hm
    | some c0 =>
      rw [h0] at hm
      simp only [Option.map_some', Option.some.injEq, Prod.mk.injEq] at hm
      simp only [hm.1, hm.2]

/-- Writing the `next` link of a circuit on a connection changes the
successor of that circuit in the ring of the connection, and no other
successor. -/
theorem ring_next_set_next_active (st : queue_state) (ci conn : Nat) (p : link_ptr)
    (v : Option Nat) (h : next_circ_on_conn_p st (some ci) conn = some p) :
    ring_next (set_next_active st p v) conn = Function.update (ring_next st conn) ci v := by
  obtain ⟨hp, c, hc⟩ := next_circ_on_conn_p_some st ci conn p h
  have hlt : ci < st.circuits.length := by
    by_contra hn
    rw [List.getElem?_eq_none (by omega)] at hc
    cases hc
  funext x
  simp only [ring_next]
  rw [next_circ_on_conn_p_of_view st _ (queue_view_set_next_active st p v)]
  by_cases hx : x = ci
  · subst hx
    rw [Function.update_same, h]
    simp only []
    unfold get_next_active set_next_active queue_state.set_circ
    simp only [hp, hc, List.getElem?_set_self hlt]
    split <;> simp_all
  · rw [Function.update_noteq hx]
    simp only [ring_next]
    cases hq : next_circ_on_conn_p st (some x) conn with
    | none => rfl
    | some q =>
      simp only []
      have hqc := (next_circ_on_conn_p_some st x conn q hq).1
      unfold get_next_active set_next_active queue_state.set_circ
      simp only [hp, hc, hqc]
      rw [List.getElem?_set_ne (fun e => hx e.symm)]

/-- Writing a `next` link changes no predecessor. -/
theorem ring_prev_set_next_active (st : queue_state) (conn : Nat) (p : link_ptr)
    (v : Option Nat) :
    ring_prev (set_next_active st p v) conn = ring_prev st conn := by
  have hm : (set_next_active st p v).circuits.map
      (fun c => (c.prev_active_on_n_conn, c.prev_active_on_p_conn)) =
      st.circuits.map (fun c => (c.prev_active_on_n_conn, c.prev_active_on_p_conn)) := by
    unfold set_next_active
    split
    · rfl
    · rename_i c hc
      unfold queue_state.set_circ
      apply list_map_set_same_image _ _ _ _ _ hc
      split <;> rfl
  funext x
  simp only [ring_prev, prev_circ_on_conn_p_eq]
  rw [next_circ_on_conn_p_of_view st _ (queue_view_set_next_active st p v)]
  cases hq : next_circ_on_conn_p st (some x) conn with
  | none => rfl
  | some q => exact get_prev_active_congr st _ hm q

/-- Writing the `prev` link of a circuit on a connection changes the
predecessor of that circuit in the ring of the connection, and no other
predecessor. -/
theorem ring_prev_set_prev_active (st : queue_state) (ci conn : Nat) (p : link_ptr)
    (v : Option Nat) (h : next_circ_on_conn_p st (some ci) conn = some p) :
    ring_prev (set_prev_active st p v) conn = Function.update (ring_prev st conn) ci v := by
  obtain ⟨hp, c, hc⟩ := next_circ_on_conn_p_some st ci conn p h
  have hlt : ci < st.circuits.length := by
    by_contra hn
    rw [List.getElem?_eq_none (by omega)] at hc
    cases hc
  funext x
  simp only [ring_prev, prev_circ_on_conn_p_eq]
  rw [next_circ_on_conn_p_of_view st _ (queue_view_set_prev_active st p v)]
  by_cases hx : x = ci
  · subst hx
    rw [Function.update_same, h]
    simp only []
    unfold get_prev_active set_prev_active queue_state.set_circ
    simp only [hp, hc, List.getElem?_set_self hlt]
    split <;> simp_all
  · rw [Function.update_noteq hx]
    simp only [ring_prev, prev_circ_on_conn_p_eq]
    cases hq : next_circ_on_conn_p st (some x) conn with
    | none => rfl
    | some q =>
      simp only []
      have hqc := (next_circ_on_conn_p_some st x conn q hq).1
      unfold get_prev_active set_prev_active queue_state.set_circ
      simp only [hp, hc, hqc]
      rw [List.getElem?_set_ne (fun e => hx e.symm)]

/-- Writing a `prev` link changes no successor. -/
theorem ring_next_set_prev_active (st : queue_state) (conn : Nat) (p : link_ptr)
    (v : Option Nat) :
    ring_next (set_prev_active st p v) conn = ring_next st conn := by
  have hm : (set_prev_active st p v).circuits.map
      (fun c => (c.next_active_on_n_conn, c.next_active_on_p_conn)) =
      st.circuits.map (fun c => (c.next_active_on_n_conn, c.next_active_on_p_conn)) := by
    unfold set_prev_active
    split
    · rfl
    · rename_i c hc
      unfold queue_state.set_circ
      apply list_map_set_same_image _ _ _ _ _ hc
      split <;> rfl
  funext x
  simp only [ring_next]
  rw [next_circ_on_conn_p_of_view st _ (queue_view_set_prev_active st p v)]
  cases hq : next_circ_on_conn_p st (some x) conn with
  | none => rfl
  | some q => exact get_next_active_congr st _ hm q

/-- Setting the head of a ring changes no link. -/
theorem ring_next_set_active_circuits (st : queue_state) (conn conn1 : Nat) (v : Option Nat) :
    ring_next (set_active_circuits st conn1 v) conn = ring_next st conn ∧
    ring_prev (set_active_circuits st conn1 v) conn = ring_prev st conn := by
  have hc : (set_active_circuits st conn1 v).circuits = st.circuits := by
    unfold set_active_circuits
    split <;> rfl
  constructor
  · funext x
    unfold ring_next next_circ_on_conn_p get_next_active
    rw [hc]
  · funext x
    unfold ring_prev prev_circ_on_conn_p get_prev_active
    rw [hc]

/-- Writing a link changes no connection. -/
theorem conns_set_next_active (st : queue_state) (p : link_ptr) (v : Option Nat) :
    (set_next_active st p v).conns = st.conns ∧ (set_prev_active st p v).conns = st.conns := by
  unfold set_next_active set_prev_active
  constructor <;> split <;> rfl

/-- Setting the head of the ring of a connection that exists. -/
theorem conns_set_active_circuits (st : queue_state) (conn : Nat) (v : Option Nat)
    (oc : or_connection_t) (h : st.conns[conn]? = some oc) :
    (set_active_circuits st conn v).conns[conn]? = some { oc with active_circuits := v } := by
  have hlt : conn < st.conns.length := by
    by_contra hn
    rw [List.getElem?_eq_none (by omega)] at h
    cases h
  unfold set_active_circuits queue_state.set_conn
  simp only [h, List.getElem?_set_self hlt]

/-- A circuit with a successor in the ring of a connection has its link
pointer there. -/
theorem ring_next_some (st : queue_state) (conn x y : Nat)
    (h : ring_next st conn x = some y) :
    ∃ q, next_circ_on_conn_p st (some x) conn = some q ∧ get_next_active st q = some y := by
  unfold ring_next at h
  split at h
  · cases h
  · rename_i q hq
    exact ⟨q, hq, h⟩

/-- A circuit with a predecessor in the ring of a connection has its link
pointer there. -/
theorem ring_prev_some (st : queue_state) (conn x y : Nat)
    (h : ring_prev st conn x = some y) :
    ∃ q, next_circ_on_conn_p st (some x) conn = some q ∧ get_prev_active st q = some y := by
  unfold ring_prev at h
  rw [prev_circ_on_conn_p_eq] at h
  split at h
  · cases h
  · rename_i q hq
    exact ⟨q, hq, h⟩

/-- The successor and the predecessor of a circuit, read through its link
pointer. -/
theorem ring_next_of_ptr (st : queue_state) (conn x : Nat) (q : link_ptr)
    (h : next_circ_on_conn_p st (some x) conn = some q) :
    ring_next st conn x = get_next_active st q ∧ ring_prev st conn x = get_prev_active st q := by
  unfold ring_next ring_prev
  rw [prev_circ_on_conn_p_eq, h]
  exact ⟨rfl, rfl⟩

/-- Well-formedness of a ring, spelled out. -/
theorem active_ring_ok_iff (st : queue_state) (conn : Nat) (ms : List Nat) :
    active_ring_ok st conn ms = true ↔
      (∃ oc, st.conns[conn]? = some oc ∧ oc.active_circuits = ms.head?) ∧
      (∀ h t, ms = h :: t →
        ring_links (ring_next st conn) (ring_prev st conn) h t h = true) ∧
      ms.Nodup ∧
      (∀ c, c ∉ ms → ring_next st conn c = none ∧ ring_prev st conn c = none) := by
  unfold active_ring_ok
  simp only [Bool.and_eq_true, decide_eq_true_eq, List.all_eq_true, List.mem_range,
    Bool.or_eq_true, List.contains_eq_any_beq, List.any_eq_true, beq_iff_eq, exists_eq_right, Option.isNone_iff_eq_none, and_assoc]
  constructor
  · rintro ⟨h1, h2, h3, h4⟩
    refine ⟨?_, ?_, h3, ?_⟩
    · split at h1
      · cases h1
      · rename_i oc hoc
        exact ⟨oc, hoc, by simpa using h1⟩
    · intro h t e
      subst e
      exact h2
    · intro c hc
      by_cases hlt : c < st.circuits.length
      · rcases h4 c hlt with h5 | h5
        · obtain ⟨x, hx, rfl⟩ := h5
          exact absurd hx hc
        · exact h5
      · have hp : next_circ_on_conn_p st (some c) conn = none := by
          unfold next_circ_on_conn_p
          simp only [List.getElem?_eq_none (not_lt.mp hlt)]
        unfold ring_next ring_prev
        rw [prev_circ_on_conn_p_eq, hp]
        exact ⟨rfl, rfl⟩
  · rintro ⟨⟨oc, hoc, hh⟩, h2, h3, h4⟩
    refine ⟨?_, ?_, h3, ?_⟩
    · simp only [hoc, hh, beq_self_eq_true]
    · cases ms with
      | nil => rfl
      | cons h t => exact h2 h t rfl
    · intro c _
      by_cases hc : c ∈ ms
      · exact Or.inl ⟨c, hc, rfl⟩
      · exact Or.inr (h4 c hc)

/-- Every member of a well-formed ring has a successor and a predecessor
among the members. -/
theorem active_ring_ok_member (st : queue_state) (conn : Nat) (ms : List Nat)
    (hok : active_ring_ok st conn ms = true) (x : Nat) (hx : x ∈ ms) :
    (∃ y ∈ ms, ring_next st conn x = some y ∧ ring_prev st conn y = some x) ∧
    (∃ w ∈ ms, ring_prev st conn x = some w ∧ ring_next st conn w = some x) := by
  rw [active_ring_ok_iff] at hok
  obtain ⟨-, hl, -, -⟩ := hok
  cases ms with
  | nil => cases hx
  | cons h t =>
    have hlk := hl h t rfl
    have hperm : ∀ y, y ∈ t ++ [h] ↔ y ∈ h :: t := by
      intro y
      simp only [List.mem_append, List.mem_singleton, List.mem_cons]
      tauto
    constructor
    · obtain ⟨y, hy, h1, h2⟩ := ring_links_next _ _ t h h hlk x hx
      exact ⟨y, (hperm y).mp hy, h1, h2⟩
    · obtain ⟨w, hw, h1, h2⟩ := ring_links_prev _ _ t h h hlk x ((hperm x).mpr hx)
      exact ⟨w, hw, h1, h2⟩

/-- What `make_circuit_active_on_conn` does to a well-formed ring: for a
circuit attached to the connection it returns; a member is left where it
is, with the memory unchanged; any other circuit becomes the last member,
with the head as its successor and the former last member as its
predecessor, and nothing but ring links and the head changes. -/
theorem make_circuit_active_on_conn_spec (st : queue_state) (circ conn : Nat)
    (ms : List Nat) (p : link_ptr) (hok : active_ring_ok st conn ms = true)
    (hatt : next_circ_on_conn_p st (some circ) conn = some p) :
    ∃ st1, make_circuit_active_on_conn st circ conn = some st1 ∧
      (circ ∈ ms → st1 = st) ∧
      (circ ∉ ms → active_ring_ok st1 conn (ms ++ [circ]) = true ∧
        queue_view st1 = queue_view st ∧
        ring_next st1 conn circ = some (ms.headD circ) ∧
        ring_prev st1 conn circ = some (ms.getLastD circ)) := by
  have hmem := active_ring_ok_member st conn ms hok
  have hok0 := hok
  rw [active_ring_ok_iff] at hok
  obtain ⟨⟨oc, hoc, hhead⟩, hl, hnd, hnon⟩ := hok
  obtain ⟨hrn, hrp⟩ := ring_next_of_ptr st conn circ p hatt
  unfold make_circuit_active_on_conn
  rw [prev_circ_on_conn_p_eq, hatt]
  simp only []
  by_cases hin : circ ∈ ms
  · obtain ⟨⟨y, -, hy, -⟩, ⟨w, -, hw, -⟩⟩ := hmem circ hin
    rw [hrn] at hy
    rw [hrp] at hw
    rw [if_pos (by simp [hy, hw])]
    exact ⟨st, rfl, fun _ => rfl, fun h => absurd hin h⟩
  · obtain ⟨hn1, hn2⟩ := hnon circ hin
    rw [hrn] at hn1
    rw [if_neg (by simp [hn1])]
    simp only [hoc]
    cases ms with
    | nil =>
      simp only [List.head?_nil] at hhead
      simp only [hhead]
      generalize hsa : set_active_circuits st conn (some circ) = sa
      have hva : queue_view sa = queue_view st := by
        rw [← hsa]; exact queue_view_set_active_circuits st conn _
      have hpa : next_circ_on_conn_p sa (some circ) conn = some p := by
        rw [next_circ_on_conn_p_of_view st sa hva]; exact hatt
      generalize hs1 : set_next_active sa p (some circ) = s1
      have hv1 : queue_view s1 = queue_view sa := by
        rw [← hs1]; exact queue_view_set_next_active sa p _
      have hp1 : next_circ_on_conn_p s1 (some circ) conn = some p := by
        rw [next_circ_on_conn_p_of_view sa s1 hv1]; exact hpa
      have hnx : ring_next (set_prev_active s1 p (some circ)) conn =
          Function.update (ring_next st conn) circ (some circ) := by
        rw [ring_next_set_prev_active, ← hs1, ring_next_set_next_active sa circ conn p _ hpa,
          ← hsa, (ring_next_set_active_circuits st conn conn _).1]
      have hpv : ring_prev (set_prev_active s1 p (some circ)) conn =
          Function.update (ring_prev st conn) circ (some circ) := by
        rw [ring_prev_set_prev_active s1 circ conn p _ hp1, ← hs1, ring_prev_set_next_active,
          ← hsa, (ring_next_set_active_circuits st conn conn _).2]
      refine ⟨_, rfl, fun h => absurd h hin, fun _ => ⟨?_, ?_, ?_, ?_⟩⟩
      · rw [active_ring_ok_iff]
        refine ⟨?_, ?_, by simp, ?_⟩
        · refine ⟨{ oc with active_circuits := some circ }, ?_, rfl⟩
          rw [(conns_set_next_active s1 p _).2, ← hs1, (conns_set_next_active sa p _).1, ← hsa]
          exact conns_set_active_circuits st conn _ oc hoc
        · intro h t e
          simp only [List.nil_append, List.cons.injEq] at e
          obtain ⟨rfl, rfl⟩ := e
          rw [ring_links_nil, hnx, hpv, Function.update_same, Function.update_same]
          exact ⟨rfl, rfl⟩
        · intro c hc
          have hcc : c ≠ circ := by simpa using hc
          rw [hnx, hpv, Function.update_noteq hcc, Function.update_noteq hcc]
          exact hnon c (by simp)
      · rw [queue_view_set_prev_active, hv1, hva]
      · rw [hnx, Function.update_same]; rfl
      · rw [hpv, Function.update_same]; rfl
    | cons h t =>
      simp only [List.head?_cons] at hhead
      simp only [hhead]
      have hlk := hl h t rfl
      have hnd1 := List.nodup_cons.mp hnd
      obtain ⟨hlast_n, hlast_p⟩ := ring_links_last _ _ t h h hlk
      obtain ⟨ph, hph, hgh⟩ := ring_prev_some st conn h _ hlast_p
      obtain ⟨pl, hpl, -⟩ := ring_next_some st conn _ _ hlast_n
      rw [prev_circ_on_conn_p_eq, hph]
      simp only [hgh, hpl]
      generalize hs1 : set_next_active st pl (some circ) = s1
      have hv1 : queue_view s1 = queue_view st := by
        rw [← hs1]; exact queue_view_set_next_active st pl _
      have hp1 : next_circ_on_conn_p s1 (some circ) conn = some p := by
        rw [next_circ_on_conn_p_of_view st s1 hv1]; exact hatt
      generalize hs2 : set_next_active s1 p (some h) = s2
      have hv2 : queue_view s2 = queue_view s1 := by
        rw [← hs2]; exact queue_view_set_next_active s1 p _
      have hp2 : next_circ_on_conn_p s2 (some h) conn = some ph := by
        rw [next_circ_on_conn_p_of_view s1 s2 hv2, next_circ_on_conn_p_of_view st s1 hv1]
        exact hph
      generalize hs3 : set_prev_active s2 ph (some circ) = s3
      have hv3 : queue_view s3 = queue_view s2 := by
        rw [← hs3]; exact queue_view_set_prev_active s2 ph _
      have hp3 : next_circ_on_conn_p s3 (some circ) conn = some p := by
        rw [next_circ_on_conn_p_of_view s2 s3 hv3, next_circ_on_conn_p_of_view s1 s2 hv2]
        exact hp1
      have hnx : ring_next (set_prev_active s3 p (some (t.getLastD h))) conn =
          Function.update (Function.update (ring_next st conn) (t.getLastD h) (some circ))
            circ (some h) := by
        rw [ring_next_set_prev_active, ← hs3, ring_next_set_prev_active, ← hs2,
          ring_next_set_next_active s1 circ conn p _ hp1, ← hs1,
          ring_next_set_next_active st _ conn pl _ hpl]
      have hpv : ring_prev (set_prev_active s3 p (some (t.getLastD h))) conn =
          Function.update (Function.update (ring_prev st conn) h (some circ))
            circ (some (t.getLastD h)) := by
        rw [ring_prev_set_prev_active s3 circ conn p _ hp3, ← hs3,
          ring_prev_set_prev_active s2 h conn ph _ hp2, ← hs2, ring_prev_set_next_active,
          ← hs1, ring_prev_set_next_active]
      have hhc : h ≠ circ := fun e => hin (by simp [e])
      refine ⟨_, rfl, fun h0 => absurd h0 hin, fun _ => ⟨?_, ?_, ?_, ?_⟩⟩
      · rw [active_ring_ok_iff]
        refine ⟨?_, ?_, ?_, ?_⟩
        · refine ⟨oc, ?_, by simp [hhead]⟩
          rw [(conns_set_next_active s3 p _).2, ← hs3, (conns_set_next_active s2 ph _).2, ← hs2,
            (conns_set_next_active s1 p _).1, ← hs1, (conns_set_next_active st pl _).1]
          exact hoc
        · intro h' t' e
          simp only [List.cons_append, List.cons.injEq] at e
          obtain ⟨rfl, rfl⟩ := e
          rw [hnx, hpv]
          exact ring_links_snoc _ _ circ t h h hlk hnd hin hnd1.1 hhc
        · rw [List.nodup_append]
          refine ⟨hnd, by simp, ?_⟩
          intro a ha hb
          simp only [List.mem_singleton] at hb
          exact hin (hb ▸ ha)
        · intro c hc
          simp only [List.mem_append, List.mem_singleton, not_or] at hc
          have hc1 : c ≠ t.getLastD h := fun e => hc.1 (e ▸ getLastD_mem t h)
          have hc2 : c ≠ h := fun e => hc.1 (by simp [e])
          rw [hnx, hpv, Function.update_noteq hc.2, Function.update_noteq hc.2,
            Function.update_noteq hc1, Function.update_noteq hc2]
          exact hnon c hc.1
      · rw [queue_view_set_prev_active, hv3, hv2, hv1]
      · rw [hnx, Function.update_same]; rfl
      · rw [hpv, Function.update_same, List.getLastD_cons]

/-- The links of a circuit inside a ring path: its successor is the next
circuit of the path and its predecessor the one before. -/
theorem ring_links_at (nxt prv : Nat → Option Nat) (c : Nat) (l2 : List Nat) :
    ∀ (l1 : List Nat) (a z : Nat), ring_links nxt prv a (l1 ++ c :: l2) z = true →
      nxt c = some (l2.headD z) ∧ prv c = some (l1.getLastD a) := by
  intro l1
  induction l1 with
  | nil =>
    intro a z h
    rw [List.nil_append, ring_links_cons] at h
    refine ⟨?_, h.2.1⟩
    cases l2 with
    | nil => exact ((ring_links_nil _ _ _ _).mp h.2.2).1
    | cons y r => exact ((ring_links_cons _ _ _ _ _ _).mp h.2.2).1
  | cons b l1 ih =>
    intro a z h
    rw [List.cons_append, ring_links_cons] at h
    rw [List.getLastD_cons]
    exact ih b z h.2.2

/-- Removing from a list without repetitions an element that is not its
head. -/
theorem erase_middle (h c : Nat) (l1 l2 : List Nat) (hc : c ≠ h) (hl : c ∉ l1) :
    (h :: (l1 ++ c :: l2)).erase c = h :: (l1 ++ l2) := by
  rw [List.erase_cons_tail (by simpa using hc.symm), List.erase_append_right _ hl,
    List.erase_cons_head]

/-- What `make_circuit_inactive_on_conn` does to a well-formed ring: for a
circuit attached to the connection it returns; a circuit that is not a
member leaves the memory unchanged; a member is taken out of the ring, both
of its links are cleared, the other members keep their order from the head
(from the successor of the circuit, when it was the head), and nothing but
ring links and the head changes. -/
theorem make_circuit_inactive_on_conn_spec (st : queue_state) (circ conn : Nat)
    (ms : List Nat) (p : link_ptr) (hok : active_ring_ok st conn ms = true)
    (hatt : next_circ_on_conn_p st (some circ) conn = some p) :
    ∃ st1, make_circuit_inactive_on_conn st circ conn = some st1 ∧
      (circ ∉ ms → st1 = st) ∧
      (circ ∈ ms → active_ring_ok st1 conn (ms.erase circ) = true ∧
        queue_view st1 = queue_view st ∧
        ring_next st1 conn circ = none ∧ ring_prev st1 conn circ = none) := by
  have hmem := active_ring_ok_member st conn ms hok
  rw [active_ring_ok_iff] at hok
  obtain ⟨⟨oc, hoc, hhead⟩, hl, hnd, hnon⟩ := hok
  obtain ⟨hrn, hrp⟩ := ring_next_of_ptr st conn circ p hatt
  unfold make_circuit_inactive_on_conn
  rw [prev_circ_on_conn_p_eq, hatt]
  simp only []
  by_cases hin : circ ∈ ms
  swap
  · obtain ⟨hn1, hn2⟩ := hnon circ hin
    rw [hrn] at hn1
    rw [hrp] at hn2
    rw [if_pos (by simp [hn1, hn2])]
    exact ⟨st, rfl, fun _ => rfl, fun h => absurd h hin⟩
  obtain ⟨⟨y, hym, hy, hyp⟩, ⟨w, hwm, hw, hwn⟩⟩ := hmem circ hin
  have hy1 := hy
  have hw1 := hw
  rw [hrn] at hy1
  rw [hrp] at hw1
  obtain ⟨qy, hqy, hgy⟩ := ring_prev_some st conn y circ hyp
  obtain ⟨qw, hqw, hgw⟩ := ring_next_some st conn w circ hwn
  rw [if_neg (by simp [hy1]), if_neg (by simp [hy1, hw1]), hy1, hw1, prev_circ_on_conn_p_eq,
    hqy, hqw]
  simp only [hgy, hgw, ne_eq, not_true_eq_false, if_false, hoc]
  -- the state after the two link writes and the clearing of the circuit's links
  have key : ∀ s3 : queue_state, queue_view s3 = queue_view st →
      ring_next s3 conn = Function.update (ring_next st conn) w (some y) →
      ring_prev s3 conn = Function.update (ring_prev st conn) y (some w) →
      ring_next (set_prev_active (set_next_active s3 p none) p none) conn =
        Function.update (Function.update (ring_next st conn) w (some y)) circ none ∧
      ring_prev (set_prev_active (set_next_active s3 p none) p none) conn =
        Function.update (Function.update (ring_prev st conn) y (some w)) circ none ∧
      queue_view (set_prev_active (set_next_active s3 p none) p none) = queue_view st ∧
      (set_prev_active (set_next_active s3 p none) p none).conns = s3.conns := by
    intro s3 hv3 hn3 hp3
    have hp : next_circ_on_conn_p s3 (some circ) conn = some p := by
      rw [next_circ_on_conn_p_of_view st s3 hv3]; exact hatt
    have hv4 : queue_view (set_next_active s3 p none) = queue_view st := by
      rw [queue_view_set_next_active]; exact hv3
    have hp4 : next_circ_on_conn_p (set_next_active s3 p none) (some circ) conn = some p := by
      rw [next_circ_on_conn_p_of_view st _ hv4]; exact hatt
    refine ⟨?_, ?_, ?_, ?_⟩
    · rw [ring_next_set_prev_active, ring_next_set_next_active s3 circ conn p _ hp, hn3]
    · rw [ring_prev_set_prev_active _ circ conn p _ hp4, ring_prev_set_next_active, hp3]
    · rw [queue_view_set_prev_active]; exact hv4
    · rw [(conns_set_next_active _ p _).2, (conns_set_next_active _ p _).1]
  have hs2 : queue_view (set_next_active (set_prev_active st qy (some w)) qw (some y)) =
        queue_view st ∧
      ring_next (set_next_active (set_prev_active st qy (some w)) qw (some y)) conn =
        Function.update (ring_next st conn) w (some y) ∧
      ring_prev (set_next_active (set_prev_active st qy (some w)) qw (some y)) conn =
        Function.update (ring_prev st conn) y (some w) ∧
      (set_next_active (set_prev_active st qy (some w)) qw (some y)).conns = st.conns := by
    have hv1 : queue_view (set_prev_active st qy (some w)) = queue_view st :=
      queue_view_set_prev_active st qy _
    have hq1 : next_circ_on_conn_p (set_prev_active st qy (some w)) (some w) conn = some qw := by
      rw [next_circ_on_conn_p_of_view st _ hv1]; exact hqw
    refine ⟨?_, ?_, ?_, ?_⟩
    · rw [queue_view_set_next_active]; exact hv1
    · rw [ring_next_set_next_active _ w conn qw _ hq1, ring_next_set_prev_active]
    · rw [ring_prev_set_next_active, ring_prev_set_prev_active st y conn qy _ hqy]
    · rw [(conns_set_next_active _ qw _).1, (conns_set_next_active _ qy _).2]
  have hnon1 : ∀ c, c ∉ ms.erase circ →
      Function.update (Function.update (ring_next st conn) w (some y)) circ none c = none ∧
      Function.update (Function.update (ring_prev st conn) y (some w)) circ none c = none := by
    intro c hc
    by_cases hcc : c = circ
    · subst hcc
      rw [Function.update_same, Function.update_same]
      exact ⟨rfl, rfl⟩
    · have hcm : c ∉ ms := fun hm => hc ((List.mem_erase_of_ne hcc).mpr hm)
      have hcw : c ≠ w := fun e => hcm (e ▸ hwm)
      have hcy : c ≠ y := fun e => hcm (e ▸ hym)
      rw [Function.update_noteq hcc, Function.update_noteq hcc, Function.update_noteq hcw,
        Function.update_noteq hcy]
      exact hnon c hcm
  cases ms with
  | nil => cases hin
  | cons h t =>
    have hlk := hl h t rfl
    have hnd1 := List.nodup_cons.mp hnd
    simp only [List.head?_cons] at hhead
    by_cases hch : circ = h
    · subst hch
      cases t with
      | nil =>
        have hyc : y = circ := by
          have := ((ring_links_nil _ _ _ _).mp hlk).1
          rw [hy] at this
          exact Option.some.inj this
        subst hyc
        have hwc : w = y := by
          have := ((ring_links_nil _ _ _ _).mp hlk).2
          rw [hw] at this
          exact Option.some.inj this
        subst hwc
        simp only [if_true]
        obtain ⟨k1, k2, k3, k4⟩ := key (set_active_circuits st conn none)
          (queue_view_set_active_circuits st conn none)
          (by rw [(ring_next_set_active_circuits st conn conn none).1]
              funext x
              by_cases hx : x = w
              · subst hx; rw [Function.update_same, hy]
              · rw [Function.update_noteq hx])
          (by rw [(ring_next_set_active_circuits st conn conn none).2]
              funext x
              by_cases hx : x = w
              · subst hx; rw [Function.update_same, hw]
              · rw [Function.update_noteq hx])
        refine ⟨_, rfl, fun h0 => absurd hin h0, fun _ => ⟨?_, k3, ?_, ?_⟩⟩
        · rw [active_ring_ok_iff]
          refine ⟨⟨{ oc with active_circuits := none }, ?_, by simp⟩, ?_, by simp, ?_⟩
          · rw [k4]; exact conns_set_active_circuits st conn _ oc hoc
          · intro h0 t0 e
            simp at e
          · intro c hc
            rw [k1, k2]
            exact hnon1 c hc
        · rw [k1, Function.update_same]
        · rw [k2, Function.update_same]
      | cons h2 t2 =>
        rw [ring_links_cons] at hlk
        have hyh : y = h2 := by
          have := hlk.1
          rw [hy] at this
          exact (Option.some.inj this)
        subst hyh
        have hwl : w = t2.getLastD y := by
          have := (ring_links_last _ _ (y :: t2) circ circ
            ((ring_links_cons _ _ _ _ _ _).mpr hlk)).2
          rw [hw, List.getLastD_cons] at this
          exact Option.some.inj this
        have hyc : ¬ (y = circ) := fun e => hnd1.1 (by simp [e])
        have hyc1 : ¬ (some y = some circ) := fun e => hyc (Option.some.inj e)
        rw [if_neg hyc1]
        simp only [hhead, if_true]
        obtain ⟨v2, n2, p2, c2⟩ := hs2
        obtain ⟨k1, k2, k3, k4⟩ := key
          (set_active_circuits
            (set_next_active (set_prev_active st qy (some w)) qw (some y)) conn (some y))
          (by rw [queue_view_set_active_circuits]; exact v2)
          (by rw [(ring_next_set_active_circuits _ conn conn _).1]; exact n2)
          (by rw [(ring_next_set_active_circuits _ conn conn _).2]; exact p2)
        refine ⟨_, rfl, fun h0 => absurd hin h0, fun _ => ⟨?_, k3, ?_, ?_⟩⟩
        · rw [active_ring_ok_iff]
          rw [List.erase_cons_head]
          refine ⟨⟨{ oc with active_circuits := some y }, ?_, by simp⟩, ?_, hnd1.2, ?_⟩
          · rw [k4]
            apply conns_set_active_circuits
            rw [c2]; exact hoc
          · intro h0 t0 e
            simp only [List.cons.injEq] at e
            obtain ⟨rfl, rfl⟩ := e
            rw [k1, k2, hwl]
            exact ring_links_retarget _ _ circ y t2 y circ hlk.2.2 hnd1.2 hnd1.1
              (List.nodup_cons.mp hnd1.2).1 hyc
          · intro c hc
            rw [k1, k2]
            apply hnon1 c
            rw [List.erase_cons_head]
            exact hc
        · rw [k1, Function.update_same]
        · rw [k2, Function.update_same]
    · have hct : circ ∈ t := by
        rcases List.mem_cons.mp hin with e | e
        · exact absurd e hch
        · exact e
      obtain ⟨l1, l2, rfl⟩ := List.append_of_mem hct
      obtain ⟨hyv, hwv⟩ := ring_links_at _ _ circ l2 l1 h h hlk
      have hyl : y = l2.headD h := by rw [hy] at hyv; exact Option.some.inj hyv
      have hwl : w = l1.getLastD h := by rw [hw] at hwv; exact Option.some.inj hwv
      have hnd2 : (l1 ++ circ :: l2).Nodup := hnd1.2
      have hcl1 : circ ∉ l1 := by
        intro hm
        have := (List.nodup_append.mp hnd2).2.2 hm (List.mem_cons_self _ _)
        exact this
      have hcl2 : circ ∉ l2 := by
        have := (List.nodup_append.mp hnd2).2.1
        exact (List.nodup_cons.mp this).1
      have hyc : ¬ (y = circ) := by
        intro e
        rw [hyl] at e
        rcases List.mem_append.mp (headD_mem l2 h) with h0 | h0
        · rw [e] at h0; exact hcl2 h0
        · simp only [List.mem_singleton] at h0
          rw [e] at h0
          exact hch h0
      have hyc1 : ¬ (some y = some circ) := fun e => hyc (Option.some.inj e)
      have hhc1 : ¬ (oc.active_circuits = some circ) := by
        rw [hhead]
        intro e
        exact hch (Option.some.inj e).symm
      rw [if_neg hyc1, if_neg hhc1]
      obtain ⟨v2, n2, p2, c2⟩ := hs2
      obtain ⟨k1, k2, k3, k4⟩ := key _ v2 n2 p2
      refine ⟨_, rfl, fun h0 => absurd hin h0, fun _ => ⟨?_, k3, ?_, ?_⟩⟩
      · rw [active_ring_ok_iff, erase_middle h circ l1 l2 hch hcl1]
        refine ⟨⟨oc, ?_, by simp [hhead]⟩, ?_, ?_, ?_⟩
        · rw [k4, c2]; exact hoc
        · intro h0 t0 e
          simp only [List.cons.injEq] at e
          obtain ⟨rfl, rfl⟩ := e
          rw [k1, k2, hwl, hyl]
          exact ring_links_remove _ _ circ l2 l1 h h hlk hnd hnd1.1
        · refine List.nodup_cons.mpr ⟨?_, ?_⟩
          · intro hm
            apply hnd1.1
            rcases List.mem_append.mp hm with h0 | h0
            · exact List.mem_append_left _ h0
            · exact List.mem_append_right _ (List.mem_cons_of_mem _ h0)
          · have := List.nodup_append.mp hnd2
            rw [List.nodup_append]
            refine ⟨this.1, (List.nodup_cons.mp this.2.1).2, ?_⟩
            intro a ha hb
            exact this.2.2 ha (List.mem_cons_of_mem _ hb)
        · intro c hc
          rw [k1, k2]
          apply hnon1 c
          rw [erase_middle h circ l1 l2 hch hcl1]
          exact hc
      · rw [k1, Function.update_same]
      · rw [k2, Function.update_same]

/-- The members of a well-formed ring are circuits of the memory, so there
are at most as many as circuits. -/
theorem active_ring_ok_length (st : queue_state) (conn : Nat) (ms : List Nat)
    (hok : active_ring_ok st conn ms = true) : ms.length ≤ st.circuits.length := by
  have hmem := active_ring_ok_member st conn ms hok
  have hnd := ((active_ring_ok_iff st conn ms).mp hok).2.2.1
  have hsub : ms ⊆ List.range st.circuits.length := by
    intro x hx
    obtain ⟨⟨y, -, hy, -⟩, -⟩ := hmem x hx
    obtain ⟨q, hq, -⟩ := ring_next_some st conn x y hy
    obtain ⟨-, c, hc⟩ := next_circ_on_conn_p_some st x conn q hq
    apply List.mem_range.mpr
    by_contra hlt
    rw [List.getElem?_eq_none (by omega)] at hc
    cases hc
  have := (List.subperm_of_subset hnd hsub).length_le
  simpa using this

/-- The loop of `assert_active_circuits_ok` on the rest of a well-formed
ring: with more fuel than circuits left it returns and no assertion
fails. -/
theorem assert_active_circuits_ok_loop_spec (st : queue_state) (conn head : Nat)
    (ms : List Nat) (hok : active_ring_ok st conn ms = true) :
    ∀ (l : List Nat) (a fuel : Nat),
      ring_links (ring_next st conn) (ring_prev st conn) a l head = true →
      (∀ x ∈ a :: l, x ∈ ms) → head ∉ l → l.length < fuel →
      assert_active_circuits_ok_loop fuel st conn head (some a) = some () := by
  have hmem := active_ring_ok_member st conn ms hok
  intro l
  induction l with
  | nil =>
    intro a fuel hlk hin _ hf
    obtain ⟨f, rfl⟩ : ∃ f, fuel = f + 1 := ⟨fuel - 1, by simp at hf; omega⟩
    rw [ring_links_nil] at hlk
    obtain ⟨-, ⟨w, -, hw, hwn⟩⟩ := hmem a (hin a (by simp))
    obtain ⟨q, hq, hgq⟩ := ring_next_some st conn a head hlk.1
    obtain ⟨hrn, hrp⟩ := ring_next_of_ptr st conn a q hq
    obtain ⟨qw, hqw, hgw⟩ := ring_next_some st conn w a hwn
    obtain ⟨qh, hqh, hgh⟩ := ring_prev_some st conn head a hlk.2
    rw [hrp] at hw
    rw [assert_active_circuits_ok_loop]
    simp only [prev_circ_on_conn_p_eq, hq, hgq, hw, hqw, hqh, hgw, hgh, Option.isNone_some,
      Bool.false_eq_true, if_false, ne_eq, not_true_eq_false]
  | cons b l ih =>
    intro a fuel hlk hin hh hf
    obtain ⟨f, rfl⟩ : ∃ f, fuel = f + 1 := ⟨fuel - 1, by simp at hf; omega⟩
    rw [ring_links_cons] at hlk
    obtain ⟨-, ⟨w, -, hw, hwn⟩⟩ := hmem a (hin a (by simp))
    obtain ⟨q, hq, hgq⟩ := ring_next_some st conn a b hlk.1
    obtain ⟨hrn, hrp⟩ := ring_next_of_ptr st conn a q hq
    obtain ⟨qw, hqw, hgw⟩ := ring_next_some st conn w a hwn
    obtain ⟨qb, hqb, hgb⟩ := ring_prev_some st conn b a hlk.2.1
    rw [hrp] at hw
    have hbh : ¬ (some b = some head) := fun e => hh (by simp [Option.some.inj e])
    rw [assert_active_circuits_ok_loop]
    simp only [prev_circ_on_conn_p_eq, hq, hgq, hw, hqw, hqb, hgw, hgb, Option.isNone_some,
      Bool.false_eq_true, if_false, ne_eq, not_true_eq_false, hbh, not_false_eq_true, if_true]
    exact ih b f hlk.2.2 (fun x hx => hin x (List.mem_cons_of_mem _ hx))
      (fun hm => hh (List.mem_cons_of_mem _ hm)) (by simp at hf; omega)

/-- On a well-formed ring `assert_active_circuits_ok` returns and no
assertion fails. -/
theorem assert_active_circuits_ok_of_ring (st : queue_state) (conn : Nat) (ms : List Nat)
    (hok : active_ring_ok st conn ms = true) :
    assert_active_circuits_ok st conn = some () := by
  have hlen := active_ring_ok_length st conn ms hok
  have hok0 := hok
  rw [active_ring_ok_iff] at hok
  obtain ⟨⟨oc, hoc, hhead⟩, hl, hnd, -⟩ := hok
  unfold assert_active_circuits_ok
  simp only [hoc, hhead]
  cases ms with
  | nil => rfl
  | cons h t =>
    simp only [List.head?_cons]
    exact assert_active_circuits_ok_loop_spec st conn h (h :: t) hok0 t h _ (hl h t rfl)
      (fun x hx => hx) (List.nodup_cons.mp hnd).1 (by simp at hlen; omega)

/-- The loop of `connection_or_unlink_all_active_circs` on the rest of a
well-formed ring: with more fuel than circuits left it returns, and it has
cleared the links of exactly the circuits it went through. -/
theorem connection_or_unlink_all_active_circs_loop_spec (st : queue_state)
    (conn head : Nat) :
    ∀ (l : List Nat) (a : Nat) (done : List Nat) (fuel : Nat) (s : queue_state),
      ring_links (ring_next st conn) (ring_prev st conn) a l head = true →
      (a :: l).Nodup → (∀ x ∈ a :: l, x ∉ done) → head ∉ l →
      queue_view s = queue_view st → s.conns = st.conns →
      ring_next s conn = (fun x => if x ∈ done then none else ring_next st conn x) →
      ring_prev s conn = (fun x => if x ∈ done then none else ring_prev st conn x) →
      l.length < fuel →
      ∃ s1, connection_or_unlink_all_active_circs_loop fuel s conn head (some a) = some s1 ∧
        queue_view s1 = queue_view st ∧ s1.conns = st.conns ∧
        ring_next s1 conn =
          (fun x => if x ∈ done ++ a :: l then none else ring_next st conn x) ∧
        ring_prev s1 conn =
          (fun x => if x ∈ done ++ a :: l then none else ring_prev st conn x) := by
  intro l
  induction l with
  | nil =>
    intro a done fuel s hlk _ hnd _ hv hc hn hp hf
    obtain ⟨f, rfl⟩ : ∃ f, fuel = f + 1 := ⟨fuel - 1, by simp at hf; omega⟩
    rw [ring_links_nil] at hlk
    obtain ⟨q, hq, hgq⟩ := ring_next_some st conn a head hlk.1
    have hqs : next_circ_on_conn_p s (some a) conn = some q := by
      rw [next_circ_on_conn_p_of_view st s hv]; exact hq
    have hgs : get_next_active s q = some head := by
      rw [← (ring_next_of_ptr s conn a q hqs).1, hn]
      simp only [hnd a (by simp), if_false]
      exact hlk.1
    have hv1 : queue_view (set_prev_active s q none) = queue_view st := by
      rw [queue_view_set_prev_active]; exact hv
    have hq1 : next_circ_on_conn_p (set_prev_active s q none) (some a) conn = some q := by
      rw [next_circ_on_conn_p_of_view st _ hv1]; exact hq
    rw [connection_or_unlink_all_active_circs_loop]
    simp only [prev_circ_on_conn_p_eq, hqs, hgs, ne_eq, not_true_eq_false, if_false]
    refine ⟨_, rfl, ?_, ?_, ?_, ?_⟩
    · rw [queue_view_set_next_active]; exact hv1
    · rw [(conns_set_next_active _ q _).1, (conns_set_next_active _ q _).2]; exact hc
    · rw [ring_next_set_next_active _ a conn q _ hq1, ring_next_set_prev_active, hn]
      funext x
      by_cases hx : x = a
      · subst hx; simp
      · rw [Function.update_noteq hx]; simp [hx]
    · rw [ring_prev_set_next_active, ring_prev_set_prev_active s a conn q _ hqs, hp]
      funext x
      by_cases hx : x = a
      · subst hx; simp
      · rw [Function.update_noteq hx]; simp [hx]
  | cons b l ih =>
    intro a done fuel s hlk hnodup hnd hh hv hc hn hp hf
    obtain ⟨f, rfl⟩ : ∃ f, fuel = f + 1 := ⟨fuel - 1, by simp at hf; omega⟩
    rw [ring_links_cons] at hlk
    obtain ⟨q, hq, hgq⟩ := ring_next_some st conn a b hlk.1
    have hqs : next_circ_on_conn_p s (some a) conn = some q := by
      rw [next_circ_on_conn_p_of_view st s hv]; exact hq
    have hgs : get_next_active s q = some b := by
      rw [← (ring_next_of_ptr s conn a q hqs).1, hn]
      simp only [hnd a (by simp), if_false]
      exact hlk.1
    have hv1 : queue_view (set_prev_active s q none) = queue_view st := by
      rw [queue_view_set_prev_active]; exact hv
    have hq1 : next_circ_on_conn_p (set_prev_active s q none) (some a) conn = some q := by
      rw [next_circ_on_conn_p_of_view st _ hv1]; exact hq
    have hbh : ¬ (some b = some head) := fun e => hh (by simp [Option.some.inj e])
    rw [connection_or_unlink_all_active_circs_loop]
    simp only [prev_circ_on_conn_p_eq, hqs, hgs, ne_eq, hbh, not_false_eq_true, if_true]
    obtain ⟨s1, h1, h2, h3, h4, h5⟩ := ih b (done ++ [a]) f
      (set_next_active (set_prev_active s q none) q none) hlk.2.2
      (List.nodup_cons.mp hnodup).2
      (fun x hx hd => by
        rcases List.mem_append.mp hd with h0 | h0
        · exact hnd x (List.mem_cons_of_mem _ hx) h0
        · simp only [List.mem_singleton] at h0
          subst h0
          exact (List.nodup_cons.mp hnodup).1 hx)
      (fun hm => hh (List.mem_cons_of_mem _ hm))
      (by rw [queue_view_set_next_active]; exact hv1)
      (by rw [(conns_set_next_active _ q _).1, (conns_set_next_active _ q _).2]; exact hc)
      (by
        rw [ring_next_set_next_active _ a conn q _ hq1, ring_next_set_prev_active, hn]
        funext x
        by_cases hx : x = a
        · subst hx; simp
        · rw [Function.update_noteq hx]; simp [hx])
      (by
        rw [ring_prev_set_next_active, ring_prev_set_prev_active s a conn q _ hqs, hp]
        funext x
        by_cases hx : x = a
        · subst hx; simp
        · rw [Function.update_noteq hx]; simp [hx])
      (by simp at hf; omega)
    refine ⟨s1, h1, h2, h3, ?_, ?_⟩
    · rw [h4]; simp [List.append_assoc]
    · rw [h5]; simp [List.append_assoc]

/-- On a well-formed ring `connection_or_unlink_all_active_circs` returns
and leaves the ring with no members: every link on the side of the
connection is null and so is the head; nothing else changes. -/
theorem connection_or_unlink_all_active_circs_spec (st : queue_state) (conn : Nat)
    (ms : List Nat) (hok : active_ring_ok st conn ms = true) :
    ∃ st1, connection_or_unlink_all_active_circs st conn = some st1 ∧
      active_ring_ok st1 conn [] = true ∧ queue_view st1 = queue_view st := by
  have hlen := active_ring_ok_length st conn ms hok
  have hok0 := hok
  rw [active_ring_ok_iff] at hok
  obtain ⟨⟨oc, hoc, hhead⟩, hl, hnd, hnon⟩ := hok
  unfold connection_or_unlink_all_active_circs
  simp only [hoc, hhead]
  cases ms with
  | nil => exact ⟨st, rfl, hok0, rfl⟩
  | cons h t =>
    simp only [List.head?_cons]
    obtain ⟨s1, h1, h2, h3, h4, h5⟩ :=
      connection_or_unlink_all_active_circs_loop_spec st conn h t h [] st.circuits.length st
        (hl h t rfl) hnd (fun _ _ hd => by cases hd) (List.nodup_cons.mp hnd).1 rfl rfl
        (by funext x; simp) (by funext x; simp) (by simp at hlen; omega)
    rw [h1]
    refine ⟨_, rfl, ?_, ?_⟩
    · rw [active_ring_ok_iff]
      refine ⟨⟨{ oc with active_circuits := none }, ?_, rfl⟩, ?_, List.nodup_nil, ?_⟩
      · apply conns_set_active_circuits
        rw [h3]; exact hoc
      · intro h0 t0 e
        cases e
      · intro c _
        rw [(ring_next_set_active_circuits s1 conn conn none).1,
          (ring_next_set_active_circuits s1 conn conn none).2, h4, h5]
        simp only [List.nil_append]
        by_cases hc : c ∈ h :: t
        · simp [hc]
        · simp only [hc, if_false]
          exact hnon c hc
    · rw [queue_view_set_active_circuits]; exact h2

/-- C24: well-formedness of the ring of active circuits of a connection is
preserved.  For a ring with members `ms` (listed from the head along the
`next` links) that is well-formed, `assert_active_circuits_ok` passes; for
every circuit attached to the connection `make_circuit_active_on_conn`
returns a memory in which the ring, with the circuit added at the end
unless it was a member, is well-formed, and
`make_circuit_inactive_on_conn` returns one in which the ring without the
circuit is well-formed; `connection_or_unlink_all_active_circs` returns one
in which the ring is empty and well-formed; and in each of these memories
`assert_active_circuits_ok` passes. -/
theorem active_ring_preserved (st : queue_state) (conn : Nat) (ms : List Nat)
    (hok : active_ring_ok st conn ms = true) :
    assert_active_circuits_ok st conn = some () ∧
    (∀ circ, (next_circ_on_conn_p st (some circ) conn).isSome = true →
      (∃ st1, make_circuit_active_on_conn st circ conn = some st1 ∧
        active_ring_ok st1 conn (if circ ∈ ms then ms else ms ++ [circ]) = true ∧
        assert_active_circuits_ok st1 conn = some ()) ∧
      (∃ st1, make_circuit_inactive_on_conn st circ conn = some st1 ∧
        active_ring_ok st1 conn (ms.erase circ) = true ∧
        assert_active_circuits_ok st1 conn = some ())) ∧
    (∃ st1, connection_or_unlink_all_active_circs st conn = some st1 ∧
      active_ring_ok st1 conn [] = true ∧ assert_active_circuits_ok st1 conn = some ()) := by
  refine ⟨assert_active_circuits_ok_of_ring st conn ms hok, ?_, ?_⟩
  · intro circ hatt
    obtain ⟨p, hp⟩ := Option.isSome_iff_exists.mp hatt
    constructor
    · obtain ⟨st1, h1, h2, h3⟩ := make_circuit_active_on_conn_spec st circ conn ms p hok hp
      by_cases hin : circ ∈ ms
      · have e := h2 hin
        subst e
        simp only [hin, if_true]
        exact ⟨st1, h1, hok, assert_active_circuits_ok_of_ring st1 conn ms hok⟩
      · simp only [hin, if_false]
        exact ⟨st1, h1, (h3 hin).1, assert_active_circuits_ok_of_ring st1 conn _ (h3 hin).1⟩
    · obtain ⟨st1, h1, h2, h3⟩ := make_circuit_inactive_on_conn_spec st circ conn ms p hok hp
      by_cases hin : circ ∈ ms
      · exact ⟨st1, h1, (h3 hin).1, assert_active_circuits_ok_of_ring st1 conn _ (h3 hin).1⟩
      · have e := h2 hin
        subst e
        rw [List.erase_of_not_mem hin]
        exact ⟨st1, h1, hok, assert_active_circuits_ok_of_ring st1 conn ms hok⟩
  · obtain ⟨st1, h1, h2, -⟩ := connection_or_unlink_all_active_circs_spec st conn ms hok
    exact ⟨st1, h1, h2, assert_active_circuits_ok_of_ring st1 conn [] h2⟩

/-- C25: `make_circuit_active_on_conn` is an idempotent insert at the tail.
On a well-formed ring with members `ms` and a circuit attached to the
connection it returns; for a member the memory is unchanged; for any other
circuit the ring is then `ms` followed by the circuit (the members before
keep their order), the head is the head before, or the circuit when the
ring was empty, the circuit's successor is the head and its predecessor is
the former last member (the circuit itself when the ring was empty), and
nothing but ring links and the head has changed; and a second call changes
nothing. -/
theorem make_circuit_active_on_conn_tail_insert (st : queue_state) (circ conn : Nat)
    (ms : List Nat) (hok : active_ring_ok st conn ms = true)
    (hatt : (next_circ_on_conn_p st (some circ) conn).isSome = true) :
    ∃ st1, make_circuit_active_on_conn st circ conn = some st1 ∧
      (circ ∈ ms → st1 = st) ∧
      (circ ∉ ms →
        active_ring_ok st1 conn (ms ++ [circ]) = true ∧
        (st1.conns[conn]?).map (fun oc => oc.active_circuits) = some (some (ms.headD circ)) ∧
        ring_next st1 conn circ = some (ms.headD circ) ∧
        ring_prev st1 conn circ = some (ms.getLastD circ) ∧
        queue_view st1 = queue_view st) ∧
      make_circuit_active_on_conn st1 circ conn = some st1 := by
  obtain ⟨p, hp⟩ := Option.isSome_iff_exists.mp hatt
  obtain ⟨st1, h1, h2, h3⟩ := make_circuit_active_on_conn_spec st circ conn ms p hok hp
  refine ⟨st1, h1, h2, ?_, ?_⟩
  · intro hin
    obtain ⟨k1, k2, k3, k4⟩ := h3 hin
    refine ⟨k1, ?_, k3, k4, k2⟩
    obtain ⟨⟨oc, hoc, hh⟩, -⟩ := (active_ring_ok_iff _ _ _).mp k1
    rw [hoc, Option.map_some', hh]
    cases ms <;> rfl
  · by_cases hin : circ ∈ ms
    · have e := h2 hin
      subst e
      exact h1
    · obtain ⟨k1, k2, -⟩ := h3 hin
      obtain ⟨st2, g1, g2, -⟩ := make_circuit_active_on_conn_spec st1 circ conn (ms ++ [circ])
        p k1 (by rw [next_circ_on_conn_p_of_view st st1 k2]; exact hp)
      rw [g1, g2 (by simp)]

/-- C26: `make_circuit_inactive_on_conn` is an idempotent removal.  On a
well-formed ring with members `ms` and a circuit attached to the connection
it returns; for a circuit that is not a member the memory is unchanged; for
a member the ring is then `ms` without the circuit, in the order before,
both links of the circuit are null, the head is the former successor of
the circuit when the circuit was the head (null when it was the only
member) and the head before otherwise, and nothing but ring links and the
head has changed; and a second call changes nothing. -/
theorem make_circuit_inactive_on_conn_removal (st : queue_state) (circ conn : Nat)
    (ms : List Nat) (hok : active_ring_ok st conn ms = true)
    (hatt : (next_circ_on_conn_p st (some circ) conn).isSome = true) :
    ∃ st1, make_circuit_inactive_on_conn st circ conn = some st1 ∧
      (circ ∉ ms → st1 = st) ∧
      (circ ∈ ms →
        active_ring_ok st1 conn (ms.erase circ) = true ∧
        ring_next st1 conn circ = none ∧ ring_prev st1 conn circ = none ∧
        (ms.head? = some circ →
          (st1.conns[conn]?).map (fun oc => oc.active_circuits) = some ms.tail.head? ∧
          (ms.tail ≠ [] → ring_next st conn circ = ms.tail.head?)) ∧
        (ms.head? ≠ some circ →
          (st1.conns[conn]?).map (fun oc => oc.active_circuits) = some ms.head?) ∧
        queue_view st1 = queue_view st) ∧
      make_circuit_inactive_on_conn st1 circ conn = some st1 := by
  obtain ⟨p, hp⟩ := Option.isSome_iff_exists.mp hatt
  obtain ⟨st1, h1, h2, h3⟩ := make_circuit_inactive_on_conn_spec st circ conn ms p hok hp
  have hnd := ((active_ring_ok_iff _ _ _).mp hok).2.2.1
  have hl := ((active_ring_ok_iff _ _ _).mp hok).2.1
  refine ⟨st1, h1, h2, ?_, ?_⟩
  · intro hin
    obtain ⟨k1, k2, k3, k4⟩ := h3 hin
    obtain ⟨⟨oc, hoc, hh⟩, -⟩ := (active_ring_ok_iff _ _ _).mp k1
    refine ⟨k1, k3, k4, ?_, ?_, k2⟩
    · intro hhd
      cases ms with
      | nil => cases hhd
      | cons h t =>
        simp only [List.head?_cons, Option.some.injEq] at hhd
        subst hhd
        rw [List.erase_cons_head] at hh
        refine ⟨by rw [hoc, Option.map_some', hh]; rfl, ?_⟩
        intro hne
        have hlk := hl h t rfl
        cases t with
        | nil => exact absurd rfl hne
        | cons h2 t2 =>
          rw [ring_links_cons] at hlk
          exact hlk.1
    · intro hhd
      cases ms with
      | nil => cases hin
      | cons h t =>
        simp only [List.head?_cons, ne_eq, Option.some.injEq] at hhd
        rw [List.erase_cons_tail (by simpa using hhd)] at hh
        rw [hoc, Option.map_some', hh]
        rfl
  · by_cases hin : circ ∈ ms
    · obtain ⟨k1, k2, -⟩ := h3 hin
      obtain ⟨st2, g1, g2, -⟩ := make_circuit_inactive_on_conn_spec st1 circ conn
        (ms.erase circ) p k1 (by rw [next_circ_on_conn_p_of_view st st1 k2]; exact hp)
      rw [g1, g2 (fun hm => (List.Nodup.mem_erase_iff hnd).mp hm |>.1 rfl)]
    · have e := h2 hin
      subst e
      exact h1

set_option maxRecDepth 1000000 in
/-- Witness for C24: in the ring 1, 2, 0 of `toy_ring_state` the assertions
pass, and they pass after circuit 3 is made active, after circuit 2 is made
inactive and after all circuits are unlinked. -/
theorem active_ring_preserved_witness :
    assert_active_circuits_ok toy_ring_state 0 = some () ∧
    (∃ st1, make_circuit_active_on_conn toy_ring_state 3 0 = some st1 ∧
      active_ring_ok st1 0 [1, 2, 0, 3] = true ∧ assert_active_circuits_ok st1 0 = some ()) ∧
    (∃ st1, make_circuit_inactive_on_conn toy_ring_state 2 0 = some st1 ∧
      active_ring_ok st1 0 [1, 0] = true ∧ assert_active_circuits_ok st1 0 = some ()) ∧
    (∃ st1, connection_or_unlink_all_active_circs toy_ring_state 0 = some st1 ∧
      active_ring_ok st1 0 [] = true ∧ assert_active_circuits_ok st1 0 = some ()) := by
  obtain ⟨h1, h2, h3⟩ := active_ring_preserved toy_ring_state 0 [1, 2, 0] (by decide)
  exact ⟨h1, (h2 3 (by decide)).1, (h2 2 (by decide)).2, h3⟩

set_option maxRecDepth 1000000 in
/-- Witness for C25: circuit 3 is added to the ring 1, 2, 0 of
`toy_ring_state` behind circuit 0, with the head 1 as its successor. -/
theorem make_circuit_active_on_conn_tail_insert_witness :
    ∃ st1, make_circuit_active_on_conn toy_ring_state 3 0 = some st1 ∧
      active_ring_ok st1 0 [1, 2, 0, 3] = true ∧
      (st1.conns[0]?).map (fun oc => oc.active_circuits) = some (some 1) ∧
      ring_next st1 0 3 = some 1 ∧ ring_prev st1 0 3 = some 0 ∧
      make_circuit_active_on_conn st1 3 0 = some st1 := by
  obtain ⟨st1, h1, -, h2, h3⟩ :=
    make_circuit_active_on_conn_tail_insert toy_ring_state 3 0 [1, 2, 0] (by decide)
      (by decide)
  obtain ⟨k1, k2, k3, k4, -⟩ := h2 (by decide)
  exact ⟨st1, h1, k1, k2, k3, k4, h3⟩

set_option maxRecDepth 1000000 in
/-- Witness for C26: the head 1 is removed from the ring 1, 2, 0 of
`toy_ring_state`; the ring is then 2, 0 with the head 2. -/
theorem make_circuit_inactive_on_conn_removal_witness :
    ∃ st1, make_circuit_inactive_on_conn toy_ring_state 1 0 = some st1 ∧
      active_ring_ok st1 0 [2, 0] = true ∧
      (st1.conns[0]?).map (fun oc => oc.active_circuits) = some (some 2) ∧
      ring_next st1 0 1 = none ∧ ring_prev st1 0 1 = none ∧
      make_circuit_inactive_on_conn st1 1 0 = some st1 := by
  obtain ⟨st1, h1, -, h2, h3⟩ :=
    make_circuit_inactive_on_conn_removal toy_ring_state 1 0 [1, 2, 0] (by decide)
      (by decide)
  obtain ⟨k1, k2, k3, k4, -, -⟩ := h2 (by decide)
  exact ⟨st1, h1, k1, (k4 rfl).1, k2, k3, h3⟩

/-- Reading back a queue that was stored. -/
theorem queue_set_queue (c : queued_circuit_t) (b : Bool) (q : cell_queue_t) :
    (c.set_queue b q).queue b = q := by
  cases b <;> rfl

/-- Storing a queue twice on the same side. -/
theorem set_queue_set_queue (c : queued_circuit_t) (b : Bool) (q q1 : cell_queue_t) :
    (c.set_queue b q).set_queue b q1 = c.set_queue b q1 := by
  cases b <;> rfl

/-- What depends on the links of a circuit does not change when a queue is
stored or the streams are blocked. -/
theorem link_fields_set_queue (c : queued_circuit_t) (b : Bool) (q : cell_queue_t) :
    (fun c : queued_circuit_t => (c.is_origin, c.n_conn, c.p_conn, c.next_active_on_n_conn,
      c.prev_active_on_n_conn, c.next_active_on_p_conn, c.prev_active_on_p_conn))
        (c.set_queue b q) =
    (fun c : queued_circuit_t => (c.is_origin, c.n_conn, c.p_conn, c.next_active_on_n_conn,
      c.prev_active_on_n_conn, c.next_active_on_p_conn, c.prev_active_on_p_conn)) c := by
  cases b <;> rfl

/-- Blocking or unblocking the streams of a circuit changes none of its
links. -/
theorem link_fields_set_blocked (c : queued_circuit_t) (b block : Bool) :
    (fun c : queued_circuit_t => (c.is_origin, c.n_conn, c.p_conn, c.next_active_on_n_conn,
      c.prev_active_on_n_conn, c.next_active_on_p_conn, c.prev_active_on_p_conn))
        (c.set_blocked b block) =
    (fun c : queued_circuit_t => (c.is_origin, c.n_conn, c.p_conn, c.next_active_on_n_conn,
      c.prev_active_on_n_conn, c.next_active_on_p_conn, c.prev_active_on_p_conn)) c := by
  unfold queued_circuit_t.set_blocked
  cases b
  · rfl
  · simp only [if_true]
    split <;> rfl

/-- The links of the rings only depend on the link view of the memory. -/
theorem ring_of_link_view (st st1 : queue_state) (h : link_view st1 = link_view st)
    (conn : Nat) :
    (∀ c, next_circ_on_conn_p st1 c conn = next_circ_on_conn_p st c conn) ∧
    ring_next st1 conn = ring_next st conn ∧ ring_prev st1 conn = ring_prev st conn ∧
    (∀ ms, active_ring_ok st1 conn ms = active_ring_ok st conn ms) := by
  have hc : ∀ i : Nat, (st1.circuits[i]?).map (fun c : queued_circuit_t =>
      (c.is_origin, c.n_conn, c.p_conn, c.next_active_on_n_conn,
        c.prev_active_on_n_conn, c.next_active_on_p_conn, c.prev_active_on_p_conn)) =
      (st.circuits[i]?).map (fun c : queued_circuit_t =>
      (c.is_origin, c.n_conn, c.p_conn, c.next_active_on_n_conn,
        c.prev_active_on_n_conn, c.next_active_on_p_conn, c.prev_active_on_p_conn)) := by
    intro i
    have h1 := congrArg (fun v => v.1[i]?) h
    simp only [link_view, List.getElem?_map] at h1
    exact h1
  have hlen : st1.circuits.length = st.circuits.length := by
    have h1 := congrArg (fun v => v.1.length) h
    simpa [link_view] using h1
  have hco : ∀ i : Nat, (st1.conns[i]?).map (fun oc => oc.active_circuits) =
      (st.conns[i]?).map (fun oc => oc.active_circuits) := by
    intro i
    have h1 := congrArg (fun v => v.2[i]?) h
    simp only [link_view, List.getElem?_map] at h1
    exact h1
  have key : ∀ i : Nat, (st1.circuits[i]? = none ∧ st.circuits[i]? = none) ∨
      ∃ c1 c0, st1.circuits[i]? = some c1 ∧ st.circuits[i]? = some c0 ∧
        c1.is_origin = c0.is_origin ∧ c1.n_conn = c0.n_conn ∧ c1.p_conn = c0.p_conn ∧
        c1.next_active_on_n_conn = c0.next_active_on_n_conn ∧
        c1.prev_active_on_n_conn = c0.prev_active_on_n_conn ∧
        c1.next_active_on_p_conn = c0.next_active_on_p_conn ∧
        c1.prev_active_on_p_conn = c0.prev_active_on_p_conn := by
    intro i
    have := hc i
    cases h1 : st1.circuits[i]? with
    | none =>
      rw [h1] at this
      cases h0 : st.circuits[i]? with
      | none => exact Or.inl ⟨rfl, rfl⟩
      | some c0 => rw [h0] at this; cases this
    | some c1 =>
      rw [h1] at this
      cases h0 : st.circuits[i]? with
      | none => rw [h0] at this; cases this
      | some c0 =>
        rw [h0] at this
        simp only [Option.map_some', Option.some.injEq, Prod.mk.injEq] at this
        exact Or.inr ⟨c1, c0, rfl, rfl, this⟩
  have hptr : ∀ c, next_circ_on_conn_p st1 c conn = next_circ_on_conn_p st c conn := by
    intro c
    cases c with
    | none => rfl
    | some ci =>
      unfold next_circ_on_conn_p
      simp only []
      rcases key ci with ⟨h1, h0⟩ | ⟨c1, c0, h1, h0, e1, e2, e3, -⟩
      · rw [h1, h0]
      · rw [h1, h0]
        simp only [e1, e2, e3]
  have hgn : ∀ q, get_next_active st1 q = get_next_active st q := by
    intro q
    unfold get_next_active
    rcases key q.circ with ⟨h1, h0⟩ | ⟨c1, c0, h1, h0, -, -, -, e4, -, e6, -⟩
    · rw [h1, h0]
    · rw [h1, h0]
      simp only [e4, e6]
  have hgp : ∀ q, get_prev_active st1 q = get_prev_active st q := by
    intro q
    unfold get_prev_active
    rcases key q.circ with ⟨h1, h0⟩ | ⟨c1, c0, h1, h0, -, -, -, -, e5, -, e7⟩
    · rw [h1, h0]
    · rw [h1, h0]
      simp only [e5, e7]
  have hn : ring_next st1 conn = ring_next st conn := by
    funext x
    simp only [ring_next, hptr]
    split
    · rfl
    · exact hgn _
  have hp : ring_prev st1 conn = ring_prev st conn := by
    funext x
    simp only [ring_prev, prev_circ_on_conn_p_eq, hptr]
    split
    · rfl
    · exact hgp _
  refine ⟨hptr, hn, hp, ?_⟩
  intro ms
  unfold active_ring_ok
  rw [hn, hp, hlen]
  have := hco conn
  cases h1 : st1.conns[conn]? with
  | none =>
    rw [h1] at this
    cases h0 : st.conns[conn]? with
    | none => rfl
    | some c0 => rw [h0] at this; cases this
  | some c1 =>
    rw [h1] at this
    cases h0 : st.conns[conn]? with
    | none => rw [h0] at this; cases this
    | some c0 =>
      rw [h0] at this
      simp only [Option.map_some', Option.some.injEq] at this
      simp only [this]

/-- Storing the element a position holds changes nothing. -/
theorem list_set_getElem_self {α : Type} (l : List α) (i : Nat) (a : α)
    (h : l[i]? = some a) : l.set i a = l := by
  apply List.ext_getElem?
  intro j
  rw [List.getElem?_set]
  split
  · rename_i e
    subst e
    split
    · exact h.symm
    · rename_i hlt
      rw [List.getElem?_eq_none (by omega)]
  · rfl

/-- Storing the queue a circuit holds changes nothing. -/
theorem set_queue_queue (c : queued_circuit_t) (b : Bool) : c.set_queue b (c.queue b) = c := by
  cases b <;> rfl

/-- Storing into a circuit, by the link view: nothing changes when the links
of the new circuit are those of the old one. -/
theorem link_view_set_circ (st : queue_state) (i : Nat) (c c1 : queued_circuit_t)
    (h : st.circuits[i]? = some c)
    (hl : (fun c : queued_circuit_t => (c.is_origin, c.n_conn, c.p_conn,
        c.next_active_on_n_conn, c.prev_active_on_n_conn, c.next_active_on_p_conn,
        c.prev_active_on_p_conn)) c1 =
      (fun c : queued_circuit_t => (c.is_origin, c.n_conn, c.p_conn,
        c.next_active_on_n_conn, c.prev_active_on_n_conn, c.next_active_on_p_conn,
        c.prev_active_on_p_conn)) c) :
    link_view (st.set_circ i c1) = link_view st := by
  unfold link_view queue_state.set_circ
  simp only [Prod.mk.injEq, and_true]
  exact list_map_set_same_image _ _ _ _ _ h hl

/-- The loop of `connection_or_flush_from_first_active_circuit` on the head
circuit `h` of the ring: with `k` the smaller of the cells still allowed and
the cells on the queue, it returns after `k` rounds without `goto done`,
having popped the first `k` cells, written their bodies to the outbuf in
order, and released them. -/
theorem connection_or_flush_loop_spec (conn h : Nat) (on_n : Bool) (max : Int) :
    ∀ (ns : List Nat) (fuel : Nat) (s : queue_state) (n0 : Int) (c : queued_circuit_t)
      (oc : or_connection_t) (y : Nat),
      s.circuits[h]? = some c → cell_queue_ok s.pool.cells (c.queue on_n) ns = true →
      s.conns[conn]? = some oc → oc.active_circuits = some h →
      ring_next s conn h = some y → n0 ≤ max →
      min (max - n0).toNat ns.length < fuel →
      ∃ qE, cell_queue_ok s.pool.cells qE (ns.drop (min (max - n0).toNat ns.length)) = true ∧
        qE.n = (c.queue on_n).n - (min (max - n0).toNat ns.length : Nat) ∧
        connection_or_flush_loop fuel s conn h on_n max n0 =
          some (n0 + (min (max - n0).toNat ns.length : Nat),
            ⟨s.circuits.set h (c.set_queue on_n qE),
              s.conns.set conn { oc with outbuf := (oc.outbuf ++
                cell_bodies s.pool.cells (ns.take (min (max - n0).toNat ns.length))) },
              { s.pool with
                released := s.pool.released ++ ns.take (min (max - n0).toNat ns.length),
                total_cells_allocated := (s.pool.total_cells_allocated -
                  (min (max - n0).toNat ns.length : Nat)) }⟩, false) := by
  have hstop : ∀ (ns : List Nat) (fuel : Nat) (s : queue_state) (n0 : Int)
      (c : queued_circuit_t) (oc : or_connection_t),
      s.circuits[h]? = some c → cell_queue_ok s.pool.cells (c.queue on_n) ns = true →
      s.conns[conn]? = some oc → min (max - n0).toNat ns.length = 0 → 0 < fuel →
      connection_or_flush_loop fuel s conn h on_n max n0 = some (n0, s, false) := by
    intro ns fuel s n0 c oc hc hok _ hk hf
    obtain ⟨f, rfl⟩ : ∃ f, fuel = f + 1 := ⟨fuel - 1, by omega⟩
    rw [connection_or_flush_loop]
    simp only [hc]
    have hcond : ¬ ((decide (n0 < max) && (c.queue on_n).head.isSome) = true) := by
      intro hcnd
      simp only [Bool.and_eq_true, decide_eq_true_eq] at hcnd
      have hns : ns ≠ [] := by
        intro e
        subst e
        have := ((cell_queue_ok_iff _ _ _).mp hok).1
        rw [cell_chain_nil] at this
        rw [this] at hcnd
        simp at hcnd
      have : 0 < ns.length := List.length_pos.mpr hns
      omega
    rw [if_neg hcond]
  intro ns
  induction ns with
  | nil =>
    intro fuel s n0 c oc y hc hok hoc _ _ _ hf
    have hk : min (max - n0).toNat ([] : List Nat).length = 0 := by simp
    rw [hstop [] fuel s n0 c oc hc hok hoc hk (by omega)]
    simp only [hk, List.drop_nil, List.take_nil, Nat.cast_zero, sub_zero, add_zero,
      List.append_nil]
    refine ⟨c.queue on_n, hok, rfl, ?_⟩
    rw [set_queue_queue, list_set_getElem_self _ _ _ hc]
    have : ({ oc with outbuf := oc.outbuf ++ cell_bodies s.pool.cells [] } : or_connection_t)
        = oc := by
      simp [cell_bodies]
    rw [this, list_set_getElem_self _ _ _ hoc]
  | cons x rest ih =>
    intro fuel s n0 c oc y hc hok hoc hact hrn hn0 hf
    by_cases hlt : n0 < max
    swap
    · have hk : min (max - n0).toNat (x :: rest).length = 0 := by
        have : (max - n0).toNat = 0 := by omega
        rw [this]; simp
      rw [hstop _ fuel s n0 c oc hc hok hoc hk (by omega)]
      simp only [hk, List.drop_zero, List.take_zero, Nat.cast_zero, sub_zero, add_zero,
        List.append_nil]
      refine ⟨c.queue on_n, hok, rfl, ?_⟩
      rw [set_queue_queue, list_set_getElem_self _ _ _ hc]
      have : ({ oc with outbuf := oc.outbuf ++ cell_bodies s.pool.cells [] } : or_connection_t)
          = oc := by
        simp [cell_bodies]
      rw [this, list_set_getElem_self _ _ _ hoc]
    · have hk : min (max - n0).toNat (x :: rest).length =
          min (max - (n0 + 1)).toNat rest.length + 1 := by
        simp only [List.length_cons]
        omega
      obtain ⟨f, rfl⟩ : ∃ f, fuel = f + 1 := ⟨fuel - 1, by omega⟩
      obtain ⟨q1, hpop, hok1, -, hq1n⟩ := cell_queue_pop_spec _ _ _ hok
      have hchain := ((cell_queue_ok_iff _ _ _).mp hok).1
      rw [cell_chain_cons] at hchain
      obtain ⟨hhead, pc, hpc, -⟩ := hchain
      have hhlt : h < s.circuits.length := by
        by_contra hc2
        rw [List.getElem?_eq_none (by omega)] at hc
        cases hc
      have hclt : conn < s.conns.length := by
        by_contra hc2
        rw [List.getElem?_eq_none (by omega)] at hoc
        cases hoc
      -- the memory after the first round
      generalize hs3 : (⟨s.circuits.set h (c.set_queue on_n q1),
        s.conns.set conn { oc with outbuf := oc.outbuf ++ pc.body.take CELL_NETWORK_SIZE },
        packed_cell_free s.pool x⟩ : queue_state) = s3
      have hlv1 : link_view (s.set_circ h (c.set_queue on_n q1)) = link_view s :=
        link_view_set_circ s h c _ hc (link_fields_set_queue c on_n q1)
      have hlv3 : link_view s3 = link_view s := by
        rw [← hs3]
        unfold link_view
        simp only [Prod.mk.injEq]
        refine ⟨?_, ?_⟩
        · exact list_map_set_same_image _ _ _ _ _ hc (link_fields_set_queue c on_n q1)
        · exact list_map_set_same_image _ _ _ _ _ hoc rfl
      obtain ⟨hp1, hrn1, -, -⟩ := ring_of_link_view s _ hlv1 conn
      obtain ⟨-, hrn3, -, -⟩ := ring_of_link_view s s3 hlv3 conn
      have hrn1h : ring_next (s.set_circ h (c.set_queue on_n q1)) conn h = some y := by
        rw [hrn1]; exact hrn
      obtain ⟨p, hp, hgp⟩ := ring_next_some _ conn h y hrn1h
      have hc3 : s3.circuits[h]? = some (c.set_queue on_n q1) := by
        rw [← hs3]
        exact List.getElem?_set_self hhlt
      have hoc3 : s3.conns[conn]? =
          some { oc with outbuf := oc.outbuf ++ pc.body.take CELL_NETWORK_SIZE } := by
        rw [← hs3]
        exact List.getElem?_set_self hclt
      have hcells3 : s3.pool.cells = s.pool.cells := by
        rw [← hs3]; rfl
      have hok3 : cell_queue_ok s3.pool.cells ((c.set_queue on_n q1).queue on_n) rest = true := by
        rw [hcells3, queue_set_queue]
        exact hok1
      obtain ⟨qE, hqok, hqn, hloop⟩ := ih f s3 (n0 + 1) (c.set_queue on_n q1) _ y hc3 hok3 hoc3
        hact (by rw [hrn3]; exact hrn) (by omega) (by omega)
      rw [hcells3] at hqok
      rw [queue_set_queue] at hqn
      refine ⟨qE, ?_, ?_, ?_⟩
      · rw [hk, List.drop_succ_cons]
        exact hqok
      · rw [hqn, hq1n (by simp), hk]
        push_cast
        omega
      · rw [connection_or_flush_loop]
        simp only [hc]
        have hcond : (decide (n0 < max) && (c.queue on_n).head.isSome) = true := by
          simp [hlt, hhead]
        rw [if_pos hcond]
        simp only [hpop, List.head?_cons, hp, hgp, Option.isNone_some, Bool.false_eq_true,
          if_false]
        have hpc1 : (s.set_circ h (c.set_queue on_n q1)).pool.cells[x]? = some pc := hpc
        simp only [hpc1]
        have hw : connection_write_to_buf (s.set_circ h (c.set_queue on_n q1))
            (pc.body.take CELL_NETWORK_SIZE) conn =
            ⟨s.circuits.set h (c.set_queue on_n q1),
              s.conns.set conn { oc with outbuf := oc.outbuf ++ pc.body.take CELL_NETWORK_SIZE },
              s.pool⟩ := by
          unfold connection_write_to_buf queue_state.set_circ queue_state.set_conn
          simp only [hoc]
        rw [hw]
        simp only []
        rw [hs3, List.getElem?_set_self hclt]
        simp only [hact, ne_eq, not_true_eq_false, if_false]
        rw [hloop, hk]
        simp only [Option.some.injEq, Prod.mk.injEq, and_true]
        refine ⟨by push_cast; omega, ?_⟩
        rw [← hs3]
        simp only [List.set_set, set_queue_set_queue, queue_state.mk.injEq, true_and,
          List.take_succ_cons]
        refine ⟨?_, ?_⟩
        · congr 1
          simp only [cell_bodies, List.map_cons, List.flatten_cons, hpc, Option.map_some',
            Option.getD_some, List.append_assoc, packed_cell_free]
          rw [hact]
        · simp only [packed_cell_free, List.append_assoc, List.singleton_append,
            cell_pool_t.mk.injEq, true_and]
          push_cast
          omega

/-- A ring path can be extended at its end by the circuit it arrives at. -/
theorem ring_links_append (nxt prv : Nat → Option Nat) :
    ∀ (l : List Nat) (a z w : Nat), ring_links nxt prv a l z = true →
      nxt z = some w → prv w = some z → ring_links nxt prv a (l ++ [z]) w = true := by
  intro l
  induction l with
  | nil =>
    intro a z w h h1 h2
    rw [ring_links_nil] at h
    rw [List.nil_append, ring_links_cons, ring_links_nil]
    exact ⟨h.1, h.2, h1, h2⟩
  | cons b l ih =>
    intro a z w h h1 h2
    rw [ring_links_cons] at h
    rw [List.cons_append, ring_links_cons]
    exact ⟨h.1, h.2.1, ih b z w h.2.2 h1 h2⟩

/-- Advancing the head of a well-formed ring to the successor of the head
gives the ring with the members in the same cyclic order, listed from the
new head. -/
theorem active_ring_ok_rotate (st : queue_state) (conn h : Nat) (t : List Nat)
    (hok : active_ring_ok st conn (h :: t) = true) :
    ring_next st conn h = some (t.headD h) ∧
    active_ring_ok (set_active_circuits st conn (some (t.headD h))) conn (t ++ [h]) = true := by
  rw [active_ring_ok_iff] at hok
  obtain ⟨⟨oc, hoc, hhead⟩, hl, hnd, hnon⟩ := hok
  have hlk := hl h t rfl
  have hnd1 := List.nodup_cons.mp hnd
  have hn : ring_next st conn h = some (t.headD h) := by
    cases t with
    | nil => exact ((ring_links_nil _ _ _ _).mp hlk).1
    | cons h2 t2 => exact ((ring_links_cons _ _ _ _ _ _).mp hlk).1
  refine ⟨hn, ?_⟩
  rw [active_ring_ok_iff, (ring_next_set_active_circuits st conn conn _).1,
    (ring_next_set_active_circuits st conn conn _).2]
  refine ⟨⟨_, conns_set_active_circuits st conn _ oc hoc, ?_⟩, ?_, ?_, ?_⟩
  · cases t <;> rfl
  · intro h0 t0 e
    cases t with
    | nil =>
      simp only [List.nil_append, List.cons.injEq] at e
      obtain ⟨rfl, rfl⟩ := e
      exact hlk
    | cons h2 t2 =>
      simp only [List.cons_append, List.cons.injEq] at e
      obtain ⟨rfl, rfl⟩ := e
      rw [ring_links_cons] at hlk
      exact ring_links_append _ _ t2 h2 h h2 hlk.2.2 hlk.1 hlk.2.1
  · rw [List.nodup_append]
    refine ⟨hnd1.2, by simp, ?_⟩
    intro a ha hb
    simp only [List.mem_singleton] at hb
    exact hnd1.1 (hb ▸ ha)
  · intro c hc
    apply hnon c
    intro hm
    apply hc
    rcases List.mem_cons.mp hm with e | e
    · simp [e]
    · exact List.mem_append_left _ e

/-- For a circuit attached to a connection `set_streams_blocked_on_circ`
returns, and the only change is the flag and the streams of the circuit on
the side of the connection. -/
theorem set_streams_blocked_on_circ_spec (st : queue_state) (circ conn : Nat)
    (c : queued_circuit_t) (p : link_ptr) (block : Bool)
    (hc : st.circuits[circ]? = some c)
    (hatt : next_circ_on_conn_p st (some circ) conn = some p) :
    set_streams_blocked_on_circ st circ conn block =
      some (st.set_circ circ (c.set_blocked (decide (c.n_conn = some conn)) block)) := by
  unfold next_circ_on_conn_p at hatt
  simp only [hc] at hatt
  unfold set_streams_blocked_on_circ
  simp only [hc]
  by_cases hn : c.n_conn = some conn
  · rw [if_pos hn]
    simp [hn]
  · rw [if_neg hn] at hatt ⊢
    by_cases ho : c.is_origin = true
    · rw [if_pos ho] at hatt
      cases hatt
    · rw [if_neg ho]
      simp [hn]

/-- The view of the memory after a circuit is stored. -/
theorem queue_view_set_circ (st : queue_state) (i : Nat) (c : queued_circuit_t) :
    queue_view (st.set_circ i c) =
      ((st.circuits.map circ_view).set i (circ_view c), st.conns.map conn_view, st.pool) := by
  unfold queue_view queue_state.set_circ
  simp only [List.map_set]

/-- The view of the memory after a connection is stored. -/
theorem queue_view_set_conn (st : queue_state) (i : Nat) (oc : or_connection_t) :
    queue_view (st.set_conn i oc) =
      (st.circuits.map circ_view, (st.conns.map conn_view).set i (conn_view oc), st.pool) := by
  unfold queue_view queue_state.set_conn
  simp only [List.map_set]

/-- The view of the memory, component by component. -/
theorem queue_view_eq (st : queue_state) :
    queue_view st = (st.circuits.map circ_view, st.conns.map conn_view, st.pool) := rfl

/-- Setting the head of a ring changes no circuit. -/
theorem circuits_set_active_circuits (st : queue_state) (conn : Nat) (v : Option Nat) :
    (set_active_circuits st conn v).circuits = st.circuits := by
  unfold set_active_circuits
  split <;> rfl

/-- The part of `connection_or_flush_from_first_active_circuit` after the
loop, on the head `h` of a well-formed ring: it returns; the head of the
ring is then the successor of `h`; the streams of `h` are unblocked when
they were blocked and the queue has at most `CELL_QUEUE_LOWWATER_SIZE`
cells; `h` is taken out of the ring when its queue is empty; and nothing
else changes. -/
theorem connection_or_flush_advance_spec (st : queue_state) (conn h : Nat) (t : List Nat)
    (c : queued_circuit_t) (blocked : Bool)
    (hring : active_ring_ok st conn (h :: t) = true) (hc : st.circuits[h]? = some c) :
    ∃ st1, connection_or_flush_advance st conn h (decide (c.n_conn = some conn)) blocked =
        some st1 ∧
      queue_view st1 =
        ((st.circuits.map circ_view).set h
          (circ_view
            (if (blocked && decide ((c.queue (decide (c.n_conn = some conn))).n ≤
                CELL_QUEUE_LOWWATER_SIZE)) = true
              then c.set_blocked (decide (c.n_conn = some conn)) false else c)),
          st.conns.map conn_view, st.pool) ∧
      active_ring_ok st1 conn
        (if (c.queue (decide (c.n_conn = some conn))).n = 0 then t else t ++ [h]) = true := by
  obtain ⟨hn, hrot⟩ := active_ring_ok_rotate st conn h t hring
  obtain ⟨p, hp, hgp⟩ := ring_next_some st conn h _ hn
  generalize hon : decide (c.n_conn = some conn) = on_n at *
  generalize hX1 : set_active_circuits st conn (some (t.headD h)) = X1 at hrot
  have hc1 : X1.circuits = st.circuits := by
    rw [← hX1]; exact circuits_set_active_circuits st conn _
  have hv1 : queue_view X1 = queue_view st := by
    rw [← hX1]; exact queue_view_set_active_circuits st conn _
  have hp1 : next_circ_on_conn_p X1 (some h) conn = some p := by
    rw [next_circ_on_conn_p_of_view st X1 hv1]; exact hp
  have hc1h : X1.circuits[h]? = some c := by rw [hc1]; exact hc
  have hhlt : h < st.circuits.length := by
    by_contra hc2
    rw [List.getElem?_eq_none (by omega)] at hc
    cases hc
  unfold connection_or_flush_advance
  simp only [hp, hgp, hX1, hc1h]
  -- the unblocking step
  have hunb : ∃ X2, (if (blocked && decide ((c.queue on_n).n ≤ CELL_QUEUE_LOWWATER_SIZE)) = true
        then set_streams_blocked_on_circ X1 h conn false else some X1) = some X2 ∧
      queue_view X2 = ((st.circuits.map circ_view).set h
        (circ_view (if (blocked && decide ((c.queue on_n).n ≤ CELL_QUEUE_LOWWATER_SIZE)) = true
          then c.set_blocked on_n false else c)), st.conns.map conn_view, st.pool) ∧
      active_ring_ok X2 conn (t ++ [h]) = true ∧
      next_circ_on_conn_p X2 (some h) conn = some p := by
    by_cases hcond : (blocked && decide ((c.queue on_n).n ≤ CELL_QUEUE_LOWWATER_SIZE)) = true
    · rw [if_pos hcond, if_pos hcond,
        set_streams_blocked_on_circ_spec X1 h conn c p false hc1h hp1, hon]
      have hlv : link_view (X1.set_circ h (c.set_blocked on_n false)) = link_view X1 :=
        link_view_set_circ X1 h c _ hc1h (link_fields_set_blocked c on_n false)
      obtain ⟨hptr, -, -, hrk⟩ := ring_of_link_view X1 _ hlv conn
      refine ⟨_, rfl, ?_, ?_, ?_⟩
      · rw [queue_view_set_circ, hc1]
        have := hv1
        rw [queue_view_eq, queue_view_eq] at this
        simp only [Prod.mk.injEq] at this
        rw [this.2.1, this.2.2]
      · rw [hrk]; exact hrot
      · rw [hptr]; exact hp1
    · rw [if_neg hcond, if_neg hcond]
      refine ⟨X1, rfl, ?_, hrot, hp1⟩
      rw [hv1, queue_view_eq]
      simp only [Prod.mk.injEq, and_true]
      rw [List.map_set.symm.trans (congrArg _ (list_set_getElem_self _ _ _ hc))]
  obtain ⟨X2, hX2, hv2, hr2, hp2⟩ := hunb
  rw [hX2]
  simp only []
  by_cases hz : (c.queue on_n).n = 0
  · rw [if_pos hz, if_pos hz]
    obtain ⟨X3, h3, -, h4⟩ := make_circuit_inactive_on_conn_spec X2 h conn (t ++ [h]) p hr2 hp2
    obtain ⟨k1, k2, -, -⟩ := h4 (by simp)
    have hnd := ((active_ring_ok_iff _ _ _).mp hring).2.2.1
    have hht : h ∉ t := (List.nodup_cons.mp hnd).1
    rw [List.erase_append_right _ hht] at k1
    simp only [List.erase_cons_head, List.append_nil] at k1
    exact ⟨X3, h3, by rw [k2]; exact hv2, k1⟩
  · rw [if_neg hz, if_neg hz]
    exact ⟨X2, rfl, hv2, hr2⟩

/-- What `connection_or_flush_from_first_active_circuit` does on a
well-formed ring with head `h`, whose queue toward the connection holds the
cells `ns`: it returns the smaller of `max` and the number of cells; the
queue then holds the cells after those, the bodies of the cells taken are
appended to the outbuf in order and the cells are released; the streams of
`h` are unblocked when they were blocked and the queue is down to
`CELL_QUEUE_LOWWATER_SIZE`; nothing else but ring links and the head
changes; the ring is then the members after `h`, followed by `h` unless its
queue is empty. -/
theorem connection_or_flush_spec (st : queue_state) (conn h : Nat) (t : List Nat)
    (c : queued_circuit_t) (oc : or_connection_t) (ns : List Nat) (max now : Int)
    (hring : active_ring_ok st conn (h :: t) = true) (hc : st.circuits[h]? = some c)
    (hq : cell_queue_ok st.pool.cells (c.queue (decide (c.n_conn = some conn))) ns = true)
    (hoc : st.conns[conn]? = some oc) (hmax : 0 ≤ max) :
    ∃ st1 qE,
      connection_or_flush_from_first_active_circuit st conn max now =
        some (((min max.toNat ns.length : Nat) : Int), st1) ∧
      cell_queue_ok st.pool.cells qE (ns.drop (min max.toNat ns.length)) = true ∧
      qE.n = (c.queue (decide (c.n_conn = some conn))).n - (min max.toNat ns.length : Nat) ∧
      queue_view st1 =
        ((st.circuits.map circ_view).set h
          (circ_view
            (if ((if decide (c.n_conn = some conn) then c.streams_blocked_on_n_conn
                  else c.streams_blocked_on_p_conn) &&
                decide (qE.n ≤ CELL_QUEUE_LOWWATER_SIZE)) = true
              then (c.set_queue (decide (c.n_conn = some conn)) qE).set_blocked
                (decide (c.n_conn = some conn)) false
              else c.set_queue (decide (c.n_conn = some conn)) qE)),
          (st.conns.map conn_view).set conn
            (oc.link_proto,
              oc.outbuf ++ cell_bodies st.pool.cells (ns.take (min max.toNat ns.length)),
              if min max.toNat ns.length = 0 then oc.timestamp_last_added_nonpadding else now),
          { st.pool with
            released := st.pool.released ++ ns.take (min max.toNat ns.length),
            total_cells_allocated :=
              (st.pool.total_cells_allocated - (min max.toNat ns.length : Nat)) }) ∧
      active_ring_ok st1 conn (if ns.length ≤ max.toNat then t else t ++ [h]) = true := by
  obtain ⟨hn, -⟩ := active_ring_ok_rotate st conn h t hring
  obtain ⟨p, hp, hgp⟩ := ring_next_some st conn h _ hn
  have hact : oc.active_circuits = some h := by
    obtain ⟨⟨oc1, hoc1, hh⟩, -⟩ := (active_ring_ok_iff _ _ _).mp hring
    rw [hoc] at hoc1
    cases hoc1
    exact hh
  have horig : ¬ ((!decide (c.n_conn = some conn) && c.is_origin) = true) := by
    intro hcnd
    simp only [Bool.and_eq_true, Bool.not_eq_true', decide_eq_false_iff_not] at hcnd
    unfold next_circ_on_conn_p at hp
    simp only [hc] at hp
    rw [if_neg hcnd.1, if_pos hcnd.2] at hp
    cases hp
  have hlen : ns.length ≤ st.pool.cells.length :=
    cell_chain_length_le _ _ _ ((cell_queue_ok_iff _ _ _).mp hq).1
  generalize hon : decide (c.n_conn = some conn) = on_n at *
  obtain ⟨qE, hqok, hqn, hloop⟩ := connection_or_flush_loop_spec conn h on_n max ns
    (st.pool.cells.length + 1) st 0 c oc _ hc hq hoc hact hn hmax
    (by simp only [sub_zero]; omega)
  simp only [sub_zero, zero_add] at hqok hqn hloop
  generalize hk : min max.toNat ns.length = k at *
  -- the memory after the loop
  generalize hX0 : (⟨st.circuits.set h (c.set_queue on_n qE),
    st.conns.set conn { oc with outbuf := (oc.outbuf ++ cell_bodies st.pool.cells (ns.take k)) },
    { st.pool with
      released := st.pool.released ++ ns.take k,
      total_cells_allocated := (st.pool.total_cells_allocated - (k : Nat)) }⟩ :
    queue_state) = X0 at hloop
  have hhlt : h < st.circuits.length := by
    by_contra hc2
    rw [List.getElem?_eq_none (by omega)] at hc
    cases hc
  have hlv0 : link_view X0 = link_view st := by
    rw [← hX0]
    unfold link_view
    simp only [Prod.mk.injEq]
    exact ⟨list_map_set_same_image _ _ _ _ _ hc (link_fields_set_queue c on_n qE),
      list_map_set_same_image _ _ _ _ _ hoc rfl⟩
  obtain ⟨-, -, -, hrk0⟩ := ring_of_link_view st X0 hlv0 conn
  have hring0 : active_ring_ok X0 conn (h :: t) = true := by rw [hrk0]; exact hring
  have hc0 : X0.circuits[h]? = some (c.set_queue on_n qE) := by
    rw [← hX0]; exact List.getElem?_set_self hhlt
  have hcn : (c.set_queue on_n qE).n_conn = c.n_conn := by cases on_n <;> rfl
  obtain ⟨X3, hadv, hv3, hr3⟩ := connection_or_flush_advance_spec X0 conn h t
    (c.set_queue on_n qE)
    (if on_n = true then c.streams_blocked_on_n_conn else c.streams_blocked_on_p_conn)
    hring0 hc0
  simp only [hcn, hon, queue_set_queue] at hadv hv3 hr3
  have hX0c : X0.circuits.map circ_view =
      (st.circuits.map circ_view).set h (circ_view (c.set_queue on_n qE)) := by
    rw [← hX0]; simp only [List.map_set]
  have hX0o : X0.conns.map conn_view = (st.conns.map conn_view).set conn
      (oc.link_proto, oc.outbuf ++ cell_bodies st.pool.cells (ns.take k),
        oc.timestamp_last_added_nonpadding) := by
    rw [← hX0]; simp only [List.map_set]; rfl
  have hX0p : X0.pool =
      { st.pool with
        released := st.pool.released ++ ns.take k,
        total_cells_allocated := (st.pool.total_cells_allocated - (k : Nat)) } := by
    rw [← hX0]
  rw [hX0c, hX0o, hX0p, List.set_set] at hv3
  have hclt : conn < st.conns.length := by
    by_contra hc2
    rw [List.getElem?_eq_none (by omega)] at hoc
    cases hoc
  -- the connection in the memory after the advance
  have hoc3 : ∃ oc3, X3.conns[conn]? = some oc3 ∧
      conn_view oc3 = (oc.link_proto, oc.outbuf ++ cell_bodies st.pool.cells (ns.take k),
        oc.timestamp_last_added_nonpadding) := by
    have h1 := congrArg (fun v => v.2.1[conn]?) hv3
    simp only [queue_view_eq, List.getElem?_map] at h1
    rw [List.getElem?_set_self (by simpa using hclt)] at h1
    cases h3 : X3.conns[conn]? with
    | none => rw [h3] at h1; cases h1
    | some oc3 =>
      rw [h3] at h1
      exact ⟨oc3, rfl, Option.some.inj h1⟩
  obtain ⟨oc3, hoc3, hcv3⟩ := hoc3
  have hzero : qE.n = 0 ↔ ns.length ≤ max.toNat := by
    have h1 := ((cell_queue_ok_iff _ _ _).mp hqok).2.2
    rw [h1, List.length_drop]
    constructor
    · intro h0
      have : ns.length - k = 0 := by exact_mod_cast h0
      omega
    · intro h0
      have : ns.length - k = 0 := by omega
      rw [this]; rfl
  unfold connection_or_flush_from_first_active_circuit
  simp only [hoc, hact, hc, hon]
  rw [if_neg horig]
  simp only [hp, hgp, Option.isNone_some, Bool.false_eq_true, if_false, hloop, hadv, hoc3]
  have hring3 : active_ring_ok X3 conn (if ns.length ≤ max.toNat then t else t ++ [h]) = true := by
    by_cases hz : qE.n = 0
    · rw [if_pos hz] at hr3
      rw [if_pos (hzero.mp hz)]
      exact hr3
    · rw [if_neg hz] at hr3
      rw [if_neg (fun h0 => hz (hzero.mpr h0))]
      exact hr3
  by_cases hk0 : k = 0
  · have hne : ¬ ((k : Int) ≠ 0) := by simp [hk0]
    rw [if_neg hne]
    refine ⟨X3, qE, rfl, hqok, hqn, ?_, hring3⟩
    rw [hv3, if_pos hk0]
  · have hne : (k : Int) ≠ 0 := by exact_mod_cast hk0
    rw [if_pos hne]
    refine ⟨_, qE, rfl, hqok, hqn, ?_, ?_⟩
    · rw [queue_view_set_conn]
      have h1 := hv3
      rw [queue_view_eq] at h1
      simp only [Prod.mk.injEq] at h1
      rw [h1.1, h1.2.1, h1.2.2, List.set_set, if_neg hk0]
      simp only [conn_view, Prod.mk.injEq] at hcv3
      simp only [conn_view, hcv3.1, hcv3.2.1]
    · have hlv : link_view (X3.set_conn conn
          { oc3 with timestamp_last_added_nonpadding := now }) = link_view X3 := by
        unfold link_view queue_state.set_conn
        simp only [Prod.mk.injEq, true_and]
        exact list_map_set_same_image _ _ _ _ _ hoc3 rfl
      rw [(ring_of_link_view X3 _ hlv conn).2.2.2]
      exact hring3

/-- The queues of a circuit are part of its view. -/
theorem queue_of_circ_view (c1 c2 : queued_circuit_t) (h : circ_view c1 = circ_view c2)
    (b : Bool) : c1.queue b = c2.queue b := by
  simp only [circ_view, Prod.mk.injEq] at h
  cases b
  · exact h.2.2.2.2.1
  · exact h.2.2.2.1

/-- Blocking or unblocking the streams of a circuit changes none of its
queues. -/
theorem queue_set_blocked (c : queued_circuit_t) (b b1 block : Bool) :
    (c.set_blocked b block).queue b1 = c.queue b1 := by
  unfold queued_circuit_t.set_blocked
  cases b
  · cases b1 <;> rfl
  · simp only [if_true]
    split <;> cases b1 <;> rfl

/-- Storing a queue on one side of a circuit leaves the queue on the other
side. -/
theorem queue_set_queue_other (c : queued_circuit_t) (b : Bool) (q : cell_queue_t) :
    (c.set_queue b q).queue (!b) = c.queue (!b) := by
  cases b <;> rfl

/-- C27: for a connection whose ring of active circuits is well-formed with
head `h` and further members `t`, a queue of `h` toward the connection that
satisfies the queue invariant with the cells `ns`, and `max >= 0`,
`connection_or_flush_from_first_active_circuit` returns the smaller of
`max` and the number of cells.  Afterwards that queue holds the cells after
the ones taken, in order; the outbuf of the connection is the one before
followed by the bodies of the cells taken, in queue order; the other queue
of `h`, the queues of every other circuit and the memory of the cells are
unchanged; the head of the ring is the successor of `h` in the ring before,
and `h` has been taken out of the ring exactly when its queue became empty
(the head is then null if `h` was the only member); the ring is
well-formed.  With an empty ring the function returns 0 and changes
nothing. -/
theorem flush_from_first_active_circuit (st : queue_state) (conn h : Nat) (t : List Nat)
    (c : queued_circuit_t) (oc : or_connection_t) (ns : List Nat) (max now : Int)
    (hring : active_ring_ok st conn (h :: t) = true) (hc : st.circuits[h]? = some c)
    (hq : cell_queue_ok st.pool.cells (c.queue (decide (c.n_conn = some conn))) ns = true)
    (hoc : st.conns[conn]? = some oc) (hmax : 0 ≤ max) :
    (∃ st1 c1 oc1,
      connection_or_flush_from_first_active_circuit st conn max now =
        some (min max (ns.length : Int), st1) ∧
      st1.circuits[h]? = some c1 ∧ st1.conns[conn]? = some oc1 ∧
      cell_queue_ok st1.pool.cells (c1.queue (decide (c.n_conn = some conn)))
        (ns.drop (min max.toNat ns.length)) = true ∧
      oc1.outbuf = oc.outbuf ++ cell_bodies st.pool.cells (ns.take (min max.toNat ns.length)) ∧
      c1.queue (!decide (c.n_conn = some conn)) = c.queue (!decide (c.n_conn = some conn)) ∧
      (∀ i : Nat, i ≠ h →
        (st1.circuits[i]?).map (fun x => (x.n_conn_cells, x.p_conn_cells)) =
          (st.circuits[i]?).map (fun x => (x.n_conn_cells, x.p_conn_cells))) ∧
      st1.pool.cells = st.pool.cells ∧
      ring_next st conn h = some (t.headD h) ∧
      oc1.active_circuits = (if ns.length ≤ max.toNat then t.head? else some (t.headD h)) ∧
      active_ring_ok st1 conn (if ns.length ≤ max.toNat then t else t ++ [h]) = true) ∧
    (∀ (st0 : queue_state) (oc0 : or_connection_t), st0.conns[conn]? = some oc0 →
      oc0.active_circuits = none →
      connection_or_flush_from_first_active_circuit st0 conn max now = some (0, st0)) := by
  constructor
  · obtain ⟨st1, qE, hfl, hqok, -, hv, hr⟩ :=
      connection_or_flush_spec st conn h t c oc ns max now hring hc hq hoc hmax
    have hhlt : h < st.circuits.length := by
      by_contra hc2
      rw [List.getElem?_eq_none (by omega)] at hc
      cases hc
    have hclt : conn < st.conns.length := by
      by_contra hc2
      rw [List.getElem?_eq_none (by omega)] at hoc
      cases hoc
    rw [queue_view_eq] at hv
    simp only [Prod.mk.injEq] at hv
    obtain ⟨hvc, hvo, hvp⟩ := hv
    -- the head circuit afterwards
    have hc1 : ∃ c1, st1.circuits[h]? = some c1 ∧ ∀ b, c1.queue b =
        (c.set_queue (decide (c.n_conn = some conn)) qE).queue b := by
      have h1 := congrArg (fun v => v[h]?) hvc
      simp only [List.getElem?_map] at h1
      rw [List.getElem?_set_self (by simpa using hhlt)] at h1
      cases h3 : st1.circuits[h]? with
      | none => rw [h3] at h1; cases h1
      | some c1 =>
        rw [h3] at h1
        refine ⟨c1, rfl, fun b => ?_⟩
        rw [queue_of_circ_view _ _ (Option.some.inj h1) b]
        by_cases hcnd : ((if decide (c.n_conn = some conn) then c.streams_blocked_on_n_conn
            else c.streams_blocked_on_p_conn) &&
            decide (qE.n ≤ CELL_QUEUE_LOWWATER_SIZE)) = true
        · rw [if_pos hcnd]
          exact queue_set_blocked _ _ _ _
        · rw [if_neg hcnd]
    obtain ⟨c1, hc1, hq1⟩ := hc1
    obtain ⟨⟨oc1, hoc1, hhd⟩, -⟩ := (active_ring_ok_iff _ _ _).mp hr
    have hov : conn_view oc1 = (oc.link_proto,
        oc.outbuf ++ cell_bodies st.pool.cells (ns.take (min max.toNat ns.length)),
        if min max.toNat ns.length = 0 then oc.timestamp_last_added_nonpadding else now) := by
      have h1 := congrArg (fun v => v[conn]?) hvo
      simp only [List.getElem?_map] at h1
      rw [List.getElem?_set_self (by simpa using hclt), hoc1] at h1
      exact Option.some.inj h1
    simp only [conn_view, Prod.mk.injEq] at hov
    have hmin : ((min max.toNat ns.length : Nat) : Int) = min max (ns.length : Int) := by
      omega
    refine ⟨st1, c1, oc1, by rw [← hmin]; exact hfl, hc1, hoc1, ?_, hov.2.1, ?_, ?_, ?_,
      (active_ring_ok_rotate st conn h t hring).1, ?_, hr⟩
    · rw [hq1, queue_set_queue, hvp]
      exact hqok
    · rw [hq1, queue_set_queue_other]
    · intro i hi
      have h1 := congrArg (fun v => (v[i]?).map (fun x => (x.2.2.2.1, x.2.2.2.2.1))) hvc
      simp only [List.getElem?_map, Option.map_map] at h1
      rw [List.getElem?_set_ne (fun e => hi e.symm)] at h1
      simp only [List.getElem?_map, Option.map_map] at h1
      exact h1
    · rw [hvp]
    · rw [hhd]
      split
      · rfl
      · cases t <;> rfl
  · intro st0 oc0 h0 ha
    unfold connection_or_flush_from_first_active_circuit
    simp only [h0, ha]

/-- The flags of a circuit are part of its view. -/
theorem flags_of_circ_view (c1 c2 : queued_circuit_t) (h : circ_view c1 = circ_view c2) :
    c1.streams_blocked_on_n_conn = c2.streams_blocked_on_n_conn ∧
    c1.streams_blocked_on_p_conn = c2.streams_blocked_on_p_conn := by
  simp only [circ_view, Prod.mk.injEq] at h
  exact ⟨h.2.2.2.2.2.1, h.2.2.2.2.2.2.1⟩

/-- The flags of a circuit after its streams are blocked or unblocked on a
side: the flag of that side is the value given, the other flag is as
before. -/
theorem flags_set_blocked (c : queued_circuit_t) (b block : Bool) :
    (if b then (c.set_blocked b block).streams_blocked_on_n_conn
      else (c.set_blocked b block).streams_blocked_on_p_conn) = block ∧
    (if b then (c.set_blocked b block).streams_blocked_on_p_conn
      else (c.set_blocked b block).streams_blocked_on_n_conn) =
      (if b then c.streams_blocked_on_p_conn else c.streams_blocked_on_n_conn) := by
  unfold queued_circuit_t.set_blocked
  cases b
  · exact ⟨rfl, rfl⟩
  · simp only [if_true]
    split <;> exact ⟨rfl, rfl⟩

/-- Storing a queue changes no flag. -/
theorem flags_set_queue (c : queued_circuit_t) (b : Bool) (q : cell_queue_t) :
    (c.set_queue b q).streams_blocked_on_n_conn = c.streams_blocked_on_n_conn ∧
    (c.set_queue b q).streams_blocked_on_p_conn = c.streams_blocked_on_p_conn := by
  cases b <;> exact ⟨rfl, rfl⟩

/-- What `append_cell_to_circuit_queue` does before it primes the buffer:
for a circuit whose connection on the side of the direction is `orconn`,
with a queue on that side that satisfies the invariant with the cells `ns`,
and a well-formed ring of `orconn`.  The cell, with `RELAY_EARLY` turned
into `RELAY` when the link protocol is below 2, is packed into a new packed
cell at the end of the pool memory and that is appended to the queue; the
streams of the side are blocked when they were not and the queue has
reached `CELL_QUEUE_HIGHWATER_SIZE`; the circuit is made active when the
cell is the only one on the queue; nothing else but ring links and the head
changes.  The function then returns this memory when the outbuf holds
bytes, and what `connection_or_flush_from_first_active_circuit` makes of it
with `max` 1 when the outbuf is empty. -/
theorem append_cell_to_circuit_queue_spec (st : queue_state) (circ orconn : Nat)
    (cell : cell_t) (direction : cell_direction_t) (now : Int) (c : queued_circuit_t)
    (oc : or_connection_t) (ns ms : List Nat)
    (hc : st.circuits[circ]? = some c) (hoc : st.conns[orconn]? = some oc)
    (hside : (direction = CELL_DIRECTION_OUT → c.n_conn = some orconn) ∧
      (direction ≠ CELL_DIRECTION_OUT →
        c.is_origin = false ∧ c.p_conn = some orconn ∧ c.n_conn ≠ some orconn))
    (hq : cell_queue_ok st.pool.cells (c.queue (decide (direction = CELL_DIRECTION_OUT))) ns =
      true)
    (hring : active_ring_ok st orconn ms = true) :
    ∃ st3 pool1 q1,
      cell_queue_append_packed_copy st.pool (c.queue (decide (direction = CELL_DIRECTION_OUT)))
          (if cell.command = CELL_RELAY_EARLY ∧ oc.link_proto < 2 then
            { cell with command := CELL_RELAY } else cell) = some (pool1, q1) ∧
      cell_queue_ok pool1.cells q1 (ns ++ [st.pool.cells.length]) = true ∧
      q1.n = (c.queue (decide (direction = CELL_DIRECTION_OUT))).n + 1 ∧
      queue_view st3 =
        ((st.circuits.map circ_view).set circ
          (circ_view
            (if (!(if decide (direction = CELL_DIRECTION_OUT) then c.streams_blocked_on_n_conn
                  else c.streams_blocked_on_p_conn) &&
                decide (q1.n ≥ CELL_QUEUE_HIGHWATER_SIZE)) = true
              then (c.set_queue (decide (direction = CELL_DIRECTION_OUT)) q1).set_blocked
                (decide (direction = CELL_DIRECTION_OUT)) true
              else c.set_queue (decide (direction = CELL_DIRECTION_OUT)) q1)),
          st.conns.map conn_view, pool1) ∧
      active_ring_ok st3 orconn (if q1.n = 1 ∧ circ ∉ ms then ms ++ [circ] else ms) = true ∧
      append_cell_to_circuit_queue st circ orconn cell direction now =
        (if oc.outbuf.length = 0 then
          (connection_or_flush_from_first_active_circuit st3 orconn 1 now).map
            (fun r => (r.2,
              if cell.command = CELL_RELAY_EARLY ∧ oc.link_proto < 2 then
                { cell with command := CELL_RELAY } else cell))
         else some (st3,
           if cell.command = CELL_RELAY_EARLY ∧ oc.link_proto < 2 then
             { cell with command := CELL_RELAY } else cell)) := by
  have hon : decide (c.n_conn = some orconn) = decide (direction = CELL_DIRECTION_OUT) := by
    by_cases hd : direction = CELL_DIRECTION_OUT
    · simp [hd, hside.1 hd]
    · simp [hd, (hside.2 hd).2.2]
  have horig : ¬ ((!decide (direction = CELL_DIRECTION_OUT) && c.is_origin) = true) := by
    intro hcnd
    simp only [Bool.and_eq_true, Bool.not_eq_true', decide_eq_false_iff_not] at hcnd
    rw [(hside.2 hcnd.1).1] at hcnd
    exact absurd hcnd.2 (by simp)
  have hatt : ∃ p, next_circ_on_conn_p st (some circ) orconn = some p := by
    unfold next_circ_on_conn_p
    simp only [hc]
    by_cases hd : direction = CELL_DIRECTION_OUT
    · rw [if_pos (hside.1 hd)]
      exact ⟨_, rfl⟩
    · rw [if_neg (hside.2 hd).2.2, (hside.2 hd).1, if_pos (hside.2 hd).2.1]
      exact ⟨_, rfl⟩
  obtain ⟨p, hp⟩ := hatt
  generalize hcell1 : (if cell.command = CELL_RELAY_EARLY ∧ oc.link_proto < 2 then
    { cell with command := CELL_RELAY } else cell) = cell1
  generalize hb : decide (direction = CELL_DIRECTION_OUT) = on_n at *
  obtain ⟨pool1, q1, hcopy, hq1ok, hq1n, -⟩ :=
    cell_queue_append_packed_copy_spec st.pool (c.queue on_n) ns cell1 hq
  generalize hst1 : (({ st with pool := pool1 } : queue_state).set_circ circ
    (c.set_queue on_n q1)) = st1
  have hhlt : circ < st.circuits.length := by
    by_contra hc2
    rw [List.getElem?_eq_none (by omega)] at hc
    cases hc
  have hc1 : st1.circuits[circ]? = some (c.set_queue on_n q1) := by
    rw [← hst1]
    exact List.getElem?_set_self hhlt
  have hlv1 : link_view st1 = link_view st := by
    rw [← hst1]
    unfold link_view queue_state.set_circ
    simp only [Prod.mk.injEq, and_true]
    exact list_map_set_same_image _ _ _ _ _ hc (link_fields_set_queue c on_n q1)
  have hv1 : queue_view st1 = ((st.circuits.map circ_view).set circ
      (circ_view (c.set_queue on_n q1)), st.conns.map conn_view, pool1) := by
    rw [← hst1, queue_view_set_circ]
  obtain ⟨hptr1, -, -, hrk1⟩ := ring_of_link_view st st1 hlv1 orconn
  have hp1 : next_circ_on_conn_p st1 (some circ) orconn = some p := by rw [hptr1]; exact hp
  have hcn : (c.set_queue on_n q1).n_conn = c.n_conn := by cases on_n <;> rfl
  -- the blocking step
  have hblk : ∃ st2, (if (!(if on_n = true then c.streams_blocked_on_n_conn
          else c.streams_blocked_on_p_conn) &&
          decide (q1.n ≥ CELL_QUEUE_HIGHWATER_SIZE)) = true
        then set_streams_blocked_on_circ st1 circ orconn true else some st1) = some st2 ∧
      queue_view st2 = ((st.circuits.map circ_view).set circ
        (circ_view (if (!(if on_n = true then c.streams_blocked_on_n_conn
            else c.streams_blocked_on_p_conn) &&
            decide (q1.n ≥ CELL_QUEUE_HIGHWATER_SIZE)) = true
          then (c.set_queue on_n q1).set_blocked on_n true else c.set_queue on_n q1)),
        st.conns.map conn_view, pool1) ∧
      link_view st2 = link_view st := by
    by_cases hcond : (!(if on_n = true then c.streams_blocked_on_n_conn
        else c.streams_blocked_on_p_conn) &&
        decide (q1.n ≥ CELL_QUEUE_HIGHWATER_SIZE)) = true
    · rw [if_pos hcond, if_pos hcond,
        set_streams_blocked_on_circ_spec st1 circ orconn _ p true hc1 hp1, hcn, hon]
      refine ⟨_, rfl, ?_, ?_⟩
      · rw [queue_view_set_circ]
        have h1 := hv1
        rw [queue_view_eq] at h1
        simp only [Prod.mk.injEq] at h1
        rw [h1.1, h1.2.1, h1.2.2, List.set_set]
      · rw [link_view_set_circ st1 circ _ _ hc1 (link_fields_set_blocked _ on_n true)]
        exact hlv1
    · rw [if_neg hcond, if_neg hcond]
      exact ⟨st1, rfl, hv1, hlv1⟩
  obtain ⟨st2, hst2, hv2, hlv2⟩ := hblk
  obtain ⟨hptr2, -, -, hrk2⟩ := ring_of_link_view st st2 hlv2 orconn
  have hring2 : active_ring_ok st2 orconn ms = true := by rw [hrk2]; exact hring
  have hp2 : next_circ_on_conn_p st2 (some circ) orconn = some p := by rw [hptr2]; exact hp
  -- the activation step
  have hactv : ∃ st3, (if q1.n = 1 then make_circuit_active_on_conn st2 circ orconn
        else some st2) = some st3 ∧
      queue_view st3 = queue_view st2 ∧
      active_ring_ok st3 orconn (if q1.n = 1 ∧ circ ∉ ms then ms ++ [circ] else ms) = true := by
    by_cases h1 : q1.n = 1
    · rw [if_pos h1]
      obtain ⟨st3, k1, k2, k3⟩ := make_circuit_active_on_conn_spec st2 circ orconn ms p hring2 hp2
      by_cases hin : circ ∈ ms
      · have e := k2 hin
        subst e
        rw [if_neg (fun hx => hx.2 hin)]
        exact ⟨st3, k1, rfl, hring2⟩
      · rw [if_pos ⟨h1, hin⟩]
        exact ⟨st3, k1, (k3 hin).2.1, (k3 hin).1⟩
    · rw [if_neg h1, if_neg (fun hx => h1 hx.1)]
      exact ⟨st2, rfl, rfl, hring2⟩
  obtain ⟨st3, hst3, hv3, hring3⟩ := hactv
  have hclt : orconn < st.conns.length := by
    by_contra hc2
    rw [List.getElem?_eq_none (by omega)] at hoc
    cases hoc
  have hoc3 : ∃ oc3, st3.conns[orconn]? = some oc3 ∧ oc3.outbuf = oc.outbuf := by
    have h1 := congrArg (fun v => v.2.1[orconn]?) (hv3.trans hv2)
    simp only [queue_view_eq, List.getElem?_map, hoc, Option.map_some'] at h1
    cases h3 : st3.conns[orconn]? with
    | none => rw [h3] at h1; cases h1
    | some oc3 =>
      rw [h3] at h1
      have := Option.some.inj h1
      simp only [conn_view, Prod.mk.injEq] at this
      exact ⟨oc3, rfl, this.2.1⟩
  obtain ⟨oc3, hoc3, hout3⟩ := hoc3
  refine ⟨st3, pool1, q1, hcopy, hq1ok, hq1n, hv3.trans hv2, hring3, ?_⟩
  unfold append_cell_to_circuit_queue
  simp only [hc, hb]
  rw [if_neg horig]
  simp only [hoc, hcell1, hcopy, hst1, hst2, hst3, hoc3, hout3]

/-- With an empty ring `connection_or_flush_from_first_active_circuit`
returns 0 and changes nothing. -/
theorem connection_or_flush_empty_ring (st : queue_state) (conn : Nat) (oc : or_connection_t)
    (max now : Int) (hoc : st.conns[conn]? = some oc) (ha : oc.active_circuits = none) :
    connection_or_flush_from_first_active_circuit st conn max now = some (0, st) := by
  unfold connection_or_flush_from_first_active_circuit
  simp only [hoc, ha]

/-- The circuit at an index, from the views of the circuits. -/
theorem circ_of_queue_view (st : queue_state)
    (l : List (Bool × Option Nat × Option Nat × cell_queue_t × cell_queue_t × Bool × Bool ×
      List edge_reader_t × List edge_reader_t)) (i : Nat)
    (v : Bool × Option Nat × Option Nat × cell_queue_t × cell_queue_t × Bool × Bool ×
      List edge_reader_t × List edge_reader_t)
    (h : st.circuits.map circ_view = l) (hv : l[i]? = some v) :
    ∃ c, st.circuits[i]? = some c ∧ circ_view c = v := by
  subst h
  rw [List.getElem?_map] at hv
  cases h3 : st.circuits[i]? with
  | none => rw [h3] at hv; cases hv
  | some c => rw [h3] at hv; exact ⟨c, rfl, Option.some.inj hv⟩

/-- The connections of a circuit are part of its view. -/
theorem conn_of_circ_view (c1 c2 : queued_circuit_t) (h : circ_view c1 = circ_view c2) :
    c1.n_conn = c2.n_conn ∧ c1.p_conn = c2.p_conn := by
  simp only [circ_view, Prod.mk.injEq] at h
  exact ⟨h.2.1, h.2.2.1⟩

/-- Blocking the streams or storing a queue does not change `n_conn`. -/
theorem n_conn_set_blocked_set_queue (c : queued_circuit_t) (b b1 block : Bool)
    (q : cell_queue_t) :
    ((c.set_queue b q).set_blocked b1 block).n_conn = c.n_conn ∧
    (c.set_queue b q).n_conn = c.n_conn := by
  refine ⟨?_, by cases b <;> rfl⟩
  unfold queued_circuit_t.set_blocked
  cases b <;> cases b1 <;>
    simp only [queued_circuit_t.set_queue, if_true, Bool.false_eq_true, if_false] <;>
    first | rfl | (split <;> rfl)

/-- The function `append_cell_to_circuit_queue` returns: under the
conditions of `append_cell_to_circuit_queue_spec`, and when the queue of
the circuit at the head of the ring (if that is another circuit) satisfies
the invariant with cells that do not include the tail of the queue appended
to.  The result is the memory `st3` after the enqueue when the outbuf holds
bytes, and the result of the flush of one cell from `st3` when it is
empty. -/
theorem append_cell_to_circuit_queue_returns (st : queue_state) (circ orconn : Nat)
    (cell : cell_t) (direction : cell_direction_t) (now : Int) (c : queued_circuit_t)
    (oc : or_connection_t) (ns ms : List Nat)
    (hc : st.circuits[circ]? = some c) (hoc : st.conns[orconn]? = some oc)
    (hside : (direction = CELL_DIRECTION_OUT → c.n_conn = some orconn) ∧
      (direction ≠ CELL_DIRECTION_OUT →
        c.is_origin = false ∧ c.p_conn = some orconn ∧ c.n_conn ≠ some orconn))
    (hq : cell_queue_ok st.pool.cells (c.queue (decide (direction = CELL_DIRECTION_OUT))) ns =
      true)
    (hring : active_ring_ok st orconn ms = true)
    (hhead : ∀ h : Nat, ms.head? = some h → h ≠ circ →
      ∃ ch nh, st.circuits[h]? = some ch ∧
        cell_queue_ok st.pool.cells (ch.queue (decide (ch.n_conn = some orconn))) nh = true ∧
        ∀ x ∈ nh, (c.queue (decide (direction = CELL_DIRECTION_OUT))).tail ≠ some x) :
    ∃ st3 pool1 q1 stF,
      cell_queue_append_packed_copy st.pool (c.queue (decide (direction = CELL_DIRECTION_OUT)))
          (if cell.command = CELL_RELAY_EARLY ∧ oc.link_proto < 2 then
            { cell with command := CELL_RELAY } else cell) = some (pool1, q1) ∧
      cell_queue_ok pool1.cells q1 (ns ++ [st.pool.cells.length]) = true ∧
      q1.n = (c.queue (decide (direction = CELL_DIRECTION_OUT))).n + 1 ∧
      queue_view st3 =
        ((st.circuits.map circ_view).set circ
          (circ_view
            (if (!(if decide (direction = CELL_DIRECTION_OUT) then c.streams_blocked_on_n_conn
                  else c.streams_blocked_on_p_conn) &&
                decide (q1.n ≥ CELL_QUEUE_HIGHWATER_SIZE)) = true
              then (c.set_queue (decide (direction = CELL_DIRECTION_OUT)) q1).set_blocked
                (decide (direction = CELL_DIRECTION_OUT)) true
              else c.set_queue (decide (direction = CELL_DIRECTION_OUT)) q1)),
          st.conns.map conn_view, pool1) ∧
      active_ring_ok st3 orconn (if q1.n = 1 ∧ circ ∉ ms then ms ++ [circ] else ms) = true ∧
      append_cell_to_circuit_queue st circ orconn cell direction now =
        some (stF, if cell.command = CELL_RELAY_EARLY ∧ oc.link_proto < 2 then
          { cell with command := CELL_RELAY } else cell) ∧
      (oc.outbuf.length ≠ 0 → stF = st3) ∧
      (oc.outbuf.length = 0 →
        ∃ k, connection_or_flush_from_first_active_circuit st3 orconn 1 now = some (k, stF)) := by
  obtain ⟨st3, pool1, q1, hcopy, hq1ok, hq1n, hv3, hring3, happ⟩ :=
    append_cell_to_circuit_queue_spec st circ orconn cell direction now c oc ns ms hc hoc hside
      hq hring
  by_cases hout : oc.outbuf.length = 0
  · rw [if_pos hout] at happ
    have hfl : ∃ k stF, connection_or_flush_from_first_active_circuit st3 orconn 1 now =
        some (k, stF) := by
      have hon : decide (c.n_conn = some orconn) = decide (direction = CELL_DIRECTION_OUT) := by
        by_cases hd : direction = CELL_DIRECTION_OUT
        · simp [hd, hside.1 hd]
        · simp [hd, (hside.2 hd).2.2]
      have hhlt : circ < st.circuits.length := by
        by_contra hc2
        rw [List.getElem?_eq_none (by omega)] at hc
        cases hc
      obtain ⟨pool2, q2, hcopy2, -, -, -, -, hframe⟩ :=
        cell_queue_append_packed_copy_spec st.pool
          (c.queue (decide (direction = CELL_DIRECTION_OUT))) ns
          (if cell.command = CELL_RELAY_EARLY ∧ oc.link_proto < 2 then
            { cell with command := CELL_RELAY } else cell) hq
      rw [hcopy] at hcopy2
      have e2 : pool1 = pool2 := congrArg Prod.fst (Option.some.inj hcopy2)
      subst e2
      have hv := hv3
      rw [queue_view_eq] at hv
      simp only [Prod.mk.injEq] at hv
      obtain ⟨hvc, hvo, hvp⟩ := hv
      obtain ⟨⟨oc3, hoc3, hhd3⟩, -⟩ := (active_ring_ok_iff _ _ _).mp hring3
      generalize hms3 : (if q1.n = 1 ∧ circ ∉ ms then ms ++ [circ] else ms) = ms3
        at hring3 hhd3
      cases ms3 with
      | nil => exact ⟨0, st3, connection_or_flush_empty_ring st3 orconn oc3 1 now hoc3 hhd3⟩
      | cons h t =>
        have hhq : ∃ ch3 nh3, st3.circuits[h]? = some ch3 ∧
            cell_queue_ok st3.pool.cells (ch3.queue (decide (ch3.n_conn = some orconn))) nh3 =
              true := by
          by_cases hh : h = circ
          · subst hh
            obtain ⟨c3, hc3, hcv⟩ := circ_of_queue_view st3 _ h _ hvc
              (List.getElem?_set_self (by simpa using hhlt))
            refine ⟨c3, ns ++ [st.pool.cells.length], hc3, ?_⟩
            rw [queue_of_circ_view _ _ hcv, (conn_of_circ_view _ _ hcv).1, hvp]
            by_cases hcond : (!(if decide (direction = CELL_DIRECTION_OUT) then
                c.streams_blocked_on_n_conn else c.streams_blocked_on_p_conn) &&
                decide (q1.n ≥ CELL_QUEUE_HIGHWATER_SIZE)) = true
            · rw [if_pos hcond, (n_conn_set_blocked_set_queue _ _ _ _ _).1, hon,
                queue_set_blocked, queue_set_queue]
              exact hq1ok
            · rw [if_neg hcond, (n_conn_set_blocked_set_queue c _ true true _).2, hon,
                queue_set_queue]
              exact hq1ok
          · have hmh : ms.head? = some h := by
              by_cases hx : q1.n = 1 ∧ circ ∉ ms
              · rw [if_pos hx] at hms3
                cases ms with
                | nil =>
                  simp only [List.nil_append, List.cons.injEq] at hms3
                  exact absurd hms3.1.symm hh
                | cons a l =>
                  simp only [List.cons_append, List.cons.injEq] at hms3
                  simp only [List.head?_cons, hms3.1]
              · rw [if_neg hx] at hms3
                rw [hms3]
                rfl
            obtain ⟨ch, nh, hch, hqh, hdis⟩ := hhead h hmh hh
            obtain ⟨ch3, hch3, hcv⟩ := circ_of_queue_view st3 _ h (circ_view ch) hvc
              (by rw [List.getElem?_set_ne (Ne.symm hh), List.getElem?_map, hch]; rfl)
            refine ⟨ch3, nh, hch3, ?_⟩
            rw [queue_of_circ_view _ _ hcv, (conn_of_circ_view _ _ hcv).1, hvp]
            rw [cell_queue_ok_iff] at hqh ⊢
            refine ⟨cell_chain_congr st.pool.cells pool1.cells nh _ ?_ hqh.1, hqh.2⟩
            intro x hx
            rw [hframe x (cell_chain_valid _ _ _ hqh.1 x hx) (hdis x hx)]
        obtain ⟨ch3, nh3, hch3, hq3⟩ := hhq
        obtain ⟨stF, qE, hfl, -⟩ := connection_or_flush_spec st3 orconn h t ch3 oc3 nh3 1 now
          hring3 hch3 hq3 hoc3 (by decide)
        exact ⟨_, stF, hfl⟩
    obtain ⟨k, stF, hfl⟩ := hfl
    refine ⟨st3, pool1, q1, stF, hcopy, hq1ok, hq1n, hv3, hring3, ?_, fun h => absurd hout h,
      fun _ => ⟨k, hfl⟩⟩
    rw [happ, hfl]
    rfl
  · rw [if_neg hout] at happ
    exact ⟨st3, pool1, q1, st3, hcopy, hq1ok, hq1n, hv3, hring3, happ, fun _ => rfl,
      fun h => absurd h hout⟩

/-- The flag rule of the enqueue: in the memory after the enqueue, before
the outbuf is primed, the flag of the side of the direction is set when it
was clear and the queue has reached `CELL_QUEUE_HIGHWATER_SIZE`, and is as
before otherwise; no other flag changes. -/
theorem append_flag_rule (st st3 : queue_state) (circ : Nat) (c : queued_circuit_t)
    (d : Bool) (q1 : cell_queue_t) (pool1 : cell_pool_t) (hc : st.circuits[circ]? = some c)
    (hv : queue_view st3 =
      ((st.circuits.map circ_view).set circ
        (circ_view
          (if (!(if d then c.streams_blocked_on_n_conn else c.streams_blocked_on_p_conn) &&
              decide (q1.n ≥ CELL_QUEUE_HIGHWATER_SIZE)) = true
            then (c.set_queue d q1).set_blocked d true
            else c.set_queue d q1)),
        st.conns.map conn_view, pool1)) :
    ∃ c3, st3.circuits[circ]? = some c3 ∧ c3.queue d = q1 ∧
      c3.streams_blocked d =
        (if c.streams_blocked d = false ∧ q1.n ≥ CELL_QUEUE_HIGHWATER_SIZE then true
          else c.streams_blocked d) ∧
      c3.streams_blocked (!d) = c.streams_blocked (!d) ∧
      (∀ i : Nat, i ≠ circ →
        (st3.circuits[i]?).map
            (fun x => (x.streams_blocked_on_n_conn, x.streams_blocked_on_p_conn)) =
          (st.circuits[i]?).map
            (fun x => (x.streams_blocked_on_n_conn, x.streams_blocked_on_p_conn))) := by
  have hhlt : circ < st.circuits.length := by
    by_contra hc2
    rw [List.getElem?_eq_none (by omega)] at hc
    cases hc
  rw [queue_view_eq] at hv
  simp only [Prod.mk.injEq] at hv
  obtain ⟨hvc, -, -⟩ := hv
  obtain ⟨c3, hc3, hcv⟩ := circ_of_queue_view st3 _ circ _ hvc
    (List.getElem?_set_self (by simpa using hhlt))
  have hF := flags_of_circ_view _ _ hcv
  have hQ := queue_of_circ_view _ _ hcv d
  refine ⟨c3, hc3, ?_, ?_, ?_, ?_⟩
  · rw [hQ]
    by_cases hcond : (!(if d then c.streams_blocked_on_n_conn else c.streams_blocked_on_p_conn) &&
        decide (q1.n ≥ CELL_QUEUE_HIGHWATER_SIZE)) = true
    · rw [if_pos hcond, queue_set_blocked, queue_set_queue]
    · rw [if_neg hcond, queue_set_queue]
  · unfold queued_circuit_t.streams_blocked
    by_cases hcond : (!(if d then c.streams_blocked_on_n_conn else c.streams_blocked_on_p_conn) &&
        decide (q1.n ≥ CELL_QUEUE_HIGHWATER_SIZE)) = true
    · rw [if_pos hcond] at hF
      have h1 := (flags_set_blocked (c.set_queue d q1) d true).1
      rw [← hF.1, ← hF.2] at h1
      rw [h1]
      simp only [Bool.and_eq_true, Bool.not_eq_true', decide_eq_true_eq] at hcond
      rw [if_pos hcond]
    · rw [if_neg hcond] at hF
      rw [hF.1, hF.2, (flags_set_queue c d q1).1, (flags_set_queue c d q1).2]
      simp only [Bool.and_eq_true, Bool.not_eq_true', decide_eq_true_eq] at hcond
      rw [if_neg hcond]
  · unfold queued_circuit_t.streams_blocked
    by_cases hcond : (!(if d then c.streams_blocked_on_n_conn else c.streams_blocked_on_p_conn) &&
        decide (q1.n ≥ CELL_QUEUE_HIGHWATER_SIZE)) = true
    · rw [if_pos hcond] at hF
      have h1 := (flags_set_blocked (c.set_queue d q1) d true).2
      rw [← hF.1, ← hF.2, (flags_set_queue c d q1).1, (flags_set_queue c d q1).2] at h1
      cases d
      · exact h1
      · exact h1
    · rw [if_neg hcond] at hF
      rw [hF.1, hF.2, (flags_set_queue c d q1).1, (flags_set_queue c d q1).2]
  · intro i hi
    have h1 := congrArg (fun v => (v[i]?).map (fun x => (x.2.2.2.2.2.1, x.2.2.2.2.2.2.1))) hvc
    simp only [List.getElem?_map, Option.map_map] at h1
    rw [List.getElem?_set_ne (fun e => hi e.symm)] at h1
    simp only [List.getElem?_map, Option.map_map] at h1
    exact h1

/-- The flag rule of the flush: in the memory after the flush the flag of
the flushed side is cleared when it was set and the queue is down to
`CELL_QUEUE_LOWWATER_SIZE` or less, and is as before otherwise; no other
flag changes. -/
theorem flush_flag_rule (st st1 : queue_state) (h : Nat) (c : queued_circuit_t)
    (d : Bool) (qE : cell_queue_t)
    (cv : List (Nat × List Nat × Int)) (pool1 : cell_pool_t)
    (hc : st.circuits[h]? = some c)
    (hv : queue_view st1 =
      ((st.circuits.map circ_view).set h
        (circ_view
          (if ((if d then c.streams_blocked_on_n_conn else c.streams_blocked_on_p_conn) &&
              decide (qE.n ≤ CELL_QUEUE_LOWWATER_SIZE)) = true
            then (c.set_queue d qE).set_blocked d false
            else c.set_queue d qE)),
        cv, pool1)) :
    ∃ c1, st1.circuits[h]? = some c1 ∧ c1.queue d = qE ∧
      c1.streams_blocked d =
        (if c.streams_blocked d = true ∧ qE.n ≤ CELL_QUEUE_LOWWATER_SIZE then false
          else c.streams_blocked d) ∧
      c1.streams_blocked (!d) = c.streams_blocked (!d) ∧
      (∀ i : Nat, i ≠ h →
        (st1.circuits[i]?).map
            (fun x => (x.streams_blocked_on_n_conn, x.streams_blocked_on_p_conn)) =
          (st.circuits[i]?).map
            (fun x => (x.streams_blocked_on_n_conn, x.streams_blocked_on_p_conn))) := by
  have hhlt : h < st.circuits.length := by
    by_contra hc2
    rw [List.getElem?_eq_none (by omega)] at hc
    cases hc
  rw [queue_view_eq] at hv
  simp only [Prod.mk.injEq] at hv
  obtain ⟨hvc, -, -⟩ := hv
  obtain ⟨c1, hc1, hcv⟩ := circ_of_queue_view st1 _ h _ hvc
    (List.getElem?_set_self (by simpa using hhlt))
  have hF := flags_of_circ_view _ _ hcv
  have hQ := queue_of_circ_view _ _ hcv d
  refine ⟨c1, hc1, ?_, ?_, ?_, ?_⟩
  · rw [hQ]
    by_cases hcond : ((if d then c.streams_blocked_on_n_conn else c.streams_blocked_on_p_conn) &&
        decide (qE.n ≤ CELL_QUEUE_LOWWATER_SIZE)) = true
    · rw [if_pos hcond, queue_set_blocked, queue_set_queue]
    · rw [if_neg hcond, queue_set_queue]
  · unfold queued_circuit_t.streams_blocked
    by_cases hcond : ((if d then c.streams_blocked_on_n_conn else c.streams_blocked_on_p_conn) &&
        decide (qE.n ≤ CELL_QUEUE_LOWWATER_SIZE)) = true
    · rw [if_pos hcond] at hF
      have h1 := (flags_set_blocked (c.set_queue d qE) d false).1
      rw [← hF.1, ← hF.2] at h1
      rw [h1]
      simp only [Bool.and_eq_true, decide_eq_true_eq] at hcond
      rw [if_pos hcond]
    · rw [if_neg hcond] at hF
      rw [hF.1, hF.2, (flags_set_queue c d qE).1, (flags_set_queue c d qE).2]
      simp only [Bool.and_eq_true, decide_eq_true_eq] at hcond
      rw [if_neg hcond]
  · unfold queued_circuit_t.streams_blocked
    by_cases hcond : ((if d then c.streams_blocked_on_n_conn else c.streams_blocked_on_p_conn) &&
        decide (qE.n ≤ CELL_QUEUE_LOWWATER_SIZE)) = true
    · rw [if_pos hcond] at hF
      have h1 := (flags_set_blocked (c.set_queue d qE) d false).2
      rw [← hF.1, ← hF.2, (flags_set_queue c d qE).1, (flags_set_queue c d qE).2] at h1
      cases d
      · exact h1
      · exact h1
    · rw [if_neg hcond] at hF
      rw [hF.1, hF.2, (flags_set_queue c d qE).1, (flags_set_queue c d qE).2]
  · intro i hi
    have h1 := congrArg (fun v => (v[i]?).map (fun x => (x.2.2.2.2.2.1, x.2.2.2.2.2.2.1))) hvc
    simp only [List.getElem?_map, Option.map_map] at h1
    rw [List.getElem?_set_ne (fun e => hi e.symm)] at h1
    simp only [List.getElem?_map, Option.map_map] at h1
    exact h1

set_option maxRecDepth 1000000 in
/-- Witness for C27: one cell is flushed from circuit 0, the head of the
ring 0, 1 of `toy_flush_state`; its body follows the byte in the outbuf,
and the ring is then 1, 0 with the head 1. -/
theorem flush_from_first_active_circuit_witness :
    ∃ st1 oc1,
      connection_or_flush_from_first_active_circuit toy_flush_state 0 1 50 = some (1, st1) ∧
      st1.conns[0]? = some oc1 ∧ oc1.outbuf = [9, 7] ∧ oc1.active_circuits = some 1 ∧
      active_ring_ok st1 0 [1, 0] = true := by
  obtain ⟨⟨st1, c1, oc1, h1, -, h3, -, h5, -, -, -, -, h10, h11⟩, -⟩ :=
    flush_from_first_active_circuit toy_flush_state 0 0 [1]
      ({ toy_queued_circuit (some 1) (some 1) with n_conn_cells := ⟨some 0, some 1, 2⟩ })
      ⟨some 0, 2, [9], 0⟩ [0, 1] 1 50 (by decide) rfl (by decide) rfl (by decide)
  exact ⟨st1, oc1, h1, h3, h5, h10, h11⟩

set_option maxRecDepth 1000000 in
/-- The claim C28 as stated fails on a circuit whose next and previous
connection are the same connection.  The circuit of `toy_aliased_state 255`
has 255 cells on its queue toward the previous connection and both flags
clear; a cell appended in the inbound direction takes that queue to 256
cells, and the flag of the previous side is still clear: the flag set is
that of the next side, because `set_streams_blocked_on_circ` picks the flag
by `circ->n_conn == orconn` (relay.c:1745) while
`append_cell_to_circuit_queue` picks the queue by the direction
(relay.c:1846-1853). -/
theorem streams_blocked_aliased_counterexample :
    ((toy_aliased_state 255 [1]).circuits[0]?).map
        (fun c => (c.n_conn, c.p_conn, c.streams_blocked_on_p_conn, c.p_conn_cells.n,
          c.streams_blocked_on_n_conn)) =
      some (some 0, some 0, false, 255, false) ∧
    (append_cell_to_circuit_queue (toy_aliased_state 255 [1]) 0 0
        ⟨5, CELL_RELAY, [1, 2, 3]⟩ CELL_DIRECTION_IN 0).map
      (fun r => (r.1.circuits[0]?).map
        (fun c => (c.streams_blocked_on_p_conn, c.p_conn_cells.n,
          c.streams_blocked_on_n_conn))) =
      some (some (false, 256, true)) := by
  decide

/-- C28, amended to a circuit that does not have `orconn` on both of its
sides: the hysteresis of the streams-blocked flags.  For a circuit whose
connection on the side of the direction is `orconn` and is not also its
connection on the other side, with a queue that satisfies the invariant and
a well-formed ring, `append_cell_to_circuit_queue` returns, and in the
memory `st3` after the enqueue the flag of the side of the direction is set
when it was clear and the length of the queue after the enqueue is at least
`CELL_QUEUE_HIGHWATER_SIZE`, and is as before otherwise; the other flag of
the circuit and the flags of the other circuits are as before.  The result
is `st3` when the outbuf holds bytes, and what
`connection_or_flush_from_first_active_circuit` makes of `st3` when it is
empty.  That function, for a well-formed ring with the head `h` whose queue
satisfies the invariant, clears the flag of the flushed side of `h` when it
was set and the length of the queue after the flush is at most
`CELL_QUEUE_LOWWATER_SIZE`, and leaves it as before otherwise; the other
flag of `h` and the flags of the other circuits are as before. -/
theorem streams_blocked_hysteresis (st : queue_state) (circ orconn : Nat) (cell : cell_t)
    (direction : cell_direction_t) (now : Int) (c : queued_circuit_t) (oc : or_connection_t)
    (ns ms : List Nat) (stf : queue_state) (conn h : Nat) (t : List Nat)
    (cf : queued_circuit_t) (ocf : or_connection_t) (nsf : List Nat) (max nowf : Int)
    (hc : st.circuits[circ]? = some c) (hoc : st.conns[orconn]? = some oc)
    (hside : (direction = CELL_DIRECTION_OUT → c.n_conn = some orconn) ∧
      (direction ≠ CELL_DIRECTION_OUT →
        c.is_origin = false ∧ c.p_conn = some orconn ∧ c.n_conn ≠ some orconn))
    (hq : cell_queue_ok st.pool.cells (c.queue (decide (direction = CELL_DIRECTION_OUT))) ns =
      true)
    (hring : active_ring_ok st orconn ms = true)
    (hhead : ∀ h : Nat, ms.head? = some h → h ≠ circ →
      ∃ ch nh, st.circuits[h]? = some ch ∧
        cell_queue_ok st.pool.cells (ch.queue (decide (ch.n_conn = some orconn))) nh = true ∧
        ∀ x ∈ nh, (c.queue (decide (direction = CELL_DIRECTION_OUT))).tail ≠ some x)
    (hringf : active_ring_ok stf conn (h :: t) = true) (hcf : stf.circuits[h]? = some cf)
    (hqf : cell_queue_ok stf.pool.cells (cf.queue (decide (cf.n_conn = some conn))) nsf = true)
    (hocf : stf.conns[conn]? = some ocf) (hmax : 0 ≤ max) :
    (∃ st3 c3 stF,
      (append_cell_to_circuit_queue st circ orconn cell direction now).map Prod.fst =
        some stF ∧
      (oc.outbuf.length ≠ 0 → stF = st3) ∧
      (oc.outbuf.length = 0 →
        ∃ k, connection_or_flush_from_first_active_circuit st3 orconn 1 now = some (k, stF)) ∧
      st3.circuits[circ]? = some c3 ∧
      (c3.queue (decide (direction = CELL_DIRECTION_OUT))).n = (ns.length : Int) + 1 ∧
      c3.streams_blocked (decide (direction = CELL_DIRECTION_OUT)) =
        (if c.streams_blocked (decide (direction = CELL_DIRECTION_OUT)) = false ∧
            (c3.queue (decide (direction = CELL_DIRECTION_OUT))).n ≥ CELL_QUEUE_HIGHWATER_SIZE
          then true
          else c.streams_blocked (decide (direction = CELL_DIRECTION_OUT))) ∧
      c3.streams_blocked (!decide (direction = CELL_DIRECTION_OUT)) =
        c.streams_blocked (!decide (direction = CELL_DIRECTION_OUT)) ∧
      (∀ i : Nat, i ≠ circ →
        (st3.circuits[i]?).map
            (fun x => (x.streams_blocked_on_n_conn, x.streams_blocked_on_p_conn)) =
          (st.circuits[i]?).map
            (fun x => (x.streams_blocked_on_n_conn, x.streams_blocked_on_p_conn)))) ∧
    (∃ st1 c1,
      connection_or_flush_from_first_active_circuit stf conn max nowf =
        some (min max (nsf.length : Int), st1) ∧
      st1.circuits[h]? = some c1 ∧
      (c1.queue (decide (cf.n_conn = some conn))).n =
        (nsf.length : Int) - min max (nsf.length : Int) ∧
      c1.streams_blocked (decide (cf.n_conn = some conn)) =
        (if cf.streams_blocked (decide (cf.n_conn = some conn)) = true ∧
            (c1.queue (decide (cf.n_conn = some conn))).n ≤ CELL_QUEUE_LOWWATER_SIZE
          then false
          else cf.streams_blocked (decide (cf.n_conn = some conn))) ∧
      c1.streams_blocked (!decide (cf.n_conn = some conn)) =
        cf.streams_blocked (!decide (cf.n_conn = some conn)) ∧
      (∀ i : Nat, i ≠ h →
        (st1.circuits[i]?).map
            (fun x => (x.streams_blocked_on_n_conn, x.streams_blocked_on_p_conn)) =
          (stf.circuits[i]?).map
            (fun x => (x.streams_blocked_on_n_conn, x.streams_blocked_on_p_conn)))) := by
  constructor
  · obtain ⟨st3, pool1, q1, stF, -, -, hq1n, hv3, -, happ, ho1, ho2⟩ :=
      append_cell_to_circuit_queue_returns st circ orconn cell direction now c oc ns ms hc hoc
        hside hq hring hhead
    obtain ⟨c3, hc3, hq3, hf1, hf2, hf3⟩ :=
      append_flag_rule st st3 circ c (decide (direction = CELL_DIRECTION_OUT)) q1 pool1 hc hv3
    refine ⟨st3, c3, stF, by rw [happ]; rfl, ho1, ho2, hc3, ?_, ?_, hf2, hf3⟩
    · rw [hq3, hq1n, ((cell_queue_ok_iff _ _ _).mp hq).2.2]
    · rw [hq3]
      exact hf1
  · obtain ⟨st1, qE, hfl, -, hqn, hv, -⟩ :=
      connection_or_flush_spec stf conn h t cf ocf nsf max nowf hringf hcf hqf hocf hmax
    obtain ⟨c1, hc1, hq1, hf1, hf2, hf3⟩ :=
      flush_flag_rule stf st1 h cf (decide (cf.n_conn = some conn)) qE _ _ hcf hv
    have hmin : ((min max.toNat nsf.length : Nat) : Int) = min max (nsf.length : Int) := by
      omega
    refine ⟨st1, c1, by rw [← hmin]; exact hfl, hc1, ?_, ?_, hf2, hf3⟩
    · rw [hq1, hqn, ((cell_queue_ok_iff _ _ _).mp hqf).2.2, hmin]
    · rw [hq1]
      exact hf1

/-- The cells of `toy_cell_chain n` from the cell `k` on are chained in
order up to the null pointer. -/
theorem toy_cell_chain_chain (n : Nat) :
    ∀ (m k : Nat), k + m = n →
      cell_chain (toy_cell_chain n) (if k < n then some k else none) (List.range' k m) =
        true := by
  intro m
  induction m with
  | zero =>
    intro k hk
    have hnk : ¬ k < n := by omega
    rw [if_neg hnk]
    rfl
  | succ m ih =>
    intro k hk
    have hkn : k < n := by omega
    rw [if_pos hkn]
    have hget : (toy_cell_chain n)[k]? =
        some ⟨if k + 1 < n then some (k + 1) else none, [k % 256]⟩ := by
      unfold toy_cell_chain
      rw [List.getElem?_map, List.getElem?_range hkn]
      rfl
    simp only [List.range', cell_chain, hget, beq_self_eq_true, Bool.true_and]
    exact ih (k + 1) (by omega)

/-- The queue that holds all the cells of `toy_cell_chain n`, in order,
satisfies the queue invariant. -/
theorem toy_cell_chain_queue_ok (n : Nat) (hn : 0 < n) :
    cell_queue_ok (toy_cell_chain n) ⟨some 0, some (n - 1), n⟩ (List.range n) = true := by
  rw [cell_queue_ok_iff]
  refine ⟨?_, ?_, ?_⟩
  · have := toy_cell_chain_chain n n 0 (by omega)
    rw [if_pos hn] at this
    rw [List.range_eq_range']
    exact this
  · obtain ⟨m, rfl⟩ : ∃ m, n = m + 1 := ⟨n - 1, by omega⟩
    simp only [List.range_succ, List.getLast?_append, List.getLast?_singleton,
      Nat.add_sub_cancel]
    rfl
  · simp only [List.length_range]

set_option maxRecDepth 1000000 in
/-- Witness for C28, in both directions.  Outbound, on the queue toward the
next connection 0: a cell appended to a queue of 255 cells with the flag
clear sets the flag, and a flush of 193 cells from a queue of 256 cells with
the flag set clears it.  Inbound, on the queue toward the previous
connection 1: the same, with the flag of the previous side. -/
theorem streams_blocked_hysteresis_witness :
    (∃ st3 st1,
      (append_cell_to_circuit_queue (toy_filled_state 255 false [1]) 0 0
        ⟨5, CELL_RELAY_EARLY, [1, 2, 3]⟩ CELL_DIRECTION_OUT 0).map Prod.fst = some st3 ∧
      (st3.circuits[0]?).map (fun c => (c.streams_blocked true, (c.queue true).n)) =
        some (true, 256) ∧
      connection_or_flush_from_first_active_circuit (toy_filled_state 256 true []) 0 193 0 =
        some (193, st1) ∧
      (st1.circuits[0]?).map (fun c => (c.streams_blocked true, (c.queue true).n)) =
        some (false, 63)) ∧
    (∃ st3 st1,
      (append_cell_to_circuit_queue (toy_inbound_state 255 false [1]) 0 1
        ⟨5, CELL_RELAY, [1, 2, 3]⟩ CELL_DIRECTION_IN 0).map Prod.fst = some st3 ∧
      (st3.circuits[0]?).map
          (fun c => (c.streams_blocked_on_p_conn, c.p_conn_cells.n,
            c.streams_blocked_on_n_conn)) =
        some (true, 256, false) ∧
      connection_or_flush_from_first_active_circuit (toy_inbound_state 256 true []) 1 193 0 =
        some (193, st1) ∧
      (st1.circuits[0]?).map
          (fun c => (c.streams_blocked_on_p_conn, c.p_conn_cells.n,
            c.streams_blocked_on_n_conn)) =
        some (false, 63, false)) := by
  constructor
  · obtain ⟨⟨st3, c3, stF, h1, h2, -, h4, h5, h6, -, -⟩, ⟨st1, c1, k1, k2, k3, k4, -, -⟩⟩ :=
      streams_blocked_hysteresis (toy_filled_state 255 false [1]) 0 0
        ⟨5, CELL_RELAY_EARLY, [1, 2, 3]⟩ CELL_DIRECTION_OUT 0 (toy_filled_circuit 255 false)
        ⟨some 0, 1, [1], 0⟩ (List.range 255) [0]
        (toy_filled_state 256 true []) 0 0 [] (toy_filled_circuit 256 true) ⟨some 0, 1, [], 0⟩
        (List.range 256) 193 0 rfl rfl ⟨fun _ => rfl, fun hd => absurd rfl hd⟩
        (toy_cell_chain_queue_ok 255 (by decide))
        (by decide) (fun h hh hne => absurd (Option.some.inj hh).symm hne) (by decide) rfl
        (toy_cell_chain_queue_ok 256 (by decide)) rfl (by decide)
    have e := h2 (by decide)
    subst e
    have e5 : (c3.queue true).n = 256 := h5.trans (by decide)
    have e3 : (c1.queue true).n = 63 := k3.trans (by decide)
    have g5 : (256 : Int) ≤ (c3.queue true).n := le_of_eq e5.symm
    have g3 : (c1.queue true).n ≤ (64 : Int) := by
      rw [e3]
      decide
    have f3 : c3.streams_blocked true = true := h6.trans (if_pos ⟨rfl, g5⟩)
    have f1 : c1.streams_blocked true = false := k4.trans (if_pos ⟨rfl, g3⟩)
    have m1 : min (193 : Int) ((List.range 256).length : Int) = 193 := by decide
    rw [m1] at k1
    refine ⟨stF, st1, h1, ?_, k1, ?_⟩
    · rw [h4, Option.map_some', f3, e5]
    · rw [k2, Option.map_some', f1, e3]
  · obtain ⟨⟨st3, c3, stF, h1, h2, -, h4, h5, h6, h7, -⟩,
        ⟨st1, c1, k1, k2, k3, k4, k5, -⟩⟩ :=
      streams_blocked_hysteresis (toy_inbound_state 255 false [1]) 0 1
        ⟨5, CELL_RELAY, [1, 2, 3]⟩ CELL_DIRECTION_IN 0 (toy_inbound_circuit 255 false)
        ⟨some 0, 1, [1], 0⟩ (List.range 255) [0]
        (toy_inbound_state 256 true []) 1 0 [] (toy_inbound_circuit 256 true)
        ⟨some 0, 1, [], 0⟩ (List.range 256) 193 0 rfl rfl
        ⟨fun hd => absurd hd (by decide), fun _ => ⟨rfl, rfl, by decide⟩⟩
        (toy_cell_chain_queue_ok 255 (by decide))
        (by decide) (fun h hh hne => absurd (Option.some.inj hh).symm hne) (by decide) rfl
        (toy_cell_chain_queue_ok 256 (by decide)) rfl (by decide)
    have e := h2 (by decide)
    subst e
    have d1 : decide (CELL_DIRECTION_IN = CELL_DIRECTION_OUT) = false := by decide
    have d2 : decide ((toy_inbound_circuit 256 true).n_conn = some 1) = false := by decide
    rw [d1] at h5 h6 h7
    rw [d2] at k3 k4 k5
    have e5 : (c3.queue false).n = 256 := h5.trans (by decide)
    have e3 : (c1.queue false).n = 63 := k3.trans (by decide)
    have g5 : (256 : Int) ≤ (c3.queue false).n := le_of_eq e5.symm
    have g3 : (c1.queue false).n ≤ (64 : Int) := by
      rw [e3]
      decide
    have f3 : c3.streams_blocked false = true := h6.trans (if_pos ⟨rfl, g5⟩)
    have f1 : c1.streams_blocked false = false := k4.trans (if_pos ⟨rfl, g3⟩)
    have f3n : c3.streams_blocked true = false := h7
    have f1n : c1.streams_blocked true = false := k5
    have m1 : min (193 : Int) ((List.range 256).length : Int) = 193 := by decide
    rw [m1] at k1
    refine ⟨stF, st1, h1, ?_, k1, ?_⟩
    · rw [h4, Option.map_some']
      exact congrArg some (Prod.ext f3 (Prod.ext e5 f3n))
    · rw [k2, Option.map_some']
      exact congrArg some (Prod.ext f1 (Prod.ext e3 f1n))

/-- C29: the copy that `append_cell_to_circuit_queue` enqueues.  For a
circuit whose connection on the side of the direction is `orconn`, with a
queue that satisfies the invariant and a well-formed ring, the function
returns, and in the memory `st3` after the enqueue the last cell of the
queue is a new packed cell whose body is the packed form of the given cell
with the command `CELL_RELAY` when the given command is `CELL_RELAY_EARLY`
and the link protocol of `orconn` is below 2, and with the given command
otherwise; circuit id and payload are the given ones.  The result is `st3`
when the outbuf holds bytes, and what
`connection_or_flush_from_first_active_circuit` makes of `st3` when it is
empty. -/
theorem append_cell_relay_early_downgrade (st : queue_state) (circ orconn : Nat)
    (cell : cell_t) (direction : cell_direction_t) (now : Int) (c : queued_circuit_t)
    (oc : or_connection_t) (ns ms : List Nat)
    (hc : st.circuits[circ]? = some c) (hoc : st.conns[orconn]? = some oc)
    (hside : (direction = CELL_DIRECTION_OUT → c.n_conn = some orconn) ∧
      (direction ≠ CELL_DIRECTION_OUT →
        c.is_origin = false ∧ c.p_conn = some orconn ∧ c.n_conn ≠ some orconn))
    (hq : cell_queue_ok st.pool.cells (c.queue (decide (direction = CELL_DIRECTION_OUT))) ns =
      true)
    (hring : active_ring_ok st orconn ms = true)
    (hhead : ∀ h : Nat, ms.head? = some h → h ≠ circ →
      ∃ ch nh, st.circuits[h]? = some ch ∧
        cell_queue_ok st.pool.cells (ch.queue (decide (ch.n_conn = some orconn))) nh = true ∧
        ∀ x ∈ nh, (c.queue (decide (direction = CELL_DIRECTION_OUT))).tail ≠ some x) :
    ∃ st3 c3 stF copy,
      (append_cell_to_circuit_queue st circ orconn cell direction now).map Prod.fst =
        some stF ∧
      (oc.outbuf.length ≠ 0 → stF = st3) ∧
      (oc.outbuf.length = 0 →
        ∃ k, connection_or_flush_from_first_active_circuit st3 orconn 1 now = some (k, stF)) ∧
      st3.circuits[circ]? = some c3 ∧
      cell_queue_ok st3.pool.cells (c3.queue (decide (direction = CELL_DIRECTION_OUT)))
        (ns ++ [st.pool.cells.length]) = true ∧
      st3.pool.cells[st.pool.cells.length]? = some copy ∧
      copy.body = cell_pack
        { circ_id := cell.circ_id
          command := (if cell.command = CELL_RELAY_EARLY ∧ oc.link_proto < 2 then CELL_RELAY
            else cell.command)
          payload := cell.payload } := by
  obtain ⟨st3, pool1, q1, stF, hcopy, hq1ok, -, hv3, -, happ, ho1, ho2⟩ :=
    append_cell_to_circuit_queue_returns st circ orconn cell direction now c oc ns ms hc hoc
      hside hq hring hhead
  obtain ⟨c3, hc3, hq3, -, -, -⟩ :=
    append_flag_rule st st3 circ c (decide (direction = CELL_DIRECTION_OUT)) q1 pool1 hc hv3
  have hp3 : st3.pool = pool1 := by
    have hv := hv3
    rw [queue_view_eq] at hv
    simp only [Prod.mk.injEq] at hv
    exact hv.2.2
  obtain ⟨pool2, q2, hcopy2, -, -, hbody, -, -⟩ :=
    cell_queue_append_packed_copy_spec st.pool
      (c.queue (decide (direction = CELL_DIRECTION_OUT))) ns
      (if cell.command = CELL_RELAY_EARLY ∧ oc.link_proto < 2 then
        { cell with command := CELL_RELAY } else cell) hq
  rw [hcopy] at hcopy2
  have e2 : pool1 = pool2 := congrArg Prod.fst (Option.some.inj hcopy2)
  subst e2
  have hb := congrArg (fun l => l[st.pool.cells.length]?) hbody
  simp only [List.getElem?_map] at hb
  rw [List.getElem?_append_right (by simp), List.length_map, Nat.sub_self] at hb
  cases hx : pool1.cells[st.pool.cells.length]? with
  | none => rw [hx] at hb; cases hb
  | some copy =>
    rw [hx] at hb
    refine ⟨st3, c3, stF, copy, by rw [happ]; rfl, ho1, ho2, hc3, ?_, by rw [hp3]; exact hx, ?_⟩
    · rw [hq3, hp3]
      exact hq1ok
    · have hb1 : copy.body = cell_pack (if cell.command = CELL_RELAY_EARLY ∧ oc.link_proto < 2
          then { cell with command := CELL_RELAY } else cell) := Option.some.inj hb
      rw [hb1]
      split <;> rfl

set_option maxRecDepth 1000000 in
/-- Witness for C29: a `RELAY_EARLY` cell appended on a connection with the
link protocol 1 is enqueued as a `RELAY` cell with its circuit id and
payload. -/
theorem append_cell_relay_early_downgrade_witness :
    ∃ st3 copy,
      (append_cell_to_circuit_queue (toy_filled_state 2 false [1]) 0 0
        ⟨5, CELL_RELAY_EARLY, [1, 2, 3]⟩ CELL_DIRECTION_OUT 0).map Prod.fst = some st3 ∧
      st3.pool.cells[2]? = some copy ∧ copy.body = [0, 5, CELL_RELAY, 1, 2, 3] := by
  obtain ⟨st3, c3, stF, copy, h1, h2, -, -, -, h6, h7⟩ :=
    append_cell_relay_early_downgrade (toy_filled_state 2 false [1]) 0 0
      ⟨5, CELL_RELAY_EARLY, [1, 2, 3]⟩ CELL_DIRECTION_OUT 0 (toy_filled_circuit 2 false)
      ⟨some 0, 1, [1], 0⟩ [0, 1] [0] rfl rfl ⟨fun _ => rfl, fun hd => absurd rfl hd⟩ (by decide)
      (by decide) (fun h hh hne => absurd (Option.some.inj hh).symm hne)
  have e := h2 (by decide)
  subst e
  exact ⟨stF, copy, h1, h6, h7⟩

section digest_theorems

variable {κ δ : Type} (ops : crypto_ops κ δ)

/-- Packing the header read from a buffer of bytes, with other integrity
bytes, is writing those four bytes at offset 5. -/
theorem relay_header_pack_integrity (p : List Nat) (hl : 11 ≤ p.length)
    (hb : ∀ b ∈ p, b < 256) (a b c d : Nat) :
    relay_header_pack p { relay_header_unpack p with integrity := [a, b, c, d] } =
      buf_write p 5 [a, b, c, d] := by
  match p, hl with
  | b0 :: b1 :: b2 :: b3 :: b4 :: b5 :: b6 :: b7 :: b8 :: b9 :: b10 :: rest, _ =>
    rw [relay_header_pack_bytes _ _ a b c d rfl]
    simp only [List.mem_cons, forall_eq_or_imp] at hb
    obtain ⟨h0, h1, h2, h3, h4, h5, h6, h7, h8, h9, h10, -⟩ := hb
    simp only [relay_header_unpack, ntohs, get_uint16, List.getD_cons_zero,
      List.getD_cons_succ, List.drop_succ_cons, List.drop_zero, List.cons_append,
      List.nil_append, List.cons.injEq, and_true, true_and, buf_write, List.take_succ_cons,
      List.take_zero, List.length_cons, List.length_nil]
    refine ⟨?_, ?_, ?_, ?_, ?_, ?_, ?_⟩ <;> omega

/-- The integrity field of the header of a buffer is its bytes 5 to 8. -/
theorem relay_header_unpack_integrity (p : List Nat) (hl : 11 ≤ p.length) :
    (relay_header_unpack p).integrity = (p.drop 5).take 4 := by
  match p, hl with
  | b0 :: b1 :: b2 :: b3 :: b4 :: b5 :: b6 :: b7 :: b8 :: b9 :: b10 :: rest, _ =>
    simp [relay_header_unpack]

/-- C32: `relay_digest_matches` is atomic on mismatch.  For every digest
state `d` and every cell with a payload of 509 bytes: when the first four
bytes of the digest of `d` fed with the payload in which the bytes 5 to 8
are zeroed differ from the bytes 5 to 8 of the payload, the function
answers 0 and leaves the digest state `d` and the cell as they were. -/
theorem relay_digest_matches_atomic_on_mismatch (d : δ) (cell : cell_t)
    (hl : cell.payload.length = CELL_PAYLOAD_SIZE) (hb : ∀ b ∈ cell.payload, b < 256)
    (hne : ops.crypto_digest_get_digest
        (ops.crypto_digest_add_bytes d (buf_write cell.payload 5 [0, 0, 0, 0])) 4 ≠
      (cell.payload.drop 5).take 4) :
    relay_digest_matches ops d cell = (false, d, cell) := by
  have h11 : 11 ≤ cell.payload.length := by rw [hl]; decide
  have hz := relay_header_pack_integrity cell.payload h11 hb 0 0 0 0
  have hlen : (buf_write cell.payload 5 [0, 0, 0, 0]).length = CELL_PAYLOAD_SIZE := by
    rw [← hz, relay_header_pack_length cell.payload
      { relay_header_unpack cell.payload with integrity := [0, 0, 0, 0] } h11 rfl, hl]
  have htake : (buf_write cell.payload 5 [0, 0, 0, 0]).take CELL_PAYLOAD_SIZE =
      buf_write cell.payload 5 [0, 0, 0, 0] := by
    rw [← hlen]
    exact List.take_length _
  apply relay_digest_matches_false ops d cell h11 hb
  unfold relay_digest_matches
  simp only [hz, htake, relay_header_unpack_integrity _ h11]
  rw [if_pos (fun h => hne h.symm)]

set_option maxRecDepth 1000000 in
/-- Witness for C32: the cell `toy_cell`, whose integrity bytes are zero,
does not match the digest state 10 of the small collaborator, and is left
as it was. -/
theorem relay_digest_matches_atomic_on_mismatch_witness :
    relay_digest_matches toy_ops 10 toy_cell = (false, 10, toy_cell) :=
  relay_digest_matches_atomic_on_mismatch toy_ops 10 toy_cell (by decide) (by decide)
    (by decide)

/-- Writing at offset 5 the four bytes that are there leaves the buffer. -/
theorem buf_write_same_integrity (p : List Nat) (hl : 11 ≤ p.length) :
    buf_write p 5 ((p.drop 5).take 4) = p := by
  match p, hl with
  | b0 :: b1 :: b2 :: b3 :: b4 :: b5 :: b6 :: b7 :: b8 :: b9 :: b10 :: rest, _ =>
    simp [buf_write]

/-- What writing four bytes at offset 5 does to a buffer of at least eleven
bytes: the bytes 5 to 8 are the bytes written, every other byte and the
length are as before. -/
theorem buf_write_integrity_bytes (p : List Nat) (hl : 11 ≤ p.length) (a b c d : Nat) :
    ((buf_write p 5 [a, b, c, d]).drop 5).take 4 = [a, b, c, d] ∧
    (buf_write p 5 [a, b, c, d]).length = p.length ∧
    (∀ i : Nat, i < 5 ∨ 9 ≤ i → (buf_write p 5 [a, b, c, d])[i]? = p[i]?) := by
  match p, hl with
  | b0 :: b1 :: b2 :: b3 :: b4 :: b5 :: b6 :: b7 :: b8 :: b9 :: b10 :: rest, _ =>
    refine ⟨by simp [buf_write], by simp [buf_write], ?_⟩
    intro i hi
    simp only [buf_write, List.take_succ_cons, List.take_zero, List.length_cons,
      List.length_nil, List.drop_succ_cons, List.drop_zero, List.cons_append, List.nil_append]
    match i, hi with
    | 0, _ => rfl
    | 1, _ => rfl
    | 2, _ => rfl
    | 3, _ => rfl
    | 4, _ => rfl
    | 5, h => omega
    | 6, h => omega
    | 7, h => omega
    | 8, h => omega
    | n + 9, _ => rfl

/-- Packing the header read from a buffer whose first eleven bytes are
bytes, with other integrity bytes, is writing those four bytes at
offset 5. -/
theorem relay_header_pack_integrity_head (p : List Nat) (hl : 11 ≤ p.length)
    (hb : ∀ b ∈ p.take 11, b < 256) (a b c d : Nat) :
    relay_header_pack p { relay_header_unpack p with integrity := [a, b, c, d] } =
      buf_write p 5 [a, b, c, d] := by
  match p, hl with
  | b0 :: b1 :: b2 :: b3 :: b4 :: b5 :: b6 :: b7 :: b8 :: b9 :: b10 :: rest, _ =>
    rw [relay_header_pack_bytes _ _ a b c d rfl]
    simp only [List.take_succ_cons, List.take_zero, List.mem_cons, forall_eq_or_imp] at hb
    obtain ⟨h0, h1, h2, h3, h4, h5, h6, h7, h8, h9, h10, -⟩ := hb
    simp only [relay_header_unpack, ntohs, get_uint16, List.getD_cons_zero,
      List.getD_cons_succ, List.drop_succ_cons, List.drop_zero, List.cons_append,
      List.nil_append, List.cons.injEq, and_true, true_and, buf_write, List.take_succ_cons,
      List.take_zero, List.length_cons, List.length_nil]
    refine ⟨?_, ?_, ?_, ?_, ?_, ?_, ?_⟩ <;> omega

/-- What `relay_set_digest` does to a cell with a full payload whose header
bytes are bytes, in terms of the digest collaborator: the digest is fed the
payload as it stands, and the first four bytes of the digest read out are
written at offset 5 of the payload. -/
theorem relay_set_digest_stamp (hwf : ops.wf) (d : δ) (cell : cell_t)
    (hl : cell.payload.length = CELL_PAYLOAD_SIZE)
    (hb : ∀ b ∈ cell.payload.take 11, b < 256) :
    relay_set_digest ops d cell =
      (ops.crypto_digest_add_bytes d cell.payload,
        { cell with
          payload := buf_write cell.payload 5
            (ops.crypto_digest_get_digest (ops.crypto_digest_add_bytes d cell.payload) 4) }) ∧
    (buf_write cell.payload 5
      (ops.crypto_digest_get_digest (ops.crypto_digest_add_bytes d cell.payload) 4)).length =
        CELL_PAYLOAD_SIZE := by
  have h11 : 11 ≤ cell.payload.length := by rw [hl]; decide
  have htake : cell.payload.take CELL_PAYLOAD_SIZE = cell.payload := by
    rw [← hl]
    exact List.take_length _
  obtain ⟨-, -, hd4, -⟩ := hwf
  have h4 := hd4 (ops.crypto_digest_add_bytes d cell.payload)
  generalize hdg : ops.crypto_digest_get_digest (ops.crypto_digest_add_bytes d cell.payload) 4
    = dg at h4
  match dg, h4 with
  | [a, b, c, e], _ =>
    refine ⟨?_, ?_⟩
    · simp only [relay_set_digest, htake, hdg]
      rw [relay_header_pack_integrity_head cell.payload h11 hb a b c e]
    · rw [(buf_write_integrity_bytes cell.payload h11 a b c e).2.1, hl]

/-- The `recognized` field of a header is 0 exactly when the bytes 1 and 2
of the buffer are 0. -/
theorem relay_header_unpack_recognized (p : List Nat) :
    (relay_header_unpack p).recognized = 0 ↔ p.getD 1 0 = 0 ∧ p.getD 2 0 = 0 := by
  have e : (1 + 1 : Nat) = 2 := rfl
  simp only [relay_header_unpack, ntohs, get_uint16, List.getD_cons_zero,
    List.getD_cons_succ, e]
  omega

/-- What `relay_digest_matches` does to a cell with a full payload of bytes,
in terms of the digest collaborator: the digest is fed the payload in which
the bytes 5 to 8 are zeroed; when the first four bytes read out of it are
the bytes 5 to 8 of the payload the answer is yes, the digest stays fed and
the payload stays zeroed; otherwise the answer is no and the digest and the
cell are as before. -/
theorem relay_digest_matches_rule (d : δ) (cell : cell_t)
    (hl : cell.payload.length = CELL_PAYLOAD_SIZE) (hb : ∀ b ∈ cell.payload, b < 256) :
    relay_digest_matches ops d cell =
      if ops.crypto_digest_get_digest
          (ops.crypto_digest_add_bytes d (buf_write cell.payload 5 [0, 0, 0, 0])) 4 =
          (cell.payload.drop 5).take 4 then
        (true, ops.crypto_digest_add_bytes d (buf_write cell.payload 5 [0, 0, 0, 0]),
          { cell with payload := buf_write cell.payload 5 [0, 0, 0, 0] })
      else (false, d, cell) := by
  have h11 : 11 ≤ cell.payload.length := by rw [hl]; decide
  have hz := relay_header_pack_integrity cell.payload h11 hb 0 0 0 0
  have hlen : (buf_write cell.payload 5 [0, 0, 0, 0]).length = CELL_PAYLOAD_SIZE := by
    rw [← hz, relay_header_pack_length cell.payload
      { relay_header_unpack cell.payload with integrity := [0, 0, 0, 0] } h11 rfl, hl]
  have htake : (buf_write cell.payload 5 [0, 0, 0, 0]).take CELL_PAYLOAD_SIZE =
      buf_write cell.payload 5 [0, 0, 0, 0] := by
    rw [← hlen]
    exact List.take_length _
  by_cases hm : ops.crypto_digest_get_digest
      (ops.crypto_digest_add_bytes d (buf_write cell.payload 5 [0, 0, 0, 0])) 4 =
      (cell.payload.drop 5).take 4
  · rw [if_pos hm]
    unfold relay_digest_matches
    simp only [hz, htake, relay_header_unpack_integrity _ h11]
    rw [if_neg (fun h => h hm.symm)]
  · rw [if_neg hm]
    apply relay_digest_matches_false ops d cell h11 hb
    unfold relay_digest_matches
    simp only [hz, htake, relay_header_unpack_integrity _ h11]
    rw [if_pos (fun h => hm h.symm)]

set_option maxRecDepth 1000000 in
/-- The claim C33 as stated fails: `relay_set_digest` feeds the payload as
it stands.  For the cell `toy_cell` with the integrity bytes 1, 2, 3, 4 and
the digest state 10 of the small collaborator, the digest state left is not
the state 10 fed with the payload in which the integrity bytes are zeroed. -/
theorem relay_set_digest_nonzero_integrity_counterexample :
    (relay_set_digest toy_ops 10
        { toy_cell with payload := buf_write toy_cell.payload 5 [1, 2, 3, 4] }).1 ≠
      toy_ops.crypto_digest_add_bytes 10
        (buf_write (buf_write toy_cell.payload 5 [1, 2, 3, 4]) 5 [0, 0, 0, 0]) := by
  decide

/-- C33, amended: for every digest state `d` and every cell with a payload
of 509 bytes, `relay_set_digest` leaves the digest state equal to `d` fed
with the payload as it stands, sets the bytes 5 to 8 of the payload to the
first four bytes of that digest, and changes no other byte of the payload,
nor the circuit id or the command.  When the bytes 5 to 8 are zero before
the call, the payload fed is the payload with zeroed integrity bytes. -/
theorem relay_set_digest_feeds_payload (hwf : ops.wf) (d : δ) (cell : cell_t)
    (hl : cell.payload.length = CELL_PAYLOAD_SIZE) (hb : ∀ b ∈ cell.payload, b < 256) :
    (relay_set_digest ops d cell).1 = ops.crypto_digest_add_bytes d cell.payload ∧
    (relay_set_digest ops d cell).2.payload =
      buf_write cell.payload 5
        (ops.crypto_digest_get_digest (ops.crypto_digest_add_bytes d cell.payload) 4) ∧
    (((relay_set_digest ops d cell).2.payload.drop 5).take 4 =
      ops.crypto_digest_get_digest (ops.crypto_digest_add_bytes d cell.payload) 4) ∧
    (relay_set_digest ops d cell).2.payload.length = CELL_PAYLOAD_SIZE ∧
    (∀ i : Nat, i < 5 ∨ 9 ≤ i →
      (relay_set_digest ops d cell).2.payload[i]? = cell.payload[i]?) ∧
    (relay_set_digest ops d cell).2.circ_id = cell.circ_id ∧
    (relay_set_digest ops d cell).2.command = cell.command ∧
    ((cell.payload.drop 5).take 4 = [0, 0, 0, 0] →
      buf_write cell.payload 5 [0, 0, 0, 0] = cell.payload) := by
  have h11 : 11 ≤ cell.payload.length := by rw [hl]; decide
  have htake : cell.payload.take CELL_PAYLOAD_SIZE = cell.payload := by
    rw [← hl]
    exact List.take_length _
  obtain ⟨-, -, hd4, -⟩ := hwf
  have h4 := hd4 (ops.crypto_digest_add_bytes d cell.payload)
  generalize hdg : ops.crypto_digest_get_digest (ops.crypto_digest_add_bytes d cell.payload) 4
    = dg at h4
  have hp : (relay_set_digest ops d cell).2.payload = buf_write cell.payload 5 dg := by
    simp only [relay_set_digest, htake, hdg]
    match dg, h4 with
    | [a, b, c, e], _ => exact relay_header_pack_integrity cell.payload h11 hb a b c e
  refine ⟨by simp only [relay_set_digest, htake], hp, ?_, ?_, ?_, rfl, rfl, ?_⟩
  · rw [hp]
    match dg, h4 with
    | [a, b, c, e], _ => exact (buf_write_integrity_bytes cell.payload h11 a b c e).1
  · rw [hp]
    match dg, h4 with
    | [a, b, c, e], _ => rw [(buf_write_integrity_bytes cell.payload h11 a b c e).2.1, hl]
  · rw [hp]
    match dg, h4 with
    | [a, b, c, e], _ => exact (buf_write_integrity_bytes cell.payload h11 a b c e).2.2
  · intro hz
    rw [← hz]
    exact buf_write_same_integrity cell.payload h11

set_option maxRecDepth 1000000 in
/-- Witness for C33: the cell `toy_cell` stamped from the digest state 10 of
the small collaborator carries the four bytes of the digest state 21. -/
theorem relay_set_digest_feeds_payload_witness :
    (relay_set_digest toy_ops 10 toy_cell).1 = 21 ∧
    ((relay_set_digest toy_ops 10 toy_cell).2.payload.drop 5).take 4 = [0, 0, 0, 21] := by
  obtain ⟨h1, -, h3, -⟩ :=
    relay_set_digest_feeds_payload toy_ops toy_ops_wf 10 toy_cell (by decide) (by decide)
  exact ⟨h1.trans (by decide), h3.trans (by decide)⟩

end digest_theorems

section layer_theorems

variable {κ δ : Type} (ops : crypto_ops κ δ)

/-- What the cipher call leaves of a full payload of bytes: a full payload
of bytes. -/
theorem relay_crypt_one_payload_bytes (hwf : ops.wf) (c : κ) (inp : List Nat) (m : Nat)
    (hl : inp.length = CELL_PAYLOAD_SIZE) (hb : ∀ b ∈ inp, b < 256) :
    (relay_crypt_one_payload ops c inp m).2.2.length = CELL_PAYLOAD_SIZE ∧
    ∀ b ∈ (relay_crypt_one_payload ops c inp m).2.2, b < 256 := by
  rw [relay_crypt_one_payload_full ops c inp m hl]
  exact ⟨by rw [hwf.1, hl], hwf.2.1 c inp hb⟩

/-- The open hops after a position only depend on the states of the hops. -/
theorem hop_is_open_set {κ δ : Type} (cpath : List (crypt_path_t κ δ)) (i : Nat)
    (hop hop1 : crypt_path_t κ δ) (hi : cpath[i]? = some hop) (hs : hop1.state = hop.state) :
    hop_is_open (cpath.set i hop1) = hop_is_open cpath := by
  funext j
  unfold hop_is_open
  by_cases hj : i = j
  · subst hj
    have hlt : i < cpath.length := by
      by_contra hc
      rw [List.getElem?_eq_none (by omega)] at hi
      cases hi
    rw [List.getElem?_set_self hlt, hi]
    simp only [hs]
  · rw [List.getElem?_set_ne hj]

/-- The layered decryption loop of `relay_crypt` follows the layering rule:
started at the hop `i` with a full payload of bytes and fuel for the hops
from `i` on, it returns what the rule gives for `i` followed by the open
hops after `i`. -/
theorem relay_crypt_loop_layers (hwf : ops.wf) :
    ∀ (fuel : Nat) (cpath : List (crypt_path_t κ δ)) (i : Nat) (cell : cell_t),
      i < cpath.length → cpath.length - i ≤ fuel →
      cell.payload.length = CELL_PAYLOAD_SIZE → (∀ b ∈ cell.payload, b < 256) →
      relay_crypt_loop ops fuel cpath i cell =
        some (apply_backward_ciphers ops
          (i :: (List.range' (i + 1) (cpath.length - (i + 1))).takeWhile (hop_is_open cpath))
          cpath cell) := by
  intro fuel
  induction fuel with
  | zero => intro cpath i cell hi hf; omega
  | succ n ih =>
    intro cpath i cell hi hf hl hb
    have hget : cpath[i]? = some (cpath.get ⟨i, hi⟩) := List.getElem?_eq_getElem hi
    generalize cpath.get ⟨i, hi⟩ = hop at hget
    unfold relay_crypt_loop apply_backward_ciphers
    simp only [hget]
    rw [relay_crypt_one_payload_full ops hop.b_crypto cell.payload 0 hl]
    have hl1 : (ops.crypto_cipher_crypt_inplace hop.b_crypto cell.payload).2.2.length =
        CELL_PAYLOAD_SIZE := by rw [hwf.1, hl]
    have hb1 := hwf.2.1 hop.b_crypto cell.payload hb
    generalize ops.crypto_cipher_crypt_inplace hop.b_crypto cell.payload = res at hl1 hb1
    simp only []
    have hcont : (match (cpath.set i { hop with b_crypto := res.2.1 })[cpath_next cpath i]? with
        | none => none
        | some nxt =>
          if cpath_next cpath i ≠ 0 ∧ nxt.state = CPATH_STATE_OPEN then
            relay_crypt_loop ops n (cpath.set i { hop with b_crypto := res.2.1 })
              (cpath_next cpath i) { cell with payload := res.2.2 }
          else some (-1, cpath.set i { hop with b_crypto := res.2.1 },
            { cell with payload := res.2.2 }, none)) =
        some (apply_backward_ciphers ops
          ((List.range' (i + 1) (cpath.length - (i + 1))).takeWhile (hop_is_open cpath))
          (cpath.set i { hop with b_crypto := res.2.1 }) { cell with payload := res.2.2 }) := by
      by_cases hlast : i + 1 = cpath.length
      · have hnext : cpath_next cpath i = 0 := by
          unfold cpath_next
          rw [if_pos hlast]
        have h0 : 0 < (cpath.set i { hop with b_crypto := res.2.1 }).length := by
          rw [List.length_set]
          omega
        rw [hnext, List.getElem?_eq_getElem h0]
        simp only [ne_eq, not_true_eq_false, false_and, if_false]
        have : cpath.length - (i + 1) = 0 := by omega
        rw [this]
        rfl
      · have hnext : cpath_next cpath i = i + 1 := by
          unfold cpath_next
          rw [if_neg hlast]
        have hlt : i + 1 < cpath.length := by omega
        have hgn : cpath[i + 1]? = some (cpath.get ⟨i + 1, hlt⟩) := List.getElem?_eq_getElem hlt
        generalize cpath.get ⟨i + 1, hlt⟩ = nxt at hgn
        have hrange : List.range' (i + 1) (cpath.length - (i + 1)) =
            (i + 1) :: List.range' (i + 1 + 1) (cpath.length - (i + 1 + 1)) := by
          have : cpath.length - (i + 1) = (cpath.length - (i + 1 + 1)) + 1 := by omega
          rw [this, List.range'_succ]
        have hopen : hop_is_open cpath (i + 1) = (nxt.state == CPATH_STATE_OPEN) := by
          unfold hop_is_open
          rw [hgn]
        rw [hnext, List.getElem?_set_ne (by omega), hgn, hrange, List.takeWhile_cons, hopen]
        simp only [ne_eq, Nat.add_one_ne_zero, not_false_eq_true, true_and]
        by_cases hst : nxt.state = CPATH_STATE_OPEN
        · rw [if_pos hst]
          have hbeq : (nxt.state == CPATH_STATE_OPEN) = true := by simp [hst]
          rw [hbeq]
          simp only [if_true]
          have := ih (cpath.set i { hop with b_crypto := res.2.1 }) (i + 1)
            { cell with payload := res.2.2 } (by rw [List.length_set]; exact hlt)
            (by rw [List.length_set]; omega) hl1 hb1
          rw [this, List.length_set,
            hop_is_open_set cpath i hop { hop with b_crypto := res.2.1 } hget rfl]
        · rw [if_neg hst]
          have hbeq : (nxt.state == CPATH_STATE_OPEN) = false := by simp [hst]
          rw [hbeq]
          rfl
    by_cases hr : res.1 ≠ 0
    · rw [if_pos hr, if_pos hr, if_pos (by decide)]
    · rw [if_neg hr, if_neg hr, if_neg (by decide)]
      have hrule := relay_digest_matches_rule ops hop.b_digest
        { cell with payload := res.2.2 } hl1 hb1
      simp only [] at hrule
      by_cases hrec : (relay_header_unpack res.2.2).recognized = 0
      · have hrec2 := (relay_header_unpack_recognized res.2.2).mp hrec
        rw [if_pos hrec, hrule]
        by_cases hm : ops.crypto_digest_get_digest
            (ops.crypto_digest_add_bytes hop.b_digest (buf_write res.2.2 5 [0, 0, 0, 0])) 4 =
            (res.2.2.drop 5).take 4
        · rw [if_pos hm]
          have hall := And.intro hrec2.1 (And.intro hrec2.2 hm)
          simp only [if_true]
          rw [if_pos hall]
        · rw [if_neg hm]
          simp only [Bool.false_eq_true, if_false]
          have hnot : ¬ (res.2.2.getD 1 0 = 0 ∧ res.2.2.getD 2 0 = 0 ∧
              ops.crypto_digest_get_digest
                (ops.crypto_digest_add_bytes hop.b_digest (buf_write res.2.2 5 [0, 0, 0, 0])) 4 =
                (res.2.2.drop 5).take 4) := fun h => hm h.2.2
          rw [if_neg hnot]
          exact hcont
      · rw [if_neg hrec]
        simp only [Bool.false_eq_true, if_false]
        have hnot : ¬ (res.2.2.getD 1 0 = 0 ∧ res.2.2.getD 2 0 = 0 ∧
            ops.crypto_digest_get_digest
              (ops.crypto_digest_add_bytes hop.b_digest (buf_write res.2.2 5 [0, 0, 0, 0])) 4 =
              (res.2.2.drop 5).take 4) :=
          fun h => hrec ((relay_header_unpack_recognized res.2.2).mpr ⟨h.1, h.2.1⟩)
        rw [if_neg hnot]
        exact hcont

/-- What the layering rule of the receive path changes, for hops listed in
ascending order: the number of hops stays; a result without a hop has status
-1 and leaves every backward digest as it was; a result with the hop `k` has
status 0, `k` is one of the hops listed, every backward digest but that of
`k` is as it was, and no hop after `k` is changed. -/
theorem apply_backward_ciphers_frame :
    ∀ (hops : List Nat) (cpath cpath1 : List (crypt_path_t κ δ)) (cell cell1 : cell_t)
      (r : Int) (hint : Option Nat),
      hops.Pairwise (fun a b => a < b) →
      apply_backward_ciphers ops hops cpath cell = (r, cpath1, cell1, hint) →
      cpath1.length = cpath.length ∧
      (hint = none → r = -1 ∧
        ∀ j : Nat, (cpath1[j]?).map (fun h => h.b_digest) =
          (cpath[j]?).map (fun h => h.b_digest)) ∧
      (∀ k, hint = some k → r = 0 ∧ k ∈ hops ∧
        (∀ j : Nat, j ≠ k → (cpath1[j]?).map (fun h => h.b_digest) =
          (cpath[j]?).map (fun h => h.b_digest)) ∧
        (∀ j : Nat, k < j → cpath1[j]? = cpath[j]?)) := by
  intro hops
  induction hops with
  | nil =>
    intro cpath cpath1 cell cell1 r hint _ h
    simp only [apply_backward_ciphers, Prod.mk.injEq] at h
    obtain ⟨h1, h2, -, h4⟩ := h
    subst h1 h2 h4
    exact ⟨rfl, fun _ => ⟨rfl, fun _ => rfl⟩, fun k hk => Option.noConfusion hk⟩
  | cons i rest ih =>
    intro cpath cpath1 cell cell1 r hint hsorted h
    have hset : ∀ (hop hop1 : crypt_path_t κ δ), cpath[i]? = some hop →
        hop1.b_digest = hop.b_digest →
        ∀ j : Nat, ((cpath.set i hop1)[j]?).map (fun h => h.b_digest) =
          (cpath[j]?).map (fun h => h.b_digest) := by
      intro hop hop1 hi hd j
      by_cases hj : i = j
      · subst hj
        have hlt : i < cpath.length := by
          by_contra hc
          rw [List.getElem?_eq_none (by omega)] at hi
          cases hi
        rw [List.getElem?_set_self hlt, hi]
        simp only [Option.map_some', hd]
      · rw [List.getElem?_set_ne hj]
    unfold apply_backward_ciphers at h
    cases hi : cpath[i]? with
    | none =>
      simp only [hi, Prod.mk.injEq] at h
      obtain ⟨h1, h2, -, h4⟩ := h
      subst h1 h2 h4
      exact ⟨rfl, fun _ => ⟨rfl, fun _ => rfl⟩, fun k hk => Option.noConfusion hk⟩
    | some hop =>
      simp only [hi] at h
      generalize ops.crypto_cipher_crypt_inplace hop.b_crypto cell.payload = res at h
      by_cases hr : res.1 ≠ 0
      · rw [if_pos hr] at h
        simp only [Prod.mk.injEq] at h
        obtain ⟨h1, h2, -, h4⟩ := h
        subst h1 h2 h4
        exact ⟨List.length_set _ _ _, fun _ => ⟨rfl, hset hop _ hi rfl⟩,
          fun k hk => Option.noConfusion hk⟩
      · rw [if_neg hr] at h
        by_cases hm : res.2.2.getD 1 0 = 0 ∧ res.2.2.getD 2 0 = 0 ∧
            ops.crypto_digest_get_digest
              (ops.crypto_digest_add_bytes hop.b_digest (buf_write res.2.2 5 [0, 0, 0, 0])) 4 =
              (res.2.2.drop 5).take 4
        · rw [if_pos hm] at h
          simp only [Prod.mk.injEq] at h
          obtain ⟨h1, h2, -, h4⟩ := h
          subst h1 h2 h4
          refine ⟨List.length_set _ _ _, fun hn => Option.noConfusion hn, ?_⟩
          intro k hk
          have e : i = k := Option.some.inj hk
          subst e
          refine ⟨rfl, List.mem_cons_self _ _, ?_, ?_⟩
          · intro j hj
            rw [List.getElem?_set_ne (fun e => hj e.symm)]
          · intro j hj
            rw [List.getElem?_set_ne (by omega)]
        · rw [if_neg hm] at h
          obtain ⟨g1, g2, g3⟩ := ih _ _ _ _ _ _ (List.Pairwise.of_cons hsorted) h
          rw [List.length_set] at g1
          refine ⟨g1, ?_, ?_⟩
          · intro hn
            obtain ⟨a, b⟩ := g2 hn
            exact ⟨a, fun j => (b j).trans (hset hop { hop with b_crypto := res.2.1 } hi rfl j)⟩
          · intro k hk
            obtain ⟨a, b, c, d⟩ := g3 k hk
            have hik : i < k := List.rel_of_pairwise_cons hsorted b
            refine ⟨a, List.mem_cons_of_mem _ b,
              fun j hj => (c j hj).trans (hset hop { hop with b_crypto := res.2.1 } hi rfl j), ?_⟩
            intro j hj
            rw [d j hj, List.getElem?_set_ne (by omega)]

/-- The layered-encryption loop of `circuit_package_relay_cell`, started at
an existing hop with more fuel than its position and a full payload, returns
what the layering rule gives for the hops from that hop toward the head. -/
theorem circuit_package_relay_cell_loop_layers (hwf : ops.wf) :
    ∀ (lh fuel : Nat) (cpath : List (crypt_path_t κ δ)) (payload : List Nat),
      lh < cpath.length → lh < fuel → payload.length = CELL_PAYLOAD_SIZE →
      circuit_package_relay_cell_loop ops fuel cpath lh payload =
        some (apply_forward_ciphers ops (hops_toward_head lh) cpath payload) := by
  intro lh
  induction lh with
  | zero =>
    intro fuel cpath payload hlt hf hl
    obtain ⟨f, rfl⟩ : ∃ f, fuel = f + 1 := ⟨fuel - 1, by omega⟩
    have hget : cpath[0]? = some (cpath.get ⟨0, hlt⟩) := List.getElem?_eq_getElem hlt
    generalize cpath.get ⟨0, hlt⟩ = hop at hget
    unfold circuit_package_relay_cell_loop
    have e : hops_toward_head 0 = [0] := rfl
    rw [e]
    unfold apply_forward_ciphers
    simp only [hget]
    rw [relay_crypt_one_payload_full ops hop.f_crypto payload 1 hl]
    simp only []
    by_cases hr : (ops.crypto_cipher_crypt_inplace hop.f_crypto payload).1 ≠ 0
    · rw [if_pos hr, if_pos hr, if_pos (by decide)]
    · rw [if_neg hr, if_neg hr, if_neg (by decide)]
      simp only [cpath_prev, if_true, ne_eq, not_true_eq_false, if_false]
      rfl
  | succ k ih =>
    intro fuel cpath payload hlt hf hl
    obtain ⟨f, rfl⟩ : ∃ f, fuel = f + 1 := ⟨fuel - 1, by omega⟩
    have hget : cpath[k + 1]? = some (cpath.get ⟨k + 1, hlt⟩) :=
      List.getElem?_eq_getElem hlt
    generalize cpath.get ⟨k + 1, hlt⟩ = hop at hget
    unfold circuit_package_relay_cell_loop
    rw [hops_toward_head_succ]
    unfold apply_forward_ciphers
    simp only [hget]
    rw [relay_crypt_one_payload_full ops hop.f_crypto payload 1 hl]
    simp only []
    by_cases hr : (ops.crypto_cipher_crypt_inplace hop.f_crypto payload).1 ≠ 0
    · rw [if_pos hr, if_pos hr, if_pos (by decide)]
    · rw [if_neg hr, if_neg hr, if_neg (by decide)]
      have hp : cpath_prev cpath (k + 1) = k := by simp [cpath_prev]
      have hp0 : cpath_prev cpath 0 = cpath.length - 1 := by simp [cpath_prev]
      rw [hp, hp0]
      have hne : k ≠ cpath.length - 1 := by omega
      rw [if_pos hne]
      exact ih f _ _ (by simp; omega) (by omega) (by rw [hwf.1, hl])

/-- The outbound branch of `circuit_package_relay_cell` at an origin circuit
with a next connection, for a cell with a full payload whose header bytes
are bytes, in terms of the crypto collaborator: the forward digest of the
target hop is fed the payload, the first four bytes read out of it are
written at offset 5, and the layering rule for the hops from the target
toward the head is applied to the result. -/
theorem circuit_package_relay_cell_outbound (hwf : ops.wf) (cell : cell_t)
    (circ : circuit_t κ δ) (lh : Nat) (nc : Nat) (hop : crypt_path_t κ δ)
    (ho : circ.is_origin = true) (hn : circ.n_conn = some nc)
    (hhop : circ.cpath[lh]? = some hop)
    (hl : cell.payload.length = CELL_PAYLOAD_SIZE)
    (hb : ∀ b ∈ cell.payload.take 11, b < 256)
    (st : Int) (cpath1 : List (crypt_path_t κ δ)) (payload1 : List Nat)
    (hrule : apply_forward_ciphers ops (hops_toward_head lh)
        (circ.cpath.set lh
          { hop with f_digest := ops.crypto_digest_add_bytes hop.f_digest cell.payload })
        (buf_write cell.payload 5
          (ops.crypto_digest_get_digest
            (ops.crypto_digest_add_bytes hop.f_digest cell.payload) 4)) =
      (st, cpath1, payload1)) :
    circuit_package_relay_cell ops cell circ CELL_DIRECTION_OUT (some lh) =
      if st < 0 then
        some (-1, { circ with cpath := cpath1 }, { cell with payload := payload1 })
      else
        some (0, ({ circ with cpath := cpath1 }).emit
            (.append_cell_to_circuit_queue (some nc) { cell with payload := payload1 }
              CELL_DIRECTION_OUT),
          { cell with payload := payload1 }) := by
  have hlt : lh < circ.cpath.length := by
    by_contra hc
    rw [List.getElem?_eq_none (by omega)] at hhop
    cases hhop
  obtain ⟨hsd, hsl⟩ := relay_set_digest_stamp ops hwf hop.f_digest cell hl hb
  generalize ops.crypto_digest_add_bytes hop.f_digest cell.payload = d1 at hsd hsl hrule
  generalize buf_write cell.payload 5 (ops.crypto_digest_get_digest d1 4) = stamped
    at hsd hsl hrule
  generalize hc0 : circ.cpath.set lh { hop with f_digest := d1 } = cpath0 at hrule
  have hl0 : cpath0.length = circ.cpath.length := by rw [← hc0]; simp
  have hloop := circuit_package_relay_cell_loop_layers ops hwf lh cpath0.length cpath0
    stamped (by omega) (by omega) hsl
  rw [hrule] at hloop
  have hno : ¬ ((!circ.is_origin || circ.n_conn.isNone) = true) := by simp [ho, hn]
  unfold circuit_package_relay_cell
  simp only []
  rw [if_neg hno]
  simp only [hhop, hsd, hc0, hloop]
  by_cases hst : st < 0
  · rw [if_pos hst, if_pos hst]
  · rw [if_neg hst, if_neg hst, hn]

/-- The open hops are listed in ascending order. -/
theorem open_hops_sorted (cpath : List (crypt_path_t κ δ)) :
    (open_hops cpath).Pairwise (fun a b => a < b) := by
  unfold open_hops
  exact List.Pairwise.sublist (List.takeWhile_sublist _) (List.pairwise_lt_range' _ _)

/-- The open hops of a path with an open first hop: the head, then the open
hops after it. -/
theorem open_hops_head (cpath : List (crypt_path_t κ δ)) (first : crypt_path_t κ δ)
    (h0 : cpath[0]? = some first) (hs : first.state = CPATH_STATE_OPEN) :
    open_hops cpath =
      0 :: (List.range' (0 + 1) (cpath.length - (0 + 1))).takeWhile (hop_is_open cpath) := by
  have hlt : 0 < cpath.length := by
    by_contra hc
    rw [List.getElem?_eq_none (by omega)] at h0
    cases h0
  have hopen : hop_is_open cpath 0 = true := by
    unfold hop_is_open
    rw [h0]
    simp [hs]
  unfold open_hops
  have : cpath.length = (cpath.length - (0 + 1)) + 1 := by omega
  conv_lhs => rw [this, List.range'_succ]
  rw [List.takeWhile_cons, hopen]
  rfl

/-- C31: `relay_crypt` for a cell travelling toward the origin on an origin
circuit, with a full payload of bytes.  If the first hop is not open the
result is -1 and nothing is touched.  If it is open, the function returns
(its loop terminates within as many steps as there are hops) what the
layering rule gives for the hops from the head, in list order, while their
state is open.  The rule is stated in terms of the crypto collaborator: at
each hop visited the backward cipher is called once on the payload, and
then the hop authenticates the cell when the bytes 1 and 2 (the
`recognized` field) are 0 and the first four bytes of its backward digest,
fed with the payload in which the bytes 5 to 8 are zeroed, are the bytes 5
to 8 of the payload; the digest so fed is then left in that hop.  A result
with the hop `k` has status 0 and is recognized, `k` is among the hops
visited, only the backward digest of `k` has changed, and no hop after `k`
is changed.  A result without a hop is the failure -1, not recognized, and
every backward digest is as it was. -/
theorem relay_crypt_inbound_at_origin (hwf : ops.wf) (circ : circuit_t κ δ)
    (cell : cell_t) (first : crypt_path_t κ δ) (ho : circ.is_origin = true)
    (h0 : circ.cpath[0]? = some first)
    (hl : cell.payload.length = CELL_PAYLOAD_SIZE) (hb : ∀ b ∈ cell.payload, b < 256) :
    (first.state ≠ CPATH_STATE_OPEN →
      relay_crypt ops circ cell CELL_DIRECTION_IN = some (-1, circ, cell, none, false)) ∧
    (first.state = CPATH_STATE_OPEN →
      ∃ r cpath1 cell1 hint,
        apply_backward_ciphers ops (open_hops circ.cpath) circ.cpath cell =
          (r, cpath1, cell1, hint) ∧
        relay_crypt ops circ cell CELL_DIRECTION_IN =
          some (r, { circ with cpath := cpath1 }, cell1, hint, hint.isSome) ∧
        cpath1.length = circ.cpath.length ∧
        (hint = none → r = -1 ∧
          ∀ j : Nat, (cpath1[j]?).map (fun h => h.b_digest) =
            (circ.cpath[j]?).map (fun h => h.b_digest)) ∧
        (∀ k, hint = some k → r = 0 ∧ k ∈ open_hops circ.cpath ∧
          (∀ j : Nat, j ≠ k → (cpath1[j]?).map (fun h => h.b_digest) =
            (circ.cpath[j]?).map (fun h => h.b_digest)) ∧
          (∀ j : Nat, k < j → cpath1[j]? = circ.cpath[j]?))) := by
  have hlt : 0 < circ.cpath.length := by
    by_contra hc
    rw [List.getElem?_eq_none (by omega)] at h0
    cases h0
  constructor
  · intro hs
    unfold relay_crypt
    simp only [ho, if_true, h0]
    rw [if_pos hs]
  · intro hs
    have hloop := relay_crypt_loop_layers ops hwf circ.cpath.length circ.cpath 0 cell hlt
      (by omega) hl hb
    rw [← open_hops_head circ.cpath first h0 hs] at hloop
    generalize hres : apply_backward_ciphers ops (open_hops circ.cpath) circ.cpath cell = res
      at hloop
    obtain ⟨r, cpath1, cell1, hint⟩ := res
    obtain ⟨g1, g2, g3⟩ := apply_backward_ciphers_frame ops _ _ _ _ _ _ _
      (open_hops_sorted circ.cpath) hres
    refine ⟨r, cpath1, cell1, hint, rfl, ?_, g1, g2, g3⟩
    unfold relay_crypt
    simp only [ho, if_true, h0]
    rw [if_neg (by simp [hs]), hloop]

end layer_theorems

section splice_theorems

variable {κ δ : Type} (ops : crypto_ops κ δ) (env : collaborators)

/-- The receive path for a cell travelling toward the origin at a relayed
circuit, with any fuel: a circuit marked for close returns 0 and is left as
it is; else the cipher toward the origin is applied once; when it fails the
result is minus `END_CIRC_REASON_INTERNAL`; when there is no previous
connection the result is minus `END_CIRC_REASON_TORPROTOCOL`; else the cell
is handed to the queue of the previous connection with `circ_id` set to
`p_circ_id`.  The spliced circuit is not looked at. -/
theorem circuit_receive_relay_cell_aux_inbound_relayed (fuel : Nat) (cell : cell_t)
    (w : world κ δ) (st : Int) (k : κ) (p : List Nat) (hno : w.circ.is_origin = false)
    (hres : relay_crypt_one_payload ops w.circ.p_crypto cell.payload 1 = (st, k, p)) :
    circuit_receive_relay_cell_aux ops env (fuel + 1) cell w CELL_DIRECTION_IN =
      if w.circ.marked_for_close = true then some (0, w, cell)
      else if st < 0 then
        some (-END_CIRC_REASON_INTERNAL, { w with circ := { w.circ with p_crypto := k } },
          { cell with payload := p })
      else
        match w.circ.p_conn with
        | none =>
          some (-END_CIRC_REASON_TORPROTOCOL, { w with circ := { w.circ with p_crypto := k } },
            { circ_id := w.circ.p_circ_id, command := cell.command, payload := p })
        | some pc =>
          some (0,
            { w with circ := (({ w.circ with p_crypto := k }).emit
                (.append_cell_to_circuit_queue (some pc)
                  { circ_id := w.circ.p_circ_id, command := cell.command, payload := p }
                  CELL_DIRECTION_IN)) },
            { circ_id := w.circ.p_circ_id, command := cell.command, payload := p }) := by
  obtain ⟨circ, splice⟩ := w
  simp only at hno hres ⊢
  have hno1 : ¬ (circ.is_origin = true) := by simp [hno]
  have hb : (!circ.is_origin) = true := by simp [hno]
  unfold circuit_receive_relay_cell_aux
  simp only []
  by_cases hm : circ.marked_for_close = true
  · rw [if_pos hm, if_pos hm]
  · rw [if_neg hm, if_neg hm]
    unfold relay_crypt
    simp only []
    rw [if_neg hno1, hres]
    simp only []
    by_cases hr : st < 0
    · rw [if_pos hr]
      simp only []
      rw [if_pos (by decide), if_pos hr]
    · rw [if_neg hr]
      simp only []
      rw [if_neg (by decide), if_neg (by decide), if_pos hb, if_neg hr]
      simp only []
      cases hp : circ.p_conn with
      | none =>
        simp only []
        cases splice with
        | none => rfl
        | some sp =>
          simp only []
          rw [if_neg (by simp)]
      | some pc => rfl

/-- The status of `relay_crypt_one_payload` is 0 or -1. -/
theorem relay_crypt_one_payload_status (c : κ) (inp : List Nat) (m : Nat) :
    (relay_crypt_one_payload ops c inp m).1 = 0 ∨ (relay_crypt_one_payload ops c inp m).1 = -1 := by
  unfold relay_crypt_one_payload
  simp only []
  split
  · exact Or.inr rfl
  · exact Or.inl rfl

/-- C34: for a cell with a full payload travelling toward the origin on a
relayed circuit, `relay_crypt` makes one call of the cipher collaborator,
on the cipher toward the origin and the payload: the status is -1 when that
call fails and 0 otherwise, the cipher and the payload are those the call
leaves, the cell is not recognized, no hop is named, and nothing else in
the circuit changes, so both digests are as they were.  Then
`circuit_receive_relay_cell` returns without a call of
`connection_edge_process_relay_cell`: a circuit marked for close is left as
it is; a failed cipher gives minus `END_CIRC_REASON_INTERNAL`; a missing
previous connection gives minus `END_CIRC_REASON_TORPROTOCOL`; otherwise the
result is 0 and the one call recorded is the hand-over of the encrypted cell
to the queue of the previous connection.  In each case the circuit left
differs from the one before in the cipher toward the origin and in the calls
recorded only: every window, digest and stream is as it was. -/
theorem relay_crypt_inbound_at_relay (circ : circuit_t κ δ) (cell : cell_t)
    (splice : Option (circuit_t κ δ)) (hno : circ.is_origin = false)
    (hl : cell.payload.length = CELL_PAYLOAD_SIZE) :
    relay_crypt ops circ cell CELL_DIRECTION_IN =
      some (if (ops.crypto_cipher_crypt_inplace circ.p_crypto cell.payload).1 ≠ 0 then -1 else 0,
        { circ with
          p_crypto := (ops.crypto_cipher_crypt_inplace circ.p_crypto cell.payload).2.1 },
        { cell with
          payload := (ops.crypto_cipher_crypt_inplace circ.p_crypto cell.payload).2.2 },
        none, false) ∧
    circuit_receive_relay_cell ops env cell ⟨circ, splice⟩ CELL_DIRECTION_IN =
      (if circ.marked_for_close = true then some (0, ⟨circ, splice⟩, cell)
      else if (ops.crypto_cipher_crypt_inplace circ.p_crypto cell.payload).1 ≠ 0 then
        some (-END_CIRC_REASON_INTERNAL,
          ⟨{ circ with
              p_crypto := (ops.crypto_cipher_crypt_inplace circ.p_crypto cell.payload).2.1 },
            splice⟩,
          { cell with
            payload := (ops.crypto_cipher_crypt_inplace circ.p_crypto cell.payload).2.2 })
      else
        match circ.p_conn with
        | none =>
          some (-END_CIRC_REASON_TORPROTOCOL,
            ⟨{ circ with
                p_crypto := (ops.crypto_cipher_crypt_inplace circ.p_crypto cell.payload).2.1 },
              splice⟩,
            { circ_id := circ.p_circ_id, command := cell.command,
              payload := (ops.crypto_cipher_crypt_inplace circ.p_crypto cell.payload).2.2 })
        | some pc =>
          some (0,
            ⟨({ circ with
                p_crypto :=
                  (ops.crypto_cipher_crypt_inplace circ.p_crypto cell.payload).2.1 }).emit
              (.append_cell_to_circuit_queue (some pc)
                { circ_id := circ.p_circ_id, command := cell.command,
                  payload :=
                    (ops.crypto_cipher_crypt_inplace circ.p_crypto cell.payload).2.2 }
                CELL_DIRECTION_IN), splice⟩,
            { circ_id := circ.p_circ_id, command := cell.command,
              payload :=
                (ops.crypto_cipher_crypt_inplace circ.p_crypto cell.payload).2.2 })) ∧
    ∃ reason circ2 cell2,
      circuit_receive_relay_cell ops env cell ⟨circ, splice⟩ CELL_DIRECTION_IN =
        some (reason, ⟨circ2, splice⟩, cell2) ∧
      circ2 = { circ with p_crypto := circ2.p_crypto, trace := circ2.trace } := by
  have hno1 : ¬ (circ.is_origin = true) := by simp [hno]
  have hfull := relay_crypt_one_payload_full ops circ.p_crypto cell.payload 1 hl
  generalize ops.crypto_cipher_crypt_inplace circ.p_crypto cell.payload = res at hfull ⊢
  have hcrypt : relay_crypt ops circ cell CELL_DIRECTION_IN =
      some (if res.1 ≠ 0 then -1 else 0, { circ with p_crypto := res.2.1 },
        { cell with payload := res.2.2 }, none, false) := by
    unfold relay_crypt
    simp only []
    rw [if_neg hno1, hfull]
    simp only []
    by_cases hr : res.1 ≠ 0
    · rw [if_pos hr, if_pos (by decide)]
    · rw [if_neg hr, if_neg (by decide)]
  have hmain : circuit_receive_relay_cell ops env cell ⟨circ, splice⟩ CELL_DIRECTION_IN =
      (if circ.marked_for_close = true then some (0, ⟨circ, splice⟩, cell)
      else if res.1 ≠ 0 then
        some (-END_CIRC_REASON_INTERNAL, ⟨{ circ with p_crypto := res.2.1 }, splice⟩,
          { cell with payload := res.2.2 })
      else
        match circ.p_conn with
        | none =>
          some (-END_CIRC_REASON_TORPROTOCOL, ⟨{ circ with p_crypto := res.2.1 }, splice⟩,
            { circ_id := circ.p_circ_id, command := cell.command, payload := res.2.2 })
        | some pc =>
          some (0,
            ⟨({ circ with p_crypto := res.2.1 }).emit
              (.append_cell_to_circuit_queue (some pc)
                { circ_id := circ.p_circ_id, command := cell.command, payload := res.2.2 }
                CELL_DIRECTION_IN), splice⟩,
            { circ_id := circ.p_circ_id, command := cell.command, payload := res.2.2 })) := by
    unfold circuit_receive_relay_cell
    by_cases hr : res.1 ≠ 0
    · rw [if_pos hr] at hfull
      rw [circuit_receive_relay_cell_aux_inbound_relayed ops env 1 cell ⟨circ, splice⟩
        (-1) res.2.1 res.2.2 hno hfull]
      simp only []
      by_cases hm : circ.marked_for_close = true
      · rw [if_pos hm, if_pos hm]
      · rw [if_neg hm, if_neg hm, if_pos (by decide), if_pos hr]
    · rw [if_neg hr] at hfull
      rw [circuit_receive_relay_cell_aux_inbound_relayed ops env 1 cell ⟨circ, splice⟩
        0 res.2.1 res.2.2 hno hfull]
      simp only []
      by_cases hm : circ.marked_for_close = true
      · rw [if_pos hm, if_pos hm]
      · rw [if_neg hm, if_neg hm, if_neg (by decide), if_neg hr]
  refine ⟨hcrypt, hmain, ?_⟩
  rw [hmain]
  by_cases hm : circ.marked_for_close = true
  · rw [if_pos hm]
    exact ⟨_, circ, _, rfl, rfl⟩
  · rw [if_neg hm]
    by_cases hr : res.1 ≠ 0
    · rw [if_pos hr]
      exact ⟨_, _, _, rfl, rfl⟩
    · rw [if_neg hr]
      cases hp : circ.p_conn with
      | none => exact ⟨_, _, _, rfl, rfl⟩
      | some pc => exact ⟨_, _, _, rfl, rfl⟩

/-- C35: two spliced relayed circuits.  The circuit `A`, not marked for
close and with no next connection, is spliced to the relayed circuit `B`
(both with the purpose `CIRCUIT_PURPOSE_REND_ESTABLISHED`); `relay_crypt`
on `A` leaves the circuit `A1` and the cell `cell1` and does not recognize
the cell.  Then `circuit_receive_relay_cell` on `A` hands the cell to the
receive path of `B`, toward the origin, once: the cell handed over is
`cell1` with `circ_id` set to the `p_circ_id` of `B`.  That call returns
with any fuel (it does not enter a splice again, so the recursion is one
deep) and leaves `A1` as it is.  When it returns a negative reason, `A1` is
marked for close with minus that reason and the reason is returned; else 0
is returned. -/
theorem circuit_receive_relay_cell_splice (cell cell1 : cell_t) (A A1 B : circuit_t κ δ)
    (r : Int) (hint : Option Nat)
    (hA : A.is_origin = false) (hB : B.is_origin = false)
    (hmark : A.marked_for_close = false) (hn : A.n_conn = none)
    (hpA : A.purpose = CIRCUIT_PURPOSE_REND_ESTABLISHED)
    (hpB : B.purpose = CIRCUIT_PURPOSE_REND_ESTABLISHED)
    (hcrypt : relay_crypt ops A cell CELL_DIRECTION_OUT = some (r, A1, cell1, hint, false))
    (hr : ¬ r < 0) :
    ∃ reason B1 cell4,
      (∀ fuel : Nat,
        circuit_receive_relay_cell_aux ops env (fuel + 1)
            { cell1 with circ_id := B.p_circ_id } ⟨B, some A1⟩ CELL_DIRECTION_IN =
          some (reason, ⟨B1, some A1⟩, cell4)) ∧
      circuit_receive_relay_cell ops env cell ⟨A, some B⟩ CELL_DIRECTION_OUT =
        some (if reason < 0 then reason else 0,
          ⟨if reason < 0 then circuit_mark_for_close A1 (-reason) else A1, some B1⟩, cell4) ∧
      A1 = { A with n_crypto := A1.n_crypto, p_crypto := A1.p_crypto } := by
  have hfr := relay_crypt_unrecognized_frame ops _ _ _ _ _ _ _ hA hcrypt
  have hn1 : A1.n_conn = none := by rw [hfr]; exact hn
  have ho1 : A1.is_origin = false := by rw [hfr]; exact hA
  have hp1 : A1.purpose = CIRCUIT_PURPOSE_REND_ESTABLISHED := by rw [hfr]; exact hpA
  have hb : (!A1.is_origin && CELL_DIRECTION_OUT == CELL_DIRECTION_OUT) = true := by
    simp [ho1]
  have hpur : ¬ (A1.purpose ≠ CIRCUIT_PURPOSE_REND_ESTABLISHED ∨
      B.purpose ≠ CIRCUIT_PURPOSE_REND_ESTABLISHED) := by
    simp [hp1, hpB]
  generalize hres : relay_crypt_one_payload ops B.p_crypto
    ({ cell1 with circ_id := B.p_circ_id } : cell_t).payload 1 = res
  obtain ⟨st, k, p⟩ := res
  have haux := fun fuel => circuit_receive_relay_cell_aux_inbound_relayed ops env fuel
    { cell1 with circ_id := B.p_circ_id } ⟨B, some A1⟩ st k p hB hres
  have hex : ∃ reason B1 cell4, ∀ fuel : Nat,
      circuit_receive_relay_cell_aux ops env (fuel + 1)
          { cell1 with circ_id := B.p_circ_id } ⟨B, some A1⟩ CELL_DIRECTION_IN =
        some (reason, ⟨B1, some A1⟩, cell4) := by
    simp only [] at haux
    by_cases hm : B.marked_for_close = true
    · exact ⟨0, B, { cell1 with circ_id := B.p_circ_id }, fun fuel => by
        rw [haux fuel, if_pos hm]⟩
    · by_cases hs : st < 0
      · exact ⟨-END_CIRC_REASON_INTERNAL, { B with p_crypto := k },
          { circ_id := B.p_circ_id, command := cell1.command, payload := p }, fun fuel => by
            rw [haux fuel, if_neg hm, if_pos hs]⟩
      · cases hp : B.p_conn with
        | none =>
          exact ⟨-END_CIRC_REASON_TORPROTOCOL, { B with p_crypto := k },
            { circ_id := B.p_circ_id, command := cell1.command, payload := p }, fun fuel => by
              rw [haux fuel, if_neg hm, if_neg hs, hp]⟩
        | some pc =>
          exact ⟨0, ({ B with p_crypto := k }).emit
              (.append_cell_to_circuit_queue (some pc)
                { circ_id := B.p_circ_id, command := cell1.command, payload := p }
                CELL_DIRECTION_IN),
            { circ_id := B.p_circ_id, command := cell1.command, payload := p }, fun fuel => by
              rw [haux fuel, if_neg hm, if_neg hs, hp]⟩
  obtain ⟨reason, B1, cell4, hall⟩ := hex
  refine ⟨reason, B1, cell4, hall, ?_, hfr⟩
  unfold circuit_receive_relay_cell circuit_receive_relay_cell_aux
  simp only []
  rw [if_neg (by simp [hmark]), hcrypt]
  simp only []
  rw [if_neg hr, if_neg (by decide), hn1]
  simp only []
  rw [if_pos hb, if_neg hpur, hall 0]
  simp only [Option.getD_some]
  by_cases hneg : reason < 0
  · rw [if_pos hneg, if_pos hneg, if_pos hneg]
  · rw [if_neg hneg, if_neg hneg, if_neg hneg]

end splice_theorems

set_option maxRecDepth 1000000 in
/-- Witness for C31, in two runs.  The cell `toy_inbound` on `toy_origin`
does not have the `recognized` field at 0 after the first hop and is
authenticated by the second; the backward digest of the first hop stays 20.
The cell `toy_inbound_plain` on `toy_origin_plain` has the `recognized`
field at 0 after the cipher of the first hop (its first three bytes are
then 2, 0, 0), but its integrity bytes 0, 0, 0, 51 are not those of the
digest of the first hop (0, 0, 0, 31): the first hop does not authenticate
it and keeps its digest 20; the second hop does, and is left with the
digest 51, and the payload returned is that of `toy_cell`, with the
integrity bytes zeroed. -/
theorem relay_crypt_inbound_at_origin_witness :
    (∃ cpath1 cell1,
      relay_crypt toy_ops toy_origin toy_inbound CELL_DIRECTION_IN =
        some (0, { toy_origin with cpath := cpath1 }, cell1, some 1, true) ∧
      (cpath1[0]?).map (fun h => h.b_digest) = some 20) ∧
    (∃ cpath1 cell1,
      relay_crypt toy_ops toy_origin_plain toy_inbound_plain CELL_DIRECTION_IN =
        some (0, { toy_origin_plain with cpath := cpath1 }, cell1, some 1, true) ∧
      (toy_ops.crypto_cipher_crypt_inplace 5 toy_inbound_plain.payload).2.2.take 3 =
        [2, 0, 0] ∧
      toy_ops.crypto_digest_get_digest (toy_ops.crypto_digest_add_bytes 20
        (buf_write (toy_ops.crypto_cipher_crypt_inplace 5 toy_inbound_plain.payload).2.2
          5 [0, 0, 0, 0])) 4 = [0, 0, 0, 31] ∧
      cpath1.map (fun h => h.b_digest) = [20, 51] ∧
      cell1.payload = toy_cell.payload) := by
  obtain ⟨-, h⟩ := relay_crypt_inbound_at_origin toy_ops toy_ops_wf toy_origin toy_inbound
    (new_hop 3 5 10 20) rfl rfl (by decide) (by decide)
  obtain ⟨r, cpath1, cell1, hint, h1, h2, -, -, h5⟩ := h rfl
  have e : (r, hint) = (0, some 1) := by
    have := congrArg (fun x => (x.1, x.2.2.2)) h1
    exact this.symm.trans (by decide)
  simp only [Prod.mk.injEq] at e
  obtain ⟨e1, e2⟩ := e
  subst e1 e2
  obtain ⟨-, g⟩ := relay_crypt_inbound_at_origin toy_ops toy_ops_wf toy_origin_plain
    toy_inbound_plain (new_hop 3 5 10 20) rfl rfl (by decide) (by decide)
  obtain ⟨r2, cpath2, cell2, hint2, g1, g2, -, -, -⟩ := g rfl
  have e2 := g1.symm.trans (rfl : _ = ((0 : Int), [new_hop 3 5 10 20, new_hop 7 0 30 51],
    ({ toy_cell with payload := toy_cell.payload } : cell_t), some 1))
  simp only [Prod.mk.injEq] at e2
  obtain ⟨a1, a2, a3, a4⟩ := e2
  subst a1 a2 a3 a4
  exact ⟨⟨cpath1, cell1, h2, ((h5 1 rfl).2.2.1 0 (by decide)).trans rfl⟩,
    ⟨_, _, g2, by decide, by decide, by decide, rfl⟩⟩

set_option maxRecDepth 1000000 in
/-- Witness for C34: the relay `toy_relay1` with the cipher toward the
origin set to the key 3 passes `toy_cell` on toward the origin: every byte
of the payload has gone through that cipher once (the header bytes
2, 0, 0, 0, 5, 0, 0, 0, 0, 0, 3 have each grown by 3), the digests and the
windows are as before, and the one call made is the hand-over to the queue
of the previous connection. -/
theorem relay_crypt_inbound_at_relay_witness :
    ∃ (circ2 : circuit_t Nat Nat) (cell2 : cell_t),
      circuit_receive_relay_cell toy_ops toy_env toy_cell
          ⟨{ toy_relay1 with p_crypto := 3 }, none⟩ CELL_DIRECTION_IN =
        some (0, ⟨circ2, none⟩, cell2) ∧
      cell2.payload.take 12 = [5, 3, 3, 3, 8, 3, 3, 3, 3, 3, 6, 3] ∧
      cell2.payload = toy_cell.payload.map (fun b => (b + 3) % 256) ∧
      circ2.n_digest = 10 ∧ circ2.p_digest = 0 ∧ circ2.deliver_window = 1000 ∧
      circ2.package_window = 1000 ∧
      circ2.trace = [.append_cell_to_circuit_queue (some 2) cell2 CELL_DIRECTION_IN] := by
  obtain ⟨-, h, -⟩ :=
    relay_crypt_inbound_at_relay toy_ops toy_env { toy_relay1 with p_crypto := 3 } toy_cell none
      rfl (by decide)
  exact ⟨_, _, h.trans rfl, by decide, rfl, rfl, rfl, rfl, rfl, rfl⟩

set_option maxRecDepth 1000000 in
/-- Witness for C35: `toy_cell`, which `toy_splice_a` does not recognize, is
handed to `toy_splice_b` with the circuit id 7, and `toy_splice_b` hands it
to the queue of its previous connection. -/
theorem circuit_receive_relay_cell_splice_witness :
    ∃ (B1 : circuit_t Nat Nat) (cell4 : cell_t),
      circuit_receive_relay_cell toy_ops toy_env toy_cell ⟨toy_splice_a, some toy_splice_b⟩
          CELL_DIRECTION_OUT = some (0, ⟨toy_splice_a, some B1⟩, cell4) ∧
      cell4.circ_id = 7 ∧ B1.trace.length = 1 := by
  obtain ⟨reason, B1, cell4, h1, h2, -⟩ :=
    circuit_receive_relay_cell_splice toy_ops toy_env toy_cell toy_cell toy_splice_a
      toy_splice_a toy_splice_b 0 none rfl rfl rfl rfl rfl rfl (by rfl) (by decide)
  have e := (h1 0).symm.trans (rfl : circuit_receive_relay_cell_aux toy_ops toy_env (0 + 1)
      { toy_cell with circ_id := toy_splice_b.p_circ_id } ⟨toy_splice_b, some toy_splice_a⟩
      CELL_DIRECTION_IN = some (0, ⟨toy_splice_b.emit (.append_cell_to_circuit_queue (some 2)
        { toy_cell with circ_id := 7 } CELL_DIRECTION_IN), some toy_splice_a⟩,
        { toy_cell with circ_id := 7 }))
  simp only [Option.some.injEq, Prod.mk.injEq, world.mk.injEq] at e
  obtain ⟨e1, e2, e3⟩ := e
  exact ⟨_, _, h2, rfl, rfl⟩

section sendme_theorems

variable {κ δ : Type} (ops : crypto_ops κ δ)

/-- Dropping the recorded values from the instrumented loop gives the loop
of `circuit_consider_sending_sendme`. -/
theorem circuit_consider_sending_sendme_loop_sends_erase (lh : Option Nat) :
    ∀ (fuel : Nat) (c : circuit_t κ δ),
      (circuit_consider_sending_sendme_loop_sends ops fuel c lh).map (fun x => x.1) =
        circuit_consider_sending_sendme_loop ops fuel c lh := by
  intro fuel
  induction fuel with
  | zero => intro c; rfl
  | succ n ih =>
    intro c
    unfold circuit_consider_sending_sendme_loop_sends circuit_consider_sending_sendme_loop
    cases h0 : circuit_deliver_window c lh with
    | none => rfl
    | some w =>
      simp only
      split
      · cases h1 : circuit_deliver_window_increment c lh with
        | none => rfl
        | some c1 =>
          simp only
          cases h2 : relay_send_command_from_edge ops 0 c1 RELAY_COMMAND_SENDME [] lh with
          | none => rfl
          | some res =>
            obtain ⟨r, c2⟩ := res
            simp only
            split
            · rfl
            · rw [← ih c2, Option.map_map]
              rfl
      · rfl

/-- The number of cells needed is the ceiling of `(900 - w) / 100`. -/
theorem sendme_cells_needed_ceiling (w : Int) :
    (¬ w < 900 → sendme_cells_needed w = 0) ∧
    (w < 900 → 900 - w ≤ 100 * (sendme_cells_needed w : Int) ∧
      100 * (sendme_cells_needed w : Int) < 900 - w + 100) := by
  unfold sendme_cells_needed
  constructor
  · intro h
    rw [if_neg h]
  · intro h
    rw [if_pos h]
    have hnn : 0 ≤ (900 - w + 99) / 100 := by omega
    rw [Int.toNat_of_nonneg hnn]
    omega

/-- The circuit-level SENDME loop, counted: with fuel for the cells needed
it returns; the window is then the window before plus 100 for each call of
`relay_send_command_from_edge`; there are no more calls than cells needed,
every call but the last returned 0, and when the last did too the calls are
exactly the cells needed. -/
theorem circuit_consider_sending_sendme_loop_sends_spec (lh : Option Nat) :
    ∀ (fuel : Nat) (c : circuit_t κ δ) (w : Int),
      send_ok c lh = true → circuit_deliver_window c lh = some w →
      sendme_cells_needed w + 1 ≤ fuel →
      ∃ c1 rs, circuit_consider_sending_sendme_loop_sends ops fuel c lh = some (c1, rs) ∧
        circuit_deliver_window c1 lh = some (w + 100 * (rs.length : Int)) ∧
        rs.length ≤ sendme_cells_needed w ∧
        ((∀ r ∈ rs, 0 ≤ r) → rs.length = sendme_cells_needed w) := by
  intro fuel
  induction fuel with
  | zero => intro c w _ _ hf; omega
  | succ n ih =>
    intro c w hok hw hf
    have hl : layer_ok c.is_origin c.cpath.length lh = true := by
      simp only [send_ok, Bool.and_eq_true] at hok
      exact hok.1.1
    obtain ⟨hc0, hc1⟩ := sendme_cells_needed_ceiling w
    unfold circuit_consider_sending_sendme_loop_sends
    simp only [hw]
    by_cases hlt : w < CIRCWINDOW_START - CIRCWINDOW_INCREMENT
    · rw [if_pos hlt]
      have hlt9 : w < 900 := hlt
      obtain ⟨hk1, hk2⟩ := hc1 hlt9
      obtain ⟨w0, c1, hw0, h1, hw1, -, -, hk⟩ := circuit_deliver_window_increment_total c lh hl
      rw [hw] at hw0
      cases hw0
      rw [h1]
      simp only
      obtain ⟨r, c2, h2, hr, hv2, hs2⟩ := relay_send_command_from_edge_total ops 0 c1
        RELAY_COMMAND_SENDME [] lh (by decide) (by rw [hk]; exact hok)
      rw [h2]
      simp only
      have hw2 : circuit_deliver_window c2 lh = some (w + CIRCWINDOW_INCREMENT) := by
        rw [circuit_deliver_window_of_send_view _ _ _ hv2, hw1]
      obtain ⟨hn0, hn1⟩ := sendme_cells_needed_ceiling (w + CIRCWINDOW_INCREMENT)
      have hstep : sendme_cells_needed w = sendme_cells_needed (w + CIRCWINDOW_INCREMENT) + 1 := by
        have hinc : CIRCWINDOW_INCREMENT = 100 := rfl
        by_cases h9 : w + CIRCWINDOW_INCREMENT < 900
        · obtain ⟨a, b⟩ := hn1 h9
          omega
        · have := hn0 h9
          omega
      by_cases hneg : r < 0
      · rw [if_pos hneg]
        refine ⟨c2, [r], rfl, ?_, ?_, ?_⟩
        · rw [hw2]
          simp only [CIRCWINDOW_INCREMENT, List.length_singleton, Nat.cast_one, mul_one]
        · simp only [List.length_singleton]
          omega
        · intro hall
          have := hall r (List.mem_singleton.mpr rfl)
          omega
      · rw [if_neg hneg]
        obtain ⟨c3, rs, h3, hw3, hle3, hall3⟩ := ih c2 _ (hs2 _ (by rw [hk]; exact hok)) hw2
          (by omega)
        rw [h3]
        refine ⟨c3, r :: rs, rfl, ?_, ?_, ?_⟩
        · rw [hw3]
          simp only [CIRCWINDOW_INCREMENT, List.length_cons, Nat.cast_add, Nat.cast_one]
          congr 1
          ring
        · simp only [List.length_cons]
          omega
        · intro hall
          simp only [List.length_cons]
          rw [hall3 (fun x hx => hall x (List.mem_cons_of_mem _ hx))]
          omega
    · rw [if_neg hlt]
      have h9 : ¬ w < 900 := hlt
      refine ⟨c, [], rfl, ?_, ?_, ?_⟩
      · simpa using hw
      · simp
      · intro _
        rw [hc0 h9]
        rfl

end sendme_theorems

section seal_theorems
variable {κ δ : Type} (ops : crypto_ops κ δ)

/-- The cell `relay_send_command_from_edge` builds has the payload of the
sealing rule. -/
theorem relay_send_cell_payload (circ_id stream_id command : Nat) (body : List Nat)
    (hlen : body.length ≤ RELAY_PAYLOAD_SIZE) :
    relay_send_cell circ_id stream_id command body =
      ⟨circ_id, CELL_RELAY, relay_cell_payload command stream_id body⟩ := by
  unfold relay_send_cell relay_cell_payload
  simp only [RELAY_PAYLOAD_SIZE] at hlen
  simp only []
  rw [relay_header_pack_bytes _ _ 0 0 0 0 rfl]
  simp only [CELL_PAYLOAD_SIZE, RELAY_HEADER_SIZE, RELAY_PAYLOAD_SIZE, List.drop_replicate,
    Nat.zero_div, Nat.zero_mod, Nat.mod_mod]
  have h1 : stream_id % 65536 / 256 % 256 = stream_id / 256 % 256 := by omega
  have h2 : stream_id % 65536 % 256 = stream_id % 256 := by omega
  have h3 : body.length % 65536 / 256 % 256 = body.length / 256 % 256 := by omega
  have h4 : body.length % 65536 % 256 = body.length % 256 := by omega
  rw [h1, h2, h3, h4]
  by_cases hb : body.length ≠ 0
  · rw [if_pos hb]
    simp only [buf_write, List.cons_append, List.nil_append, List.take_succ_cons,
      List.take_zero, List.drop_succ_cons, List.drop_replicate, cell_t.mk.injEq, true_and]
    have e : 11 + body.length = (body.length) + 1 + 1 + 1 + 1 + 1 + 1 + 1 + 1 + 1 + 1 + 1 := by
      omega
    rw [e]
    simp only [List.drop_succ_cons, List.drop_replicate, List.append_assoc]
  · rw [if_neg hb]
    have hz : body = [] := List.eq_nil_of_length_eq_zero (by omega)
    subst hz
    simp only [List.length_nil, Nat.sub_zero, List.append_nil, Nat.zero_div, Nat.zero_mod,
      cell_t.mk.injEq, true_and, List.cons_append, List.nil_append]

/-- The payload of the sealing rule is a full payload, and its header bytes
are bytes. -/
theorem relay_cell_payload_shape (command stream_id : Nat) (body : List Nat)
    (hlen : body.length ≤ RELAY_PAYLOAD_SIZE) :
    (relay_cell_payload command stream_id body).length = CELL_PAYLOAD_SIZE ∧
    ∀ b ∈ (relay_cell_payload command stream_id body).take 11, b < 256 := by
  unfold relay_cell_payload
  simp only [RELAY_PAYLOAD_SIZE] at hlen
  constructor
  · simp only [List.cons_append, List.nil_append, List.length_cons, List.length_append,
      List.length_replicate, RELAY_PAYLOAD_SIZE, CELL_PAYLOAD_SIZE]
    omega
  · intro b hb
    simp only [List.cons_append, List.nil_append, List.take_succ_cons, List.take_zero,
      List.mem_cons, List.mem_singleton, List.not_mem_nil, or_false] at hb
    rcases hb with h | h | h | h | h | h | h | h | h | h | h <;> subst h <;> omega

/-- The layering rule on the hops and the layering rule on the forward
ciphers alone agree: same status, same payload, the ciphers of the hops left
are the ciphers left, and the forward digests of the hops stay. -/
theorem apply_forward_ciphers_seal :
    ∀ (hops : List Nat) (cpath : List (crypt_path_t κ δ)) (payload : List Nat),
      (apply_forward_ciphers ops hops cpath payload).1 =
        (seal_forward ops hops (cpath.map (fun h => h.f_crypto)) payload).1 ∧
      (apply_forward_ciphers ops hops cpath payload).2.1.map (fun h => h.f_crypto) =
        (seal_forward ops hops (cpath.map (fun h => h.f_crypto)) payload).2.1 ∧
      (apply_forward_ciphers ops hops cpath payload).2.2 =
        (seal_forward ops hops (cpath.map (fun h => h.f_crypto)) payload).2.2 ∧
      (apply_forward_ciphers ops hops cpath payload).2.1.map (fun h => h.f_digest) =
        cpath.map (fun h => h.f_digest) := by
  intro hops
  induction hops with
  | nil => intro cpath payload; exact ⟨rfl, rfl, rfl, rfl⟩
  | cons i rest ih =>
    intro cpath payload
    unfold apply_forward_ciphers seal_forward
    rw [List.getElem?_map]
    cases hi : cpath[i]? with
    | none => exact ⟨rfl, rfl, rfl, rfl⟩
    | some hop =>
      simp only [Option.map_some']
      have hset : (cpath.set i { hop with
          f_crypto := (ops.crypto_cipher_crypt_inplace hop.f_crypto payload).2.1 }).map
            (fun h => h.f_crypto) =
          (cpath.map (fun h => h.f_crypto)).set i
            (ops.crypto_cipher_crypt_inplace hop.f_crypto payload).2.1 := by
        rw [List.map_set]
      have hdig : (cpath.set i { hop with
          f_crypto := (ops.crypto_cipher_crypt_inplace hop.f_crypto payload).2.1 }).map
            (fun h => h.f_digest) = cpath.map (fun h => h.f_digest) :=
        list_map_set_same _ _ _ _ _ hi rfl
      by_cases hr : (ops.crypto_cipher_crypt_inplace hop.f_crypto payload).1 ≠ 0
      · rw [if_pos hr, if_pos hr]
        exact ⟨rfl, hset, rfl, hdig⟩
      · rw [if_neg hr, if_neg hr]
        obtain ⟨a, b, c, d⟩ := ih (cpath.set i { hop with
          f_crypto := (ops.crypto_cipher_crypt_inplace hop.f_crypto payload).2.1 })
          (ops.crypto_cipher_crypt_inplace hop.f_crypto payload).2.2
        rw [hset] at a b c
        exact ⟨a, b, c, d.trans hdig⟩

/-- The hand-overs among the calls of two traces in a row. -/
theorem queued_cells_append (t u : List action) :
    queued_cells (t ++ u) = queued_cells t ++ queued_cells u := by
  unfold queued_cells
  rw [List.filter_append]

/-- The inbound branch of `circuit_package_relay_cell` at a relayed circuit
with a previous connection, for a cell with a full payload whose header
bytes are bytes, in terms of the crypto collaborator: the digest toward the
origin is fed the payload, the first four bytes read out of it are written
at offset 5, and the cipher toward the origin is called once on the
result. -/
theorem circuit_package_relay_cell_inbound (hwf : ops.wf) (cell : cell_t)
    (circ : circuit_t κ δ) (pc : Nat) (layer : Option Nat)
    (ho : circ.is_origin = false) (hp : circ.p_conn = some pc)
    (hl : cell.payload.length = CELL_PAYLOAD_SIZE)
    (hb : ∀ b ∈ cell.payload.take 11, b < 256) :
    circuit_package_relay_cell ops cell circ CELL_DIRECTION_IN layer =
      if (ops.crypto_cipher_crypt_inplace circ.p_crypto
          (buf_write cell.payload 5 (ops.crypto_digest_get_digest
            (ops.crypto_digest_add_bytes circ.p_digest cell.payload) 4))).1 ≠ 0 then
        some (-1,
          { circ with
            p_digest := ops.crypto_digest_add_bytes circ.p_digest cell.payload
            p_crypto := (ops.crypto_cipher_crypt_inplace circ.p_crypto
              (buf_write cell.payload 5 (ops.crypto_digest_get_digest
                (ops.crypto_digest_add_bytes circ.p_digest cell.payload) 4))).2.1 },
          { cell with
            payload := (ops.crypto_cipher_crypt_inplace circ.p_crypto
              (buf_write cell.payload 5 (ops.crypto_digest_get_digest
                (ops.crypto_digest_add_bytes circ.p_digest cell.payload) 4))).2.2 })
      else
        some (0,
          ({ circ with
            p_digest := ops.crypto_digest_add_bytes circ.p_digest cell.payload
            p_crypto := (ops.crypto_cipher_crypt_inplace circ.p_crypto
              (buf_write cell.payload 5 (ops.crypto_digest_get_digest
                (ops.crypto_digest_add_bytes circ.p_digest cell.payload) 4))).2.1 }).emit
            (.append_cell_to_circuit_queue (some pc)
              { cell with
                payload := (ops.crypto_cipher_crypt_inplace circ.p_crypto
                  (buf_write cell.payload 5 (ops.crypto_digest_get_digest
                    (ops.crypto_digest_add_bytes circ.p_digest cell.payload) 4))).2.2 }
              CELL_DIRECTION_IN),
          { cell with
            payload := (ops.crypto_cipher_crypt_inplace circ.p_crypto
              (buf_write cell.payload 5 (ops.crypto_digest_get_digest
                (ops.crypto_digest_add_bytes circ.p_digest cell.payload) 4))).2.2 }) := by
  obtain ⟨hsd, hsl⟩ := relay_set_digest_stamp ops hwf circ.p_digest cell hl hb
  generalize ops.crypto_digest_add_bytes circ.p_digest cell.payload = d1 at hsd hsl ⊢
  generalize buf_write cell.payload 5 (ops.crypto_digest_get_digest d1 4) = stamped
    at hsd hsl ⊢
  have hfull := relay_crypt_one_payload_full ops circ.p_crypto stamped 1 hsl
  generalize ops.crypto_cipher_crypt_inplace circ.p_crypto stamped = res at hfull ⊢
  unfold circuit_package_relay_cell
  simp only []
  rw [if_neg (by simp [ho]), hsd]
  simp only []
  rw [hfull]
  simp only []
  by_cases hr : res.1 ≠ 0
  · rw [if_pos hr, if_pos hr, if_pos (by decide)]
  · rw [if_neg hr, if_neg hr, if_neg (by decide), hp]

/-- The choice between RELAY and RELAY_EARLY at an origin circuit whose
RELAY_EARLY bookkeeping fits its array, for a command other than EXTEND and
an existing target hop: a RELAY_EARLY cell is spent when one is left and the
target is not the first hop. -/
theorem relay_early_choice_rule (cell : cell_t) (c : circuit_t κ δ) (cmd l : Nat)
    (ho : c.is_origin = true) (hok : relay_early_ok c = true) (hl : l < c.cpath.length)
    (hcmd : cmd ≠ RELAY_COMMAND_EXTEND) :
    relay_early_choice cell c cmd (some l) =
      if (decide (c.remaining_relay_early_cells > 0) && decide (l ≠ 0)) = true then
        some ({ cell with command := CELL_RELAY_EARLY },
          { c with
            remaining_relay_early_cells := c.remaining_relay_early_cells - 1
            relay_early_commands :=
              c.relay_early_commands.set c.relay_early_cells_sent (cmd % 256)
            relay_early_cells_sent := c.relay_early_cells_sent + 1 })
      else some (cell, c) := by
  rw [relay_early_ok_iff] at hok
  unfold relay_early_choice
  rw [if_neg (by simp [ho])]
  have hhead : cpath_head c.cpath = some 0 := by
    unfold cpath_head
    have : c.cpath.isEmpty = false := by
      cases hc : c.cpath with
      | nil => rw [hc] at hl; simp at hl
      | cons a b => rfl
    rw [this]
    rfl
  have hne : (cmd == RELAY_COMMAND_EXTEND) = false := by simpa using hcmd
  have hbne : (some l != cpath_head c.cpath) = decide (l ≠ 0) := by
    rw [hhead]
    by_cases h0 : l = 0
    · subst h0; rfl
    · simp [h0]
  rw [hne, hbne, Bool.false_or]
  by_cases hE : (decide (c.remaining_relay_early_cells > 0) && decide (l ≠ 0)) = true
  · rw [if_pos hE, if_pos hE]
    simp only [Bool.and_eq_true, decide_eq_true_eq] at hE
    have hlt : c.relay_early_cells_sent < c.relay_early_commands.length := by omega
    rw [if_pos hlt]
  · rw [if_neg hE, if_neg hE]
    simp only [Bool.false_eq_true, if_false]

/-- The outbound branch of `circuit_package_relay_cell` at an origin
circuit follows the sealing rule: for an existing target hop and a cell with
a full payload whose header bytes are bytes, it returns the status of the
rule, leaves the sealing state of the rule, and the one call it has made is
the hand-over of the rule, if any. -/
theorem circuit_package_relay_cell_outbound_seal (hwf : ops.wf) (cell : cell_t)
    (circ : circuit_t κ δ) (l : Nat) (ho : circ.is_origin = true)
    (hlt : l < circ.cpath.length) (hl : cell.payload.length = CELL_PAYLOAD_SIZE)
    (hb : ∀ b ∈ cell.payload.take 11, b < 256) :
    ∃ c1 cell1, circuit_package_relay_cell ops cell circ CELL_DIRECTION_OUT (some l) =
        some ((seal_outbound ops (seal_view circ) l cell).1, c1, cell1) ∧
      seal_view c1 = (seal_outbound ops (seal_view circ) l cell).2.1 ∧
      c1.trace = circ.trace ++ (seal_outbound ops (seal_view circ) l cell).2.2 := by
  cases hn : circ.n_conn with
  | none =>
    refine ⟨circ, cell, ?_, ?_, ?_⟩
    · unfold circuit_package_relay_cell seal_outbound
      simp only [seal_view, hn, ho, Option.isNone_none, Bool.not_true, Bool.false_or, if_true]
    · unfold seal_outbound
      simp only [seal_view, hn]
    · unfold seal_outbound
      simp only [seal_view, hn, List.append_nil]
  | some nc =>
    have hhop : circ.cpath[l]? = some (circ.cpath.get ⟨l, hlt⟩) := List.getElem?_eq_getElem hlt
    generalize circ.cpath.get ⟨l, hlt⟩ = hop at hhop
    have hdl : (circ.cpath.map (fun h => h.f_digest))[l]? = some hop.f_digest := by
      rw [List.getElem?_map, hhop]
      rfl
    obtain ⟨a1, a2, a3, a4⟩ := apply_forward_ciphers_seal ops (hops_toward_head l)
      (circ.cpath.set l
        { hop with f_digest := ops.crypto_digest_add_bytes hop.f_digest cell.payload })
      (buf_write cell.payload 5
        (ops.crypto_digest_get_digest (ops.crypto_digest_add_bytes hop.f_digest cell.payload) 4))
    have hk : (circ.cpath.set l
        { hop with f_digest := ops.crypto_digest_add_bytes hop.f_digest cell.payload }).map
          (fun h => h.f_crypto) = circ.cpath.map (fun h => h.f_crypto) :=
      list_map_set_same _ _ _ _ _ hhop rfl
    have hd : (circ.cpath.set l
        { hop with f_digest := ops.crypto_digest_add_bytes hop.f_digest cell.payload }).map
          (fun h => h.f_digest) =
        (circ.cpath.map (fun h => h.f_digest)).set l
          (ops.crypto_digest_add_bytes hop.f_digest cell.payload) := by
      rw [List.map_set]
    rw [hk] at a1 a2 a3
    rw [hd] at a4
    have hmain := circuit_package_relay_cell_outbound ops hwf cell circ l nc hop ho hn hhop hl hb
      _ _ _ rfl
    rw [hmain]
    unfold seal_outbound
    simp only [seal_view, hn, hdl]
    rw [← a1, ← a2, ← a3]
    generalize apply_forward_ciphers ops (hops_toward_head l)
      (circ.cpath.set l
        { hop with f_digest := ops.crypto_digest_add_bytes hop.f_digest cell.payload })
      (buf_write cell.payload 5
        (ops.crypto_digest_get_digest (ops.crypto_digest_add_bytes hop.f_digest cell.payload) 4))
      = res at a4 ⊢
    by_cases hr : res.1 < 0
    · rw [if_pos hr, if_pos hr]
      refine ⟨_, _, rfl, ?_, ?_⟩
      · simp only [a4]
      · simp only [List.append_nil]
    · rw [if_neg hr, if_neg hr]
      refine ⟨_, _, rfl, ?_, ?_⟩
      · simp only [circuit_t.emit, a4]
      · rfl

/-- The status of `seal_outbound` is 0 or -1. -/
theorem seal_outbound_status (s : seal_t κ δ) (l : Nat) (cell : cell_t) :
    (seal_outbound ops s l cell).1 = 0 ∨ (seal_outbound ops s l cell).1 = -1 := by
  unfold seal_outbound
  split
  · exact Or.inl rfl
  · split
    · exact Or.inr rfl
    · simp only []
      split
      · exact Or.inr rfl
      · exact Or.inl rfl

/-- Sending a relay cell from the edge follows the sealing rule: on a
circuit that `send_ok` accepts, with a body that fits a cell and a command
other than EXTEND, `relay_send_command_from_edge` returns the status of the
rule and leaves the sealing state of the rule; the calls it has made are the
hand-over of the rule, if any, and, when the status is -1, the marking of
the circuit for close. -/
theorem relay_send_command_from_edge_seal (hwf : ops.wf) (sid : Nat) (c : circuit_t κ δ)
    (cmd : Nat) (body : List Nat) (layer : Option Nat)
    (hlen : body.length ≤ RELAY_PAYLOAD_SIZE) (hok : send_ok c layer = true)
    (hcmd : cmd ≠ RELAY_COMMAND_EXTEND) :
    ∃ c1, relay_send_command_from_edge ops sid c cmd body layer =
        some ((seal_cell ops (seal_view c) layer sid cmd body).1, c1) ∧
      seal_view c1 = (seal_cell ops (seal_view c) layer sid cmd body).2.1 ∧
      c1.trace = c.trace ++ (seal_cell ops (seal_view c) layer sid cmd body).2.2 ++
        (if (seal_cell ops (seal_view c) layer sid cmd body).1 < 0 then
          [.circuit_mark_for_close END_CIRC_REASON_INTERNAL] else []) := by
  simp only [send_ok, Bool.and_eq_true] at hok
  obtain ⟨⟨hl, he⟩, hpc⟩ := hok
  obtain ⟨hplen, hpb⟩ := relay_cell_payload_shape cmd sid body hlen
  unfold relay_send_command_from_edge
  rw [if_neg (Nat.not_lt.mpr hlen)]
  cases layer with
  | none =>
    simp only [layer_ok, Bool.not_eq_true'] at hl
    have hpsome : c.p_conn.isSome = true := by simpa [hl] using hpc
    obtain ⟨pc, hpc1⟩ := Option.isSome_iff_exists.mp hpsome
    simp only [Option.isSome_none, Bool.false_eq_true, if_false, hl, Bool.not_false, if_true]
    rw [relay_send_cell_payload _ _ _ _ hlen,
      circuit_package_relay_cell_inbound ops hwf _ c pc none hl hpc1 hplen hpb]
    unfold seal_cell seal_inbound
    simp only [seal_view, hl, Bool.false_eq_true, if_false]
    generalize ops.crypto_cipher_crypt_inplace c.p_crypto
      (buf_write (relay_cell_payload cmd sid body) 5
        (ops.crypto_digest_get_digest
          (ops.crypto_digest_add_bytes c.p_digest (relay_cell_payload cmd sid body)) 4)) = res
    by_cases hr : res.1 ≠ 0
    · rw [if_pos hr, if_pos hr]
      simp only []
      rw [if_pos (by decide)]
      refine ⟨_, rfl, rfl, ?_⟩
      rw [if_pos (by decide)]
      simp only [circuit_mark_for_close, circuit_t.emit, List.append_nil]
    · rw [if_neg hr, if_neg hr]
      simp only []
      rw [if_neg (by decide)]
      refine ⟨_, rfl, rfl, ?_⟩
      rw [if_neg (by decide)]
      simp only [circuit_t.emit, hpc1, List.append_nil]
  | some l =>
    simp only [layer_ok, Bool.and_eq_true, decide_eq_true_eq] at hl
    obtain ⟨ho, hlt⟩ := hl
    simp only [Option.isSome_some, if_true]
    rw [relay_send_cell_payload _ _ _ _ hlen, relay_early_choice_rule _ c cmd l ho he hlt hcmd]
    unfold seal_cell
    simp only []
    have key : ∀ (cell0 : cell_t) (c0 : circuit_t κ δ),
        c0.is_origin = true → l < c0.cpath.length →
        cell0.payload.length = CELL_PAYLOAD_SIZE → (∀ b ∈ cell0.payload.take 11, b < 256) →
        ∃ c1, (match circuit_package_relay_cell ops cell0 c0 CELL_DIRECTION_OUT (some l) with
            | none => none
            | some (r, circ1, _) =>
              if r < 0 then
                some (-1, circuit_mark_for_close circ1 END_CIRC_REASON_INTERNAL)
              else some (0, circ1)) =
            some ((seal_outbound ops (seal_view c0) l cell0).1, c1) ∧
          seal_view c1 = (seal_outbound ops (seal_view c0) l cell0).2.1 ∧
          c1.trace = c0.trace ++ (seal_outbound ops (seal_view c0) l cell0).2.2 ++
            (if (seal_outbound ops (seal_view c0) l cell0).1 < 0 then
              [.circuit_mark_for_close END_CIRC_REASON_INTERNAL] else []) := by
      intro cell0 c0 ho0 hlt0 hl0 hb0
      obtain ⟨c1, cell1, h1, h2, h3⟩ :=
        circuit_package_relay_cell_outbound_seal ops hwf cell0 c0 l ho0 hlt0 hl0 hb0
      rw [h1]
      simp only []
      rcases seal_outbound_status ops (seal_view c0) l cell0 with hs | hs
      · rw [hs]
        rw [if_neg (by decide), if_neg (by decide), List.append_nil]
        exact ⟨c1, rfl, h2, h3⟩
      · rw [hs]
        rw [if_pos (by decide), if_pos (by decide)]
        refine ⟨_, rfl, h2, ?_⟩
        simp only [circuit_mark_for_close, circuit_t.emit, h3]
    by_cases hE : (decide (c.remaining_relay_early_cells > 0) && decide (l ≠ 0)) = true
    · have hE1 : (decide ((seal_view c).remaining_relay_early_cells > 0) && decide (l ≠ 0)) =
          true := hE
      rw [if_pos hE]
      simp only [if_pos hE1]
      exact key ⟨c.n_circ_id, CELL_RELAY_EARLY, relay_cell_payload cmd sid body⟩
        { c with
          remaining_relay_early_cells := c.remaining_relay_early_cells - 1
          relay_early_commands :=
            c.relay_early_commands.set c.relay_early_cells_sent (cmd % 256)
          relay_early_cells_sent := c.relay_early_cells_sent + 1 }
        ho hlt hplen hpb
    · have hE1 : ¬ (decide ((seal_view c).remaining_relay_early_cells > 0) && decide (l ≠ 0)) =
          true := hE
      rw [if_neg hE]
      simp only [if_neg hE1]
      exact key ⟨c.n_circ_id, CELL_RELAY, relay_cell_payload cmd sid body⟩ c ho hlt hplen hpb

/-- Every hand-over of the sealing rule for an outbound cell is a hand-over
to a cell queue, and there is at most one. -/
theorem seal_outbound_queued (s : seal_t κ δ) (l : Nat) (cell : cell_t) :
    queued_cells (seal_outbound ops s l cell).2.2 = (seal_outbound ops s l cell).2.2 ∧
      (seal_outbound ops s l cell).2.1.is_origin = s.is_origin ∧
      (seal_outbound ops s l cell).2.1.n_conn = s.n_conn ∧
      (seal_outbound ops s l cell).2.1.p_conn = s.p_conn ∧
      ((seal_outbound ops s l cell).1 = 0 → s.n_conn.isSome = true →
        (seal_outbound ops s l cell).2.2.length = 1) := by
  unfold seal_outbound
  split
  · rename_i hn
    refine ⟨rfl, rfl, rfl, rfl, ?_⟩
    intro _ h
    rw [hn] at h
    cases h
  · split
    · exact ⟨rfl, rfl, rfl, rfl, fun h => by cases h⟩
    · simp only []
      split
      · exact ⟨rfl, rfl, rfl, rfl, fun h => by cases h⟩
      · exact ⟨rfl, rfl, rfl, rfl, fun _ _ => rfl⟩

/-- The sealing rule for one cell: its status is 0 or -1, its hand-overs are
hand-overs to a cell queue, it keeps the kind of circuit and the two
connections, and with status 0 it hands over exactly one cell unless the
cell leaves an origin circuit that has no next connection. -/
theorem seal_cell_queued (s : seal_t κ δ) (layer : Option Nat) (sid cmd : Nat)
    (body : List Nat) :
    ((seal_cell ops s layer sid cmd body).1 = 0 ∨ (seal_cell ops s layer sid cmd body).1 = -1) ∧
      queued_cells (seal_cell ops s layer sid cmd body).2.2 =
        (seal_cell ops s layer sid cmd body).2.2 ∧
      (seal_cell ops s layer sid cmd body).2.1.is_origin = s.is_origin ∧
      (seal_cell ops s layer sid cmd body).2.1.n_conn = s.n_conn ∧
      (seal_cell ops s layer sid cmd body).2.1.p_conn = s.p_conn ∧
      ((seal_cell ops s layer sid cmd body).1 = 0 →
        (layer.isSome = true → s.n_conn.isSome = true) →
        (seal_cell ops s layer sid cmd body).2.2.length = 1) := by
  unfold seal_cell
  cases layer with
  | some l =>
    simp only []
    split
    · obtain ⟨a, b, c, d, e⟩ := seal_outbound_queued ops
        { s with
          remaining_relay_early_cells := s.remaining_relay_early_cells - 1
          relay_early_commands := s.relay_early_commands.set s.relay_early_cells_sent
            (cmd % 256)
          relay_early_cells_sent := s.relay_early_cells_sent + 1 }
        l ⟨s.n_circ_id, CELL_RELAY_EARLY, relay_cell_payload cmd sid body⟩
      exact ⟨seal_outbound_status ops _ _ _, a, b, c, d, fun h1 h2 => e h1 (h2 rfl)⟩
    · obtain ⟨a, b, c, d, e⟩ := seal_outbound_queued ops s l
        ⟨s.n_circ_id, CELL_RELAY, relay_cell_payload cmd sid body⟩
      exact ⟨seal_outbound_status ops _ _ _, a, b, c, d, fun h1 h2 => e h1 (h2 rfl)⟩
  | none =>
    simp only []
    split
    · exact ⟨Or.inr rfl, rfl, rfl, rfl, rfl, fun h => by cases h⟩
    · unfold seal_inbound
      simp only []
      split
      · exact ⟨Or.inr rfl, rfl, rfl, rfl, rfl, fun h => by cases h⟩
      · exact ⟨Or.inl rfl, rfl, rfl, rfl, rfl, fun _ _ => rfl⟩

/-- The sealing rule for a run of cells: its status is 0 or -1, its
hand-overs are hand-overs to a cell queue, and with status 0 it hands over
one cell for each body unless the cells leave an origin circuit that has no
next connection. -/
theorem seal_cells_queued (layer : Option Nat) (sid cmd : Nat) :
    ∀ (bodies : List (List Nat)) (s : seal_t κ δ),
      ((seal_cells ops layer sid cmd s bodies).1 = 0 ∨
        (seal_cells ops layer sid cmd s bodies).1 = -1) ∧
      queued_cells (seal_cells ops layer sid cmd s bodies).2.2 =
        (seal_cells ops layer sid cmd s bodies).2.2 ∧
      ((seal_cells ops layer sid cmd s bodies).1 = 0 →
        (layer.isSome = true → s.n_conn.isSome = true) →
        (seal_cells ops layer sid cmd s bodies).2.2.length = bodies.length) := by
  intro bodies
  induction bodies with
  | nil =>
    intro s
    exact ⟨Or.inl rfl, rfl, fun _ _ => rfl⟩
  | cons b bs ih =>
    intro s
    obtain ⟨h1, h2, -, h4, -, h6⟩ := seal_cell_queued ops s layer sid cmd b
    unfold seal_cells
    simp only []
    by_cases hr : (seal_cell ops s layer sid cmd b).1 < 0
    · rw [if_pos hr]
      refine ⟨h1, h2, ?_⟩
      intro h0
      rw [h0] at hr
      exact absurd hr (by decide)
    · rw [if_neg hr]
      obtain ⟨i1, i2, i3⟩ := ih (seal_cell ops s layer sid cmd b).2.1
      refine ⟨i1, ?_, ?_⟩
      · simp only [queued_cells_append, h2, i2]
      · intro h0 hc
        have hz : (seal_cell ops s layer sid cmd b).1 = 0 := by
          rcases h1 with h | h
          · exact h
          · rw [h] at hr
            exact absurd (by decide) hr
        simp only [List.length_append, List.length_cons]
        rw [h6 hz hc, i3 h0 (by rw [h4]; exact hc)]
        omega

/-- Storing a stream keeps the sealing state of the circuit. -/
theorem seal_view_set_conn (c : circuit_t κ δ) (r : conn_ref) (e : edge_connection_t) :
    seal_view (c.set_conn r e) = seal_view c := by
  unfold circuit_t.set_conn
  split <;> rfl

/-- Stopping the reader of a stream keeps the sealing state and hands no
cell to a queue. -/
theorem connection_stop_reading_seal (c c1 : circuit_t κ δ) (r : conn_ref)
    (h : connection_stop_reading c r = some c1) :
    seal_view c1 = seal_view c ∧ queued_cells c1.trace = queued_cells c.trace := by
  unfold connection_stop_reading at h
  split at h
  · cases h
  · cases h
    refine ⟨seal_view_set_conn _ _ _, ?_⟩
    simp only [circuit_t.emit, trace_set_conn, queued_cells_append]
    simp [queued_cells]

/-- Stopping the readers of the streams of a list keeps the sealing state
and hands no cell to a queue. -/
theorem stop_reading_streams_seal (l : stream_list) (p : edge_connection_t → Bool)
    (n : Nat) (c : circuit_t κ δ) :
    seal_view (stop_reading_streams l p c n) = seal_view c ∧
      queued_cells (stop_reading_streams l p c n).trace = queued_cells c.trace := by
  unfold stop_reading_streams
  generalize List.range n = is
  induction is generalizing c with
  | nil => exact ⟨rfl, rfl⟩
  | cons i is ih =>
    rw [List.foldl_cons]
    split
    · exact ih c
    · split
      · cases hs : connection_stop_reading c ⟨l, i⟩ with
        | none => exact ih c
        | some c1 =>
          obtain ⟨a, b⟩ := connection_stop_reading_seal c c1 _ hs
          obtain ⟨a1, b1⟩ := ih c1
          exact ⟨a1.trans a, b1.trans b⟩
      · exact ih c

/-- The check of the package window before reading keeps the sealing state
and hands no cell to a queue. -/
theorem circuit_consider_stop_edge_reading_seal (c c1 : circuit_t κ δ) (layer : Option Nat)
    (b : Bool) (h : circuit_consider_stop_edge_reading c layer = some (b, c1)) :
    seal_view c1 = seal_view c ∧ queued_cells c1.trace = queued_cells c.trace := by
  unfold circuit_consider_stop_edge_reading at h
  split at h
  · split at h
    · cases h
    · split at h
      · cases h
        exact stop_reading_streams_seal _ _ _ _
      · cases h
        exact ⟨rfl, rfl⟩
  · split at h
    · cases h
    · split at h
      · split at h
        · cases h
        · cases h
          exact stop_reading_streams_seal _ _ _ _
      · cases h
        exact ⟨rfl, rfl⟩

/-- The decrement of a package window keeps the sealing state. -/
theorem package_window_decrement_seal (c c1 : circuit_t κ δ) (layer : Option Nat)
    (h : package_window_decrement c layer = some c1) : seal_view c1 = seal_view c := by
  unfold package_window_decrement at h
  split at h
  · split at h
    · cases h
      rfl
    · cases h
  · split at h
    · cases h
    · rename_i lh hop hget
      split at h
      · cases h
        unfold seal_view
        simp only [seal_t.mk.injEq, true_and, and_true]
        exact ⟨list_map_set_same _ _ _ _ _ hget rfl, list_map_set_same _ _ _ _ _ hget rfl⟩
      · cases h

/-- The increment of a deliver window keeps the sealing state and the
trace. -/
theorem circuit_deliver_window_increment_seal (c c1 : circuit_t κ δ) (layer : Option Nat)
    (h : circuit_deliver_window_increment c layer = some c1) :
    seal_view c1 = seal_view c ∧ c1.trace = c.trace := by
  unfold circuit_deliver_window_increment at h
  cases layer with
  | none =>
    cases h
    exact ⟨rfl, rfl⟩
  | some lh =>
    simp only [Option.map_eq_some'] at h
    obtain ⟨hop, hget, h⟩ := h
    subst h
    refine ⟨?_, rfl⟩
    unfold seal_view
    simp only [seal_t.mk.injEq, true_and, and_true]
    exact ⟨list_map_set_same _ _ _ _ _ hget rfl, list_map_set_same _ _ _ _ _ hget rfl⟩

/-- The circuit-level SENDME loop follows the sealing rule: with fuel for
the cells needed it returns, having raised the window by 100 for each of `k`
SENDME cells with stream id 0 and an empty body, `k` no more than the cells
needed and exactly that many when the rule ends with status 0; the sealing
state is the one the rule leaves, and the calls made are the hand-overs of
the rule and, when the rule ends with -1, the marking of the circuit for
close. -/
theorem circuit_consider_sending_sendme_loop_seal (hwf : ops.wf) (lh : Option Nat) :
    ∀ (fuel : Nat) (c : circuit_t κ δ) (w : Int),
      send_ok c lh = true → circuit_deliver_window c lh = some w →
      sendme_cells_needed w + 1 ≤ fuel →
      ∃ (c1 : circuit_t κ δ) (k : Nat),
        circuit_consider_sending_sendme_loop ops fuel c lh = some c1 ∧
        circuit_deliver_window c1 lh = some (w + 100 * (k : Int)) ∧
        k ≤ sendme_cells_needed w ∧
        seal_view c1 = (seal_cells ops lh 0 RELAY_COMMAND_SENDME (seal_view c)
          (List.replicate k [])).2.1 ∧
        c1.trace = c.trace ++ (seal_cells ops lh 0 RELAY_COMMAND_SENDME (seal_view c)
            (List.replicate k [])).2.2 ++
          (if (seal_cells ops lh 0 RELAY_COMMAND_SENDME (seal_view c)
              (List.replicate k [])).1 < 0 then
            [.circuit_mark_for_close END_CIRC_REASON_INTERNAL] else []) ∧
        ((seal_cells ops lh 0 RELAY_COMMAND_SENDME (seal_view c)
            (List.replicate k [])).1 = 0 → k = sendme_cells_needed w) := by
  intro fuel
  induction fuel with
  | zero => intro c w _ _ hf; omega
  | succ n ih =>
    intro c w hok hw hf
    have hl : layer_ok c.is_origin c.cpath.length lh = true := by
      simp only [send_ok, Bool.and_eq_true] at hok
      exact hok.1.1
    obtain ⟨hc0, hc1⟩ := sendme_cells_needed_ceiling w
    unfold circuit_consider_sending_sendme_loop
    simp only [hw]
    by_cases hlt : w < CIRCWINDOW_START - CIRCWINDOW_INCREMENT
    · rw [if_pos hlt]
      have hlt9 : w < 900 := hlt
      obtain ⟨hk1, hk2⟩ := hc1 hlt9
      obtain ⟨w0, c1, hw0, h1, hw1, -, -, hk⟩ := circuit_deliver_window_increment_total c lh hl
      rw [hw] at hw0
      cases hw0
      obtain ⟨hsv1, htr1⟩ := circuit_deliver_window_increment_seal c c1 lh h1
      rw [h1]
      simp only
      have hok1 : send_ok c1 lh = true := by rw [hk]; exact hok
      obtain ⟨r, c2, h2, hr, hv2, hs2⟩ := relay_send_command_from_edge_total ops 0 c1
        RELAY_COMMAND_SENDME [] lh (by decide) hok1
      obtain ⟨c2a, h2a, hsv2, htr2⟩ := relay_send_command_from_edge_seal ops hwf 0 c1
        RELAY_COMMAND_SENDME [] lh (by decide) hok1 (by decide)
      rw [h2] at h2a
      simp only [Option.some.injEq, Prod.mk.injEq] at h2a
      obtain ⟨hrs, hcc⟩ := h2a
      subst hcc
      rw [hsv1] at hsv2 htr2 hrs
      rw [htr1] at htr2
      rw [h2]
      simp only
      have hw2 : circuit_deliver_window c2 lh = some (w + CIRCWINDOW_INCREMENT) := by
        rw [circuit_deliver_window_of_send_view _ _ _ hv2, hw1]
      obtain ⟨hn0, hn1⟩ := sendme_cells_needed_ceiling (w + CIRCWINDOW_INCREMENT)
      have hstep : sendme_cells_needed w = sendme_cells_needed (w + CIRCWINDOW_INCREMENT) + 1 := by
        have hinc : CIRCWINDOW_INCREMENT = 100 := rfl
        by_cases h9 : w + CIRCWINDOW_INCREMENT < 900
        · obtain ⟨a, b⟩ := hn1 h9
          omega
        · have := hn0 h9
          omega
      by_cases hneg : r < 0
      · rw [if_pos hneg]
        have hneg1 : (seal_cell ops (seal_view c) lh 0 RELAY_COMMAND_SENDME []).1 < 0 := by
          rw [← hrs]; exact hneg
        have hR : seal_cells ops lh 0 RELAY_COMMAND_SENDME (seal_view c) (List.replicate 1 []) =
            seal_cell ops (seal_view c) lh 0 RELAY_COMMAND_SENDME [] := by
          simp only [List.replicate, seal_cells]
          rw [if_pos hneg1]
        refine ⟨c2, 1, rfl, ?_, ?_, ?_, ?_, ?_⟩
        · rw [hw2]
          simp only [CIRCWINDOW_INCREMENT, Nat.cast_one, mul_one]
        · omega
        · rw [hR]; exact hsv2
        · rw [hR]; exact htr2
        · rw [hR]
          intro h0
          rw [h0] at hneg1
          exact absurd hneg1 (by decide)
      · rw [if_neg hneg]
        have hneg1 : ¬ (seal_cell ops (seal_view c) lh 0 RELAY_COMMAND_SENDME []).1 < 0 := by
          rw [← hrs]; exact hneg
        obtain ⟨c3, k, h3, hw3, hle3, hsv3, htr3, hall3⟩ :=
          ih c2 _ (hs2 _ hok1) hw2 (by omega)
        rw [hsv2] at hsv3 htr3 hall3
        rw [htr2, if_neg hneg1, List.append_nil] at htr3
        have hR : seal_cells ops lh 0 RELAY_COMMAND_SENDME (seal_view c)
            (List.replicate (k + 1) []) =
            ((seal_cells ops lh 0 RELAY_COMMAND_SENDME
                (seal_cell ops (seal_view c) lh 0 RELAY_COMMAND_SENDME []).2.1
                (List.replicate k [])).1,
              (seal_cells ops lh 0 RELAY_COMMAND_SENDME
                (seal_cell ops (seal_view c) lh 0 RELAY_COMMAND_SENDME []).2.1
                (List.replicate k [])).2.1,
              (seal_cell ops (seal_view c) lh 0 RELAY_COMMAND_SENDME []).2.2 ++
                (seal_cells ops lh 0 RELAY_COMMAND_SENDME
                  (seal_cell ops (seal_view c) lh 0 RELAY_COMMAND_SENDME []).2.1
                  (List.replicate k [])).2.2) := by
          simp only [List.replicate, seal_cells]
          rw [if_neg hneg1]
        rw [h3]
        refine ⟨c3, k + 1, rfl, ?_, ?_, ?_, ?_, ?_⟩
        · rw [hw3]
          simp only [CIRCWINDOW_INCREMENT, Nat.cast_add, Nat.cast_one]
          congr 1
          ring
        · omega
        · rw [hR]; exact hsv3
        · rw [hR]
          simp only []
          rw [htr3]
          simp only [List.append_assoc]
        · rw [hR]
          simp only []
          intro h0
          rw [hall3 h0]
          omega
    · rw [if_neg hlt]
      have h9 : ¬ w < 900 := hlt
      refine ⟨c, 0, rfl, ?_, ?_, rfl, ?_, ?_⟩
      · simpa using hw
      · omega
      · simp only [List.replicate, seal_cells]
        rw [if_neg (by decide)]
        simp only [List.append_nil]
      · intro _
        rw [hc0 h9]

/-- C37, amended to a circuit that has the connection its SENDME cells leave
on: `circuit_consider_sending_sendme` on a circuit on which a cell for the
hop `lh` can be sent, with the deliver window `w`.  It returns for every
`w`, having raised the window by 100 for each of `k` relay cells with the
command SENDME, stream id 0 and an empty body that it sealed one after the
other as the sealing rule has it: the sealing state it leaves is the one of
the rule, and the calls it made are the hand-overs to the cell queue of the
rule, in order, followed by the marking of the circuit for close when the
rule ends with -1 (a send failed).  `k` is at most the ceiling of
`(900 - w) / 100` (none when `w` is 900 or more).  When the rule ends with 0
(every send succeeds) `k` is exactly that ceiling, the window is between 900
and 999 when `k` is not 0 and `w` when it is, and, unless the circuit is an
origin circuit without a next connection, exactly `k` cells were handed to
the queue. -/
theorem circuit_consider_sending_sendme_count (hwf : ops.wf) (c : circuit_t κ δ)
    (lh : Option Nat) (w : Int)
    (hok : send_ok c lh = true) (hw : circuit_deliver_window c lh = some w) :
    ∃ (c1 : circuit_t κ δ) (k : Nat),
      circuit_consider_sending_sendme ops c lh = some c1 ∧
      circuit_deliver_window c1 lh = some (w + 100 * (k : Int)) ∧
      k ≤ sendme_cells_needed w ∧
      (¬ w < 900 → sendme_cells_needed w = 0) ∧
      (w < 900 → 900 - w ≤ 100 * (sendme_cells_needed w : Int) ∧
        100 * (sendme_cells_needed w : Int) < 900 - w + 100) ∧
      seal_view c1 = (seal_cells ops lh 0 RELAY_COMMAND_SENDME (seal_view c)
        (List.replicate k [])).2.1 ∧
      c1.trace = c.trace ++ (seal_cells ops lh 0 RELAY_COMMAND_SENDME (seal_view c)
          (List.replicate k [])).2.2 ++
        (if (seal_cells ops lh 0 RELAY_COMMAND_SENDME (seal_view c)
            (List.replicate k [])).1 < 0 then
          [.circuit_mark_for_close END_CIRC_REASON_INTERNAL] else []) ∧
      ((seal_cells ops lh 0 RELAY_COMMAND_SENDME (seal_view c) (List.replicate k [])).1 = 0 →
        k = sendme_cells_needed w ∧
        (k ≠ 0 → 900 ≤ w + 100 * (k : Int) ∧ w + 100 * (k : Int) ≤ 999) ∧
        (k = 0 → w + 100 * (k : Int) = w) ∧
        ((c.is_origin = true → c.n_conn.isSome = true) →
          (seal_cells ops lh 0 RELAY_COMMAND_SENDME (seal_view c)
            (List.replicate k [])).2.2.length = k)) := by
  obtain ⟨hc0, hc1⟩ := sendme_cells_needed_ceiling w
  have hfuel : sendme_cells_needed w + 1 ≤
      (CIRCWINDOW_START - CIRCWINDOW_INCREMENT - w).toNat / 100 + 2 := by
    simp only [CIRCWINDOW_START, CIRCWINDOW_INCREMENT]
    by_cases h9 : w < 900
    · obtain ⟨a, b⟩ := hc1 h9
      omega
    · rw [hc0 h9]
      omega
  obtain ⟨c1, k, h1, hw1, hle, hsv, htr, hall⟩ :=
    circuit_consider_sending_sendme_loop_seal ops hwf lh _ c w hok hw hfuel
  refine ⟨c1, k, ?_, hw1, hle, hc0, hc1, hsv, htr, ?_⟩
  · unfold circuit_consider_sending_sendme
    simp only [hw]
    exact h1
  · intro hs
    have hlen := hall hs
    refine ⟨hlen, ?_, ?_, ?_⟩
    · intro hne
      have hpos : 0 < k := Nat.pos_of_ne_zero hne
      by_cases h9 : w < 900
      · obtain ⟨a, b⟩ := hc1 h9
        rw [hlen]
        omega
      · rw [hlen, hc0 h9] at hpos
        omega
    · intro he
      rw [he]
      simp
    · intro hconn
      have := (seal_cells_queued ops lh 0 RELAY_COMMAND_SENDME (List.replicate k [])
        (seal_view c)).2.2 hs (by
          intro hsome
          have hl : layer_ok c.is_origin c.cpath.length lh = true := by
            simp only [send_ok, Bool.and_eq_true] at hok
            exact hok.1.1
          cases lh with
          | none => cases hsome
          | some l =>
            simp only [layer_ok, Bool.and_eq_true] at hl
            exact hconn hl.1)
      rw [this, List.length_replicate]

/-- The sealing rule for no cell. -/
theorem seal_cells_nil (layer : Option Nat) (sid cmd : Nat) (s : seal_t κ δ) :
    seal_cells ops layer sid cmd s [] = (0, s, []) := by
  simp only [seal_cells]

/-- The sealing rule for a run whose first cell fails. -/
theorem seal_cells_cons_neg (layer : Option Nat) (sid cmd : Nat) (s : seal_t κ δ)
    (b : List Nat) (bs : List (List Nat)) (h : (seal_cell ops s layer sid cmd b).1 < 0) :
    seal_cells ops layer sid cmd s (b :: bs) = seal_cell ops s layer sid cmd b := by
  simp only [seal_cells]
  rw [if_pos h]

/-- The sealing rule for a run whose first cell succeeds. -/
theorem seal_cells_cons_pos (layer : Option Nat) (sid cmd : Nat) (s : seal_t κ δ)
    (b : List Nat) (bs : List (List Nat)) (h : ¬ (seal_cell ops s layer sid cmd b).1 < 0) :
    seal_cells ops layer sid cmd s (b :: bs) =
      ((seal_cells ops layer sid cmd (seal_cell ops s layer sid cmd b).2.1 bs).1,
        (seal_cells ops layer sid cmd (seal_cell ops s layer sid cmd b).2.1 bs).2.1,
        (seal_cell ops s layer sid cmd b).2.2 ++
          (seal_cells ops layer sid cmd (seal_cell ops s layer sid cmd b).2.1 bs).2.2) := by
  simp only [seal_cells]
  rw [if_neg h]

/-- The packaging loop follows the sealing rule: on a stream that is on its
circuit and not marked, the loop returns 0 having sealed the recorded
payloads, in order, as DATA cells of the stream: the sealing state it leaves
is the one of the rule, the cells it handed to a cell queue are the
hand-overs of the rule, in order, and the last send failed exactly when the
rule ends with -1. -/
theorem connection_edge_package_raw_inbuf_loop_cells_seal (hwf : ops.wf) (conn : conn_ref)
    (pp : Bool) :
    ∀ (fuel : Nat) (c : circuit_t κ δ) (e : edge_connection_t) (pwc : Int),
      c.get_conn conn = some e → e.on_circuit = true → e.marked_for_close = false →
      send_ok c e.cpath_layer = true →
      circuit_package_window c e.cpath_layer = some pwc → e.inbuf.length < fuel →
      ∃ c1 bodies failed,
        connection_edge_package_raw_inbuf_loop_cells ops fuel c conn pp =
          some (0, c1, bodies, failed) ∧
        seal_view c1 = (seal_cells ops e.cpath_layer e.stream_id RELAY_COMMAND_DATA
          (seal_view c) bodies).2.1 ∧
        queued_cells c1.trace = queued_cells c.trace ++
          (seal_cells ops e.cpath_layer e.stream_id RELAY_COMMAND_DATA
            (seal_view c) bodies).2.2 ∧
        (failed = false → (seal_cells ops e.cpath_layer e.stream_id RELAY_COMMAND_DATA
          (seal_view c) bodies).1 = 0) ∧
        (failed = true → (seal_cells ops e.cpath_layer e.stream_id RELAY_COMMAND_DATA
          (seal_view c) bodies).1 = -1) := by
  intro fuel
  induction fuel with
  | zero => intro c e pwc _ _ _ _ _ hf; omega
  | succ n ih =>
    intro c e pwc he hon hmk hok hw hf
    have hl : layer_ok c.is_origin c.cpath.length e.cpath_layer = true := by
      simp only [send_ok, Bool.and_eq_true] at hok
      exact hok.1.1
    obtain ⟨c1, t1, h1, hv1, hr1, ht1, hsame1, -⟩ :=
      circuit_consider_stop_edge_reading_spec c e.cpath_layer pwc hl hw
    obtain ⟨hsv1, hq1⟩ := circuit_consider_stop_edge_reading_seal c c1 _ _ h1
    unfold connection_edge_package_raw_inbuf_loop_cells
    have hnon : ¬ ((!e.on_circuit) = true) := by simp [hon]
    simp only [he]
    rw [if_neg hnon, h1]
    by_cases hc0 : pwc ≤ 0
    · rw [decide_eq_true hc0]
      simp only []
      refine ⟨c1, [], false, rfl, ?_, ?_, fun _ => ?_, fun h => by cases h⟩
      · rw [seal_cells_nil]; exact hsv1
      · rw [seal_cells_nil, hq1, List.append_nil]
      · rw [seal_cells_nil]
    · rw [decide_eq_false hc0]
      simp only []
      have hcc := hsame1 hc0
      subst hcc
      by_cases hs0 : e.package_window ≤ 0
      · rw [if_pos hs0]
        obtain ⟨c2, h2, hv2⟩ := connection_stop_reading_fv c1 conn e he
        obtain ⟨a2, b2⟩ := connection_stop_reading_seal _ _ _ h2
        rw [h2]
        refine ⟨c2, [], false, rfl, ?_, ?_, fun _ => ?_, fun h => by cases h⟩
        · rw [seal_cells_nil]; exact a2
        · rw [seal_cells_nil, b2, List.append_nil]
        · rw [seal_cells_nil]
      · rw [if_neg hs0]
        by_cases ha0 : e.inbuf.length = 0
        · rw [if_pos ha0]
          refine ⟨c1, [], false, rfl, ?_, ?_, fun _ => ?_, fun h => by cases h⟩
          · rw [seal_cells_nil]
          · rw [seal_cells_nil, List.append_nil]
          · rw [seal_cells_nil]
        · rw [if_neg ha0]
          by_cases hpart : (!pp && decide (e.inbuf.length < RELAY_PAYLOAD_SIZE)) = true
          · rw [if_pos hpart]
            refine ⟨c1, [], false, rfl, ?_, ?_, fun _ => ?_, fun h => by cases h⟩
            · rw [seal_cells_nil]
            · rw [seal_cells_nil, List.append_nil]
            · rw [seal_cells_nil]
          · rw [if_neg hpart]
            have hlenfacts : ∃ len : Nat,
                (if e.inbuf.length > RELAY_PAYLOAD_SIZE then RELAY_PAYLOAD_SIZE
                  else e.inbuf.length) = len ∧ 1 ≤ len ∧ len ≤ RELAY_PAYLOAD_SIZE ∧
                len ≤ e.inbuf.length := by
              refine ⟨_, rfl, ?_⟩
              simp only [RELAY_PAYLOAD_SIZE]
              split
              · refine ⟨by omega, by omega, by omega⟩
              · refine ⟨by omega, by omega, by omega⟩
            obtain ⟨len, hlen, hlen1, hlen2, hlen3⟩ := hlenfacts
            simp only [hlen]
            have hpl : (e.inbuf.take len).length = len := by
              rw [List.length_take]; omega
            have he2 : (c1.set_conn conn { e with inbuf := e.inbuf.drop len }).get_conn conn =
                some { e with inbuf := e.inbuf.drop len } :=
              get_conn_set_conn_self c1 conn e _ he
            have hok2 : send_ok (c1.set_conn conn { e with inbuf := e.inbuf.drop len })
                e.cpath_layer = true := by rw [send_ok_set_conn]; exact hok
            obtain ⟨r, c3, h3, hr, hv3, hs3, -, hsend⟩ := connection_edge_send_command_total ops
              (c1.set_conn conn { e with inbuf := e.inbuf.drop len }) conn RELAY_COMMAND_DATA
              (e.inbuf.take len) _ he2 hon (by rw [hpl]; exact hlen2) hok2
            obtain ⟨c3a, h3a, hsv3, htr3⟩ := relay_send_command_from_edge_seal ops hwf
              e.stream_id (c1.set_conn conn { e with inbuf := e.inbuf.drop len })
              RELAY_COMMAND_DATA (e.inbuf.take len) e.cpath_layer (by rw [hpl]; exact hlen2)
              hok2 (by decide)
            have hsame := (hsend hmk).symm.trans h3a
            simp only [Option.some.injEq, Prod.mk.injEq] at hsame
            obtain ⟨hrs, hcc⟩ := hsame
            subst hcc
            rw [seal_view_set_conn] at hsv3 htr3 hrs
            rw [trace_set_conn] at htr3
            obtain ⟨-, hst2, -⟩ := seal_cell_queued ops (seal_view c1) e.cpath_layer e.stream_id
              RELAY_COMMAND_DATA (e.inbuf.take len)
            have hq3 : queued_cells c3.trace = queued_cells c1.trace ++
                (seal_cell ops (seal_view c1) e.cpath_layer e.stream_id RELAY_COMMAND_DATA
                  (e.inbuf.take len)).2.2 := by
              rw [htr3, queued_cells_append, queued_cells_append, hst2]
              split
              · simp [queued_cells]
              · simp [queued_cells]
            have hfv3 := flow_view_of_send_view _ _ hv3
            have hw3 : circuit_package_window c3 e.cpath_layer = some pwc := by
              rw [circuit_package_window_of_flow_view _ _ _ hfv3,
                circuit_package_window_set_conn, hw]
            have he3 : c3.get_conn conn = some { e with inbuf := e.inbuf.drop len } := by
              rw [get_conn_of_send_view _ _ _ hv3, he2]
            have hok3 : send_ok c3 e.cpath_layer = true := hs3 _ hok2
            rw [h3]
            simp only []
            rcases hr with hr | hr
            · -- the send succeeded
              subst hr
              have hnneg : ¬ (seal_cell ops (seal_view c1) e.cpath_layer e.stream_id
                  RELAY_COMMAND_DATA (e.inbuf.take len)).1 < 0 := by
                rw [← hrs]; decide
              rw [if_neg (by decide)]
              obtain ⟨c4, h4, hw4, hs4, ht4, ho4, hcl4, hre4, hpc4⟩ :=
                package_window_decrement_spec c3 e.cpath_layer pwc hw3 (by omega)
              have hsv4 := package_window_decrement_seal c3 c4 _ h4
              rw [h4]
              simp only []
              have he4 : c4.get_conn conn = some { e with inbuf := e.inbuf.drop len } := by
                rw [get_conn_of_streams _ _ _ hs4, he3]
              rw [he4]
              simp only []
              have he5 : (c4.set_conn conn
                  { e with inbuf := e.inbuf.drop len,
                           package_window := e.package_window - 1 }).get_conn conn =
                  some { e with inbuf := e.inbuf.drop len,
                                package_window := e.package_window - 1 } :=
                get_conn_set_conn_self c4 conn _ _ he4
              have hok4 : send_ok c4 e.cpath_layer = true := by
                simp only [send_ok, ho4, hcl4, hre4, hpc4]
                exact hok3
              have hw5 : circuit_package_window (c4.set_conn conn
                  { e with inbuf := e.inbuf.drop len,
                           package_window := e.package_window - 1 }) e.cpath_layer =
                  some (pwc - 1) := by
                rw [circuit_package_window_set_conn, hw4]
              by_cases hz : e.package_window - 1 ≤ 0
              · -- the stream's window reached 0
                rw [if_pos hz]
                obtain ⟨c6, h6, hv6⟩ := connection_stop_reading_fv _ conn _ he5
                obtain ⟨a6, b6⟩ := connection_stop_reading_seal _ _ _ h6
                rw [seal_view_set_conn] at a6
                rw [trace_set_conn] at b6
                rw [h6]
                simp only []
                have hsh6 := shape_of_flow_view _ _ hv6
                have hl6 : layer_ok c6.is_origin c6.cpath.length e.cpath_layer = true := by
                  rw [hsh6.1, hsh6.2, (set_conn_frame c4 conn _).1, (set_conn_frame c4 conn _).2.1]
                  simp only [send_ok, Bool.and_eq_true] at hok4
                  exact hok4.1.1
                have hw6 : circuit_package_window c6 e.cpath_layer = some (pwc - 1) := by
                  rw [circuit_package_window_of_flow_view _ _ _ hv6, hw5]
                obtain ⟨c7, t7, h7, -, -, -, -, -⟩ :=
                  circuit_consider_stop_edge_reading_spec c6 e.cpath_layer (pwc - 1) hl6 hw6
                obtain ⟨a7, b7⟩ := circuit_consider_stop_edge_reading_seal c6 c7 _ _ h7
                rw [h7]
                refine ⟨c7, [e.inbuf.take len], false, rfl, ?_, ?_, fun _ => ?_,
                  fun h => by cases h⟩
                · rw [seal_cells_cons_pos ops _ _ _ _ _ _ hnneg, seal_cells_nil]
                  simp only []
                  rw [a7, a6, hsv4, hsv3]
                · rw [seal_cells_cons_pos ops _ _ _ _ _ _ hnneg, seal_cells_nil]
                  simp only [List.append_nil]
                  rw [b7, b6, ht4, hq3]
                · rw [seal_cells_cons_pos ops _ _ _ _ _ _ hnneg, seal_cells_nil]
              · -- more to do
                rw [if_neg hz]
                obtain ⟨c8, bodies, failed, h8, hsv8, hq8, hf8a, hf8b⟩ :=
                  ih (c4.set_conn conn
                      { e with inbuf := e.inbuf.drop len,
                               package_window := e.package_window - 1 })
                    { e with inbuf := e.inbuf.drop len,
                             package_window := e.package_window - 1 } (pwc - 1)
                    he5 hon hmk (by rw [send_ok_set_conn]; exact hok4) hw5
                    (by simp only [List.length_drop]; omega)
                rw [h8]
                simp only [Option.map_some']
                simp only [seal_view_set_conn, trace_set_conn, hsv4, hsv3, ht4] at hsv8 hq8 hf8a hf8b
                refine ⟨c8, e.inbuf.take len :: bodies, failed, rfl, ?_, ?_, ?_, ?_⟩
                · rw [seal_cells_cons_pos ops _ _ _ _ _ _ hnneg]
                  exact hsv8
                · rw [seal_cells_cons_pos ops _ _ _ _ _ _ hnneg]
                  simp only []
                  rw [hq8, hq3, List.append_assoc]
                · rw [seal_cells_cons_pos ops _ _ _ _ _ _ hnneg]
                  exact hf8a
                · rw [seal_cells_cons_pos ops _ _ _ _ _ _ hnneg]
                  exact hf8b
            · -- the send failed
              subst hr
              have hneg : (seal_cell ops (seal_view c1) e.cpath_layer e.stream_id
                  RELAY_COMMAND_DATA (e.inbuf.take len)).1 < 0 := by
                rw [← hrs]; decide
              rw [if_pos (by decide)]
              refine ⟨c3, [e.inbuf.take len], true, rfl, ?_, ?_, (fun h => by cases h),
                fun _ => ?_⟩
              · rw [seal_cells_cons_neg ops _ _ _ _ _ _ hneg]
                exact hsv3
              · rw [seal_cells_cons_neg ops _ _ _ _ _ _ hneg]
                exact hq3
              · rw [seal_cells_cons_neg ops _ _ _ _ _ _ hneg]
                exact hrs.symm

/-- C13, amended to a stream that is not marked for close: for a stream on
its circuit (in the list the circuit walks, with a hop pointer that fits; a
relayed circuit has its previous connection, which the cell queue asserts),
`connection_edge_package_raw_inbuf` returns 0 having sealed the payloads
`bodies`, in order, as DATA cells of the stream, as the sealing rule has
it: the sealing state it leaves is the one of the rule and the
cells it handed to a cell queue are the hand-overs of the rule, in order.
The concatenation of `bodies` is the bytes removed from the front of the
input buffer; each has 1 to 498 bytes, each but the last exactly 498, and
without `package_partial` each exactly 498.  When the rule ends with 0
(every send succeeds), the stream's package window and the circuit-level
package window have each dropped by the number of payloads, without
`package_partial` fewer than 498 bytes remain or one of the two windows is
exhausted, and, unless the circuit is an origin circuit without a next
connection, one cell for each payload was handed to the queue. -/
theorem package_raw_inbuf_cells_in_order (hwf : ops.wf) (c : circuit_t κ δ)
    (conn : conn_ref) (pp : Bool) (e : edge_connection_t) (pwc : Int)
    (he : c.get_conn conn = some e) (hon : e.on_circuit = true)
    (hmk : e.marked_for_close = false) (hwl : conn.list = walked_list c)
    (hok : send_ok c e.cpath_layer = true)
    (hw : circuit_package_window c e.cpath_layer = some pwc) :
    ∃ c1 bodies e1 pwc1,
      connection_edge_package_raw_inbuf ops c conn pp = some (0, c1) ∧
      c1.get_conn conn = some e1 ∧
      circuit_package_window c1 e.cpath_layer = some pwc1 ∧
      e.inbuf = bodies.flatten ++ e1.inbuf ∧
      (∀ b ∈ bodies, 1 ≤ b.length ∧ b.length ≤ RELAY_PAYLOAD_SIZE) ∧
      (∀ b ∈ bodies.dropLast, b.length = RELAY_PAYLOAD_SIZE) ∧
      (pp = false → ∀ b ∈ bodies, b.length = RELAY_PAYLOAD_SIZE) ∧
      seal_view c1 = (seal_cells ops e.cpath_layer e.stream_id RELAY_COMMAND_DATA
        (seal_view c) bodies).2.1 ∧
      queued_cells c1.trace = queued_cells c.trace ++
        (seal_cells ops e.cpath_layer e.stream_id RELAY_COMMAND_DATA
          (seal_view c) bodies).2.2 ∧
      ((seal_cells ops e.cpath_layer e.stream_id RELAY_COMMAND_DATA
          (seal_view c) bodies).1 = 0 →
        e1.package_window = e.package_window - bodies.length ∧
        pwc1 = pwc - bodies.length ∧
        (pp = false →
          e1.inbuf.length < RELAY_PAYLOAD_SIZE ∨ e1.package_window ≤ 0 ∨ pwc1 ≤ 0) ∧
        ((c.is_origin = true → c.n_conn.isSome = true) →
          (seal_cells ops e.cpath_layer e.stream_id RELAY_COMMAND_DATA
            (seal_view c) bodies).2.2.length = bodies.length)) := by
  obtain ⟨c1, bodies, failed, e1, pwc1, t, hc, h, he1, hw1, -, hin, hsz, hdl, hpp, hwin, -, -,
      -, hret⟩ :=
    connection_edge_package_raw_inbuf_cells_spec ops c conn pp e pwc he hon hmk hwl hok hw
  obtain ⟨c1a, bodies1, failed1, h1a, hsv, hq, -, hfl⟩ :=
    connection_edge_package_raw_inbuf_loop_cells_seal ops hwf conn pp (e.inbuf.length + 1) c e
      pwc he hon hmk hok hw (Nat.lt_succ_self _)
  unfold connection_edge_package_raw_inbuf_cells at hc
  simp only [he] at hc
  rw [if_neg (by simp [hmk]), h1a] at hc
  simp only [Option.some.injEq, Prod.mk.injEq, true_and] at hc
  obtain ⟨hc1, hc2, hc3⟩ := hc
  subst hc1 hc2 hc3
  refine ⟨c1a, bodies1, e1, pwc1, h, he1, hw1, hin, hsz, hdl, hpp, hsv, hq, ?_⟩
  intro h0
  have hnf : failed1 = false := by
    cases hf : failed1 with
    | false => rfl
    | true =>
      have := hfl hf
      rw [h0] at this
      exact absurd this (by decide)
  refine ⟨(hwin hnf).1, (hwin hnf).2, hret hnf, ?_⟩
  intro hconn
  exact (seal_cells_queued ops e.cpath_layer e.stream_id RELAY_COMMAND_DATA bodies1
    (seal_view c)).2.2 h0 (by
      intro hsome
      have hl : layer_ok c.is_origin c.cpath.length e.cpath_layer = true := by
        simp only [send_ok, Bool.and_eq_true] at hok
        exact hok.1.1
      cases hcl : e.cpath_layer with
      | none => rw [hcl] at hsome; cases hsome
      | some l =>
        rw [hcl] at hl
        simp only [layer_ok, Bool.and_eq_true] at hl
        exact hconn hl.1)

end seal_theorems

set_option maxRecDepth 1000000 in
/-- Witness for C13: the stream of `toy_exit` holds the three bytes 104, 105
and 10 and packages them, with `package_partial`, as one DATA cell.  The
bytes leave the input buffer, both windows drop by one, and the one call
made hands the previous connection a RELAY cell with the circuit id 2 whose
payload has the command byte 2, the stream id 5, the integrity field 230
read from the digest, the length 3 and the three bytes.  Without
`package_partial` 1000 bytes give two cells and leave four bytes. -/
theorem package_raw_inbuf_cells_in_order_witness :
    seal_cells toy_ops none 5 RELAY_COMMAND_DATA
        (seal_view (toy_exit_with (fun s => { s with inbuf := [104, 105, 10] })))
        [[104, 105, 10]] =
      (0, { seal_view toy_exit with p_digest := 230 },
        [.append_cell_to_circuit_queue (some 2)
          ⟨2, CELL_RELAY,
            [2, 0, 0, 0, 5, 0, 0, 0, 230, 0, 3, 104, 105, 10] ++ List.replicate 495 0⟩
          CELL_DIRECTION_IN]) ∧
    (connection_edge_package_raw_inbuf toy_ops
      (toy_exit_with (fun s => { s with inbuf := List.replicate 1000 7 }))
      ⟨.n_streams, 0⟩ false).map
      (fun r => (r.1, (queued_cells r.2.trace).length, r.2.package_window,
        r.2.n_streams.map (fun s => (s.package_window, s.inbuf.length)))) =
      some (0, 2, 998, [(498, 4)]) ∧
    ∃ (c1 : circuit_t Nat Nat) (e1 : edge_connection_t),
      connection_edge_package_raw_inbuf toy_ops
        (toy_exit_with (fun s => { s with inbuf := [104, 105, 10] }))
        ⟨.n_streams, 0⟩ true = some (0, c1) ∧
      c1.get_conn ⟨.n_streams, 0⟩ = some e1 ∧ e1.inbuf = [] ∧ e1.package_window = 499 ∧
      circuit_package_window c1 none = some 999 ∧
      seal_view c1 = { seal_view toy_exit with p_digest := 230 } ∧
      queued_cells c1.trace =
        [.append_cell_to_circuit_queue (some 2)
          ⟨2, CELL_RELAY,
            [2, 0, 0, 0, 5, 0, 0, 0, 230, 0, 3, 104, 105, 10] ++ List.replicate 495 0⟩
          CELL_DIRECTION_IN] := by
  have hR : seal_cells toy_ops none 5 RELAY_COMMAND_DATA
        (seal_view (toy_exit_with (fun s => { s with inbuf := [104, 105, 10] })))
        [[104, 105, 10]] =
      (0, { seal_view toy_exit with p_digest := 230 },
        [.append_cell_to_circuit_queue (some 2)
          ⟨2, CELL_RELAY,
            [2, 0, 0, 0, 5, 0, 0, 0, 230, 0, 3, 104, 105, 10] ++ List.replicate 495 0⟩
          CELL_DIRECTION_IN]) := by
    decide
  refine ⟨hR, by decide, ?_⟩
  obtain ⟨c1, bodies, e1, pwc1, h, he1, hw1, hin, hsz, hdl, -, hsv, hq, hwin⟩ :=
    package_raw_inbuf_cells_in_order toy_ops toy_ops_wf
      (toy_exit_with (fun s => { s with inbuf := [104, 105, 10] }))
      ⟨.n_streams, 0⟩ true
      { new_stream CONN_TYPE_EXIT EXIT_CONN_STATE_OPEN 5 none with inbuf := [104, 105, 10] }
      1000 (by decide) (by decide) (by decide) (by decide) (by decide) (by decide)
  have hrun : (connection_edge_package_raw_inbuf toy_ops
      (toy_exit_with (fun s => { s with inbuf := [104, 105, 10] }))
      ⟨.n_streams, 0⟩ true).map
        (fun r => (r.2.get_conn ⟨.n_streams, 0⟩).map (fun s => s.inbuf)) =
      some (some []) := by decide
  rw [h] at hrun
  simp only [Option.map_some', he1, Option.some.injEq] at hrun
  simp only [hrun, List.append_nil] at hin
  have hb : bodies = [[104, 105, 10]] := by
    cases bodies with
    | nil => simp at hin
    | cons b rest =>
      cases rest with
      | nil =>
        simp only [List.flatten_cons, List.flatten_nil, List.append_nil] at hin
        rw [← hin]
      | cons b2 rest2 =>
        have h498 := hdl b (by simp)
        have hl := congrArg List.length hin
        simp only [List.flatten_cons, List.length_append, List.length_cons, List.length_nil,
          h498, RELAY_PAYLOAD_SIZE] at hl
        omega
  subst hb
  replace hsv : seal_view c1 = (seal_cells toy_ops none 5 RELAY_COMMAND_DATA
      (seal_view (toy_exit_with (fun s => { s with inbuf := [104, 105, 10] })))
      [[104, 105, 10]]).2.1 := hsv
  replace hq : queued_cells c1.trace = [] ++ (seal_cells toy_ops none 5 RELAY_COMMAND_DATA
      (seal_view (toy_exit_with (fun s => { s with inbuf := [104, 105, 10] })))
      [[104, 105, 10]]).2.2 := hq
  replace hwin : (seal_cells toy_ops none 5 RELAY_COMMAND_DATA
      (seal_view (toy_exit_with (fun s => { s with inbuf := [104, 105, 10] })))
      [[104, 105, 10]]).1 = 0 → e1.package_window = 500 - 1 ∧ pwc1 = 1000 - 1 :=
    fun h0 => ⟨(hwin h0).1, (hwin h0).2.1⟩
  replace hw1 : circuit_package_window c1 none = some pwc1 := hw1
  rw [hR] at hsv hq hwin
  obtain ⟨hw2, hw3⟩ := hwin rfl
  refine ⟨c1, e1, h, he1, hrun, ?_, ?_, hsv, ?_⟩
  · rw [hw2]
    decide
  · rw [hw1, hw3]
    decide
  · rw [hq]
    rfl

set_option maxRecDepth 1000000 in
/-- C37 at an origin circuit without a next connection, whose second hop has
the deliver window 650, so that three SENDME cells are needed: the call
returns with the window at 950 and the circuit not marked for close, every
one of the three sends having returned 0, and no call was made: no cell was
handed to a queue (`circuit_package_relay_cell` drops a cell that has no
next connection to leave on and returns 0). -/
theorem circuit_consider_sending_sendme_dropped_counterexample :
    send_ok toy_origin_unlinked (some 1) = true ∧
    circuit_deliver_window toy_origin_unlinked (some 1) = some 650 ∧
    sendme_cells_needed 650 = 3 ∧
    (circuit_consider_sending_sendme toy_ops toy_origin_unlinked (some 1)).map
      (fun c1 => (circuit_deliver_window c1 (some 1), c1.marked_for_close, c1.trace)) =
      some (some 950, false, []) ∧
    (circuit_consider_sending_sendme_sends toy_ops toy_origin_unlinked (some 1)).map
      (fun r => r.2) = some [0, 0, 0] := by
  decide

set_option maxRecDepth 1000000 in
/-- Witness for C37: with the deliver window 650 the relayed circuit
`toy_exit` is left with the window 950, and the calls it made are the
hand-overs of the sealing rule for three SENDME cells: three RELAY cells for
the previous connection with the circuit id 2, each with the command byte 5,
the stream id 0, the length 0 and the integrity field read from the digest,
which went from 0 to 6, 12 and 18. -/
theorem circuit_consider_sending_sendme_count_witness :
    sendme_cells_needed 650 = 3 ∧
    seal_cells toy_ops none 0 RELAY_COMMAND_SENDME
        (seal_view { toy_exit with deliver_window := 650 }) (List.replicate 3 []) =
      (0, { seal_view toy_exit with p_digest := 18 },
        [.append_cell_to_circuit_queue (some 2) ⟨2, CELL_RELAY, toy_sendme_payload 6⟩
            CELL_DIRECTION_IN,
          .append_cell_to_circuit_queue (some 2) ⟨2, CELL_RELAY, toy_sendme_payload 12⟩
            CELL_DIRECTION_IN,
          .append_cell_to_circuit_queue (some 2) ⟨2, CELL_RELAY, toy_sendme_payload 18⟩
            CELL_DIRECTION_IN]) ∧
    ∃ c1 : circuit_t Nat Nat,
      circuit_consider_sending_sendme toy_ops { toy_exit with deliver_window := 650 } none =
        some c1 ∧
      c1.deliver_window = 950 ∧
      seal_view c1 = { seal_view toy_exit with p_digest := 18 } ∧
      c1.trace = (seal_cells toy_ops none 0 RELAY_COMMAND_SENDME
        (seal_view { toy_exit with deliver_window := 650 }) (List.replicate 3 [])).2.2 := by
  have hR : seal_cells toy_ops none 0 RELAY_COMMAND_SENDME
        (seal_view { toy_exit with deliver_window := 650 }) (List.replicate 3 []) =
      (0, { seal_view toy_exit with p_digest := 18 },
        [.append_cell_to_circuit_queue (some 2) ⟨2, CELL_RELAY, toy_sendme_payload 6⟩
            CELL_DIRECTION_IN,
          .append_cell_to_circuit_queue (some 2) ⟨2, CELL_RELAY, toy_sendme_payload 12⟩
            CELL_DIRECTION_IN,
          .append_cell_to_circuit_queue (some 2) ⟨2, CELL_RELAY, toy_sendme_payload 18⟩
            CELL_DIRECTION_IN]) := by
    decide
  refine ⟨by decide, hR, ?_⟩
  obtain ⟨c1, k, h1, hw1, hle, -, -, hsv, htr, -⟩ :=
    circuit_consider_sending_sendme_count toy_ops toy_ops_wf
      { toy_exit with deliver_window := 650 } none 650 (by decide) rfl
  have hw : (circuit_consider_sending_sendme toy_ops { toy_exit with deliver_window := 650 }
      none).map (fun c => c.deliver_window) = some 950 := by decide
  rw [h1] at hw
  simp only [Option.map_some', Option.some.injEq] at hw
  have hk : k = 3 := by
    simp only [circuit_deliver_window, Option.some.injEq] at hw1
    omega
  subst hk
  rw [hR] at hsv htr
  refine ⟨c1, h1, hw, hsv, ?_⟩
  rw [hR, htr]
  rfl

section safety_theorems

variable {κ δ : Type} (ops : crypto_ops κ δ) (env : collaborators)

/-- What the choice between RELAY and RELAY_EARLY does to the bookkeeping:
the count left plus the count sent stays, the capacity of
`relay_early_commands` stays, and the array is as it was or has been
written at the position of the count sent before, which is below the
capacity. -/
theorem relay_early_choice_sum (cell cell1 : cell_t) (c c1 : circuit_t κ δ) (cmd : Nat)
    (layer : Option Nat)
    (h : relay_early_choice cell c cmd layer = some (cell1, c1)) :
    c1.remaining_relay_early_cells + (c1.relay_early_cells_sent : Int) =
      c.remaining_relay_early_cells + (c.relay_early_cells_sent : Int) ∧
    c1.relay_early_commands.length = c.relay_early_commands.length ∧
    (c1.relay_early_commands = c.relay_early_commands ∨
      (c.relay_early_cells_sent < c.relay_early_commands.length ∧
        c1.relay_early_commands =
          c.relay_early_commands.set c.relay_early_cells_sent (cmd % 256))) := by
  unfold relay_early_choice at h
  split at h
  · cases h
  · split at h
    · split at h
      · rename_i hlt
        simp only [Option.some.injEq, Prod.mk.injEq] at h
        obtain ⟨-, h1⟩ := h
        subst h1
        refine ⟨?_, List.length_set _ _ _, Or.inr ⟨hlt, rfl⟩⟩
        simp only [Nat.cast_add, Nat.cast_one]
        omega
      · cases h
    · split at h
      · simp only [Option.some.injEq, Prod.mk.injEq] at h
        obtain ⟨-, h1⟩ := h
        subst h1
        exact ⟨rfl, rfl, Or.inl rfl⟩
      · simp only [Option.some.injEq, Prod.mk.injEq] at h
        obtain ⟨-, h1⟩ := h
        subst h1
        exact ⟨rfl, rfl, Or.inl rfl⟩

/-- C39: for every origin circuit whose count of RELAY_EARLY cells left is
not negative and, added to the count sent, is within the capacity of
`relay_early_commands`, `relay_send_command_from_edge` (with a payload that
fits a cell and a target hop of the circuit, or none) returns and leaves
the sum of the two counts and the capacity as they were; the array is as it
was or has been written once, at the position of the count sent before,
which is below the capacity. -/
theorem relay_send_command_from_edge_relay_early_sum (sid : Nat) (c : circuit_t κ δ)
    (cmd : Nat) (payload : List Nat) (layer : Option Nat)
    (ho : c.is_origin = true) (hlen : payload.length ≤ RELAY_PAYLOAD_SIZE)
    (hok : relay_early_ok c = true) (hl : ∀ l, layer = some l → l < c.cpath.length) :
    ∃ r c1, relay_send_command_from_edge ops sid c cmd payload layer = some (r, c1) ∧
      c1.remaining_relay_early_cells + (c1.relay_early_cells_sent : Int) =
        c.remaining_relay_early_cells + (c.relay_early_cells_sent : Int) ∧
      c1.relay_early_commands.length = c.relay_early_commands.length ∧
      (c1.relay_early_commands = c.relay_early_commands ∨
        (c.relay_early_cells_sent < c.relay_early_commands.length ∧
          c1.relay_early_commands =
            c.relay_early_commands.set c.relay_early_cells_sent (cmd % 256))) := by
  unfold relay_send_command_from_edge
  rw [if_neg (Nat.not_lt.mpr hlen)]
  cases layer with
  | none =>
    simp only [Option.isSome_none, Bool.false_eq_true, if_false, ho, Bool.not_true]
    exact ⟨_, _, rfl, rfl, rfl, Or.inl rfl⟩
  | some l =>
    simp only [Option.isSome_some, if_true]
    obtain ⟨cell0, c0, h0, -, hc0, -, -⟩ :=
      relay_early_choice_total (relay_send_cell c.n_circ_id sid cmd payload) c cmd (some l)
        ho hok
    obtain ⟨g1, g2, g3⟩ := relay_early_choice_sum _ _ _ _ _ _ h0
    rw [h0]
    simp only
    obtain ⟨r, c1, cell1, h1, -, -, h2, h3, h4, -⟩ :=
      circuit_package_relay_cell_total ops cell0 c0 CELL_DIRECTION_OUT (some l)
        (fun _ _ => ⟨l, rfl, by rw [hc0]; exact hl l rfl⟩) (fun h => by cases h)
    rw [h1]
    simp only
    split
    · refine ⟨_, _, rfl, ?_, ?_, ?_⟩
      · show c1.remaining_relay_early_cells + (c1.relay_early_cells_sent : Int) = _
        rw [h2, h3]
        exact g1
      · show c1.relay_early_commands.length = _
        rw [h4]
        exact g2
      · show c1.relay_early_commands = _ ∨ (_ ∧ c1.relay_early_commands = _)
        rw [h4]
        exact g3
    · refine ⟨_, _, rfl, ?_, ?_, ?_⟩
      · rw [h2, h3]
        exact g1
      · rw [h4]
        exact g2
      · rw [h4]
        exact g3

end safety_theorems

set_option maxRecDepth 1000000 in
/-- Witness for C39: an EXTEND sent on `toy_origin`, with 8 RELAY_EARLY
cells left and none sent, leaves the sum 8 and writes the array at 0. -/
theorem relay_send_command_from_edge_relay_early_sum_witness :
    ∃ (r : Int) (c1 : circuit_t Nat Nat),
      relay_send_command_from_edge toy_ops 0 toy_origin RELAY_COMMAND_EXTEND [] (some 1) =
        some (r, c1) ∧
      c1.remaining_relay_early_cells + (c1.relay_early_cells_sent : Int) = 8 ∧
      c1.relay_early_commands.length = 8 := by
  obtain ⟨r, c1, h1, h2, h3, -⟩ :=
    relay_send_command_from_edge_relay_early_sum toy_ops 0 toy_origin RELAY_COMMAND_EXTEND []
      (some 1) rfl (by decide) (by decide) (fun l hl => by
        cases hl
        decide)
  exact ⟨r, c1, h1, h2.trans (by decide), h3.trans (by decide)⟩

/-- The conversion `%02d` of a number from 0 to 59 is its two digits. -/
theorem format_02d_two_digits (m : Int) (h0 : 0 ≤ m) (h1 : m ≤ 59) :
    format_02d m = two_digits m.toNat := by
  obtain ⟨k, rfl⟩ := Int.eq_ofNat_of_zero_le h0
  have hk : k < 60 := by omega
  simp only [Int.toNat_ofNat]
  unfold format_02d format_d
  rw [if_neg (by omega)]
  simp only [Int.toNat_ofNat]
  interval_cases k <;> rfl

/-- C40: for every `secs` that is not negative, `secs_to_uptime` computes
the days as the floor of `secs / 86400`, the hours as the floor of
`(secs mod 86400) / 3600`, from 0 to 23, and the minutes as the floor of
`(secs mod 3600) / 60`, from 0 to 59, and renders the hours, a colon and the
minutes in two digits, after nothing when the days are 0, after `1 day `
when they are 1 and after the days and ` days ` otherwise. -/
theorem secs_to_uptime_format (secs : Int) (h : 0 ≤ secs) :
    0 ≤ secs % 86400 / 3600 ∧ secs % 86400 / 3600 ≤ 23 ∧
    0 ≤ secs % 3600 / 60 ∧ secs % 3600 / 60 ≤ 59 ∧
    secs_to_uptime secs =
      (if secs / 86400 = 0 then
        Nat.toDigits 10 (secs % 86400 / 3600).toNat ++ [':'] ++
          two_digits (secs % 3600 / 60).toNat
      else if secs / 86400 = 1 then
        ['1', ' ', 'd', 'a', 'y', ' '] ++ Nat.toDigits 10 (secs % 86400 / 3600).toNat ++
          [':'] ++ two_digits (secs % 3600 / 60).toNat
      else
        Nat.toDigits 10 (secs / 86400).toNat ++ [' ', 'd', 'a', 'y', 's', ' '] ++
          Nat.toDigits 10 (secs % 86400 / 3600).toNat ++ [':'] ++
          two_digits (secs % 3600 / 60).toNat) := by
  have hd : Int.tdiv secs 86400 = secs / 86400 := Int.tdiv_eq_ediv h (by decide)
  have hdn : 0 ≤ secs / 86400 := by omega
  have hrem : 0 ≤ secs - secs / 86400 * 86400 := by omega
  have hh : Int.tdiv (secs - secs / 86400 * 86400) 3600 = secs % 86400 / 3600 := by
    rw [Int.tdiv_eq_ediv hrem (by decide)]
    omega
  have hrem2 : 0 ≤ secs - secs / 86400 * 86400 - secs % 86400 / 3600 * 3600 := by omega
  have hm : Int.tdiv (secs - secs / 86400 * 86400 - secs % 86400 / 3600 * 3600) 60 =
      secs % 3600 / 60 := by
    rw [Int.tdiv_eq_ediv hrem2 (by decide)]
    omega
  have b1 : 0 ≤ secs % 86400 / 3600 := by omega
  have b2 : secs % 86400 / 3600 ≤ 23 := by omega
  have b3 : 0 ≤ secs % 3600 / 60 := by omega
  have b4 : secs % 3600 / 60 ≤ 59 := by omega
  refine ⟨b1, b2, b3, b4, ?_⟩
  have fh : format_d (secs % 86400 / 3600) = Nat.toDigits 10 (secs % 86400 / 3600).toNat := by
    unfold format_d
    rw [if_neg (by omega)]
  have fd : format_d (secs / 86400) = Nat.toDigits 10 (secs / 86400).toNat := by
    unfold format_d
    rw [if_neg (by omega)]
  unfold secs_to_uptime
  simp only [hd, hh, hm, fh, format_02d_two_digits _ b3 b4]
  by_cases d0 : secs / 86400 = 0
  · rw [if_pos d0, if_pos d0]
  · rw [if_neg d0, if_neg d0]
    by_cases d1 : secs / 86400 = 1
    · rw [if_pos d1, if_pos d1, d1]
      rfl
    · rw [if_neg d1, if_neg d1, fd]

/-- Witness for C40: 93784 seconds are one day, two hours and three
minutes. -/
theorem secs_to_uptime_format_witness :
    secs_to_uptime 93784 = ['1', ' ', 'd', 'a', 'y', ' ', '2', ':', '0', '3'] :=
  ((secs_to_uptime_format 93784 (by decide)).2.2.2.2).trans (by decide)

end Relay
